import Mathlib

/-!
# Kernel_temp: scheduler, messages, mailboxes and task registry

A shallow embedding of `src/refactor/kernel_task.c`, `kernel_msg.c`,
`kernel_mailbox.c`, `kernel_task_scheduler.c` and `kernel_cores_sync.c`.

Conventions of the embedding.

* C integers are `Int`.  Where an operation on `int32_t` or `int` operands can
  leave the 32-bit range (`t2 - t1` of the scheduler, `length + 1` of
  `__new_msg_from_isr`, `mcu->jump + 1` of `synchonize_tasklist`, the busy counter)
  its result is reduced to the range with `to_i32`, the two's complement value
  the targets of this kernel compute.  The 28-bit bit-field `timer.cnt` is
  truncated explicitly (`wrap28`), `uint32_t` casts are `to_u32`.
* Intrusive NULL-terminated lists (`msg_queue`, the mailbox lists, the task
  list as the scheduler walks it) are Lean lists in list order.  Where the
  source performs pointer surgery on the `next` fields (`create_task`) the
  list is embedded as cells with explicit `next` pointers.
* The union `{timer, mail}` of `kernel_msg_t` is a tagged variant whose tag is
  `mail.mailbox_type`; every access in the source respects the tag, except
  that `try_post_msg_outside` reads `timer.enable` of any message: in a mailbox
  slot that bit lies in `reserved`, which is never written, and reads 0.
* Functions that this repository only declares (`x_malloc`, the power
  manager, `tock_us`, the clock) are parameters of the embedding.
* The cJSON library and the tunnel structure are not in the sources: an
  envelope is a value with typed items, a tunnel is a handle, and a cJSON
  constructor whose result the source tests is one allocator outcome.
* The `ASSERT_*`, `WARNING` and `LOG` macros report and do not change the
  kernel data; the embedding continues with the statement that follows them.
  The conditions they check are hypotheses of the theorems that need them.
-/

namespace Kernel

/-! ## Data model -/

/-- A `const char *`: the address held by the pointer and the characters it
points to.  `==` on two such pointers compares `addr`, `strcmp` compares
`chars`. -/
structure CStr where
  addr : Nat
  chars : String
deriving DecidableEq, Repr

/-- The type `task_state` is an integer bit set. -/
abbrev task_state := Nat

/-- Modelled from the spec: the `task_state` constants (their header is not
part of the sources).  The spec calls the state a bit set over IDLE, BUSY,
MSG_PENDING, READY_TO_SLEEP and IGNORE; IDLE is the empty set and the other
four are distinct bits. -/
def TASK_IDLE : task_state := 0

/-- Modelled from the spec: see `TASK_IDLE`. -/
def TASK_BUSY : task_state := 1

/-- Modelled from the spec: see `TASK_IDLE`. -/
def TASK_MSG_PENDING : task_state := 2

/-- Modelled from the spec: see `TASK_IDLE`. -/
def TASK_READY_TO_SLEEP : task_state := 4

/-- Modelled from the spec: see `TASK_IDLE`. -/
def TASK_IGNORE : task_state := 8

/-- Modelled from the spec: `DEFAULT_BUSY_TIMEOUT`, three minutes in
milliseconds (the defining header is not part of the sources). -/
def DEFAULT_BUSY_TIMEOUT : Int := 180000

/-- The C expression `x & ~m` on non-negative values. -/
def clear_bits (x m : Nat) : Nat := x ^^^ (x &&& m)

/-- Truncation of an `int32_t` to the signed 28-bit bit-field `cnt : 28`. -/
def wrap28 (c : Int) : Int := (c + 2 ^ 27) % 2 ^ 28 - 2 ^ 27

/-- The value an `int32_t` (or `int`) holds after an assignment or an
arithmetic operation whose mathematical result is `x`: `x` reduced to the
32-bit two's complement range. -/
def to_i32 (x : Int) : Int := (x + 2 ^ 31) % 2 ^ 32 - 2 ^ 31

/-- The struct `kernel_msg_timer_t` (the three `reserved` bits overlay the mailbox
flags and are never written through this view). -/
structure kernel_msg_timer_t where
  enable : Bool
  cnt : Int
  delay : Int
  preodic : Int
deriving DecidableEq, Repr

/-- The struct `kernel_mailbox_t` without its `mailbox_type` bit, which is the tag of
`msg_union`.  `task_handler` is the address of a task record. -/
structure kernel_mailbox_t where
  occupied : Bool
  token : Bool
  task_handler : Option Nat
deriving DecidableEq, Repr

/-- The anonymous union of `kernel_msg_t`; `mail` is `mailbox_type = 1`. -/
inductive msg_union where
  | timer (t : kernel_msg_timer_t)
  | mail (b : kernel_mailbox_t)
deriving DecidableEq, Repr

/-- The struct `msg_t`, the part of a message the task callback sees.  `data` holds
the bytes of the flexible array member. -/
structure msg_t where
  notification : Option String
  src_task : Option String
  length : Int
  data : List Nat
deriving DecidableEq, Repr

/-- The struct `kernel_msg_t` without its `next` pointer. -/
structure kernel_msg_t where
  u : msg_union
  time_stamp : Int
  msg : msg_t
deriving DecidableEq, Repr

/-- The bit `p->mail.mailbox_type`. -/
def kernel_msg_t.mailbox_type (p : kernel_msg_t) : Bool :=
  match p.u with
  | .mail _ => true
  | .timer _ => false

/-- The view `p->timer` of an owned message. -/
def kernel_msg_t.timer (p : kernel_msg_t) : kernel_msg_timer_t :=
  match p.u with
  | .timer t => t
  | .mail _ => ⟨false, 0, 0, 0⟩

/-- The view `p->mail` of a mailbox slot. -/
def kernel_msg_t.mail (p : kernel_msg_t) : kernel_mailbox_t :=
  match p.u with
  | .mail b => b
  | .timer _ => ⟨false, false, none⟩

/-- The struct `kernel_task_t` without its `next` pointer.  `pm` and
`freezer_callback` are opaque handles; `callback` is the task function, which
returns the state the task asks for. -/
structure kernel_task_t where
  task_name : CStr
  callback : Option (CStr → msg_t → Nat → task_state)
  arg : Nat
  prio : Int
  pm : Option Nat
  is_busy : task_state
  busy_without_traffic_time : Int
  busy_timeout : Int
  msg_queue : List kernel_msg_t
  timer_msg_queue : Option kernel_msg_t
  freezer_callback : Option Nat
  task_suspended : Bool
  task_paused : Bool
  task_deleted : Bool

/-- Outcomes of the successive `x_malloc` calls, oldest first; once the list is
used up every further call succeeds. -/
structure x_heap where
  outcomes : List Bool
deriving DecidableEq, Repr

/-- One call of `x_malloc`: whether it returned a block, and the heap after. -/
def x_malloc (h : x_heap) : Bool × x_heap :=
  match h.outcomes with
  | [] => (true, h)
  | b :: rest => (b, ⟨rest⟩)

/-- Every `x_malloc` call met from this allocator state on succeeds. -/
def no_alloc_failure (h : x_heap) : Prop := ∀ b ∈ h.outcomes, b = true

/-! ## Messages (`kernel_msg.c`) -/

/-- The function `__strdup__`: NULL for a NULL source or a failed `x_malloc`. -/
def __strdup__ (h : x_heap) (src : Option String) : Option String × x_heap :=
  match src with
  | none => (none, h)
  | some s =>
    match x_malloc h with
    | (true, h1) => (some s, h1)
    | (false, h1) => (none, h1)

/-- The zeroed union of a message fresh from `memset`. -/
def zero_timer : msg_union := .timer ⟨false, 0, 0, 0⟩

/-- The function `kernel_duplicate_msg`: a fresh owned message with the notification,
time stamp, length and bytes of `src`; the union and `src_task` stay zero. -/
def kernel_duplicate_msg (h : x_heap) (src : kernel_msg_t) : Option kernel_msg_t × x_heap :=
  match x_malloc h with
  | (false, h1) => (none, h1)
  | (true, h1) =>
    match __strdup__ h1 src.msg.notification with
    | (none, h2) => (none, h2)
    | (some n, h2) =>
      (some { u := zero_timer, time_stamp := src.time_stamp,
              msg := ⟨some n, none, src.msg.length, src.msg.data.take src.msg.length.toNat⟩ }, h2)

/-- The function `__new_msg`, with `now` the value `tick_us()` returns. -/
def __new_msg (h : x_heap) (now : Int) (notification : Option String)
    (data : Option (List Nat)) (length : Int) : Option kernel_msg_t × x_heap :=
  match x_malloc h with
  | (false, h1) => (none, h1)
  | (true, h1) =>
    match __strdup__ h1 notification with
    | (none, h2) => (none, h2)
    | (some n, h2) =>
      let bytes : List Nat :=
        match data with
        | some d => if 0 < length then d.take length.toNat else List.replicate length.toNat 0
        | none => List.replicate length.toNat 0
      (some { u := zero_timer, time_stamp := now, msg := ⟨some n, none, length, bytes⟩ }, h2)

/-- The function `msg_set_repeat_n_timer` on a non-NULL `msg` (for NULL it returns NULL
and touches nothing): whether the returned handle is `msg` (`true`) or NULL
(`false`), and the message after the call. -/
def msg_set_repeat_n_timer (p : kernel_msg_t) (delay preodic cnt : Int) : Bool × kernel_msg_t :=
  if p.mailbox_type then (false, p)
  else
    let cnt1 := if 0 < cnt then cnt - 1 else cnt
    (true, { p with u := .timer ⟨true, wrap28 cnt1, delay, preodic⟩ })

/-- The function `msg_set_repeat_timer`. -/
def msg_set_repeat_timer (p : kernel_msg_t) (delay preodic : Int) : Bool × kernel_msg_t :=
  msg_set_repeat_n_timer p delay preodic (-1)

/-- The function `msg_set_delay_timer`. -/
def msg_set_delay_timer (p : kernel_msg_t) (delay : Int) : Bool × kernel_msg_t :=
  msg_set_repeat_n_timer p delay (-1) (-1)

/-! ## Mailboxes (`kernel_mailbox.c`, `__new_msg_from_isr`) -/

/-- The struct `kernel_mailbox_group_t` without its `next` pointer; `mailbox_queue` is
the slot list in list order. -/
structure kernel_mailbox_group_t where
  mailbox_queue : List kernel_msg_t
  box_size : Int
  num_of_boxes : Int
  unread_msg : Bool
deriving DecidableEq, Repr

/-- Assignment to the `mail` view of a slot. -/
def kernel_msg_t.set_mail (p : kernel_msg_t) (b : kernel_mailbox_t) : kernel_msg_t :=
  { p with u := .mail b }

/-- The slot loop of `__new_msg_from_isr` inside one group: the index of the
slot claimed (if any) and the slots after the loop.  The second test of
`occupied` guards against a nested interrupt; in this sequential embedding it
reads the value the first test read. -/
def claim_slot (now : Int) (notification : String) (data : List Nat) (length : Int) :
    List kernel_msg_t → Option Nat × List kernel_msg_t
  | [] => (none, [])
  | p :: rest =>
    if !p.mail.occupied then
      if p.mail.token then
        let r := claim_slot now notification data length rest
        (r.1.map (· + 1), p :: r.2)
      else
        let p1 := p.set_mail { p.mail with token := true }
        if p1.mail.occupied then
          let r := claim_slot now notification data length rest
          (r.1.map (· + 1), p1 :: r.2)
        else
          let p2 : kernel_msg_t :=
            { u := .mail { p1.mail with occupied := true },
              time_stamp := now,
              msg := ⟨some notification, none, length, data.take length.toNat⟩ }
          (some 0, p2 :: rest)
    else
      let r := claim_slot now notification data length rest
      (r.1.map (· + 1), p :: r.2)

/-- The function `__new_msg_from_isr` on the group list `kernel_mailbox_group_queue`: the
slot returned, as (group index, slot index), or `none` for NULL, and the
groups after the call.  `now` is the value `tick_us()` returns. -/
def __new_msg_from_isr (now : Int) (notification : String) (data : List Nat) (length : Int) :
    List kernel_mailbox_group_t → Option (Nat × Nat) × List kernel_mailbox_group_t
  | [] => (none, [])
  | g :: gs =>
    if g.box_size > to_i32 (length + 1) then
      match claim_slot now notification data length g.mailbox_queue with
      | (some i, q) => (some (0, i), { g with mailbox_queue := q, unread_msg := true } :: gs)
      | (none, q) =>
        let r := __new_msg_from_isr now notification data length gs
        (r.1.map (fun x => (x.1 + 1, x.2)), { g with mailbox_queue := q } :: r.2)
    else
      let r := __new_msg_from_isr now notification data length gs
      (r.1.map (fun x => (x.1 + 1, x.2)), g :: r.2)

/-- A slot a producer can claim: neither `occupied` nor `token` is set. -/
def slot_free (p : kernel_msg_t) : Bool := !p.mail.occupied && !p.mail.token

/-- An empty mailbox slot as `create_mailbox` makes it (`memset`, then
`mailbox_type = 1`). -/
def empty_slot : kernel_msg_t :=
  { u := .mail ⟨false, false, none⟩, time_stamp := 0, msg := ⟨none, none, 0, []⟩ }

/-! ## The task list at pointer level (`kernel_task.c`) -/

/-- A task record in memory: its `next` pointer and its other fields. -/
structure task_node where
  next : Option Nat
  task : kernel_task_t

/-- The task records allocated so far (the address of a record is its index
in `cells`) and the global `kernel_task_queue`. -/
structure task_mem where
  cells : List task_node
  kernel_task_queue : Option Nat

/-- Assignment `cells[a].next = nx`. -/
def set_next (cells : List task_node) (a : Nat) (nx : Option Nat) : List task_node :=
  match cells.get? a with
  | none => cells
  | some c => cells.set a { c with next := nx }

/-- The duplicate-name loop of `create_task`: `some true` when a live task
whose name pointer equals `task_name` is met, `some false` when NULL is
reached, `none` when neither happens within `fuel` steps. -/
def dup_walk (cells : List task_node) (task_name : CStr) : Nat → Option Nat → Option Bool
  | _, none => some false
  | 0, some _ => none
  | fuel + 1, some a =>
    match cells.get? a with
    | none => none
    | some c =>
      if !c.task.task_deleted && c.task.task_name.addr == task_name.addr then some true
      else dup_walk cells task_name fuel c.next

/-- The insertion-point loop of `create_task`: returns `(q, q_prev)` at the
`break` or at `q == NULL`. -/
def find_break (cells : List task_node) (prio : Int) :
    Nat → Option Nat → Option Nat → Option (Option Nat × Option Nat)
  | _, none, q_prev => some (none, q_prev)
  | 0, some _, _ => none
  | fuel + 1, some q, q_prev =>
    match cells.get? q with
    | none => none
    | some c =>
      if prio < c.task.prio then some (some q, q_prev)
      else find_break cells prio fuel c.next (some q)

/-- The address of the last record of the chain starting at `a`. -/
def last_node (cells : List task_node) : Nat → Nat → Option Nat
  | 0, _ => none
  | fuel + 1, a =>
    match cells.get? a with
    | none => none
    | some c =>
      match c.next with
      | none => some a
      | some b => last_node cells fuel b

/-- Modelled from the spec: the macro `MOUNT(queue, node)`, whose definition is
not part of the sources.  The spec reads every `MOUNT` as "append": an empty
queue becomes `node`, otherwise the chain is walked to its last record, whose
`next` is set to `node`. -/
def MOUNT_node (fuel : Nat) (cells : List task_node) (queue : Option Nat) (node : Nat) :
    Option (List task_node × Option Nat) :=
  match queue with
  | none => some (cells, some node)
  | some h =>
    match last_node cells fuel h with
    | none => none
    | some l => some (set_next cells l (some node), some h)

/-- The record `create_task` writes after `memset`. -/
def fresh_task (task_name : CStr) (task_callback : CStr → msg_t → Nat → task_state)
    (arg : Nat) (prio : Int) : kernel_task_t where
  task_name := task_name
  callback := some task_callback
  arg := arg
  prio := prio
  pm := none
  is_busy := TASK_IDLE
  busy_without_traffic_time := 0
  busy_timeout := DEFAULT_BUSY_TIMEOUT
  msg_queue := []
  timer_msg_queue := none
  freezer_callback := none
  task_suspended := false
  task_paused := false
  task_deleted := false

/-- The function `create_task` with `fuel` bounding each of its loops.  The result is
`none` when a loop does not reach NULL within `fuel` steps; otherwise the
returned `bool`, the memory and the allocator after the call. -/
def create_task_fuel (fuel : Nat) (k : task_mem) (h : x_heap) (task_name : CStr)
    (task_callback : CStr → msg_t → Nat → task_state) (arg : Nat) (prio : Int) :
    Option (Bool × task_mem × x_heap) :=
  match dup_walk k.cells task_name fuel k.kernel_task_queue with
  | none => none
  | some true => some (false, k, h)
  | some false =>
    match x_malloc h with
    | (false, h1) => some (false, k, h1)
    | (true, h1) =>
      let p := k.cells.length
      let cells0 := k.cells ++ [⟨none, fresh_task task_name task_callback arg prio⟩]
      match find_break cells0 prio fuel k.kernel_task_queue none with
      | none => none
      | some (q, q_prev) =>
        let cells1 :=
          match q, q_prev with
          | some _, some qp => set_next cells0 qp none
          | _, _ => cells0
        match MOUNT_node fuel cells1 k.kernel_task_queue p with
        | none => none
        | some (cells2, head) => some (true, ⟨set_next cells2 p q, head⟩, h1)

/-- The function `create_task`.  A chain without a cycle has at most
`cells.length + 1` records once the new record is allocated, so a loop that
has not reached NULL after `cells.length + 2` steps is inside a cycle and
never terminates. -/
def create_task (k : task_mem) (h : x_heap) (task_name : CStr)
    (task_callback : CStr → msg_t → Nat → task_state) (arg : Nat) (prio : Int) :
    Option (Bool × task_mem × x_heap) :=
  create_task_fuel (k.cells.length + 2) k h task_name task_callback arg prio

/-- The records reached from `a` by following `next` until NULL, as
`(address, record)` pairs; `none` when NULL is not reached within `fuel`. -/
def chain (cells : List task_node) : Nat → Option Nat → Option (List (Nat × kernel_task_t))
  | _, none => some []
  | 0, some _ => none
  | fuel + 1, some a =>
    match cells.get? a with
    | none => none
    | some c =>
      match chain cells fuel c.next with
      | none => none
      | some rest => some ((a, c.task) :: rest)

/-- The task list as a walk from `kernel_task_queue` sees it (as `show_task`
prints it); `none` when the walk never reaches NULL. -/
def task_list (k : task_mem) : Option (List (Nat × kernel_task_t)) :=
  chain k.cells (k.cells.length + 1) k.kernel_task_queue

/-! ## The scheduler (`kernel_task_scheduler.c`)

The scheduler walks the task list as a NULL-terminated chain: here it is the
list of `(address, record)` pairs in chain order.  A task callback is a
function of its arguments; kernel calls made from inside a callback are not
part of the embedding.  The calls that end a pass
(`try_send_tunnel_pending_packet`, `kernel_mmap_update_to`,
`kernel_mmap_check_unsync_core`) work on the MCU and mmap lists only and are
left out. -/

/-- Modelled from the spec: the macro `MOUNT(queue, node)` on a message queue
(its definition is not part of the sources): `node` is appended behind the
last message; mounting NULL changes nothing. -/
def MOUNT (queue : List kernel_msg_t) (node : Option kernel_msg_t) : List kernel_msg_t :=
  match node with
  | none => queue
  | some n => queue ++ [n]

/-- Modelled from the spec: the macro `UNMOUNT(queue, node)` (its definition is
not part of the sources): the message at position `i` is unlinked and the
others keep their order. -/
def UNMOUNT (queue : List kernel_msg_t) (i : Nat) : List kernel_msg_t :=
  queue.eraseIdx i

/-- The values of `pwr_state_t` the scheduler tests for, and all the others. -/
inductive pwr_state_t where
  | POWER_DIACTIVATING
  | POWER_GIVE_UP_ACTIVATE
  | POWER_OTHER (code : Nat)
deriving DecidableEq, Repr

/-- The power manager, which the sources only declare (`extern`): each call
may read and change the manager state `σ`. -/
structure pwr_mgr (σ : Type) where
  pwr_mgr_timer_update : σ → Int → σ
  pwr_mgr_check : σ → Option Nat → pwr_state_t × σ
  pwr_mgr_check_power_failure : σ → Option Nat → Bool × σ
  pwr_mgr_activate : σ → Option Nat → Bool × σ
  pwr_mgr_diactivate : σ → Option Nat → Bool × σ

/-- What one pass reads from its environment: `kernel_get_tick_callback()` at
the start of the pass, `tick_us()`, and `tock_us(time_stamp)` as a function of
the time stamp. -/
structure sched_env where
  tick : Int
  tick_us : Int
  tock_us : Int → Int

/-- The observable steps of a pass, each with the address of the task it
concerns. -/
inductive sched_event where
  | mail_mount (task : Nat) (m : kernel_msg_t)
  | timer_mount (task : Nat) (m : kernel_msg_t)
  | callback (task : Nat) (m : kernel_msg_t) (ret : task_state)
  | pwr_diactivate (task : Nat)
  | delete_msg (task : Nat) (m : kernel_msg_t)
  | free_task (task : Nat)
deriving DecidableEq, Repr

/-- The address of the task an event concerns. -/
def sched_event.task : sched_event → Nat
  | .mail_mount a _ => a
  | .timer_mount a _ => a
  | .callback a _ _ => a
  | .pwr_diactivate a => a
  | .delete_msg a _ => a
  | .free_task a => a

/-- The kernel globals the scheduler works on, the allocator, the power
manager state and the `static int32_t t1` of `kernel_task_sheduler`. -/
structure kernel (σ : Type) where
  kernel_task_queue : List (Nat × kernel_task_t)
  kernel_mailbox_group_queue : List kernel_mailbox_group_t
  heap : x_heap
  pwr : σ
  t1 : Int

/-- The statement `MOUNT( t->msg_queue, nmsg )` for the task at address `a`. -/
def mount_on (a : Nat) (nmsg : kernel_msg_t) (ts : List (Nat × kernel_task_t)) :
    List (Nat × kernel_task_t) :=
  ts.map fun e => if e.1 = a then (e.1, { e.2 with msg_queue := MOUNT e.2.msg_queue (some nmsg) }) else e

/-- The slot loop of the mailbox drain, threading the task list, the
allocator and `g->unread_msg`. -/
def drain_slots (now : Int) :
    List kernel_msg_t → List (Nat × kernel_task_t) → x_heap → Bool →
      List kernel_msg_t × List (Nat × kernel_task_t) × x_heap × Bool × List sched_event
  | [], ts, h, unread => ([], ts, h, unread, [])
  | m :: rest, ts, h, unread =>
    if m.mail.occupied then
      match m.mail.task_handler with
      | some a =>
        match __new_msg h now m.msg.notification (some m.msg.data) m.msg.length with
        | (some nmsg, h1) =>
          let nmsg1 := { nmsg with time_stamp := m.time_stamp }
          let m1 : kernel_msg_t :=
            { u := .mail ⟨false, false, none⟩, time_stamp := m.time_stamp, msg := ⟨none, none, 0, []⟩ }
          let r := drain_slots now rest (mount_on a nmsg1 ts) h1 unread
          (m1 :: r.1, r.2.1, r.2.2.1, r.2.2.2.1, .mail_mount a nmsg1 :: r.2.2.2.2)
        | (none, h1) =>
          let m1 := m.set_mail { m.mail with token := false, occupied := false }
          let r := drain_slots now rest ts h1 unread
          (m1 :: r.1, r.2)
      | none =>
        let r := drain_slots now rest ts h true
        (m :: r.1, r.2)
    else
      let r := drain_slots now rest ts h unread
      (m :: r.1, r.2)

/-- The group loop of the mailbox drain. -/
def drain_groups (now : Int) :
    List kernel_mailbox_group_t → List (Nat × kernel_task_t) → x_heap →
      List kernel_mailbox_group_t × List (Nat × kernel_task_t) × x_heap × List sched_event
  | [], ts, h => ([], ts, h, [])
  | g :: gs, ts, h =>
    if g.unread_msg then
      let d := drain_slots now g.mailbox_queue ts h false
      let r := drain_groups now gs d.2.1 d.2.2.1
      ({ g with mailbox_queue := d.1, unread_msg := d.2.2.2.1 } :: r.1, r.2.1, r.2.2.1,
        d.2.2.2.2 ++ r.2.2.2)
    else
      let r := drain_groups now gs ts h
      (g :: r.1, r.2)

/-- Assignment to the `timer` view of an owned message. -/
def kernel_msg_t.set_timer (p : kernel_msg_t) (t : kernel_msg_timer_t) : kernel_msg_t :=
  { p with u := .timer t }

/-- The statement `if( ! t->task_paused ){ t->is_busy |= TASK_MSG_PENDING; }`. -/
def mark_pending (t : kernel_task_t) : kernel_task_t :=
  if !t.task_paused then { t with is_busy := t.is_busy ||| TASK_MSG_PENDING } else t

/-- The block `if( ! t->task_suspended ){ ... }` of the timer loop, entered with
the expired timer message `m0` (its `delay` already set to 0). -/
def timer_expire (a : Nat) (t : kernel_task_t) (m0 : kernel_msg_t) (h : x_heap) :
    kernel_task_t × x_heap × List sched_event :=
  if !t.task_suspended then
    if m0.timer.preodic > 0 && m0.timer.cnt != 0 then
      let c := if m0.timer.cnt > 0 then m0.timer.cnt - 1 else m0.timer.cnt
      let m1 := m0.set_timer { m0.timer with cnt := c, delay := m0.timer.preodic }
      let d := kernel_duplicate_msg h m1
      ({ t with timer_msg_queue := some m1, msg_queue := MOUNT t.msg_queue d.1 }, d.2,
        match d.1 with
        | some x => [.timer_mount a x]
        | none => [])
    else
      let m1 := m0.set_timer { m0.timer with enable := false }
      ({ t with timer_msg_queue := none, msg_queue := MOUNT t.msg_queue (some m1) }, h,
        [.timer_mount a m1])
  else ({ t with timer_msg_queue := some m0 }, h, [])

/-- The body of the timer loop for one task (the pass runs it only when
`delta_ms > 0`). -/
def timer_advance (delta_ms : Int) (a : Nat) (t : kernel_task_t) (h : x_heap) :
    kernel_task_t × x_heap × List sched_event :=
  match t.timer_msg_queue with
  | none => (t, h, [])
  | some m =>
    if m.timer.enable then
      if m.timer.delay > delta_ms then
        ({ t with timer_msg_queue := some (m.set_timer { m.timer with delay := m.timer.delay - delta_ms }) },
          h, [])
      else
        let r := timer_expire a t (m.set_timer { m.timer with delay := 0 }) h
        (mark_pending r.1, r.2)
    else (t, h, [])

/-- The timer loop over the task list. -/
def timer_loop (delta_ms : Int) :
    List (Nat × kernel_task_t) → x_heap → List (Nat × kernel_task_t) × x_heap × List sched_event
  | [], h => ([], h, [])
  | (a, t) :: rest, h =>
    let r := timer_advance delta_ms a t h
    let rs := timer_loop delta_ms rest r.2.1
    ((a, r.1) :: rs.1, rs.2.1, r.2.2 ++ rs.2.2)

/-- The message-selection loop: `i` is the position of `p`, `max` and `m` are
the variables of the source (`m` as a position in the queue). -/
def select_loop (tock_us : Int → Int) : List kernel_msg_t → Nat → Int → Nat → Nat
  | [], _, _, m => m
  | p :: rest, i, max, m =>
    if tock_us p.time_stamp > max then select_loop tock_us rest (i + 1) (tock_us p.time_stamp) i
    else select_loop tock_us rest (i + 1) max m

/-- The position of the message the scheduler delivers: `m` starts at the
head of the queue and `max` at 0. -/
def select_msg (tock_us : Int → Int) (queue : List kernel_msg_t) : Nat :=
  select_loop tock_us queue 0 0 0

/-- The statement `if( t->msg_queue != NULL ){ t->is_busy |= TASK_MSG_PENDING; }`. -/
def keep_pending (t : kernel_task_t) : kernel_task_t :=
  if !t.msg_queue.isEmpty then { t with is_busy := t.is_busy ||| TASK_MSG_PENDING } else t

/-- The case labels that reset the busy counter in `switch( t->is_busy )`. -/
def resets_counter (b : task_state) : Prop :=
  b = (TASK_BUSY ||| TASK_MSG_PENDING) ∨ b = (TASK_IDLE ||| TASK_MSG_PENDING) ∨ b = TASK_BUSY ∨ b = TASK_IDLE

instance (b : task_state) : Decidable (resets_counter b) := by
  unfold resets_counter; infer_instance

/-- From after `__delete_msg( m )` to the end of the `switch( t->is_busy )`. -/
def after_drop {σ : Type} (P : pwr_mgr σ) (a : Nat) (t : kernel_task_t) (s : σ) :
    kernel_task_t × σ × List sched_event :=
  if (keep_pending t).is_busy = TASK_READY_TO_SLEEP then
    ({ keep_pending t with is_busy := TASK_IDLE }, (P.pwr_mgr_diactivate s (keep_pending t).pm).2,
      [.pwr_diactivate a])
  else if resets_counter (keep_pending t).is_busy then
    ({ keep_pending t with busy_without_traffic_time := 0, busy_timeout := DEFAULT_BUSY_TIMEOUT }, s, [])
  else (keep_pending t, s, [])

/-- The callback call and the translation of its return value, for the selected
message `m`: the record after it and the callback event (none when the task
has no callback). -/
def call_task (a : Nat) (t : kernel_task_t) (m : kernel_msg_t) : kernel_task_t × List sched_event :=
  match t.callback with
  | some cb =>
    ({ t with
        is_busy :=
          if cb t.task_name m.msg t.arg = TASK_IGNORE then clear_bits t.is_busy TASK_MSG_PENDING
          else cb t.task_name m.msg t.arg },
      [.callback a m (cb t.task_name m.msg t.arg)])
  | none => ({ t with is_busy := TASK_IDLE }, [])

/-- Message selection, the callback, `DROP_MSG` and the state `switch`, for a
task whose queue is not empty. -/
def deliver {σ : Type} (P : pwr_mgr σ) (env : sched_env) (a : Nat) (t : kernel_task_t) (s : σ) :
    kernel_task_t × σ × List sched_event :=
  match t.msg_queue.get? (select_msg env.tock_us t.msg_queue) with
  | none => (t, s, [])
  | some m =>
    let r := after_drop P a
      { (call_task a t m).1 with
        msg_queue := UNMOUNT (call_task a t m).1.msg_queue (select_msg env.tock_us t.msg_queue) } s
    (r.1, r.2.1, (call_task a t m).2 ++ .delete_msg a m :: r.2.2)

/-- The branch taken when nothing is delivered ("No New Msg"). -/
def busy_without_traffic (delta_ms : Int) (t : kernel_task_t) : kernel_task_t :=
  if t.is_busy &&& TASK_MSG_PENDING ≠ 0 ∨ t.is_busy = TASK_BUSY then
    let c := to_i32 (t.busy_without_traffic_time + delta_ms)
    { t with busy_without_traffic_time := c,
             busy_timeout :=
               if c > t.busy_timeout then to_i32 (t.busy_timeout + 60 * 1000) else t.busy_timeout }
  else t

/-- The task delete procedure: a deleted task is unlinked, its queued and timer
messages are deleted and the record is freed (`none`). -/
def reap {σ : Type} (a : Nat) (r : kernel_task_t × σ × List sched_event) :
    Option kernel_task_t × σ × List sched_event :=
  if r.1.task_deleted then
    (none, r.2.1, r.2.2 ++ (r.1.msg_queue.map (.delete_msg a)
      ++ (r.1.timer_msg_queue.toList.map (.delete_msg a) ++ [.free_task a])))
  else (some r.1, r.2)

/-- The block "Drop all msg when task is paused": the record after it and the
messages deleted. -/
def drop_paused (a : Nat) (t : kernel_task_t) : kernel_task_t × List sched_event :=
  if t.task_paused then
    ({ t with msg_queue := [], is_busy := TASK_IDLE }, t.msg_queue.map (.delete_msg a))
  else (t, [])

/-- The body of the dispatch loop for the task `t` at address `a`: the record
after it (`none` once freed), the power-manager state and the steps taken. -/
def dispatch_task {σ : Type} (P : pwr_mgr σ) (env : sched_env) (delta_ms : Int) (a : Nat)
    (t : kernel_task_t) (s : σ) : Option kernel_task_t × σ × List sched_event :=
  let c := P.pwr_mgr_check s t.pm
  if c.1 = .POWER_DIACTIVATING then
    (some t, (P.pwr_mgr_diactivate c.2 t.pm).2, [.pwr_diactivate a])
  else
    let tp := (drop_paused a t).1
    let evp := (drop_paused a t).2
    if !tp.msg_queue.isEmpty && !tp.task_suspended then
      match tp.pm with
      | some _ =>
        let f := P.pwr_mgr_check_power_failure c.2 tp.pm
        if f.1 then
          let r := after_drop P a { tp with is_busy := TASK_IDLE, msg_queue := UNMOUNT tp.msg_queue 0 } f.2
          reap a (r.1, r.2.1, evp ++ (tp.msg_queue.head?.toList.map (.delete_msg a) ++ r.2.2))
        else
          let ac := P.pwr_mgr_activate f.2 tp.pm
          if !ac.1 then
            let c2 := P.pwr_mgr_check ac.2 tp.pm
            if c2.1 = .POWER_GIVE_UP_ACTIVATE then
              (some { tp with msg_queue := [], is_busy := TASK_IDLE }, c2.2,
                evp ++ tp.msg_queue.map (.delete_msg a))
            else (some tp, c2.2, evp)
          else
            let r := deliver P env a tp ac.2
            reap a (r.1, r.2.1, evp ++ r.2.2)
      | none =>
        let r := deliver P env a tp c.2
        reap a (r.1, r.2.1, evp ++ r.2.2)
    else
      reap a (busy_without_traffic delta_ms tp, c.2, evp)

/-- The dispatch loop over the task list, threading the power-manager state. -/
def dispatch_loop {σ : Type} (P : pwr_mgr σ) (env : sched_env) (delta_ms : Int) :
    List (Nat × kernel_task_t) → σ → List (Nat × kernel_task_t) × σ × List sched_event
  | [], s => ([], s, [])
  | (a, t) :: rest, s =>
    let r := dispatch_task P env delta_ms a t s
    let rs := dispatch_loop P env delta_ms rest r.2.1
    ((match r.1 with
      | some t1 => (a, t1) :: rs.1
      | none => rs.1), rs.2.1, r.2.2 ++ rs.2.2)

/-- The value of `delta_ms` in a pass that reads the clock `env.tick` when the
previous pass left `t1`: `t2 = kernel_get_tick_callback(); delta_ms = t2 - t1;`
on `int32_t` variables. -/
def pass_delta_ms (env : sched_env) (t1 : Int) : Int := to_i32 (to_i32 env.tick - t1)

/-- The function `kernel_task_sheduler`: one pass.  Returns the kernel after the pass
and the steps taken, in order. -/
def kernel_task_sheduler {σ : Type} (P : pwr_mgr σ) (env : sched_env) (k : kernel σ) :
    kernel σ × List sched_event :=
  let delta_ms := pass_delta_ms env k.t1
  let s0 := P.pwr_mgr_timer_update k.pwr delta_ms
  let d := drain_groups env.tick_us k.kernel_mailbox_group_queue k.kernel_task_queue k.heap
  let tm : List (Nat × kernel_task_t) × x_heap × List sched_event :=
    if delta_ms > 0 then timer_loop delta_ms d.2.1 d.2.2.1 else (d.2.1, d.2.2.1, [])
  let r := dispatch_loop P env delta_ms tm.1 s0
  ({ kernel_task_queue := r.1, kernel_mailbox_group_queue := d.1, heap := tm.2.1, pwr := r.2.1,
     t1 := to_i32 env.tick }, d.2.2.2 ++ (tm.2.2 ++ r.2.2))

/-- The messages the mailbox drain mounted on the task at address `a`, in
order, read off the steps of the drain. -/
def mails (a : Nat) : List sched_event → List kernel_msg_t
  | [] => []
  | .mail_mount b m :: rest => if b = a then m :: mails a rest else mails a rest
  | _ :: rest => mails a rest

/-- A task-list entry with the drained mail of `ev` appended to its queue. -/
def append_mail (ev : List sched_event) (e : Nat × kernel_task_t) : Nat × kernel_task_t :=
  (e.1, { e.2 with msg_queue := e.2.msg_queue ++ mails e.1 ev })

/-- What the mailbox drain and the timer loop of a pass with `delta_ms` make of
the record `t` at address `a`, given the mail `extra` drained for it and the
allocator `h` the timer loop meets: the record as the dispatch loop finds it,
the allocator and the timer steps. -/
def pre_dispatch (delta_ms : Int) (a : Nat) (t : kernel_task_t) (extra : List kernel_msg_t)
    (h : x_heap) : kernel_task_t × x_heap × List sched_event :=
  if delta_ms > 0 then timer_advance delta_ms a { t with msg_queue := t.msg_queue ++ extra } h
  else ({ t with msg_queue := t.msg_queue ++ extra }, h, [])

/-- Whether an event is a callback step of the task at address `a`. -/
def is_callback_of (a : Nat) : sched_event → Bool
  | .callback b _ _ => b == a
  | _ => false

/-! ## Posting (`__post_msg_from`) -/

/-- A non-NULL `xMsgHandler`: an owned message from `__new_msg`, or the slot
`i` of mailbox group `g` from `__new_msg_from_isr`. -/
inductive xMsgHandler where
  | owned (m : kernel_msg_t)
  | slot (g i : Nat)
deriving DecidableEq, Repr

/-- The function `get_task_handler`: the address of the first record whose name pointer
equals `task_name`, else of the first whose name compares equal by `strcmp`. -/
def get_task_handler (task_name : CStr) (ts : List (Nat × kernel_task_t)) : Option Nat :=
  match ts.find? (fun e => e.2.task_name.addr == task_name.addr) with
  | some e => some e.1
  | none => (ts.find? (fun e => e.2.task_name.chars == task_name.chars)).map (·.1)

/-- The record at address `a`. -/
def task_at (a : Nat) (ts : List (Nat × kernel_task_t)) : Option kernel_task_t :=
  (ts.find? (fun e => e.1 == a)).map (·.2)

/-- An update of the record at address `a`. -/
def update_task (a : Nat) (f : kernel_task_t → kernel_task_t) (ts : List (Nat × kernel_task_t)) :
    List (Nat × kernel_task_t) :=
  ts.map fun e => if e.1 = a then (e.1, f e.2) else e

/-- The slot `i` of group `g`. -/
def slot_at (g i : Nat) (gs : List kernel_mailbox_group_t) : Option kernel_msg_t :=
  match gs.get? g with
  | none => none
  | some grp => grp.mailbox_queue.get? i

/-- An update of the slot `i` of group `g`. -/
def update_slot (g i : Nat) (f : kernel_msg_t → kernel_msg_t) (gs : List kernel_mailbox_group_t) :
    List kernel_mailbox_group_t :=
  match gs.get? g with
  | none => gs
  | some grp =>
    match grp.mailbox_queue.get? i with
    | none => gs
    | some p => gs.set g { grp with mailbox_queue := grp.mailbox_queue.set i (f p) }

/-- The function `__delete_msg` on a mailbox slot: the slot is released in place. -/
def release_slot (p : kernel_msg_t) : kernel_msg_t :=
  p.set_mail { p.mail with task_handler := none, token := false, occupied := false }

/-- The function `__delete_msg` on a handle: an owned message is freed, a slot is
released. -/
def __delete_msg {σ : Type} (k : kernel σ) (msg : xMsgHandler) : kernel σ :=
  match msg with
  | .owned _ => k
  | .slot g i =>
    { k with kernel_mailbox_group_queue := update_slot g i release_slot k.kernel_mailbox_group_queue }

/-- Assignment `p->msg.src_task = src`. -/
def kernel_msg_t.set_src_task (p : kernel_msg_t) (src : Option String) : kernel_msg_t :=
  { p with msg := { p.msg with src_task := src } }

/-- The function `__post_msg_from` for a non-NULL `msg`.  `outside` is what
`try_post_msg_outside` returns when the target is not a local task. -/
def __post_msg_from {σ : Type} (outside : Bool) (k : kernel σ) (target_task : Option CStr)
    (msg : xMsgHandler) (src_task : Option String) : Bool × kernel σ :=
  match target_task with
  | none => (false, __delete_msg k msg)
  | some name =>
    match get_task_handler name k.kernel_task_queue with
    | none => if outside then (true, __delete_msg k msg) else (false, __delete_msg k msg)
    | some a =>
      match task_at a k.kernel_task_queue with
      | none => (false, __delete_msg k msg)
      | some t =>
        if t.task_paused then (false, __delete_msg k msg)
        else
          match msg with
          | .slot g i =>
            (true, { k with
              kernel_mailbox_group_queue :=
                update_slot g i (fun p => p.set_mail { p.mail with task_handler := some a })
                  k.kernel_mailbox_group_queue,
              kernel_task_queue :=
                update_task a (fun t => { t with is_busy := t.is_busy ||| TASK_MSG_PENDING })
                  k.kernel_task_queue })
          | .owned p =>
            let d := __strdup__ k.heap src_task
            let h1 : x_heap := d.2
            let p1 : kernel_msg_t := p.set_src_task d.1
            if p1.timer.enable then
              (true, { k with
                heap := h1,
                kernel_task_queue :=
                  update_task a (fun t => { t with timer_msg_queue := some p1 }) k.kernel_task_queue })
            else
              (true, { k with
                heap := h1,
                kernel_task_queue :=
                  update_task a
                    (fun t =>
                      { t with
                        msg_queue := MOUNT t.msg_queue (some p1),
                        is_busy := t.is_busy ||| TASK_MSG_PENDING })
                    k.kernel_task_queue })

/-! ## Runs of several passes and the life of a timer -/

/-- Successive calls of `kernel_task_sheduler`, one per entry of `envs`: the
kernel after the last pass and the steps of all passes, in order. -/
def run_passes {σ : Type} (P : pwr_mgr σ) : List sched_env → kernel σ → kernel σ × List sched_event
  | [], k => (k, [])
  | env :: rest, k =>
    ((run_passes P rest (kernel_task_sheduler P env k).1).1,
      (kernel_task_sheduler P env k).2 ++ (run_passes P rest (kernel_task_sheduler P env k).1).2)

/-- Whether an event is a timer firing enqueued on the task at address `a`. -/
def is_timer_mount_of (a : Nat) : sched_event → Bool
  | .timer_mount b _ => b == a
  | _ => false

/-- Whether an event mounts a message (from a mailbox or a timer). -/
def sched_event.is_mount : sched_event → Bool
  | .mail_mount _ _ => true
  | .timer_mount _ _ => true
  | _ => false

/-- The values `delta_ms` takes in a run of passes that read the clocks of
`envs`, when the pass before the run left `t1`: each pass leaves its own `t2`
in `t1`. -/
def deltas : Int → List sched_env → List Int
  | _, [] => []
  | t1, env :: rest => pass_delta_ms env t1 :: deltas (to_i32 env.tick) rest

/-- The time that passes with the `delta_ms` values `ds` accumulate for a
timer: the sum of the positive values (a pass with `delta_ms <= 0` does not
run the timer loop). -/
def acc_delta : List Int → Int
  | [] => 0
  | x :: rest => (if x > 0 then x else 0) + acc_delta rest

/-- The passes with the `delta_ms` values `ds` reach the amount `x`, and do so
at their last pass: they accumulate at least `x`, and without the last pass
less than `x`. -/
def reaches (x : Int) (ds : List Int) : Prop :=
  acc_delta ds.dropLast < x ∧ x ≤ acc_delta ds

instance (x : Int) (ds : List Int) : Decidable (reaches x ds) := by
  unfold reaches
  infer_instance

/-- Auxiliary count for the proofs about timers: how often a countdown that
starts at `d` and is reloaded with `p` runs out over passes with the
`delta_ms` values `ds`. -/
def expiries (d p : Int) : List Int → Nat
  | [] => 0
  | x :: rest =>
    if x > 0 then
      if d > x then expiries (d - x) p rest
      else expiries p p rest + 1
    else expiries d p rest

/-- The number of firings a timer with remaining count `c` and period `p`
produces when its countdown expires `e` times: every expiry fires while the
timer is periodic and its count is negative (infinite); a periodic timer with
count `c >= 0` fires `c + 1` times at most; a timer without a positive period
fires once at most. -/
def firings (c p : Int) (e : Nat) : Nat :=
  if p > 0 then (if c < 0 then e else min (c.toNat + 1) e) else min 1 e

/-- The fields a dispatch step never writes: the timer message and the
suspended, paused and deleted flags of `t2` are those of `t`. -/
def same_timer_and_flags (t t2 : kernel_task_t) : Prop :=
  t2.timer_msg_queue = t.timer_msg_queue ∧ t2.task_suspended = t.task_suspended ∧
  t2.task_paused = t.task_paused ∧ t2.task_deleted = t.task_deleted

/-- A sequence of `create_task` calls `(task_name, prio)` on the memory `k`,
each with the same callback and `arg`: the values returned in call order and
the memory after the last call; `none` as soon as one call does not return. -/
def create_tasks (cb : CStr → msg_t → Nat → task_state) :
    List (CStr × Int) → task_mem → x_heap → Option (List Bool × task_mem × x_heap)
  | [], k, h => some ([], k, h)
  | (name, prio) :: rest, k, h =>
    match create_task k h name cb 0 prio with
    | none => none
    | some (b, k1, h1) =>
      match create_tasks cb rest k1 h1 with
      | none => none
      | some (bs, k2, h2) => some (b :: bs, k2, h2)

/-- The `(next, prio)` pairs of all records, in address order. -/
def links (k : task_mem) : List (Option Nat × Int) :=
  k.cells.map fun c => (c.next, c.task.prio)

/-- The pool of the spec's mailbox scenario: four free slots of capacity 8 and
two free slots of capacity 64. -/
def pool_8_64 : List kernel_mailbox_group_t :=
  [⟨List.replicate 4 empty_slot, 8, 4, false⟩, ⟨List.replicate 2 empty_slot, 64, 2, false⟩]

/-- A mailbox slot that is occupied, holds its token and is posted to the task
at address 7. -/
def posted_slot : kernel_msg_t :=
  { u := .mail ⟨true, true, some 7⟩, time_stamp := 42, msg := ⟨some "irq", none, 2, [1, 2]⟩ }

/-- A power manager that never gates a task: no handle is deactivating or
failed, and every activation succeeds. -/
def pwr_always_on : pwr_mgr Unit where
  pwr_mgr_timer_update := fun s _ => s
  pwr_mgr_check := fun s _ => (.POWER_OTHER 0, s)
  pwr_mgr_check_power_failure := fun s _ => (false, s)
  pwr_mgr_activate := fun s _ => (true, s)
  pwr_mgr_diactivate := fun s _ => (true, s)

/-- An owned message without payload, as `__new_msg` makes it at time `ts`. -/
def plain_msg (n : String) (ts : Int) : kernel_msg_t :=
  { u := zero_timer, time_stamp := ts, msg := ⟨some n, none, 0, []⟩ }

/-- The task "T" of the examples: its callback always returns `r`; `q` is its
message queue, `st` its state and `c` its busy counter. -/
def example_task (r : task_state) (q : List kernel_msg_t) (st : task_state) (c : Int) :
    kernel_task_t :=
  { fresh_task ⟨1, "T"⟩ (fun _ _ _ => r) 0 1 with
    msg_queue := q, is_busy := st, busy_without_traffic_time := c }

/-- A kernel whose only task is `t`, at address 7, with no mailbox group. -/
def example_kernel (t : kernel_task_t) : kernel Unit :=
  { kernel_task_queue := [(7, t)], kernel_mailbox_group_queue := [], heap := ⟨[]⟩, pwr := (), t1 := 0 }

/-- A pass at tick `tick` (so `delta_ms = tick` on `example_kernel`) while the
microsecond clock reads 1000. -/
def example_env (tick : Int) : sched_env :=
  { tick := tick, tick_us := 1000, tock_us := fun ts => 1000 - ts }

/-! ## The mailbox group list at pointer level (`create_mailbox`) -/

/-- A mailbox group record in memory: its `next` pointer and its other fields. -/
structure group_node where
  next : Option Nat
  group : kernel_mailbox_group_t
deriving DecidableEq, Repr

/-- The group records allocated so far (the address of a record is its index
in `cells`) and the global `kernel_mailbox_group_queue`. -/
structure mailbox_mem where
  cells : List group_node
  kernel_mailbox_group_queue : Option Nat
deriving DecidableEq, Repr

/-- Assignment `cells[a].next = nx` on group records. -/
def set_group_next (cells : List group_node) (a : Nat) (nx : Option Nat) : List group_node :=
  match cells.get? a with
  | none => cells
  | some c => cells.set a { c with next := nx }

/-- The search loop of `create_mailbox`: returns `(q, g)` at the `break` or at
`q == NULL`; `g` is the record before `q`. -/
def find_group (cells : List group_node) (mailbox_size : Int) :
    Nat → Option Nat → Option Nat → Option (Option Nat × Option Nat)
  | _, none, g => some (none, g)
  | 0, some _, _ => none
  | fuel + 1, some q, g =>
    match cells.get? q with
    | none => none
    | some c =>
      if mailbox_size > c.group.box_size then find_group cells mailbox_size fuel c.next (some q)
      else some (some q, g)

/-- The address of the last group record of the chain starting at `a`. -/
def last_group (cells : List group_node) : Nat → Nat → Option Nat
  | 0, _ => none
  | fuel + 1, a =>
    match cells.get? a with
    | none => none
    | some c =>
      match c.next with
      | none => some a
      | some b => last_group cells fuel b

/-- Modelled from the spec: the macro `MOUNT(queue, node)` on the group list (its
definition is not part of the sources), read as "append" like every other
`MOUNT`: an empty queue becomes `node`, otherwise the chain is walked to its
last record, whose `next` is set to `node`. -/
def MOUNT_group (fuel : Nat) (cells : List group_node) (queue : Option Nat) (node : Nat) :
    Option (List group_node × Option Nat) :=
  match queue with
  | none => some (cells, some node)
  | some h =>
    match last_group cells fuel h with
    | none => none
    | some l => some (set_group_next cells l (some node), some h)

/-- The loop `while( num_of_boxes-- )` at `FILL_BOXES`, `n` iterations: every
slot that `x_malloc` returns is zeroed, marked `mailbox_type = 1`, mounted
behind the slots of the group and counted in `num_of_boxes`. -/
def fill_boxes : Nat → kernel_mailbox_group_t → x_heap → kernel_mailbox_group_t × x_heap
  | 0, g, h => (g, h)
  | n + 1, g, h =>
    match x_malloc h with
    | (true, h1) =>
      fill_boxes n
        { g with mailbox_queue := g.mailbox_queue ++ [empty_slot], num_of_boxes := g.num_of_boxes + 1 } h1
    | (false, h1) => fill_boxes n g h1

/-- The label `FILL_BOXES` for the group record at address `a`. -/
def fill_group (cells : List group_node) (a : Nat) (num_of_boxes : Int) (h : x_heap) :
    List group_node × x_heap :=
  match cells.get? a with
  | none => (cells, h)
  | some c =>
    ((cells.set a { c with group := (fill_boxes num_of_boxes.toNat c.group h).1 }),
      (fill_boxes num_of_boxes.toNat c.group h).2)

/-- The part of `create_mailbox` from `x_malloc` of a new group record on, with
`cells` as the search (and a cut) left them and `q` the record the new group
goes in front of. -/
def new_group (fuel : Nat) (cells : List group_node) (queue : Option Nat) (q : Option Nat)
    (h : x_heap) (mailbox_size num_of_boxes : Int) : Option (Bool × mailbox_mem × x_heap) :=
  match x_malloc h with
  | (false, h1) => some (decide (num_of_boxes ≤ 0), ⟨cells, queue⟩, h1)
  | (true, h1) =>
    match MOUNT_group fuel (cells ++ [⟨none, ⟨[], mailbox_size, 0, false⟩⟩]) queue cells.length with
    | none => none
    | some (cells2, head) =>
      let f := fill_group (set_group_next cells2 cells.length q) cells.length num_of_boxes h1
      some (true, ⟨f.1, head⟩, f.2)

/-- The function `create_mailbox` with `fuel` bounding each of its loops over the group
list (for `num_of_boxes >= 0`, as `ASSERT_TRUE( num_of_boxes > 0 )` asks).  The
result is `none` when such a loop does not reach NULL within `fuel` steps;
otherwise the returned `bool`, the memory and the allocator after the call. -/
def create_mailbox_fuel (fuel : Nat) (k : mailbox_mem) (h : x_heap)
    (mailbox_size num_of_boxes : Int) : Option (Bool × mailbox_mem × x_heap) :=
  match find_group k.cells mailbox_size fuel k.kernel_mailbox_group_queue none with
  | none => none
  | some (none, _) =>
    new_group fuel k.cells k.kernel_mailbox_group_queue none h mailbox_size num_of_boxes
  | some (some q, g) =>
    match k.cells.get? q with
    | none => none
    | some c =>
      if mailbox_size < c.group.box_size then
        let cells1 :=
          match g with
          | some ga => set_group_next k.cells ga none
          | none => k.cells
        new_group fuel cells1 k.kernel_mailbox_group_queue (some q) h mailbox_size num_of_boxes
      else
        let f := fill_group k.cells q num_of_boxes h
        some (true, ⟨f.1, k.kernel_mailbox_group_queue⟩, f.2)

/-- The function `create_mailbox`.  A chain without a cycle has at most
`cells.length + 1` records once a new record is allocated, so a loop that has
not reached NULL after `cells.length + 2` steps is inside a cycle and never
terminates. -/
def create_mailbox (k : mailbox_mem) (h : x_heap) (mailbox_size num_of_boxes : Int) :
    Option (Bool × mailbox_mem × x_heap) :=
  create_mailbox_fuel (k.cells.length + 2) k h mailbox_size num_of_boxes

/-- A sequence of `create_mailbox` calls `(mailbox_size, num_of_boxes)` on the
memory `k`: the values returned in call order and the memory after the last
call; `none` as soon as one call does not return. -/
def create_mailboxes : List (Int × Int) → mailbox_mem → x_heap → Option (List Bool × mailbox_mem × x_heap)
  | [], k, h => some ([], k, h)
  | (size, n) :: rest, k, h =>
    match create_mailbox k h size n with
    | none => none
    | some (b, k1, h1) =>
      match create_mailboxes rest k1 h1 with
      | none => none
      | some (bs, k2, h2) => some (b :: bs, k2, h2)

/-- The group list as a walk from `kernel_mailbox_group_queue` sees it (as
`show_mailbox` and `__new_msg_from_isr` walk it); `none` when the walk does
not reach NULL within `fuel` steps. -/
def group_chain (cells : List group_node) : Nat → Option Nat → Option (List kernel_mailbox_group_t)
  | _, none => some []
  | 0, some _ => none
  | fuel + 1, some a =>
    match cells.get? a with
    | none => none
    | some c =>
      match group_chain cells fuel c.next with
      | none => none
      | some rest => some (c.group :: rest)

/-- The group list of the memory `k`; `none` when the walk never reaches NULL. -/
def group_list (k : mailbox_mem) : Option (List kernel_mailbox_group_t) :=
  group_chain k.cells (k.cells.length + 1) k.kernel_mailbox_group_queue

/-- The `(next, box_size, number of slots)` triples of all group records, in
address order. -/
def group_links (k : mailbox_mem) : List (Option Nat × Int × Nat) :=
  k.cells.map fun c => (c.next, c.group.box_size, c.group.mailbox_queue.length)

/-! ## Task control (`kernel_task.c`) -/

/-- The function `task_suspend` (the freezer callback, when bound, is told
`TASK_SUSPEND`; it is not part of the kernel data). -/
def task_suspend {σ : Type} (k : kernel σ) (task_name : CStr) : Bool × kernel σ :=
  match get_task_handler task_name k.kernel_task_queue with
  | some a =>
    (true, { k with
      kernel_task_queue := update_task a (fun t => { t with task_suspended := true }) k.kernel_task_queue })
  | none => (false, k)

/-- The function `task_pause`. -/
def task_pause {σ : Type} (k : kernel σ) (task_name : CStr) : Bool × kernel σ :=
  match get_task_handler task_name k.kernel_task_queue with
  | some a =>
    (true, { k with
      kernel_task_queue := update_task a (fun t => { t with task_paused := true }) k.kernel_task_queue })
  | none => (false, k)

/-! ## The mailbox drain, slot by slot -/

/-- An occupied slot that has been posted (`task_handler != NULL`). -/
def slot_posted (m : kernel_msg_t) : Bool := m.mail.occupied && m.mail.task_handler.isSome

/-- An occupied slot that has not been posted yet (`task_handler == NULL`). -/
def slot_unposted (m : kernel_msg_t) : Bool := m.mail.occupied && m.mail.task_handler.isNone

/-- The owned message the drain makes of the slot `m`: the notification, the
`length` payload bytes, the length and the time stamp of the slot. -/
def slot_copy (m : kernel_msg_t) : kernel_msg_t :=
  { u := zero_timer, time_stamp := m.time_stamp,
    msg := ⟨m.msg.notification, none, m.msg.length, m.msg.data.take m.msg.length.toNat⟩ }

/-- A slot after a successful copy: `occupied = 0`, `token = 0`,
`task_handler = NULL` and the payload metadata zeroed. -/
def slot_cleared (m : kernel_msg_t) : kernel_msg_t :=
  { u := .mail ⟨false, false, none⟩, time_stamp := m.time_stamp, msg := ⟨none, none, 0, []⟩ }

/-- A slot after a failed copy: `occupied = 0` and `token = 0`, everything else
as it was. -/
def slot_dropped (m : kernel_msg_t) : kernel_msg_t :=
  m.set_mail { m.mail with token := false, occupied := false }

/-- What the drain makes of one slot, `ok` telling whether the copy could be
allocated: a posted slot is cleared or dropped, any other slot is untouched. -/
def slot_after (ok : Bool) (m : kernel_msg_t) : kernel_msg_t :=
  if slot_posted m then (if ok then slot_cleared m else slot_dropped m) else m

/-- For each slot of a group, in list order, whether the drain could allocate
its copy (`__new_msg` returned a message) at the allocator state the loop has
when it reaches the slot; `true` for a slot that needs no copy.  Also the
allocator after the last slot. -/
def copy_oks (now : Int) : List kernel_msg_t → x_heap → List Bool × x_heap
  | [], h => ([], h)
  | m :: rest, h =>
    if slot_posted m then
      (((__new_msg h now m.msg.notification (some m.msg.data) m.msg.length).1.isSome ::
          (copy_oks now rest (__new_msg h now m.msg.notification (some m.msg.data) m.msg.length).2).1),
        (copy_oks now rest (__new_msg h now m.msg.notification (some m.msg.data) m.msg.length).2).2)
    else (true :: (copy_oks now rest h).1, (copy_oks now rest h).2)

/-- The same for every group, in list order: a group whose `unread_msg` flag is
clear is not walked and asks for no allocation. -/
def group_oks (now : Int) : List kernel_mailbox_group_t → x_heap → List (List Bool) × x_heap
  | [], h => ([], h)
  | g :: gs, h =>
    if g.unread_msg then
      ((copy_oks now g.mailbox_queue h).1 :: (group_oks now gs (copy_oks now g.mailbox_queue h).2).1,
        (group_oks now gs (copy_oks now g.mailbox_queue h).2).2)
    else (g.mailbox_queue.map (fun _ => true) :: (group_oks now gs h).1, (group_oks now gs h).2)

/-- The copies mounted on the task at address `a` from the slots of one group. -/
def slot_copies (a : Nat) : List Bool → List kernel_msg_t → List kernel_msg_t
  | ok :: oks, m :: rest =>
    if ok && m.mail.occupied && m.mail.task_handler == some a then slot_copy m :: slot_copies a oks rest
    else slot_copies a oks rest
  | _, _ => []

/-- A group after the drain: untouched when its `unread_msg` flag was clear;
otherwise every slot is as `slot_after` says and the flag is set again exactly
when an occupied slot has not been posted yet. -/
def group_after (oks : List Bool) (g : kernel_mailbox_group_t) : kernel_mailbox_group_t :=
  if g.unread_msg then
    { g with mailbox_queue := List.zipWith slot_after oks g.mailbox_queue,
             unread_msg := g.mailbox_queue.any slot_unposted }
  else g

/-- The copies mounted on the task at address `a` by the drain of all groups,
in the order of the groups and of their slots. -/
def group_copies (a : Nat) : List (List Bool) → List kernel_mailbox_group_t → List kernel_msg_t
  | oks :: okss, g :: gs =>
    (if g.unread_msg then slot_copies a oks g.mailbox_queue else []) ++ group_copies a okss gs
  | _, _ => []

/-- A handle a caller may still pass on: an owned message, or a slot that is
occupied (as `__new_msg_from_isr` returned it and nobody released it since). -/
def handle_live {σ : Type} (k : kernel σ) : xMsgHandler → Prop
  | .owned _ => True
  | .slot g i => ∃ p, slot_at g i k.kernel_mailbox_group_queue = some p ∧ p.mail.occupied = true

/-- One step on the mailbox pool: a message created from interrupt context, a
post or a deletion of a live handle, or a scheduler pass in which no
allocation fails. -/
inductive mailbox_step {σ : Type} (P : pwr_mgr σ) : kernel σ → kernel σ → Prop where
  | isr (k : kernel σ) (now : Int) (notification : String) (data : List Nat) (length : Int) :
      mailbox_step P k
        { k with kernel_mailbox_group_queue :=
            (__new_msg_from_isr now notification data length k.kernel_mailbox_group_queue).2 }
  | post (k : kernel σ) (outside : Bool) (target_task : Option CStr) (msg : xMsgHandler)
      (src_task : Option String) (hl : handle_live k msg) :
      mailbox_step P k (__post_msg_from outside k target_task msg src_task).2
  | delete (k : kernel σ) (msg : xMsgHandler) (hl : handle_live k msg) :
      mailbox_step P k (__delete_msg k msg)
  | pass (k : kernel σ) (env : sched_env) (hh : no_alloc_failure k.heap) :
      mailbox_step P k (kernel_task_sheduler P env k).1

/-- The kernels reached from `k0` by any number of mailbox steps. -/
inductive mailbox_reachable {σ : Type} (P : pwr_mgr σ) (k0 : kernel σ) : kernel σ → Prop where
  | start : mailbox_reachable P k0 k0
  | step (k k1 : kernel σ) (hr : mailbox_reachable P k0 k) (hs : mailbox_step P k k1) :
      mailbox_reachable P k0 k1

/-- A well-formed slot: a free slot carries no task, and an occupied slot
carries a notification (as `__new_msg_from_isr` writes it). -/
def slot_wf (p : kernel_msg_t) : Prop :=
  (p.mail.occupied = false → p.mail.task_handler = none) ∧
  (p.mail.occupied = true → p.msg.notification ≠ none)

/-- Every slot of every group is well formed. -/
def pool_wf (gs : List kernel_mailbox_group_t) : Prop :=
  ∀ g ∈ gs, ∀ p ∈ g.mailbox_queue, slot_wf p

/-- A kernel whose only task "T", at address 7, is paused, with the mailbox
pool `pool_8_64` (all slots empty). -/
def paused_kernel : kernel Unit :=
  { kernel_task_queue := [(7, { example_task TASK_IDLE [] TASK_IDLE 0 with task_paused := true })],
    kernel_mailbox_group_queue := pool_8_64, heap := ⟨[]⟩, pwr := (), t1 := 0 }

/-- The kernel `paused_kernel` after an interrupt handler has created the
message "irq" with the two bytes 1, 2 at time 5 (it gets slot 0 of group 0). -/
def paused_kernel_isr : kernel Unit :=
  { paused_kernel with
    kernel_mailbox_group_queue :=
      (__new_msg_from_isr 5 "irq" [1, 2] 2 paused_kernel.kernel_mailbox_group_queue).2 }

/-! ## Timers and power managers of the later results -/

/-- A timer message after a pass of `delta_ms` that delivers nothing from it:
an enabled timer has its `delay` counted down by `delta_ms`, to 0 at the least;
a pass with `delta_ms <= 0` and a disabled timer change nothing. -/
def count_down (delta_ms : Int) (m : kernel_msg_t) : kernel_msg_t :=
  if delta_ms > 0 ∧ m.timer.enable = true then
    m.set_timer { m.timer with
      delay := if m.timer.delay > delta_ms then m.timer.delay - delta_ms else 0 }
  else m

/-- Whether the timer message `m` expires in a pass of `delta_ms`. -/
def expires_in (delta_ms : Int) (m : kernel_msg_t) : Prop :=
  delta_ms > 0 ∧ m.timer.enable = true ∧ m.timer.delay ≤ delta_ms

/-- A power manager whose handles all have the power-failure flag set. -/
def pwr_failed : pwr_mgr Unit where
  pwr_mgr_timer_update := fun s _ => s
  pwr_mgr_check := fun s _ => (.POWER_OTHER 0, s)
  pwr_mgr_check_power_failure := fun s _ => (true, s)
  pwr_mgr_activate := fun s _ => (false, s)
  pwr_mgr_diactivate := fun s _ => (true, s)

/-- A power manager that has given up activating: no failure flag, every
activation fails and `pwr_mgr_check` reports `POWER_GIVE_UP_ACTIVATE`. -/
def pwr_give_up : pwr_mgr Unit where
  pwr_mgr_timer_update := fun s _ => s
  pwr_mgr_check := fun s _ => (.POWER_GIVE_UP_ACTIVATE, s)
  pwr_mgr_check_power_failure := fun s _ => (false, s)
  pwr_mgr_activate := fun s _ => (false, s)
  pwr_mgr_diactivate := fun s _ => (true, s)

/-- The task "T" of the examples with the power handle 1. -/
def powered_task (q : List kernel_msg_t) (st : task_state) : kernel_task_t :=
  { example_task TASK_IDLE q st 0 with pm := some 1 }

/-- An owned message "tick" with a one-shot timer of `delay` ms enabled. -/
def timer_msg (delay : Int) : kernel_msg_t :=
  { u := .timer ⟨true, -1, delay, -1⟩, time_stamp := 3, msg := ⟨some "tick", none, 0, []⟩ }

/-- The task "T" suspended, holding the message "a" and a timer of 4 ms. -/
def suspended_task : kernel_task_t :=
  { example_task TASK_IDLE [plain_msg "a" 5] TASK_MSG_PENDING 0 with
    task_suspended := true
    timer_msg_queue := some (timer_msg 4) }

/-- The task "T" paused, holding the message "a" and a timer of 40 ms. -/
def paused_task : kernel_task_t :=
  { example_task TASK_IDLE [plain_msg "a" 5] TASK_MSG_PENDING 0 with
    task_paused := true
    timer_msg_queue := some (timer_msg 40) }

/-! ## Idle time (`kernel_idle_time`) and the cores (`kernel_cores_sync.c`) -/

/-- The conversion `(uint32_t)x` of an `int32_t`. -/
def to_u32 (x : Int) : Nat := (x % 2 ^ 32).toNat

/-- The struct `kernel_external_task_t` without its `next` pointer. -/
structure kernel_external_task_t where
  cached : Bool
  task_name : String
deriving DecidableEq, Repr

/-- The struct `MCUs_t` without its `next` pointer.  `tunnel` is the chain of
tunnel handles reached from the pointer `tunnel` through `next` (empty for
NULL); only the local record has more than its head mounted by the kernel. -/
structure MCUs_t where
  task_queue : List kernel_external_task_t
  tunnel : List Nat
  jump : Int
  is_local : Bool
  support_json_extra : Bool
  mmap_req_sent : Bool
  task_modified : Bool
  core : String
deriving DecidableEq, Repr

/-- The function `is_mcu_exist`: the first record whose `core` compares equal. -/
def is_mcu_exist (core_name : String) (q : List MCUs_t) : Option MCUs_t :=
  q.find? (fun p => p.core == core_name)

/-- The function `get_my_core_name`: the name of the first local record. -/
def get_my_core_name (q : List MCUs_t) : Option String :=
  (q.find? (fun p => p.is_local)).map (fun p => p.core)

/-- A write through the pointer `is_mcu_exist( core_name )` returns: `f` applied
to the first record whose `core` compares equal. -/
def update_mcu (core_name : String) (f : MCUs_t → MCUs_t) : List MCUs_t → List MCUs_t
  | [] => []
  | p :: rest => if p.core = core_name then f p :: rest else p :: update_mcu core_name f rest

/-- The tunnel loop of `try_send_tunnel_pending_packet`; `retry` is
`get_secure_tunnel_next_retry`. -/
def pending_loop (retry : Nat → Int) : List Nat → Int → Int
  | [], min_time => min_time
  | tunnel :: rest, min_time =>
    if retry tunnel ≥ 0 then
      if min_time ≥ 0 then pending_loop retry rest (min min_time (retry tunnel))
      else pending_loop retry rest (retry tunnel)
    else pending_loop retry rest min_time

/-- The function `try_send_tunnel_pending_packet`: the tunnels of the first local
record are walked, then the loop over the records breaks. -/
def try_send_tunnel_pending_packet (retry : Nat → Int) : List MCUs_t → Int
  | [] => -1
  | mcu :: rest =>
    if mcu.is_local then pending_loop retry mcu.tunnel (-1)
    else try_send_tunnel_pending_packet retry rest

/-- The group loop of `kernel_idle_time`: whether it returns 0. -/
def idle_group_loop : List kernel_mailbox_group_t → Bool
  | [] => false
  | g :: rest => if g.unread_msg then true else idle_group_loop rest

/-- The task loop of `kernel_idle_time` from the value `min`: `none` when it
returns 0 at a task that is not idle, else `min` after the loop. -/
def idle_task_loop : List (Nat × kernel_task_t) → Nat → Option Nat
  | [], min => some min
  | (_, t) :: rest, min =>
    if t.is_busy ≠ TASK_IDLE then none
    else
      match t.timer_msg_queue with
      | some m =>
        if m.timer.enable then
          if to_u32 m.timer.delay < min then idle_task_loop rest (to_u32 m.timer.delay)
          else idle_task_loop rest min
        else idle_task_loop rest min
      | none => idle_task_loop rest min

/-- The function `kernel_idle_time`; `mmap_check_unsync_timeout` is what
`get_kernel_mmap_unsync_timeout` returns. -/
def kernel_idle_time (retry : Nat → Int) (kernel_mailbox_group_queue : List kernel_mailbox_group_t)
    (kernel_task_queue : List (Nat × kernel_task_t)) (kernel_mcu_queue : List MCUs_t)
    (mmap_check_unsync_timeout : Int) : Nat :=
  if idle_group_loop kernel_mailbox_group_queue then 0
  else
    match idle_task_loop kernel_task_queue 0xFFFFFFFF with
    | none => 0
    | some min0 =>
      let pending_time := try_send_tunnel_pending_packet retry kernel_mcu_queue
      let min1 := if pending_time ≥ 0 then min (to_u32 pending_time) min0 else min0
      if mmap_check_unsync_timeout ≥ 0 then min (to_u32 mmap_check_unsync_timeout) min1 else min1

/-- The retry times a pass may wait for: those of the tunnels of the local
record that are not negative. -/
def retry_times (retry : Nat → Int) (q : List MCUs_t) : List Int :=
  match q.find? (fun p => p.is_local) with
  | none => []
  | some mcu => (mcu.tunnel.map retry).filter (fun x => x ≥ 0)

/-- The delays of the enabled task timers, as unsigned 32-bit values. -/
def timer_delays : List (Nat × kernel_task_t) → List Nat
  | [] => []
  | (_, t) :: rest =>
    match t.timer_msg_queue with
    | some m => if m.timer.enable then to_u32 m.timer.delay :: timer_delays rest else timer_delays rest
    | none => timer_delays rest

/-- The pending retry time as the claim words it: the least of `retry_times`,
and -1 when there is none. -/
def pending_time_spec (retry : Nat → Int) (q : List MCUs_t) : Int :=
  match retry_times retry q with
  | [] => -1
  | x :: rest => rest.foldl min x

/-- The idle time as the claim words it: 0 when a group has unread mail or a
task is not idle, else the least of `0xFFFFFFFF`, the delays of the enabled
task timers, the pending retry time when it is not negative and the unsync
timeout when it is active. -/
def idle_time_spec (retry : Nat → Int) (groups : List kernel_mailbox_group_t)
    (tasks : List (Nat × kernel_task_t)) (q : List MCUs_t) (timeout : Int) : Nat :=
  if groups.any (fun g => g.unread_msg) || tasks.any (fun e => e.2.is_busy != TASK_IDLE) then 0
  else
    (timer_delays tasks
      ++ (if pending_time_spec retry q ≥ 0 then [to_u32 (pending_time_spec retry q)] else [])
      ++ (if timeout ≥ 0 then [to_u32 timeout] else [])).foldl min 0xFFFFFFFF

/-! ## Memory mapping between cores -/

/-- Modelled from the spec: the macro `ERROR(...)`, whose definition is not in
the sources, is fatal: the call that reaches it does not return (`none`). -/
def ERROR {α : Type} : Option α := none

/-- The libc call `memcpy( dst, src, n )` on the bytes of two buffers. -/
def memcpy (dst src : List Nat) (n : Nat) : List Nat := src.take n ++ dst.drop n

/-- The test `memcmp( a, b, n ) == 0`. -/
def memcmp_zero (a b : List Nat) (n : Nat) : Bool := a.take n == b.take n

/-- The struct `kernel_mmap_t` without its `next` pointer.  `core` is the union of
`from_core` and `to_core`; `mem` holds the bytes of the buffer the pointer
`mem` refers to, as they are now; `update_callback` is an opaque handle. -/
structure kernel_mmap_t where
  core : Option String
  mem_name : Option String
  prev_sync_mem : Option (List Nat)
  mem : List Nat
  mem_size : Int
  sync_already : Bool
  update_callback : Option Nat
  arg : Nat
deriving DecidableEq, Repr

/-- The function `create_kernel_mmap`: `none` when the call does not return, else
the record (NULL when `x_malloc` fails) and the allocator. -/
def create_kernel_mmap (h : x_heap) (mem_name : String) (mem : List Nat) (mem_size : Int) :
    Option (Option kernel_mmap_t × x_heap) :=
  if mem_name = "mmap_array" ∨ mem_name = "mmap" then ERROR
  else
    match x_malloc h with
    | (false, h1) => some (none, h1)
    | (true, h1) =>
      some (some { core := none, mem_name := (__strdup__ h1 (some mem_name)).1,
                   prev_sync_mem := none, mem := mem, mem_size := mem_size,
                   sync_already := false, update_callback := none, arg := 0 },
        (__strdup__ h1 (some mem_name)).2)

/-- The function `kernel_mmap_from` on the list `kernel_mmap_from_queue`: the handle
returned, the list and the allocator after the call; `none` when the call does
not return.  `MOUNT` appends at the tail. -/
def kernel_mmap_from (h : x_heap) (queue : List kernel_mmap_t) (core_name mem_name : String)
    (mem : List Nat) (mem_size : Int) :
    Option (Option kernel_mmap_t × List kernel_mmap_t × x_heap) :=
  match create_kernel_mmap h mem_name mem mem_size with
  | none => none
  | some (none, h1) => some (none, queue, h1)
  | some (some p, h1) =>
    some (some { p with core := (__strdup__ h1 (some core_name)).1 },
      queue ++ [{ p with core := (__strdup__ h1 (some core_name)).1 }],
      (__strdup__ h1 (some core_name)).2)

/-- The function `kernel_mmap_to` on the list `kernel_mmap_to_queue`. -/
def kernel_mmap_to (h : x_heap) (queue : List kernel_mmap_t) (core_name mem_name : String)
    (mem : List Nat) (mem_size : Int) :
    Option (Option kernel_mmap_t × List kernel_mmap_t × x_heap) :=
  match create_kernel_mmap h mem_name mem mem_size with
  | none => none
  | some (none, h1) => some (none, queue, h1)
  | some (some p, h1) =>
    match x_malloc h1 with
    | (false, h2) => some (none, queue, h2)
    | (true, h2) =>
      some (some { p with
              prev_sync_mem := some (memcpy (List.replicate mem_size.toNat 0) mem mem_size.toNat)
              core := (__strdup__ h2 (some core_name)).1 },
        queue ++ [{ p with
              prev_sync_mem := some (memcpy (List.replicate mem_size.toNat 0) mem mem_size.toNat)
              core := (__strdup__ h2 (some core_name)).1 }],
        (__strdup__ h2 (some core_name)).2)

/-- The steps of the mmap engine that reach outside the kernel data. -/
inductive sync_event where
  | mmap_send (region : Nat) (ok : Bool)
  | mmap_request (src_core dst_core : Option String)
  | update_callback (callback arg : Nat) (mem : List Nat) (mem_size : Int)
deriving DecidableEq, Repr

/-- The transport under `kernel_mmap_outside`: the tunnel structure, cJSON and the
send procedures are not in the sources.  `mmap_send` stands for the part of
the loop body after the `avoid_tunnel` test, for the record `mcu`: `some ret`
when the body returns `ret`, `none` when `cJSON_CreateObject` returns NULL and
the loop goes on. -/
structure transport (σ : Type) where
  mmap_send : σ → MCUs_t → String → String → String → List Nat → Int → Option Bool × σ

/-- The loop of `kernel_mmap_outside` over the records. -/
def mmap_outside_loop {σ : Type} (T : transport σ) (src_core dst_core mem_name : String)
    (mem_data : List Nat) (mem_size : Int) (avoid_tunnel : Option Nat) :
    List MCUs_t → σ → Bool × σ
  | [], s => (false, s)
  | mcu :: rest, s =>
    if mcu.core = dst_core then
      if mcu.tunnel.head? = avoid_tunnel then (false, s)
      else
        match T.mmap_send s mcu src_core dst_core mem_name mem_data mem_size with
        | (some ret, s1) => (ret, s1)
        | (none, s1) => mmap_outside_loop T src_core dst_core mem_name mem_data mem_size
            avoid_tunnel rest s1
    else mmap_outside_loop T src_core dst_core mem_name mem_data mem_size avoid_tunnel rest s

/-- The function `kernel_mmap_outside` (`mem_data` is not NULL). -/
def kernel_mmap_outside {σ : Type} (T : transport σ) (s : σ) (q : List MCUs_t)
    (src_core dst_core mem_name : Option String) (mem_data : List Nat) (mem_size : Int)
    (avoid_tunnel : Option Nat) : Bool × σ :=
  match src_core, dst_core, mem_name with
  | some src, some dst, some name =>
    if mem_size = 0 then (false, s)
    else mmap_outside_loop T src dst name mem_data mem_size avoid_tunnel q s
  | _, _, _ => (false, s)

/-- Whether the loop of `kernel_mmap_update_to` sends the region `p`: its `to_core`
is the target core when there is one, and with `diff_sync` its buffer differs
from the snapshot. -/
def wants_send (target_core : Option String) (diff_sync : Bool) (p : kernel_mmap_t) : Bool :=
  !(target_core.isSome && p.core != target_core)
    && !(diff_sync && memcmp_zero p.mem (p.prev_sync_mem.getD []) p.mem_size.toNat)

/-- The statement `memcpy( p->prev_sync_mem, p->mem, p->mem_size )`. -/
def take_snapshot (p : kernel_mmap_t) : kernel_mmap_t :=
  { p with prev_sync_mem := some (memcpy (p.prev_sync_mem.getD []) p.mem p.mem_size.toNat) }

/-- The loop of `kernel_mmap_update_to` from the region at position `i`, with the
variable `ret`: the value of `ret` after the loop, the regions, the transport
and the sends made. -/
def update_to_loop {σ : Type} (T : transport σ) (q : List MCUs_t) (target_core : Option String)
    (diff_sync : Bool) :
    List kernel_mmap_t → Nat → Bool → σ → Bool × List kernel_mmap_t × σ × List sync_event
  | [], _, ret, s => (ret, [], s, [])
  | p :: rest, i, ret, s =>
    if target_core.isSome && p.core != target_core then
      let r := update_to_loop T q target_core diff_sync rest (i + 1) ret s
      (r.1, p :: r.2.1, r.2.2)
    else if diff_sync && memcmp_zero p.mem (p.prev_sync_mem.getD []) p.mem_size.toNat then
      let r := update_to_loop T q target_core diff_sync rest (i + 1) ret s
      (r.1, p :: r.2.1, r.2.2)
    else
      let o := kernel_mmap_outside T s q (get_my_core_name q) p.core p.mem_name p.mem p.mem_size none
      if !o.1 then (false, p :: rest, o.2, [.mmap_send i false])
      else
        let r := update_to_loop T q target_core diff_sync rest (i + 1) true o.2
        (r.1, take_snapshot p :: r.2.1, r.2.2.1, .mmap_send i true :: r.2.2.2)

/-- The function `kernel_mmap_update_to` on the list `kernel_mmap_to_queue`. -/
def kernel_mmap_update_to {σ : Type} (T : transport σ) (q : List MCUs_t)
    (target_core : Option String) (diff_sync : Bool) (queue : List kernel_mmap_t) (s : σ) :
    Bool × List kernel_mmap_t × σ × List sync_event :=
  update_to_loop T q target_core diff_sync queue 0 false s

/-- The function `kernel_mmap_update_from` on the list `kernel_mmap_from_queue`: the
list after the call and the callback called, if any. -/
def kernel_mmap_update_from (q : List MCUs_t) (core_name mem_name : String) (mem : List Nat)
    (mem_size : Int) : List kernel_mmap_t → List kernel_mmap_t × List sync_event
  | [] => ([], [])
  | p :: rest =>
    if p.core = some core_name ∧ (is_mcu_exist core_name q).isSome
        ∧ p.mem_name = some mem_name ∧ p.mem_size = mem_size then
      if !memcmp_zero p.mem mem p.mem_size.toNat then
        ({ p with sync_already := true, mem := memcpy p.mem mem p.mem_size.toNat } :: rest,
          match p.update_callback with
          | some cb => [.update_callback cb p.arg (memcpy p.mem mem p.mem_size.toNat) p.mem_size]
          | none => [])
      else ({ p with sync_already := true } :: rest, [])
    else
      let r := kernel_mmap_update_from q core_name mem_name mem mem_size rest
      (p :: r.1, r.2)

/-- A transport over which every send succeeds. -/
def tunnel_up : transport Unit where
  mmap_send := fun s _ _ _ _ _ _ => (some true, s)

/-- A transport over which every send fails. -/
def tunnel_down : transport Unit where
  mmap_send := fun s _ _ _ _ _ _ => (some false, s)

/-- The local core "me" and the peer "peer", both on tunnel 1. -/
def example_mcus : List MCUs_t :=
  [⟨[], [1], 0, true, true, false, false, "me"⟩, ⟨[], [1], 1, false, false, false, false, "peer"⟩]

/-- A two-byte region for the core "peer" with the buffer `mem` and the
snapshot `prev`. -/
def example_region (mem_name : String) (mem : List Nat) (prev : Option (List Nat)) :
    kernel_mmap_t :=
  ⟨some "peer", some mem_name, prev, mem, 2, false, none, 0⟩

/-- Whether the from-region `p` has the peer, the name and the size of an
inbound update. -/
def region_matches (core_name mem_name : String) (mem_size : Int) (p : kernel_mmap_t) : Bool :=
  p.core == some core_name && p.mem_name == some mem_name && p.mem_size == mem_size

/-- A two-byte from-region of the core "peer" named "battery", zeroed and not
synchronised yet. -/
def example_from_region : kernel_mmap_t :=
  ⟨some "peer", some "battery", none, [0, 0], 2, false, some 9, 0⟩

/-! ## The unsync timer (`kernel_mmap_check_unsync_core`) -/

/-- The globals of `kernel_cores_sync.c` the mmap engine works on, with the
`static int32_t t0` of `kernel_mmap_check_unsync_core`. -/
structure sync_state where
  kernel_mcu_queue : List MCUs_t
  kernel_mmap_from_queue : List kernel_mmap_t
  kernel_mmap_to_queue : List kernel_mmap_t
  mmap_check_unsync_timeout : Int
  t0 : Int
deriving DecidableEq, Repr

/-- The source peers of the from-regions that are not synchronised yet, one
entry per region. -/
def unsynced_peers (regions : List kernel_mmap_t) : List String :=
  regions.filterMap (fun p => if p.sync_already then none else p.core)

/-- Whether `core_name` is a known core. -/
def known_core (q : List MCUs_t) (core_name : String) : Bool := (is_mcu_exist core_name q).isSome

/-- Whether a request to `core_name` is still due in the walk: the core is known
and its `mmap_req_sent` is clear. -/
def request_due (q : List MCUs_t) (core_name : String) : Bool :=
  match is_mcu_exist core_name q with
  | some mcu => !mcu.mmap_req_sent
  | none => false

/-- The names of `l` that satisfy `P`, each once, in the order of their first
occurrence. -/
def first_occurrences (P : String → Bool) : List String → List String
  | [] => []
  | n :: rest =>
    if P n then n :: first_occurrences (fun m => P m && m != n) rest
    else first_occurrences P rest

/-- A state with the cores `example_mcus`, three from-regions not synchronised
yet (two of "peer", one of the unknown core "ghost") and the unsync timer
armed at 300 ms since tick 0. -/
def unsync_example : sync_state :=
  { kernel_mcu_queue := example_mcus,
    kernel_mmap_from_queue :=
      [example_from_region, { example_from_region with mem_name := some "lock" },
       { example_from_region with core := some "ghost" }],
    kernel_mmap_to_queue := [],
    mmap_check_unsync_timeout := 300,
    t0 := 0 }

/-! ## The core records (`synchonize_tasklist`, topology envelopes, restore) -/

/-- The function `kernel_create_mcu`: the record (NULL when `x_malloc` fails), the
list after `MOUNT` and the allocator. -/
def kernel_create_mcu (h : x_heap) (core_name : String) (tunnel : List Nat) (jump : Int)
    (q : List MCUs_t) : Option MCUs_t × List MCUs_t × x_heap :=
  match x_malloc h with
  | (false, h1) => (none, q, h1)
  | (true, h1) =>
    (some ⟨[], tunnel, jump, false, false, false, false, core_name⟩,
      q ++ [⟨[], tunnel, jump, false, false, false, false, core_name⟩], h1)

/-- The function `kernel_is_task_on_mcu`. -/
def kernel_is_task_on_mcu (mcu : MCUs_t) (task_name : String) : Option kernel_external_task_t :=
  mcu.task_queue.find? (fun t => t.task_name == task_name)

/-- The function `kernel_add_task_to_mcu`, as the record after the call: `none` when
the call does not return (`memset` on the NULL a failed `x_malloc` gave). -/
def kernel_add_task_to_mcu (h : x_heap) (mcu : MCUs_t) (task_name : String) :
    Option (MCUs_t × x_heap) :=
  match kernel_is_task_on_mcu mcu task_name with
  | some _ => some (mcu, h)
  | none =>
    match x_malloc h with
    | (false, _) => none
    | (true, h1) => some ({ mcu with task_queue := mcu.task_queue ++ [⟨false, task_name⟩] }, h1)

/-- The assignment `task->cached = b` for the task `kernel_is_task_on_mcu` finds. -/
def set_cached (task_name : String) (b : Bool) :
    List kernel_external_task_t → List kernel_external_task_t
  | [] => []
  | t :: rest =>
    if t.task_name = task_name then { t with cached := b } :: rest
    else t :: set_cached task_name b rest

/-- The loop of `synchonize_tasklist` over the local tasks. -/
def add_local_tasks : List String → x_heap → MCUs_t → Option (MCUs_t × x_heap)
  | [], h, mcu => some (mcu, h)
  | n :: rest, h, mcu =>
    match kernel_add_task_to_mcu h mcu n with
    | none => none
    | some r => add_local_tasks rest r.2 r.1

/-- The part "Update Local Core Task List" of `synchonize_tasklist`, the only part
that writes kernel data (the rest packs the envelope and sends it): the
records and the allocator after it, `none` when the call does not return.
`tunnels` are the variadic arguments. -/
def synchonize_tasklist (h : x_heap) (local_core : Option String) (tunnels : List Nat)
    (kernel_task_queue : List (Nat × kernel_task_t)) (q : List MCUs_t) :
    Option (List MCUs_t × x_heap) :=
  match local_core with
  | none => some (q, h)
  | some name =>
    match is_mcu_exist name q with
    | some mcu =>
      match add_local_tasks (kernel_task_queue.map (fun e => e.2.task_name.chars)) h mcu with
      | none => none
      | some r => some (update_mcu name (fun _ => r.1) q, r.2)
    | none =>
      match kernel_create_mcu h name [] 0 q with
      | (none, q1, h1) => some (q1, h1)
      | (some mcu, _, h1) =>
        match add_local_tasks (kernel_task_queue.map (fun e => e.2.task_name.chars)) h1
            { mcu with tunnel := mcu.tunnel ++ tunnels, is_local := true,
                       support_json_extra := true } with
        | none => none
        | some r => some (q ++ [r.1], r.2)

/-- The JSON object of one core in a topology envelope: `Jump`,
`SupportJsonExtra` (whether its type is `cJSON_True`) and `TaskArray`, each
`none` when the item is missing. -/
structure core_obj where
  jump : Option Int
  support_json_extra : Option Bool
  task_array : Option (List String)

/-- A parsed topology envelope: the array `Cores` (empty when missing) and what
`cJSON_GetObjectItem( js, core_name )` returns. -/
structure topo_envelope where
  cores : List String
  object : String → Option core_obj

/-- The assignment of `SupportJsonExtra` to the record. -/
def absorb_extra (core : core_obj) (mcu : MCUs_t) : MCUs_t :=
  match core.support_json_extra with
  | some b => { mcu with support_json_extra := b }
  | none => mcu

/-- The task loop of the topology part of `kernel_msg_layer_unpack`. -/
def add_listed_tasks : List String → x_heap → MCUs_t → Option (MCUs_t × x_heap)
  | [], h, mcu => some (mcu, h)
  | n :: rest, h, mcu =>
    match kernel_is_task_on_mcu mcu n with
    | none =>
      match kernel_add_task_to_mcu h mcu n with
      | none => none
      | some r =>
        add_listed_tasks rest r.2
          { r.1 with task_modified := true, task_queue := set_cached n false r.1.task_queue }
    | some _ => add_listed_tasks rest h { mcu with task_queue := set_cached n false mcu.task_queue }

/-- The function `kernel_clear_cache_task_on_mcu`. -/
def kernel_clear_cache_task_on_mcu (mcu : MCUs_t) : MCUs_t :=
  if mcu.task_queue.any (fun t => t.cached) then
    { mcu with task_modified := true, task_queue := mcu.task_queue.filter (fun t => !t.cached) }
  else mcu

/-- The body of the loop over `Cores` in `kernel_msg_layer_unpack` for one core name,
on the records (the calls of `kernel_mmap_update_to` in it write the to-regions
only). -/
def unpack_core (h : x_heap) (tunnel : List Nat) (env : topo_envelope) (core_name : String)
    (q : List MCUs_t) : Option (List MCUs_t × x_heap) :=
  match env.object core_name with
  | none => some (q, h)
  | some core =>
    match core.task_array with
    | none => some (q, h)
    | some tasks =>
      match is_mcu_exist core_name q with
      | none =>
        match kernel_create_mcu h core_name tunnel (core.jump.getD 1) q with
        | (none, q1, h1) => some (q1, h1)
        | (some mcu, _, h1) =>
          match add_listed_tasks tasks h1 (absorb_extra core { mcu with task_modified := true }) with
          | none => none
          | some r => some (q ++ [kernel_clear_cache_task_on_mcu r.1], r.2)
      | some mcu =>
        match add_listed_tasks tasks h
            (absorb_extra core
              (match core.jump with
               | some jump =>
                 if jump < mcu.jump then
                   { mcu with tunnel := tunnel, jump := jump, task_modified := true }
                 else mcu
               | none => mcu)) with
        | none => none
        | some r => some (update_mcu core_name (fun _ => kernel_clear_cache_task_on_mcu r.1) q, r.2)

/-- The loop over `Cores`. -/
def unpack_cores (tunnel : List Nat) (env : topo_envelope) :
    List String → x_heap → List MCUs_t → Option (List MCUs_t × x_heap)
  | [], h, q => some (q, h)
  | n :: rest, h, q =>
    match unpack_core h tunnel env n q with
    | none => none
    | some r => unpack_cores tunnel env rest r.2 r.1

/-- The topology part of `kernel_msg_layer_unpack` on the records: it runs only when
a local core is known. -/
def kernel_msg_layer_unpack (h : x_heap) (tunnel : List Nat) (env : topo_envelope)
    (q : List MCUs_t) : Option (List MCUs_t × x_heap) :=
  match get_my_core_name q with
  | none => some (q, h)
  | some _ => unpack_cores tunnel env env.cores h q

/-- The task loop of `kernel_recover_external_task_on_tunnel`. -/
def add_cached_tasks : List String → x_heap → MCUs_t → Option (MCUs_t × x_heap)
  | [], h, mcu => some (mcu, h)
  | n :: rest, h, mcu =>
    match kernel_is_task_on_mcu mcu n with
    | none =>
      match kernel_add_task_to_mcu h mcu n with
      | none => none
      | some r =>
        add_cached_tasks rest r.2 { r.1 with task_queue := set_cached n true r.1.task_queue }
    | some _ => add_cached_tasks rest h mcu

/-- The body of the loop over `Cores` in `kernel_recover_external_task_on_tunnel`. -/
def recover_core (h : x_heap) (tunnel : List Nat) (env : topo_envelope) (core_name : String)
    (q : List MCUs_t) : Option (List MCUs_t × x_heap) :=
  match env.object core_name with
  | none => some (q, h)
  | some core =>
    match is_mcu_exist core_name q with
    | some _ => some (q, h)
    | none =>
      match kernel_create_mcu h core_name tunnel (core.jump.getD 1) q with
      | (none, q1, h1) => some (q1, h1)
      | (some mcu, _, h1) =>
        match core.task_array with
        | none => some (q ++ [absorb_extra core mcu], h1)
        | some tasks =>
          match add_cached_tasks tasks h1 (absorb_extra core mcu) with
          | none => none
          | some r => some (q ++ [r.1], r.2)

/-- The loop over `Cores` of the restore. -/
def recover_cores (tunnel : List Nat) (env : topo_envelope) :
    List String → x_heap → List MCUs_t → Option (List MCUs_t × x_heap)
  | [], h, q => some (q, h)
  | n :: rest, h, q =>
    match recover_core h tunnel env n q with
    | none => none
    | some r => recover_cores tunnel env rest r.2 r.1

/-- The function `kernel_recover_external_task_on_tunnel` on the records, for a text
that parses to `env`. -/
def kernel_recover_external_task_on_tunnel (h : x_heap) (tunnel : List Nat)
    (env : topo_envelope) (q : List MCUs_t) : Option (List MCUs_t × x_heap) :=
  recover_cores tunnel env env.cores h q

/-- One step on the list of cores: a call of `synchonize_tasklist` whose
`local_core`, when not NULL, satisfies `ok`, the reception of a topology
envelope, or a restore; each with any allocator and any arguments, and only
when the call returns. -/
inductive mcu_step (ok : String → Prop) : List MCUs_t → List MCUs_t → Prop where
  | sync (h h1 : x_heap) (local_core : Option String) (tunnels : List Nat)
      (kernel_task_queue : List (Nat × kernel_task_t)) (q q1 : List MCUs_t)
      (hok : ∀ n, local_core = some n → ok n)
      (hr : synchonize_tasklist h local_core tunnels kernel_task_queue q = some (q1, h1)) :
      mcu_step ok q q1
  | topology (h h1 : x_heap) (tunnel : List Nat) (env : topo_envelope) (q q1 : List MCUs_t)
      (hr : kernel_msg_layer_unpack h tunnel env q = some (q1, h1)) : mcu_step ok q q1
  | restore (h h1 : x_heap) (tunnel : List Nat) (env : topo_envelope) (q q1 : List MCUs_t)
      (hr : kernel_recover_external_task_on_tunnel h tunnel env q = some (q1, h1)) :
      mcu_step ok q q1

/-- The lists of cores reached from the empty list. -/
inductive mcu_reachable (ok : String → Prop) : List MCUs_t → Prop where
  | start : mcu_reachable ok []
  | step (q q1 : List MCUs_t) (hr : mcu_reachable ok q) (hs : mcu_step ok q q1) :
      mcu_reachable ok q1

/-- No two records have the same `core`. -/
def core_names_nodup (q : List MCUs_t) : Prop := (q.map (fun m => m.core)).Nodup

/-- No record's task list holds the same task name twice. -/
def task_names_nodup (q : List MCUs_t) : Prop :=
  ∀ m ∈ q, (m.task_queue.map (fun t => t.task_name)).Nodup

/-- Every local record has a name that satisfies `ok`. -/
def locals_ok (ok : String → Prop) (q : List MCUs_t) : Prop :=
  ∀ m ∈ q, m.is_local = true → ok m.core

/-- The task "a" of the examples in a task list, at address 7. -/
def one_task : List (Nat × kernel_task_t) := [(7, example_task TASK_IDLE [] TASK_IDLE 0)]

/-- The list of cores after `synchonize_tasklist( "me", 1, tunnel 1 )` on the
empty list, the local task list being `one_task`. -/
def local_only : List MCUs_t :=
  [⟨[⟨false, "T"⟩], [1], 0, true, true, false, false, "me"⟩]

/-- The list of cores after `synchonize_tasklist( "A", 0 )` and then
`synchonize_tasklist( "B", 0 )` on the empty list, with no local task. -/
def two_locals : List MCUs_t :=
  [⟨[], [], 0, true, true, false, false, "A"⟩, ⟨[], [], 0, true, true, false, false, "B"⟩]

/-! ## The router and the remote post (`kernel_router_raw`, `try_post_msg_outside`) -/

/-- The fields of `struct comm_tunnel_t` the kernel reads (its declaration is not
in the sources).  A tunnel pointer is a number; a table gives the struct it
points to.  `send_proc` is the handle of the tunnel's send procedure list. -/
structure comm_tunnel_t where
  passive_tunnel : Bool
  tunnel_enabled : Bool
  send_proc : Nat
deriving DecidableEq, Repr

/-- A call `proc[0].func( &proc[1], tunnel, msg, len )` of a tunnel's send
procedure. -/
inductive route_event (α : Type) where
  | send (proc tunnel : Nat) (msg : α) (len : Int)
deriving DecidableEq, Repr

/-- The loop of `kernel_router_raw` over the records: `none` when the call does not
return (`mcu->tunnel->send_proc` read through a NULL `tunnel`), else the value
returned and the sends made. -/
def router_raw_loop {α : Type} (tunnels : Nat → comm_tunnel_t) (dst_core : String) (msg : α)
    (len : Int) (avoid_tunnel : Option Nat) : List MCUs_t → Option (Bool × List (route_event α))
  | [] => some (false, [])
  | mcu :: rest =>
    if mcu.core = dst_core then
      if mcu.tunnel.head? = avoid_tunnel then some (false, [])
      else
        match mcu.tunnel.head? with
        | some tunnel => some (true, [.send (tunnels tunnel).send_proc tunnel msg len])
        | none => none
    else router_raw_loop tunnels dst_core msg len avoid_tunnel rest

/-- The function `kernel_router_raw` on the list `kernel_mcu_queue`. -/
def kernel_router_raw {α : Type} (tunnels : Nat → comm_tunnel_t) (dst_core : Option String)
    (msg : Option α) (len : Int) (avoid_tunnel : Option Nat) (q : List MCUs_t) :
    Option (Bool × List (route_event α)) :=
  match dst_core, msg with
  | none, _ => some (false, [])
  | some _, none => some (false, [])
  | some dst, some m =>
    if len = 0 then some (true, [])
    else router_raw_loop tunnels dst m len avoid_tunnel q

/-- A cJSON constructor whose result the source tests (`cJSON_CreateObject`,
`cJSON_CreateArray`, `cJSON_CreateString`, `cJSON_PrintUnformatted`).  The
library is not in the sources; its results are released with `x_free`, so it
allocates with the kernel allocator, and one call is one allocator outcome:
`false` is a NULL result. -/
def cJSON_Create (h : x_heap) : Bool × x_heap := x_malloc h

/-- The types of a cJSON item the kernel tells apart. -/
inductive cJSON_type where
  | cJSON_String
  | cJSON_HexString
  | cJSON_other
deriving DecidableEq, Repr

/-- The item "data" of a msg envelope.  Modelled from the spec: the envelope
codec is a value model with typed leaves; a hex-string leaf holds the bytes
its text encodes (what `cJSON_hexassemble` returns) and their number in
`valueint`. -/
inductive cJSON_data where
  | String (valuestring : List Nat)
  | HexString (bytes : List Nat) (valueint : Int)
  | other
deriving DecidableEq, Repr

/-- Modelled from the spec: `cJSON_CreateHexString( data, length )`, which is not
in the sources: the leaf of the first `length` bytes of `data`. -/
def cJSON_CreateHexString (data : Option (List Nat)) (length : Int) : cJSON_data :=
  match data with
  | none => .HexString [] length
  | some d => .HexString (d.take length.toNat) length

/-- The characters of the C string at the start of a buffer that is followed
by a zero byte. -/
def c_string (data : List Nat) : List Nat := data.takeWhile (fun b => b != 0)

/-- The object "msg" of an envelope: its items, `none` when missing; `timer` is
whether the item "timer" is there. -/
structure msg_js where
  targ_task : Option String
  notify : Option String
  data : Option cJSON_data
  src_task : Option String
  timer : Bool
  delay : Option Int
  preodic : Option Int
  cnt : Option Int
deriving DecidableEq, Repr

/-- The struct `json_extra_data_t` (its declaration is not in the sources): the
header of the bytes that follow the text of an envelope, and these bytes. -/
structure json_extra_data_t where
  data_type : cJSON_type
  length : Nat
  data : List Nat
deriving DecidableEq, Repr

/-- The sizes `sizeof(struct json_extra_data_t)` and
`sizeof( ((struct json_extra_data_t *)0)->data )`. -/
structure extra_layout where
  sizeof_struct : Nat
  sizeof_data : Nat
deriving DecidableEq, Repr

/-- What `kernel_router_json` hands to `kernel_router_raw`: the text of the envelope
`js` (as the value it parses to) and the bytes appended after its NUL. -/
structure wire (J : Type) where
  js : J
  extra : Option json_extra_data_t
deriving DecidableEq, Repr

/-- The function `kernel_router_json`; `strlen_js` is `strlen` of the printed text
and `length` the `uint16_t` argument.  `none` when the call does not
return. -/
def kernel_router_json {J : Type} (tunnels : Nat → comm_tunnel_t) (L : extra_layout)
    (strlen_js : J → Nat) (h : x_heap) (dst_core : Option String) (js : Option J)
    (extra_data : Option (List Nat)) (length : Nat) (avoid_tunnel : Option Nat)
    (q : List MCUs_t) : Option (Bool × List (route_event (wire J)) × x_heap) :=
  match dst_core, js with
  | none, _ => some (false, [], h)
  | some _, none => some (false, [], h)
  | some dst, some j =>
    match cJSON_Create h with
    | (false, h1) => some (false, [], h1)
    | (true, h1) =>
      match extra_data with
      | some d =>
        if length > 0 then
          match x_malloc h1 with
          | (false, h2) => some (false, [], h2)
          | (true, h2) =>
            (kernel_router_raw tunnels (some dst)
              (some (⟨j, some ⟨.cJSON_HexString, length, d.take length⟩⟩ : wire J))
              (strlen_js j + 1 + length + L.sizeof_struct - L.sizeof_data) avoid_tunnel q).map
              (fun r => (r.1, r.2, h2))
        else
          (kernel_router_raw tunnels (some dst) (some (⟨j, none⟩ : wire J)) (strlen_js j + 1)
            avoid_tunnel q).map (fun r => (r.1, r.2, h1))
      | none =>
        (kernel_router_raw tunnels (some dst) (some (⟨j, none⟩ : wire J)) (strlen_js j + 1)
          avoid_tunnel q).map (fun r => (r.1, r.2, h1))

/-- The object `msg_js` that `try_post_msg_outside` fills for the task `task_name`;
`str_verify` is the function of that name, which is not in the sources. -/
def msg_envelope (support_json_extra : Bool) (str_verify : List Nat → Int → Int)
    (task_name : String) (msg : kernel_msg_t) (src_task : Option String) : msg_js :=
  { targ_task := some task_name
    notify := msg.msg.notification
    data :=
      if msg.msg.length > 0 then
        if str_verify msg.msg.data msg.msg.length = msg.msg.length then
          some (.String (c_string msg.msg.data))
        else if support_json_extra then some (cJSON_CreateHexString none 0)
        else some (cJSON_CreateHexString (some msg.msg.data) msg.msg.length)
      else none
    src_task := src_task
    timer := msg.timer.enable
    delay := if msg.timer.enable then some msg.timer.delay else none
    preodic := if msg.timer.enable then some msg.timer.preodic else none
    cnt := if msg.timer.enable then some msg.timer.cnt else none }

/-- The globals `try_post_msg_outside` works on besides the records. -/
structure post_state (σ : Type) where
  kernel_mmap_to_queue : List kernel_mmap_t
  transport : σ
  heap : x_heap

/-- The function `try_post_msg_outside` for a non-NULL `msg`: the value returned,
the globals after the call, the steps of `kernel_mmap_update_to` and the frames
handed to a send procedure; `none` when the call does not return.  The
envelope is `none` for the object without the item "msg" (when the second
`cJSON_CreateObject` returns NULL). -/
def try_post_msg_outside {σ : Type} (T : transport σ) (tunnels : Nat → comm_tunnel_t)
    (L : extra_layout) (strlen_js : Option msg_js → Nat) (str_verify : List Nat → Int → Int)
    (all_support_json_extra : Bool) (q : List MCUs_t) (c : post_state σ)
    (target_task : Option String) (msg : kernel_msg_t) (src_task : Option String) :
    Option (Bool × post_state σ × List sync_event × List (route_event (wire (Option msg_js)))) :=
  match target_task with
  | none => some (false, c, [], [])
  | some target =>
    match q.find? (fun mcu => (kernel_is_task_on_mcu mcu target).isSome) with
    | none => some (false, c, [], [])
    | some mcu =>
      let support_json_extra := all_support_json_extra
      let u := kernel_mmap_update_to T q (some mcu.core) true c.kernel_mmap_to_queue c.transport
      match cJSON_Create c.heap with
      | (false, h1) => some (false, ⟨u.2.1, u.2.2.1, h1⟩, u.2.2.2, [])
      | (true, h1) =>
        let js : Option msg_js × x_heap :=
          match cJSON_Create h1 with
          | (false, h2) => (none, h2)
          | (true, h2) => (some (msg_envelope support_json_extra str_verify target msg src_task), h2)
        (if support_json_extra then
          kernel_router_json tunnels L strlen_js js.2 (some mcu.core) (some js.1)
            (some msg.msg.data) (msg.msg.length % 65536).toNat none q
        else
          kernel_router_json tunnels L strlen_js js.2 (some mcu.core) (some js.1) none 0 none q).map
          (fun r => (r.1, ⟨u.2.1, u.2.2.1, r.2.2⟩, u.2.2.2, r.2.1))

/-- The loop "Check if ALL support json extra_data" of `kernel_msg_layer_unpack`: the
value it gives `all_support_json_extra`. -/
def is_all_support (q : List MCUs_t) : Bool := q.all (fun p => p.support_json_extra)

/-- The function `__new_str`: `__new_msg` with the length `strlen( str )`. -/
def __new_str (h : x_heap) (now : Int) (notification : Option String) (str : Option (List Nat)) :
    Option kernel_msg_t × x_heap :=
  match str with
  | none => (none, h)
  | some s => __new_msg h now notification (some s) (c_string s).length

/-- The function `__new_notification`. -/
def __new_notification (h : x_heap) (now : Int) (notification : Option String) :
    Option kernel_msg_t × x_heap :=
  __new_msg h now notification none 0

/-- The payload a hex-string item "data" with `valueint = 0` stands for: the
bytes after the text of the frame of `length` bytes, when their header passes
the three tests of `kernel_msg_layer_unpack`; else the length stays 0. -/
def extra_payload (L : extra_layout) (strlen_js : Nat) (length : Int)
    (extra : Option json_extra_data_t) : List Nat × Int :=
  match extra with
  | none => ([], 0)
  | some ex =>
    if length - (strlen_js + 1) ≥ L.sizeof_struct ∧ ex.data_type = .cJSON_HexString
        ∧ (ex.length : Int) ≤ length - (strlen_js + 1) - (L.sizeof_struct - L.sizeof_data) then
      (ex.data, ex.length)
    else ([], 0)

/-- The part "Try to receive kernel message From JSON" of `kernel_msg_layer_unpack`
for a frame of `length` bytes whose target task is on the local record: the
arguments of the call `post_msg( target_task, kmsg, src_task )` it ends with,
`none` when it posts nothing, and the allocator.  Modelled from the spec: the
macros `new_msg` and `msg_set_timer` are not in the sources; by their number of
arguments they are `__new_notification`, `__new_str`, `__new_msg` and
`msg_set_repeat_n_timer`.  The branch that routes the frame to another core
posts nothing here, and a frame without "targ_task" finds no record (the
`ASSERT_NULL( task_name )` of `kernel_is_task_on_mcu`). -/
def unpack_msg (h : x_heap) (now : Int) (L : extra_layout) (strlen_js : Option msg_js → Nat)
    (q : List MCUs_t) (w : wire (Option msg_js)) (length : Int) :
    Option (String × kernel_msg_t × Option String) × x_heap :=
  match w.js with
  | none => (none, h)
  | some m =>
    match m.targ_task with
    | none => (none, h)
    | some target_task =>
      match q.find? (fun mcu => (kernel_is_task_on_mcu mcu target_task).isSome) with
      | none => (none, h)
      | some dst_mcu =>
        if dst_mcu.is_local then
          let k : Option kernel_msg_t × x_heap :=
            match m.data with
            | none => __new_notification h now m.notify
            | some (.String s) => __new_str h now m.notify (some s)
            | some (.HexString bytes valueint) =>
              let d : List Nat × Int :=
                if valueint = 0 then extra_payload L (strlen_js w.js) length w.extra
                else (bytes, valueint)
              if d.2 > 0 then __new_msg h now m.notify (some d.1) d.2 else (none, h)
            | some .other => (none, h)
          let kmsg : Option kernel_msg_t :=
            if m.timer then
              match k.1 with
              | none => none
              | some p =>
                match msg_set_repeat_n_timer p (m.delay.getD 0) (m.preodic.getD (-1))
                    (m.cnt.getD (-1)) with
                | (true, p1) => some p1
                | (false, _) => none
            else k.1
          (kmsg.map (fun p => (target_task, p, m.src_task)), k.2)
        else (none, h)

/-- A table in which every tunnel is passive and not enabled, with the send
procedure 5. -/
def passive_tunnels : Nat → comm_tunnel_t := fun _ => ⟨true, false, 5⟩

/-- The cores of a node "me" that knows the peers "P" (task "T", binary
appendix supported) and "Q" (not supported), both on tunnel 1. -/
def post_mcus : List MCUs_t :=
  [⟨[⟨false, "a"⟩], [1], 0, true, true, false, false, "me"⟩,
   ⟨[⟨false, "T"⟩], [1], 1, false, true, false, false, "P"⟩,
   ⟨[⟨false, "U"⟩], [1], 1, false, false, false, false, "Q"⟩]

/-- The cores of the node "P" itself: its local record with the task "T". -/
def peer_mcus : List MCUs_t :=
  [⟨[⟨false, "T"⟩], [1], 0, true, true, false, false, "P"⟩]

/-- A `str_verify` for the examples: the number of leading bytes of the
payload, among the first `length`, that are printable ASCII. -/
def printable_prefix (data : List Nat) (length : Int) : Int :=
  ((data.take length.toNat).takeWhile (fun b => decide (32 ≤ b ∧ b ≤ 126))).length

/-- The layout of the examples: a four-byte header before `data[0]`. -/
def example_layout : extra_layout := ⟨4, 0⟩

/-- An owned message with the notification `n`, the payload `data` and no
timer. -/
def payload_msg (n : String) (data : List Nat) : kernel_msg_t :=
  { u := zero_timer, time_stamp := 0, msg := ⟨some n, none, data.length, data⟩ }

/-- The globals of the examples: no to-region and an allocator that never
fails. -/
def example_post_state : post_state Unit := ⟨[], (), ⟨[]⟩⟩

/-- The message of the examples that carries a timer: `msg_set_repeat_n_timer` with
delay 100, period 100 and count 3 on a notification "n". -/
def timer_example : kernel_msg_t := (msg_set_repeat_n_timer (payload_msg "n" []) 100 100 3).2

/-- The envelope `try_post_msg_outside` builds for `timer_example`, target "T",
source task "a". -/
def timer_envelope : msg_js :=
  ⟨some "T", some "n", none, some "a", true, some 100, some 100, some 2⟩

/-! ## The topology envelope as it is built, and the backup -/

/-- The loop that fills a "TaskArray": one `cJSON_CreateString` per task; `none`
when one of them returns NULL (`goto ERR`). -/
def pack_tasks : List kernel_external_task_t → x_heap → Option (List String × x_heap)
  | [], h => some ([], h)
  | task :: rest, h =>
    match cJSON_Create h with
    | (false, _) => none
    | (true, h1) => (pack_tasks rest h1).map (fun r => (task.task_name :: r.1, r.2))

/-- The statements of `synchonize_tasklist` and of
`kernel_backup_external_task_on_tunnel` that add one record to the envelope: the
name for "Cores", the object of the core with "Jump" = `jump`,
"SupportJsonExtra" and "TaskArray". -/
def pack_core (mcu : MCUs_t) (jump : Int) (h : x_heap) : Option ((String × core_obj) × x_heap) :=
  match cJSON_Create h with
  | (false, _) => none
  | (true, h1) =>
    match cJSON_Create h1 with
    | (false, _) => none
    | (true, h2) =>
      match cJSON_Create h2 with
      | (false, _) => none
      | (true, h3) =>
        (pack_tasks mcu.task_queue h3).map
          (fun r => ((mcu.core, ⟨some jump, some mcu.support_json_extra, some r.1⟩), r.2))

/-- The loop of `synchonize_tasklist` that packs the records: a record that is not
local and has a cached task is passed over. -/
def sync_pack_loop : List MCUs_t → x_heap → Option (List (String × core_obj) × x_heap)
  | [], h => some ([], h)
  | mcu :: rest, h =>
    if !mcu.is_local && mcu.task_queue.any (fun t => t.cached) then sync_pack_loop rest h
    else
      match pack_core mcu (to_i32 (mcu.jump + 1)) h with
      | none => none
      | some r => (sync_pack_loop rest r.2).map (fun rs => (r.1 :: rs.1, rs.2))

/-- The part "Pack up ALL Core Task List" of `synchonize_tasklist` on the records
`q`: the names added to "Cores" with the object added under each name, in
order, once the text is printed; `none` when a cJSON call returns NULL (the
function then returns without sending). -/
def synchonize_pack (h : x_heap) (q : List MCUs_t) : Option (List (String × core_obj) × x_heap) :=
  match cJSON_Create h with
  | (false, _) => none
  | (true, h1) =>
    match cJSON_Create h1 with
    | (false, _) => none
    | (true, h2) =>
      match sync_pack_loop q h2 with
      | none => none
      | some r =>
        match cJSON_Create r.2 with
        | (false, _) => none
        | (true, h3) => some (r.1, h3)

/-- The function `synchonize_tasklist` up to the text it sends: the records after
the part "Update Local Core Task List" and the envelope packed from them
(`none` when no envelope is printed); `none` when the call does not return. -/
def synchonize_tasklist_envelope (h : x_heap) (local_core : Option String) (tunnels : List Nat)
    (kernel_task_queue : List (Nat × kernel_task_t)) (q : List MCUs_t) :
    Option (List MCUs_t × Option (List (String × core_obj))) :=
  match synchonize_tasklist h local_core tunnels kernel_task_queue q with
  | none => none
  | some r => some (r.1, (synchonize_pack r.2 r.1).map (fun e => e.1))

/-- The records `synchonize_tasklist` lists: the local ones and those without a
cached task. -/
def announced (mcu : MCUs_t) : Bool := mcu.is_local || !mcu.task_queue.any (fun t => t.cached)

/-- The names of the tasks of a record, in order. -/
def task_names (mcu : MCUs_t) : List String := mcu.task_queue.map (fun t => t.task_name)

/-- Whether `kernel_backup_external_task_on_tunnel` looks at a record: it is not
local and its tunnel pointer equals `tunnel`. -/
def on_tunnel (tunnel : Option Nat) (mcu : MCUs_t) : Bool :=
  !mcu.is_local && mcu.tunnel.head? == tunnel

/-- The second loop of `kernel_backup_external_task_on_tunnel`. -/
def backup_pack_loop (tunnel : Option Nat) :
    List MCUs_t → x_heap → Option (List (String × core_obj) × x_heap)
  | [], h => some ([], h)
  | mcu :: rest, h =>
    if !mcu.is_local && mcu.tunnel.head? == tunnel then
      match pack_core mcu mcu.jump h with
      | none => none
      | some r => (backup_pack_loop tunnel rest r.2).map (fun rs => (r.1 :: rs.1, rs.2))
    else backup_pack_loop tunnel rest h

/-- The function `kernel_backup_external_task_on_tunnel`: `none` for NULL, else the text
returned, as the names of "Cores" with the object under each name. -/
def kernel_backup_external_task_on_tunnel (h : x_heap) (tunnel : Option Nat) (q : List MCUs_t) :
    Option (List (String × core_obj)) :=
  if q.any (fun mcu => !mcu.is_local && mcu.tunnel.head? == tunnel && mcu.task_modified) then
    match cJSON_Create h with
    | (false, _) => none
    | (true, h1) =>
      match cJSON_Create h1 with
      | (false, _) => none
      | (true, h2) =>
        match backup_pack_loop tunnel q h2 with
        | none => none
        | some r =>
          match cJSON_Create r.2 with
          | (false, _) => none
          | (true, _) => some r.1
  else none

/-- The cores of a node "me" with the peers "A" (modified) and "B" (not
modified) on tunnel 1 and "C" (modified) on tunnel 2. -/
def backup_mcus : List MCUs_t :=
  [⟨[⟨false, "a"⟩], [1, 2], 0, true, true, false, false, "me"⟩,
   ⟨[⟨false, "t1"⟩], [1], 1, false, true, false, true, "A"⟩,
   ⟨[⟨false, "t2"⟩], [1], 2, false, false, false, false, "B"⟩,
   ⟨[⟨false, "t3"⟩], [2], 1, false, false, false, true, "C"⟩]

/-- The cores of a node "Y" (task "t2", tunnels 1 and 2) that knows the peer "X"
(task "t1", three hops away over tunnel 2) and holds the record of the peer
"Z" restored from a backup of tunnel 1, with its task "t3" cached. -/
def cached_mcus : List MCUs_t :=
  [⟨[⟨false, "t2"⟩], [1, 2], 0, true, true, false, false, "Y"⟩,
   ⟨[⟨false, "t1"⟩], [2], 3, false, false, false, false, "X"⟩,
   ⟨[⟨true, "t3"⟩], [1], 1, false, false, false, false, "Z"⟩]

/-- The record `a` has the name, tunnel, hop count and the flags `is_local` and
`support_json_extra` of `b`, and `task_modified` when `b` has it. -/
def same_route (a b : MCUs_t) : Prop :=
  a.core = b.core ∧ a.tunnel = b.tunnel ∧ a.jump = b.jump ∧ a.is_local = b.is_local
    ∧ a.support_json_extra = b.support_json_extra
    ∧ (b.task_modified = true → a.task_modified = true)

/-- The hop count of no known core is larger in `q1` than in `q`. -/
def hops_not_increased (q q1 : List MCUs_t) : Prop :=
  ∀ core_name mcu, is_mcu_exist core_name q = some mcu →
    ∃ mcu1, is_mcu_exist core_name q1 = some mcu1 ∧ mcu1.jump ≤ mcu.jump

/-- The topology envelope of the spec's hop-reduction scenario: "X" with Jump 2
and its task "t1". -/
def hop_envelope : topo_envelope :=
  ⟨["X"], fun n => if n = "X" then some ⟨some 2, none, some ["t1"]⟩ else none⟩

/-- An envelope that lists "X" with Jump 2 and no TaskArray. -/
def bare_envelope : topo_envelope :=
  ⟨["X"], fun n => if n = "X" then some ⟨some 2, none, none⟩ else none⟩

/-- Every record named `core_name` is a peer record with a cached task. -/
def held_back (core_name : String) (q : List MCUs_t) : Prop :=
  ∀ m ∈ q, m.core = core_name → m.is_local = false ∧ ∃ t ∈ m.task_queue, t.cached = true

/-- The text of a backup that holds the peer "Z" with Jump 1 and the task
"t3". -/
def backup_text : topo_envelope :=
  ⟨["Z"], fun n => if n = "Z" then some ⟨some 1, some false, some ["t3"]⟩ else none⟩

/-! ## Successive ISR messages and the queue order -/

/-- The number of free slots in the groups whose capacity is greater than
`L + 1`. -/
def free_slots (L : Int) : List kernel_mailbox_group_t → Nat
  | [] => 0
  | g :: gs =>
    (if g.box_size > L + 1 then (g.mailbox_queue.filter slot_free).length else 0) + free_slots L gs

/-- Successive calls of `__new_msg_from_isr`, each with its clock, notification,
payload and length, with no drain in between: the number of calls that return
a slot and the groups after the last call. -/
def isr_calls : List (Int × String × List Nat × Int) → List kernel_mailbox_group_t →
    Nat × List kernel_mailbox_group_t
  | [], gs => (0, gs)
  | c :: rest, gs =>
    ((if (__new_msg_from_isr c.1 c.2.1 c.2.2.1 c.2.2.2 gs).1.isSome then 1 else 0)
        + (isr_calls rest (__new_msg_from_isr c.1 c.2.1 c.2.2.1 c.2.2.2 gs).2).1,
      (isr_calls rest (__new_msg_from_isr c.1 c.2.1 c.2.2.1 c.2.2.2 gs).2).2)

/-- The messages a task is handed over successive passes whose clocks are
`tocks`, when nothing else is mounted on its queue in between: each pass
selects with `select_msg` and unmounts the message it delivered. -/
def delivery_order : List (Int → Int) → List kernel_msg_t → List kernel_msg_t
  | [], _ => []
  | tock_us :: rest, queue =>
    match queue.get? (select_msg tock_us queue) with
    | none => []
    | some m => m :: delivery_order rest (UNMOUNT queue (select_msg tock_us queue))

/-- The task "T" with a callback that returns `TASK_READY_TO_SLEEP` for the
notification "sleep" and `TASK_IGNORE` for every other one; `q` is its message
queue and `st` its state. -/
def ignoring_task (q : List kernel_msg_t) (st : task_state) : kernel_task_t :=
  { fresh_task ⟨1, "T"⟩
      (fun _ m _ => if m.notification = some "sleep" then TASK_READY_TO_SLEEP else TASK_IGNORE)
      0 1 with
    msg_queue := q, is_busy := st }

/-! ## The synchronisation request (`kernel_mmap_request`, `kernel_mmap_check_unsync_core`) -/

/-- The envelope of a synchronisation request,
`{"mmap_sync_req": {"src_core": ..., "dst_core": ...}}`, as the value it
parses to. -/
structure mmap_sync_req where
  src_core : String
  dst_core : String
deriving DecidableEq, Repr

/-- The loop of `kernel_mmap_request` over the records, from the record list
`q`: `none` when the call does not return (a NULL `tunnel` read), else the
value returned, the sends made and the allocator.  A `cJSON_CreateObject` that
returns NULL for `js` lets the loop go on with the next record. -/
def mmap_request_loop (tunnels : Nat → comm_tunnel_t) (L : extra_layout)
    (strlen_js : mmap_sync_req → Nat) (src_core dst_core : String) (avoid_tunnel : Option Nat)
    (q : List MCUs_t) :
    List MCUs_t → x_heap → Option (Bool × List (route_event (wire mmap_sync_req)) × x_heap)
  | [], h => some (false, [], h)
  | mcu :: rest, h =>
    if mcu.core = src_core then
      if mcu.tunnel.head? = avoid_tunnel then some (false, [], h)
      else
        match mcu.tunnel.head? with
        | none => none
        | some tunnel =>
          if (tunnels tunnel).passive_tunnel && !(tunnels tunnel).tunnel_enabled then
            some (false, [], h)
          else
            match cJSON_Create h with
            | (false, h1) =>
              mmap_request_loop tunnels L strlen_js src_core dst_core avoid_tunnel q rest h1
            | (true, h1) =>
              match cJSON_Create h1 with
              | (false, h2) => some (false, [], h2)
              | (true, h2) =>
                kernel_router_json tunnels L strlen_js h2 (some mcu.core)
                  (some ⟨src_core, dst_core⟩) none 0 avoid_tunnel q
    else mmap_request_loop tunnels L strlen_js src_core dst_core avoid_tunnel q rest h

/-- The function `kernel_mmap_request` on the list `kernel_mcu_queue`. -/
def kernel_mmap_request (tunnels : Nat → comm_tunnel_t) (L : extra_layout)
    (strlen_js : mmap_sync_req → Nat) (h : x_heap) (q : List MCUs_t)
    (src_core dst_core : Option String) (avoid_tunnel : Option Nat) :
    Option (Bool × List (route_event (wire mmap_sync_req)) × x_heap) :=
  match src_core, dst_core with
  | none, _ => some (false, [], h)
  | some _, none => some (false, [], h)
  | some src, some dst => mmap_request_loop tunnels L strlen_js src dst avoid_tunnel q q h

/-- The walk of `kernel_mmap_check_unsync_core` over the from-regions: the records
after it, the allocator, the calls of `kernel_mmap_request` it makes and the
sends these calls make (the value `kernel_mmap_request` returns is not used);
`none` when a call does not return.  A region whose `from_core` is NULL finds
no record. -/
def unsync_walk (tunnels : Nat → comm_tunnel_t) (L : extra_layout)
    (strlen_js : mmap_sync_req → Nat) :
    List kernel_mmap_t → List MCUs_t → x_heap →
      Option (List MCUs_t × x_heap × List sync_event × List (route_event (wire mmap_sync_req)))
  | [], q, h => some (q, h, [], [])
  | p :: rest, q, h =>
    if !p.sync_already then
      match p.core with
      | none => unsync_walk tunnels L strlen_js rest q h
      | some from_core =>
        match is_mcu_exist from_core q with
        | none => unsync_walk tunnels L strlen_js rest q h
        | some mcu =>
          if !mcu.mmap_req_sent then
            match kernel_mmap_request tunnels L strlen_js h q (some from_core)
                (get_my_core_name q) none with
            | none => none
            | some o =>
              match unsync_walk tunnels L strlen_js rest
                  (update_mcu from_core (fun m => { m with mmap_req_sent := true }) q) o.2.2 with
              | none => none
              | some r =>
                some (r.1, r.2.1, .mmap_request (some from_core) (get_my_core_name q) :: r.2.2.1,
                  o.2.1 ++ r.2.2.2)
          else unsync_walk tunnels L strlen_js rest q h
    else unsync_walk tunnels L strlen_js rest q h

/-- The function `kernel_mmap_check_unsync_core`; `tick` is what `tick()` returns and
`tock` is the function `tock`.  Returns the value returned, the state, the
allocator, the calls of `kernel_mmap_request` and the sends made. -/
def kernel_mmap_check_unsync_core (tunnels : Nat → comm_tunnel_t) (L : extra_layout)
    (strlen_js : mmap_sync_req → Nat) (tick : Int) (tock : Int → Int) (timeout_set : Int)
    (c : sync_state) (h : x_heap) :
    Option (Bool × sync_state × x_heap × List sync_event
      × List (route_event (wire mmap_sync_req))) :=
  let c1 : sync_state :=
    if timeout_set > 0 then { c with mmap_check_unsync_timeout := timeout_set, t0 := tick } else c
  if c1.mmap_check_unsync_timeout ≠ -1 ∧ tock c1.t0 > c1.mmap_check_unsync_timeout then
    match unsync_walk tunnels L strlen_js c1.kernel_mmap_from_queue
        (c1.kernel_mcu_queue.map (fun m => { m with mmap_req_sent := false })) h with
    | none => none
    | some w =>
      some (true, { c1 with mmap_check_unsync_timeout := -1, kernel_mcu_queue := w.1 }, w.2.1,
        w.2.2.1, w.2.2.2)
  else some (true, c1, h, [], [])

/-- The frame a request from `dst_core` for the regions of `src_core` makes when
`mcu` is the record found for `src_core`: one frame with the envelope on the
tunnel of the record, and none when there is no record, its tunnel is NULL, or
its tunnel is passive and not enabled. -/
def route_of (tunnels : Nat → comm_tunnel_t) (strlen_js : mmap_sync_req → Nat)
    (src_core dst_core : String) : Option MCUs_t → List (route_event (wire mmap_sync_req))
  | none => []
  | some mcu =>
    match mcu.tunnel.head? with
    | some tunnel =>
      if (tunnels tunnel).passive_tunnel && !(tunnels tunnel).tunnel_enabled then []
      else [.send (tunnels tunnel).send_proc tunnel ⟨⟨src_core, dst_core⟩, none⟩
        (strlen_js ⟨src_core, dst_core⟩ + 1)]
    | none => []

/-- The request that is due for the source core `src_core` on the records
`q`: the frame `route_of` gives for the first record named `src_core`, with
the name of the local core as destination, and none when the local core has
no name. -/
def request_route (tunnels : Nat → comm_tunnel_t) (strlen_js : mmap_sync_req → Nat)
    (q : List MCUs_t) (src_core : String) : List (route_event (wire mmap_sync_req)) :=
  match get_my_core_name q with
  | some dst => route_of tunnels strlen_js src_core dst (is_mcu_exist src_core q)
  | none => []

/-- A table in which every tunnel is active (not passive) and enabled, with the
send procedure 5. -/
def active_tunnels : Nat → comm_tunnel_t := fun _ => ⟨false, true, 5⟩

/-- A topology envelope that lists "X" with Jump 2147483647 (the value
`valueint` holds for every number of at least INT_MAX) and its task "t1". -/
def far_envelope : topo_envelope :=
  ⟨["X"], fun n => if n = "X" then some ⟨some 2147483647, none, some ["t1"]⟩ else none⟩

/-! ## Theorems -/

theorem to_i32_id (x : Int) (h1 : -(2 ^ 31) ≤ x) (h2 : x < 2 ^ 31) : to_i32 x = x := by
  unfold to_i32
  have : (x + 2 ^ 31) % 2 ^ 32 = x + 2 ^ 31 := Int.emod_eq_of_lt (by omega) (by omega)
  omega

/-- C1 (the code at the failing input): starting from the empty task list,
`create_task("a", prio 5)` followed by `create_task("b", prio 3)` both return
true, yet `kernel_task_queue` still points at the priority-5 record, whose
`next` is the priority-3 record, whose `next` is the priority-5 record again:
the list is circular, its head does not hold the minimum priority, a walk
from the head never reaches NULL, and a third `create_task` never returns. -/
theorem create_task_below_head_makes_cycle :
    (create_tasks (fun _ _ _ => TASK_IDLE) [(⟨1, "a"⟩, 5), (⟨2, "b"⟩, 3)] ⟨[], none⟩ ⟨[]⟩).map
        (fun r => (r.1, r.2.1.kernel_task_queue, links r.2.1, (task_list r.2.1).isNone))
      = some ([true, true], some 0, [(some 1, 5), (some 0, 3)], true)
    ∧ create_tasks (fun _ _ _ => TASK_IDLE) [(⟨1, "a"⟩, 5), (⟨2, "b"⟩, 3), (⟨3, "c"⟩, 4)]
        ⟨[], none⟩ ⟨[]⟩ = none := by
  constructor <;> rfl

/-! ### Mailbox allocation from interrupt context -/

@[simp] theorem mail_set_mail (p : kernel_msg_t) (b : kernel_mailbox_t) : (p.set_mail b).mail = b := rfl

@[simp] theorem timer_set_timer (p : kernel_msg_t) (t : kernel_msg_timer_t) :
    (p.set_timer t).timer = t := rfl

theorem claim_slot_none (now : Int) (n : String) (d : List Nat) (L : Int) (q : List kernel_msg_t)
    (h : ∀ p ∈ q, slot_free p = false) : claim_slot now n d L q = (none, q) := by
  induction q with
  | nil => rfl
  | cons p rest ih =>
    have hp := h p (List.mem_cons_self _ _)
    have hr := ih (fun x hx => h x (List.mem_cons_of_mem _ hx))
    simp only [slot_free, Bool.and_eq_false_imp, Bool.not_eq_true', Bool.not_eq_false'] at hp
    unfold claim_slot
    cases ho : p.mail.occupied with
    | true => simp [hr]
    | false => simp [hp ho, hr]

theorem claim_slot_some (now : Int) (n : String) (d : List Nat) (L : Int) (q : List kernel_msg_t)
    (i : Nat) (h : (claim_slot now n d L q).1 = some i) :
    (∃ p, q.get? i = some p ∧ slot_free p = true) ∧
      ∀ j, j < i → ∀ p, q.get? j = some p → slot_free p = false := by
  induction q generalizing i with
  | nil => simp [claim_slot] at h
  | cons p rest ih =>
    unfold claim_slot at h
    cases ho : p.mail.occupied with
    | true =>
      simp only [ho, Bool.not_true, Bool.false_eq_true, if_false, Option.map_eq_some'] at h
      obtain ⟨i0, hi0, rfl⟩ := h
      obtain ⟨h1, h2⟩ := ih i0 hi0
      refine ⟨by simpa using h1, ?_⟩
      intro j hj q hq
      cases j with
      | zero => simp at hq; subst hq; simp [slot_free, ho]
      | succ j => exact h2 j (by omega) q (by simpa using hq)
    | false =>
      cases ht : p.mail.token with
      | true =>
        simp only [ho, ht, Bool.not_false, if_true, Option.map_eq_some'] at h
        obtain ⟨i0, hi0, rfl⟩ := h
        obtain ⟨h1, h2⟩ := ih i0 hi0
        refine ⟨by simpa using h1, ?_⟩
        intro j hj q hq
        cases j with
        | zero => simp at hq; subst hq; simp [slot_free, ho, ht]
        | succ j => exact h2 j (by omega) q (by simpa using hq)
      | false =>
        simp [ho, ht] at h
        subst h
        exact ⟨⟨p, by simp, by simp [slot_free, ho, ht]⟩, fun j hj => absurd hj (by omega)⟩



theorem claim_slot_isSome (now : Int) (n : String) (d : List Nat) (L : Int) (q : List kernel_msg_t)
    (h : ∃ p ∈ q, slot_free p = true) : (claim_slot now n d L q).1.isSome = true := by
  induction q with
  | nil => simp at h
  | cons p rest ih =>
    unfold claim_slot
    cases ho : p.mail.occupied with
    | true =>
      have : ∃ x ∈ rest, slot_free x = true := by
        obtain ⟨x, hx, hf⟩ := h
        rcases List.mem_cons.1 hx with rfl | hx
        · simp [slot_free, ho] at hf
        · exact ⟨x, hx, hf⟩
      simpa [ho] using ih this
    | false =>
      cases ht : p.mail.token with
      | true =>
        have : ∃ x ∈ rest, slot_free x = true := by
          obtain ⟨x, hx, hf⟩ := h
          rcases List.mem_cons.1 hx with rfl | hx
          · simp [slot_free, ho, ht] at hf
          · exact ⟨x, hx, hf⟩
        simpa [ho, ht] using ih this
      | false => simp [ho, ht]

theorem new_msg_from_isr_none (now : Int) (n : String) (d : List Nat) (L : Int)
    (gs : List kernel_mailbox_group_t)
    (h : ∀ g ∈ gs, g.box_size > to_i32 (L + 1) → ∀ p ∈ g.mailbox_queue, slot_free p = false) :
    __new_msg_from_isr now n d L gs = (none, gs) := by
  induction gs with
  | nil => rfl
  | cons g gs ih =>
    have hr := ih (fun x hx => h x (List.mem_cons_of_mem _ hx))
    unfold __new_msg_from_isr
    by_cases hb : g.box_size > to_i32 (L + 1)
    · have := claim_slot_none now n d L g.mailbox_queue (h g (List.mem_cons_self _ _) hb)
      simp [hb, this, hr]
    · simp [hb, hr]

theorem new_msg_from_isr_some (now : Int) (n : String) (d : List Nat) (L : Int)
    (gs : List kernel_mailbox_group_t) (gi si : Nat)
    (h : (__new_msg_from_isr now n d L gs).1 = some (gi, si)) :
    ∃ g, gs.get? gi = some g ∧ g.box_size > to_i32 (L + 1) ∧
      (∃ p, g.mailbox_queue.get? si = some p ∧ slot_free p = true) ∧
      (∀ j, j < si → ∀ p, g.mailbox_queue.get? j = some p → slot_free p = false) ∧
      (∀ j, j < gi → ∀ g0, gs.get? j = some g0 → g0.box_size > to_i32 (L + 1) →
        ∀ p ∈ g0.mailbox_queue, slot_free p = false) := by
  induction gs generalizing gi with
  | nil => simp [__new_msg_from_isr] at h
  | cons g gs ih =>
    unfold __new_msg_from_isr at h
    by_cases hb : g.box_size > to_i32 (L + 1)
    · cases hc : (claim_slot now n d L g.mailbox_queue).1 with
      | some i =>
        have hc2 : claim_slot now n d L g.mailbox_queue = (some i, (claim_slot now n d L g.mailbox_queue).2) := by
          rw [← hc]
        rw [if_pos hb, hc2] at h
        simp only [Option.some.injEq, Prod.mk.injEq] at h
        obtain ⟨rfl, rfl⟩ := h
        obtain ⟨h1, h2⟩ := claim_slot_some now n d L g.mailbox_queue _ hc
        exact ⟨g, by simp, hb, h1, h2, fun j hj => absurd hj (by omega)⟩
      | none =>
        have hc2 : claim_slot now n d L g.mailbox_queue = (none, (claim_slot now n d L g.mailbox_queue).2) := by
          rw [← hc]
        rw [if_pos hb, hc2] at h
        simp only [Option.map_eq_some'] at h
        obtain ⟨⟨g1, s1⟩, hi0, hx⟩ := h
        simp only [Prod.mk.injEq] at hx
        obtain ⟨rfl, rfl⟩ := hx
        obtain ⟨g0, e1, e2, e3, e4, e5⟩ := ih g1 hi0
        refine ⟨g0, by simpa using e1, e2, e3, e4, ?_⟩
        intro j hj gj hgj hbj p hp
        cases j with
        | zero =>
          simp at hgj; subst hgj
          by_contra hfree
          have := claim_slot_isSome now n d L g.mailbox_queue ⟨p, hp, by simpa using hfree⟩
          simp [hc] at this
        | succ j => exact e5 j (by omega) gj (by simpa using hgj) hbj p hp
    · rw [if_neg hb] at h
      simp only [Option.map_eq_some'] at h
      obtain ⟨⟨g1, s1⟩, hi0, hx⟩ := h
      simp only [Prod.mk.injEq] at hx
      obtain ⟨rfl, rfl⟩ := hx
      obtain ⟨g0, e1, e2, e3, e4, e5⟩ := ih g1 hi0
      refine ⟨g0, by simpa using e1, e2, e3, e4, ?_⟩
      intro j hj gj hgj hbj p hp
      cases j with
      | zero => simp at hgj; subst hgj; exact absurd hbj hb
      | succ j => exact e5 j (by omega) gj (by simpa using hgj) hbj p hp

theorem new_msg_from_isr_isSome (now : Int) (n : String) (d : List Nat) (L : Int)
    (gs : List kernel_mailbox_group_t)
    (h : ∃ g ∈ gs, g.box_size > to_i32 (L + 1) ∧ ∃ p ∈ g.mailbox_queue, slot_free p = true) :
    (__new_msg_from_isr now n d L gs).1.isSome = true := by
  induction gs with
  | nil => simp at h
  | cons g gs ih =>
    unfold __new_msg_from_isr
    by_cases hb : g.box_size > to_i32 (L + 1)
    · cases hc : (claim_slot now n d L g.mailbox_queue).1 with
      | some i =>
        have hc2 : claim_slot now n d L g.mailbox_queue = (some i, (claim_slot now n d L g.mailbox_queue).2) := by
          rw [← hc]
        rw [if_pos hb, hc2]; rfl
      | none =>
        have hc2 : claim_slot now n d L g.mailbox_queue = (none, (claim_slot now n d L g.mailbox_queue).2) := by
          rw [← hc]
        rw [if_pos hb, hc2]
        have : ∃ x ∈ gs, x.box_size > to_i32 (L + 1) ∧ ∃ p ∈ x.mailbox_queue, slot_free p = true := by
          obtain ⟨x, hx, hbx, p, hp, hf⟩ := h
          rcases List.mem_cons.1 hx with rfl | hx
          · have := claim_slot_isSome now n d L x.mailbox_queue ⟨p, hp, hf⟩
            simp [hc] at this
          · exact ⟨x, hx, hbx, p, hp, hf⟩
        simpa using ih this
    · rw [if_neg hb]
      have : ∃ x ∈ gs, x.box_size > to_i32 (L + 1) ∧ ∃ p ∈ x.mailbox_queue, slot_free p = true := by
        obtain ⟨x, hx, hbx, hf⟩ := h
        rcases List.mem_cons.1 hx with rfl | hx
        · exact absurd hbx hb
        · exact ⟨x, hx, hbx, hf⟩
      simpa using ih this

/-- C8: `msg_set_repeat_n_timer` applied to a mailbox-sourced message
(`mailbox_type` set) returns NULL and leaves the whole message unchanged
(occupied, token, task_handler, payload, time stamp), for all `delay`,
`preodic` and `cnt`. -/
theorem msg_set_repeat_n_timer_rejects_mailbox (p : kernel_msg_t) (delay preodic cnt : Int)
    (hp : p.mailbox_type = true) : msg_set_repeat_n_timer p delay preodic cnt = (false, p) := by
  simp [msg_set_repeat_n_timer, hp]

/-- Witness of C8 on an occupied, posted slot. -/
theorem msg_set_repeat_n_timer_rejects_mailbox_witness :
    posted_slot.mailbox_type = true ∧ msg_set_repeat_n_timer posted_slot 100 100 3 = (false, posted_slot) :=
  ⟨rfl, msg_set_repeat_n_timer_rejects_mailbox posted_slot 100 100 3 rfl⟩

/-- C9 (counterexample): a group of capacity 8 whose slots are all free does
not accept a payload of length 7 = capacity - 1 (the call returns NULL); and in
the pool with groups of capacity 8 and 64, all slots free, the 7-byte payload
is put into the 64-byte group (group index 1) although the 8-byte group is the
smallest one whose capacity is strictly greater than 7. -/
theorem new_msg_from_isr_capacity_minus_one_rejected :
    (__new_msg_from_isr 0 "n" (List.replicate 7 0) 7 [⟨List.replicate 4 empty_slot, 8, 4, false⟩]).1 = none
    ∧ (__new_msg_from_isr 0 "n" (List.replicate 7 0) 7 pool_8_64).1 = some (1, 0) := by
  constructor <;> rfl

/-- C9 (amended): for a payload length from 0 to INT32_MAX - 1, when
`__new_msg_from_isr` succeeds, the slot it claims is the
first free slot of the first group, in list order, whose capacity is strictly
greater than `length + 1` and that has a free slot; and the call succeeds
whenever some group of capacity greater than `length + 1` has a free slot, so a
payload of length capacity - 2 is accepted when a group of that capacity has a
free slot. -/
theorem new_msg_from_isr_first_fit (now : Int) (n : String) (d : List Nat) (L : Int)
    (gs : List kernel_mailbox_group_t) (h0 : 0 ≤ L) (h1 : L < 2 ^ 31 - 1) :
    (∀ gi si, (__new_msg_from_isr now n d L gs).1 = some (gi, si) →
      ∃ g, gs.get? gi = some g ∧ g.box_size > L + 1 ∧
        (∃ p, g.mailbox_queue.get? si = some p ∧ slot_free p = true) ∧
        (∀ j, j < si → ∀ p, g.mailbox_queue.get? j = some p → slot_free p = false) ∧
        (∀ j, j < gi → ∀ g0, gs.get? j = some g0 → g0.box_size > L + 1 →
          ∀ p ∈ g0.mailbox_queue, slot_free p = false)) ∧
    ((∃ g ∈ gs, g.box_size > L + 1 ∧ ∃ p ∈ g.mailbox_queue, slot_free p = true) →
      (__new_msg_from_isr now n d L gs).1.isSome = true) := by
  have e : to_i32 (L + 1) = L + 1 := to_i32_id _ (by omega) (by omega)
  have hs := new_msg_from_isr_some now n d L gs
  have hi := new_msg_from_isr_isSome now n d L gs
  rw [e] at hs hi
  exact ⟨fun gi si h => hs gi si h, hi⟩

/-- Witness of C9 (amended): a 6-byte payload (capacity - 2) is accepted by the
8-byte group of the spec's pool, in its first slot. -/
theorem new_msg_from_isr_first_fit_witness :
    (__new_msg_from_isr 0 "n" (List.replicate 6 0) 6 pool_8_64).1 = some (0, 0)
    ∧ (∃ g, pool_8_64.get? 0 = some g ∧ g.box_size > 6 + 1 ∧
        (∃ p, g.mailbox_queue.get? 0 = some p ∧ slot_free p = true) ∧
        (∀ j, j < 0 → ∀ p, g.mailbox_queue.get? j = some p → slot_free p = false) ∧
        (∀ j, j < 0 → ∀ g0, pool_8_64.get? j = some g0 → g0.box_size > 6 + 1 →
          ∀ p ∈ g0.mailbox_queue, slot_free p = false))
    ∧ (__new_msg_from_isr 0 "n" (List.replicate 6 0) 6 pool_8_64).1.isSome = true :=
  ⟨rfl,
    (new_msg_from_isr_first_fit 0 "n" (List.replicate 6 0) 6 pool_8_64 (by decide)
      (by decide)).1 0 0 rfl,
    (new_msg_from_isr_first_fit 0 "n" (List.replicate 6 0) 6 pool_8_64 (by decide)
      (by decide)).2
      ⟨⟨List.replicate 4 empty_slot, 8, 4, false⟩, by simp [pool_8_64], by decide,
        empty_slot, by simp, rfl⟩⟩

/-- A payload length below INT32_MAX that is at least the capacity of every
group: `__new_msg_from_isr` returns NULL and leaves the whole pool unchanged
(no slot's `occupied` or `token` flag and no group's `unread_msg` flag
changes). -/
theorem new_msg_from_isr_too_long (now : Int) (n : String) (d : List Nat) (L : Int)
    (gs : List kernel_mailbox_group_t) (h0 : 0 ≤ L) (h1 : L < 2 ^ 31 - 1)
    (h : ∀ g ∈ gs, g.box_size ≤ L) :
    __new_msg_from_isr now n d L gs = (none, gs) := by
  have e : to_i32 (L + 1) = L + 1 := to_i32_id _ (by omega) (by omega)
  apply new_msg_from_isr_none now n d L gs
  rw [e]
  exact fun g hg hb => absurd (h g hg) (by omega)

/-- C10 (the code at the failing input): on the pool with four free slots of
capacity 8 and two of capacity 64, a call with length 2147483647 = INT32_MAX,
which is at least the capacity of every group.  The `int32_t` sum
`length + 1` is -2147483648, the test `box_size > length + 1` passes for the
8-byte group, and the call returns the first slot of that group with
`occupied` and `token` set and the group marked unread, where the claim says
NULL and an unchanged pool.  A 64-byte payload on the same pool is refused
with the pool unchanged. -/
theorem new_msg_from_isr_max_length_claims_slot :
    (∀ g ∈ pool_8_64, g.box_size ≤ 2147483647)
    ∧ to_i32 (2147483647 + 1) = -2147483648
    ∧ (__new_msg_from_isr 0 "n" [] 2147483647 pool_8_64).1 = some (0, 0)
    ∧ (slot_at 0 0 (__new_msg_from_isr 0 "n" [] 2147483647 pool_8_64).2).map
        (fun p => (p.mail.occupied, p.mail.token)) = some (true, true)
    ∧ (__new_msg_from_isr 0 "n" [] 2147483647 pool_8_64).2.map (fun g => g.unread_msg)
        = [true, false]
    ∧ __new_msg_from_isr 0 "n" (List.replicate 64 0) 64 pool_8_64 = (none, pool_8_64) := by
  refine ⟨by decide, by decide, by decide, by decide, by decide, ?_⟩
  exact new_msg_from_isr_too_long 0 "n" (List.replicate 64 0) 64 pool_8_64 (by decide)
    (by decide) (by decide)

/-! ### Message selection -/

theorem select_loop_spec (tock : Int → Int) (q : List kernel_msg_t) (i : Nat) (mx : Int) (m : Nat) :
    (select_loop tock q i mx m = m ∧ ∀ p ∈ q, tock p.time_stamp ≤ mx) ∨
    (∃ j x, select_loop tock q i mx m = i + j ∧ q.get? j = some x ∧ mx < tock x.time_stamp ∧
      ∀ p ∈ q, tock p.time_stamp ≤ tock x.time_stamp) := by
  induction q generalizing i mx m with
  | nil => left; simp [select_loop]
  | cons p rest ih =>
    unfold select_loop
    by_cases hp : tock p.time_stamp > mx
    · rw [if_pos hp]
      rcases ih (i + 1) (tock p.time_stamp) i with ⟨h1, h2⟩ | ⟨j, x, h1, h2, h3, h4⟩
      · right
        refine ⟨0, p, by simpa using h1, by simp, hp, ?_⟩
        intro y hy
        rcases List.mem_cons.1 hy with rfl | hy
        · exact le_refl _
        · exact h2 y hy
      · right
        refine ⟨j + 1, x, by rw [h1]; omega, by simpa using h2, by omega, ?_⟩
        intro y hy
        rcases List.mem_cons.1 hy with rfl | hy
        · omega
        · exact h4 y hy
    · rw [if_neg hp]
      rcases ih (i + 1) mx m with ⟨h1, h2⟩ | ⟨j, x, h1, h2, h3, h4⟩
      · left
        refine ⟨h1, ?_⟩
        intro y hy
        rcases List.mem_cons.1 hy with rfl | hy
        · omega
        · exact h2 y hy
      · right
        refine ⟨j + 1, x, by rw [h1]; omega, by simpa using h2, h3, ?_⟩
        intro y hy
        rcases List.mem_cons.1 hy with rfl | hy
        · omega
        · exact h4 y hy

theorem select_msg_spec (tock : Int → Int) (q : List kernel_msg_t) (hq : q ≠ []) :
    ∃ m, q.get? (select_msg tock q) = some m ∧
      ((∃ p ∈ q, 0 < tock p.time_stamp) → ∀ p ∈ q, tock p.time_stamp ≤ tock m.time_stamp) ∧
      ((∀ p ∈ q, tock p.time_stamp ≤ 0) → select_msg tock q = 0) := by
  unfold select_msg
  rcases select_loop_spec tock q 0 0 0 with ⟨h1, h2⟩ | ⟨j, x, h1, h2, h3, h4⟩
  · cases q with
    | nil => exact absurd rfl hq
    | cons a rest =>
      refine ⟨a, by rw [h1]; rfl, ?_, fun _ => h1⟩
      rintro ⟨p, hp, hpos⟩
      have := h2 p hp
      omega
  · refine ⟨x, by rw [h1]; simpa using h2, fun _ => h4, ?_⟩
    intro hall
    obtain hx := hall x (List.get?_mem h2)
    omega

/-! ### The dispatch step -/

theorem keep_pending_frame (t : kernel_task_t) :
    (keep_pending t).msg_queue = t.msg_queue ∧ (keep_pending t).pm = t.pm ∧
    (keep_pending t).busy_without_traffic_time = t.busy_without_traffic_time ∧
    (keep_pending t).busy_timeout = t.busy_timeout ∧
    (keep_pending t).timer_msg_queue = t.timer_msg_queue ∧
    (keep_pending t).task_deleted = t.task_deleted ∧
    (keep_pending t).task_suspended = t.task_suspended ∧
    (keep_pending t).task_paused = t.task_paused := by
  unfold keep_pending
  split <;> simp

theorem keep_pending_is_busy (t : kernel_task_t) :
    (keep_pending t).is_busy
      = if t.msg_queue = [] then t.is_busy else t.is_busy ||| TASK_MSG_PENDING := by
  unfold keep_pending
  cases h : t.msg_queue <;> simp [h]

theorem after_drop_events {σ : Type} (P : pwr_mgr σ) (a : Nat) (t : kernel_task_t) (s : σ) :
    (after_drop P a t s).2.2
      = if (keep_pending t).is_busy = TASK_READY_TO_SLEEP then [.pwr_diactivate a] else [] := by
  unfold after_drop
  by_cases h1 : (keep_pending t).is_busy = TASK_READY_TO_SLEEP
  · simp [h1]
  · by_cases h2 : resets_counter (keep_pending t).is_busy <;> simp [h1, h2]

theorem after_drop_is_busy {σ : Type} (P : pwr_mgr σ) (a : Nat) (t : kernel_task_t) (s : σ) :
    (after_drop P a t s).1.is_busy
      = if (keep_pending t).is_busy = TASK_READY_TO_SLEEP then TASK_IDLE else (keep_pending t).is_busy := by
  unfold after_drop
  by_cases h1 : (keep_pending t).is_busy = TASK_READY_TO_SLEEP
  · simp [h1]
  · by_cases h2 : resets_counter (keep_pending t).is_busy <;> simp [h1, h2]

theorem after_drop_counter {σ : Type} (P : pwr_mgr σ) (a : Nat) (t : kernel_task_t) (s : σ) :
    (after_drop P a t s).1.busy_without_traffic_time
      = if (keep_pending t).is_busy ≠ TASK_READY_TO_SLEEP ∧ resets_counter (keep_pending t).is_busy then 0
        else t.busy_without_traffic_time := by
  unfold after_drop
  by_cases h1 : (keep_pending t).is_busy = TASK_READY_TO_SLEEP
  · simp [h1, (keep_pending_frame t).2.2.1]
  · by_cases h2 : resets_counter (keep_pending t).is_busy <;>
      simp [h1, h2, (keep_pending_frame t).2.2.1]

theorem after_drop_frame {σ : Type} (P : pwr_mgr σ) (a : Nat) (t : kernel_task_t) (s : σ) :
    (after_drop P a t s).1.msg_queue = t.msg_queue ∧
    (after_drop P a t s).1.timer_msg_queue = t.timer_msg_queue ∧
    (after_drop P a t s).1.task_deleted = t.task_deleted ∧
    (after_drop P a t s).1.task_suspended = t.task_suspended ∧
    (after_drop P a t s).1.task_paused = t.task_paused := by
  have f := keep_pending_frame t
  unfold after_drop
  by_cases h1 : (keep_pending t).is_busy = TASK_READY_TO_SLEEP
  · simp [h1, f]
  · by_cases h2 : resets_counter (keep_pending t).is_busy <;> simp [h1, h2, f]

theorem call_task_frame (a : Nat) (t : kernel_task_t) (m : kernel_msg_t) :
    (call_task a t m).1.msg_queue = t.msg_queue ∧
    (call_task a t m).1.busy_without_traffic_time = t.busy_without_traffic_time ∧
    (call_task a t m).1.timer_msg_queue = t.timer_msg_queue ∧
    (call_task a t m).1.task_deleted = t.task_deleted ∧
    (call_task a t m).1.task_suspended = t.task_suspended ∧
    (call_task a t m).1.task_paused = t.task_paused := by
  unfold call_task
  cases t.callback <;> simp

theorem call_task_callback (a : Nat) (t : kernel_task_t) (m : kernel_msg_t) (a1 : Nat)
    (m1 : kernel_msg_t) (ret : task_state) (h : sched_event.callback a1 m1 ret ∈ (call_task a t m).2) :
    a1 = a ∧ m1 = m ∧ (∃ cb, t.callback = some cb ∧ ret = cb t.task_name m.msg t.arg) ∧
    (call_task a t m).2 = [.callback a m ret] ∧
    (call_task a t m).1.is_busy
      = if ret = TASK_IGNORE then clear_bits t.is_busy TASK_MSG_PENDING else ret := by
  unfold call_task at h ⊢
  cases hc : t.callback with
  | none => simp [hc] at h
  | some cb =>
    simp only [hc, List.mem_singleton, sched_event.callback.injEq] at h
    obtain ⟨rfl, rfl, rfl⟩ := h
    exact ⟨rfl, rfl, ⟨cb, rfl, rfl⟩, rfl, rfl⟩

/-- The record a delivery leaves before the state `switch`: the callback result
is stored and the delivered message unlinked. -/
theorem deliver_callback_inv {σ : Type} (P : pwr_mgr σ) (env : sched_env) (a : Nat)
    (t : kernel_task_t) (s : σ) (a1 : Nat) (m : kernel_msg_t) (ret : task_state)
    (h : sched_event.callback a1 m ret ∈ (deliver P env a t s).2.2) :
    a1 = a ∧ (∃ cb, t.callback = some cb ∧ ret = cb t.task_name m.msg t.arg) ∧
      t.msg_queue.get? (select_msg env.tock_us t.msg_queue) = some m ∧
      ∃ t1 : kernel_task_t,
        t1.is_busy = (if ret = TASK_IGNORE then clear_bits t.is_busy TASK_MSG_PENDING else ret) ∧
        t1.msg_queue = UNMOUNT t.msg_queue (select_msg env.tock_us t.msg_queue) ∧
        t1.busy_without_traffic_time = t.busy_without_traffic_time ∧
        t1.timer_msg_queue = t.timer_msg_queue ∧ t1.task_deleted = t.task_deleted ∧
        deliver P env a t s = ((after_drop P a t1 s).1, (after_drop P a t1 s).2.1,
          .callback a m ret :: .delete_msg a m :: (after_drop P a t1 s).2.2) := by
  unfold deliver at h ⊢
  cases hq : t.msg_queue.get? (select_msg env.tock_us t.msg_queue) with
  | none => rw [hq] at h; simp at h
  | some m0 =>
    rw [hq] at h
    simp only [List.mem_append, List.mem_cons] at h
    have f := call_task_frame a t m0
    rcases h with h | h | h
    · obtain ⟨e1, e2, e3, e4, e5⟩ := call_task_callback a t m0 a1 m ret h
      subst e1 e2
      refine ⟨rfl, e3, rfl,
        { (call_task a1 t m).1 with
          msg_queue := UNMOUNT (call_task a1 t m).1.msg_queue (select_msg env.tock_us t.msg_queue) },
        e5, ?_, f.2.1, f.2.2.1, f.2.2.2.1, ?_⟩
      · simp [f.1]
      · simp [e4]
    · cases h
    · rw [after_drop_events] at h
      split at h <;> simp at h

theorem reap_callback_mem {σ : Type} (a : Nat) (r : kernel_task_t × σ × List sched_event)
    (a1 : Nat) (m : kernel_msg_t) (ret : task_state) :
    sched_event.callback a1 m ret ∈ (reap a r).2.2 ↔ sched_event.callback a1 m ret ∈ r.2.2 := by
  unfold reap
  by_cases hd : r.1.task_deleted <;> simp [hd]

theorem drop_paused_not_paused (a : Nat) (t : kernel_task_t) (h : t.task_paused = false) :
    drop_paused a t = (t, []) := by
  simp [drop_paused, h]

theorem drop_paused_paused (a : Nat) (t : kernel_task_t) (h : t.task_paused = true) :
    (drop_paused a t).1.msg_queue = [] ∧
      ∀ a1 m ret, sched_event.callback a1 m ret ∉ (drop_paused a t).2 := by
  simp [drop_paused, h]

theorem dispatch_callback_inv {σ : Type} (P : pwr_mgr σ) (env : sched_env) (delta_ms : Int)
    (a : Nat) (t : kernel_task_t) (s : σ) (a1 : Nat) (m : kernel_msg_t) (ret : task_state)
    (h : sched_event.callback a1 m ret ∈ (dispatch_task P env delta_ms a t s).2.2) :
    ∃ s1, t.task_paused = false ∧ t.task_suspended = false ∧ t.msg_queue ≠ [] ∧
      sched_event.callback a1 m ret ∈ (deliver P env a t s1).2.2 ∧
      dispatch_task P env delta_ms a t s = reap a (deliver P env a t s1) := by
  unfold dispatch_task at h ⊢
  dsimp only at h ⊢
  by_cases hc : (P.pwr_mgr_check s t.pm).1 = .POWER_DIACTIVATING
  · rw [if_pos hc] at h; simp at h
  · rw [if_neg hc] at h ⊢
    cases hp : t.task_paused with
    | true =>
      obtain ⟨hq, hev⟩ := drop_paused_paused a t hp
      rw [hq] at h
      simp only [List.isEmpty_nil, Bool.not_true, Bool.false_and, Bool.false_eq_true, if_false,
        reap_callback_mem] at h
      exact absurd h (hev a1 m ret)
    | false =>
      rw [drop_paused_not_paused a t hp] at h ⊢
      dsimp only at h ⊢
      by_cases hg : (!t.msg_queue.isEmpty && !t.task_suspended) = true
      · rw [if_pos hg] at h ⊢
        have hq : t.msg_queue ≠ [] := by
          intro e; simp [e] at hg
        have hs : t.task_suspended = false := by
          cases hh : t.task_suspended <;> simp [hh] at hg ⊢
        cases hpm : t.pm with
        | none =>
          simp only [hpm, List.nil_append] at h ⊢
          rw [reap_callback_mem] at h
          exact ⟨_, trivial, hs, hq, h, rfl⟩
        | some pm =>
          simp only [hpm, List.nil_append] at h ⊢
          by_cases hf : (P.pwr_mgr_check_power_failure (P.pwr_mgr_check s (some pm)).2 (some pm)).1 = true
          · rw [if_pos hf, reap_callback_mem] at h
            simp only [List.mem_append, List.mem_map, Option.mem_toList, after_drop_events] at h
            rcases h with ⟨x, _, hx⟩ | h
            · cases hx
            · split at h <;> simp at h
          · rw [if_neg hf] at h ⊢
            by_cases hac : (!(P.pwr_mgr_activate
                (P.pwr_mgr_check_power_failure (P.pwr_mgr_check s (some pm)).2 (some pm)).2 (some pm)).1) = true
            · rw [if_pos hac] at h
              split at h <;> simp at h
            · rw [if_neg hac] at h ⊢
              rw [reap_callback_mem] at h
              exact ⟨_, by simp, hs, hq, h, rfl⟩
      · rw [if_neg hg, reap_callback_mem] at h
        simp at h

/-! ### Every step of a task concerns that task only -/

theorem after_drop_events_task {σ : Type} (P : pwr_mgr σ) (a : Nat) (t : kernel_task_t) (s : σ) :
    ∀ e ∈ (after_drop P a t s).2.2, e.task = a := by
  rw [after_drop_events]
  split <;> simp [sched_event.task]

theorem deliver_events_task {σ : Type} (P : pwr_mgr σ) (env : sched_env) (a : Nat)
    (t : kernel_task_t) (s : σ) : ∀ e ∈ (deliver P env a t s).2.2, e.task = a := by
  unfold deliver
  cases hq : t.msg_queue.get? (select_msg env.tock_us t.msg_queue) with
  | none => simp
  | some m =>
    intro e he
    simp only [List.mem_append, List.mem_cons] at he
    rcases he with he | he | he
    · unfold call_task at he
      cases hc : t.callback <;> simp [hc] at he
      subst he; rfl
    · subst he; rfl
    · exact after_drop_events_task P a _ s e he

theorem reap_events_task {σ : Type} (a : Nat) (r : kernel_task_t × σ × List sched_event)
    (h : ∀ e ∈ r.2.2, e.task = a) : ∀ e ∈ (reap a r).2.2, e.task = a := by
  unfold reap
  by_cases hd : r.1.task_deleted
  · simp only [hd, if_true]
    intro e he
    simp only [List.mem_append, List.mem_map, List.mem_singleton, Option.mem_toList] at he
    rcases he with he | ⟨x, _, rfl⟩ | ⟨x, _, rfl⟩ | rfl
    · exact h e he
    · rfl
    · rfl
    · rfl
  · simpa [hd] using h

theorem drop_paused_events_task (a : Nat) (t : kernel_task_t) :
    ∀ e ∈ (drop_paused a t).2, e.task = a := by
  unfold drop_paused
  by_cases hp : t.task_paused
  · simp only [hp, if_true]
    intro e he
    simp only [List.mem_map] at he
    obtain ⟨x, _, rfl⟩ := he
    rfl
  · simp [hp]

theorem dispatch_task_events_task {σ : Type} (P : pwr_mgr σ) (env : sched_env) (delta_ms : Int)
    (a : Nat) (t : kernel_task_t) (s : σ) :
    ∀ e ∈ (dispatch_task P env delta_ms a t s).2.2, e.task = a := by
  have hp := drop_paused_events_task a t
  unfold dispatch_task
  dsimp only
  split
  · simp [sched_event.task]
  · split
    · split
      · split
        · apply reap_events_task
          intro e he
          simp only [List.mem_append, List.mem_map, Option.mem_toList] at he
          rcases he with he | ⟨x, _, rfl⟩ | he
          · exact hp e he
          · rfl
          · exact after_drop_events_task P a _ _ e he
        · split
          · split
            · intro e he
              simp only [List.mem_append, List.mem_map] at he
              rcases he with he | ⟨x, _, rfl⟩
              · exact hp e he
              · rfl
            · exact hp
          · apply reap_events_task
            intro e he
            simp only [List.mem_append] at he
            rcases he with he | he
            · exact hp e he
            · exact deliver_events_task P env a _ _ e he
      · apply reap_events_task
        intro e he
        simp only [List.mem_append] at he
        rcases he with he | he
        · exact hp e he
        · exact deliver_events_task P env a _ _ e he
    · exact reap_events_task a _ hp

theorem dispatch_loop_events_task {σ : Type} (P : pwr_mgr σ) (env : sched_env) (delta_ms : Int)
    (ts : List (Nat × kernel_task_t)) (s : σ) :
    ∀ e ∈ (dispatch_loop P env delta_ms ts s).2.2, e.task ∈ ts.map Prod.fst := by
  induction ts generalizing s with
  | nil => simp [dispatch_loop]
  | cons x rest ih =>
    obtain ⟨b, u⟩ := x
    intro e he
    simp only [dispatch_loop, List.mem_append] at he
    rcases he with he | he
    · simp [dispatch_task_events_task P env delta_ms b u s e he]
    · simpa using Or.inr (by simpa using ih _ e he)

theorem dispatch_loop_addrs {σ : Type} (P : pwr_mgr σ) (env : sched_env) (delta_ms : Int)
    (ts : List (Nat × kernel_task_t)) (s : σ) :
    ∀ x ∈ (dispatch_loop P env delta_ms ts s).1, x.1 ∈ ts.map Prod.fst := by
  induction ts generalizing s with
  | nil => simp [dispatch_loop]
  | cons x rest ih =>
    obtain ⟨b, u⟩ := x
    intro y hy
    simp only [dispatch_loop] at hy
    cases hr : (dispatch_task P env delta_ms b u s).1 with
    | none =>
      rw [hr] at hy
      simpa using Or.inr (by simpa using ih _ y hy)
    | some t1 =>
      rw [hr] at hy
      rcases List.mem_cons.1 hy with rfl | hy
      · simp
      · simpa using Or.inr (by simpa using ih _ y hy)

theorem task_at_not_mem (a : Nat) (ts : List (Nat × kernel_task_t))
    (h : ∀ x ∈ ts, x.1 ≠ a) : task_at a ts = none := by
  unfold task_at
  rw [List.find?_eq_none.2]
  · rfl
  · intro x hx
    simpa using h x hx

theorem filter_task_eq_nil (a : Nat) (ev : List sched_event) (h : ∀ e ∈ ev, e.task ≠ a) :
    ev.filter (fun e => e.task == a) = [] := by
  rw [List.filter_eq_nil_iff]
  intro e he
  simpa using h e he

theorem filter_task_eq_self (a : Nat) (ev : List sched_event) (h : ∀ e ∈ ev, e.task = a) :
    ev.filter (fun e => e.task == a) = ev := by
  rw [List.filter_eq_self]
  intro e he
  simpa using h e he

/-- In the dispatch loop the task at address `a` is handled by `dispatch_task`
on its own record, for some state of the power manager. -/
theorem dispatch_loop_local {σ : Type} (P : pwr_mgr σ) (env : sched_env) (delta_ms : Int)
    (ts : List (Nat × kernel_task_t)) (s0 : σ) (a : Nat) (t : kernel_task_t)
    (hnd : (ts.map Prod.fst).Nodup) (hmem : (a, t) ∈ ts) :
    ∃ s, task_at a (dispatch_loop P env delta_ms ts s0).1 = (dispatch_task P env delta_ms a t s).1 ∧
      (dispatch_loop P env delta_ms ts s0).2.2.filter (fun e => e.task == a)
        = (dispatch_task P env delta_ms a t s).2.2 := by
  induction ts generalizing s0 with
  | nil => simp at hmem
  | cons x rest ih =>
    obtain ⟨b, u⟩ := x
    simp only [List.map_cons, List.nodup_cons] at hnd
    obtain ⟨hb, hnd⟩ := hnd
    rcases List.mem_cons.1 hmem with heq | hmem
    · cases heq
      refine ⟨s0, ?_, ?_⟩
      · simp only [dispatch_loop]
        cases hr : (dispatch_task P env delta_ms a t s0).1 with
        | none =>
          apply task_at_not_mem
          intro x hx hxa
          exact hb (hxa ▸ dispatch_loop_addrs P env delta_ms rest _ x hx)
        | some t1 => simp [task_at]
      · simp only [dispatch_loop, List.filter_append]
        rw [filter_task_eq_self a _ (dispatch_task_events_task P env delta_ms a t s0),
          filter_task_eq_nil a, List.append_nil]
        intro e he hea
        exact hb (hea ▸ dispatch_loop_events_task P env delta_ms rest _ e he)
    · have hne : b ≠ a := by
        intro e
        subst e
        exact hb (List.mem_map.2 ⟨(b, t), hmem, rfl⟩)
      obtain ⟨s, h1, h2⟩ := ih (dispatch_task P env delta_ms b u s0).2.1 hnd hmem
      refine ⟨s, ?_, ?_⟩
      · rw [← h1]
        simp only [dispatch_loop]
        cases hr : (dispatch_task P env delta_ms b u s0).1 with
        | none => rfl
        | some t1 => simp [task_at, List.find?_cons, hne]
      · rw [← h2]
        simp only [dispatch_loop, List.filter_append]
        rw [filter_task_eq_nil a, List.nil_append]
        intro e he hea
        exact hne ((dispatch_task_events_task P env delta_ms b u s0 e he).symm.trans hea)

/-! ### Allocation without failure -/

theorem x_malloc_ok (h : x_heap) (hh : no_alloc_failure h) :
    (x_malloc h).1 = true ∧ no_alloc_failure (x_malloc h).2 := by
  unfold x_malloc
  cases ho : h.outcomes with
  | nil => exact ⟨rfl, hh⟩
  | cons b rest =>
    have hb : b = true := hh b (by rw [ho]; exact List.mem_cons_self _ _)
    refine ⟨hb, ?_⟩
    intro x hx
    exact hh x (by rw [ho]; exact List.mem_cons_of_mem _ hx)

theorem x_malloc_heap (h : x_heap) (hh : no_alloc_failure h) : no_alloc_failure (x_malloc h).2 :=
  (x_malloc_ok h hh).2

theorem strdup_heap (h : x_heap) (src : Option String) (hh : no_alloc_failure h) :
    no_alloc_failure (__strdup__ h src).2 := by
  unfold __strdup__
  cases src with
  | none => exact hh
  | some x =>
    have := x_malloc_ok h hh
    dsimp only
    split
    · next h1 he => rw [he] at this; exact this.2
    · next h1 he => rw [he] at this; exact this.2

theorem strdup_ok (h : x_heap) (x : String) (hh : no_alloc_failure h) :
    (__strdup__ h (some x)).1 = some x := by
  unfold __strdup__
  have := x_malloc_ok h hh
  dsimp only
  split
  · rfl
  · next h1 he => rw [he] at this; cases this.1

theorem kernel_duplicate_msg_heap (h : x_heap) (src : kernel_msg_t) (hh : no_alloc_failure h) :
    no_alloc_failure (kernel_duplicate_msg h src).2 := by
  unfold kernel_duplicate_msg
  have h1 := x_malloc_ok h hh
  split
  · next h2 he => rw [he] at h1; exact h1.2
  · next h2 he =>
    rw [he] at h1
    have h3 := strdup_heap h2 src.msg.notification h1.2
    split
    · next h4 he2 => rw [he2] at h3; exact h3
    · next n h4 he2 => rw [he2] at h3; exact h3

theorem kernel_duplicate_msg_ok (h : x_heap) (src : kernel_msg_t) (n : String)
    (hh : no_alloc_failure h) (hn : src.msg.notification = some n) :
    (kernel_duplicate_msg h src).1
      = some { u := zero_timer, time_stamp := src.time_stamp,
               msg := ⟨some n, none, src.msg.length, src.msg.data.take src.msg.length.toNat⟩ } := by
  unfold kernel_duplicate_msg
  have h1 := x_malloc_ok h hh
  split
  · next h2 he => rw [he] at h1; cases h1.1
  · next h2 he =>
    rw [he] at h1
    have h3 := strdup_ok h2 n h1.2
    rw [hn]
    split
    · next h4 he2 => rw [he2] at h3; cases h3
    · next n1 h4 he2 =>
      rw [he2] at h3
      simp only [Option.some.injEq] at h3
      rw [h3]

theorem new_msg_heap (h : x_heap) (now : Int) (n : Option String) (d : Option (List Nat))
    (L : Int) (hh : no_alloc_failure h) : no_alloc_failure (__new_msg h now n d L).2 := by
  unfold __new_msg
  have h1 := x_malloc_ok h hh
  split
  · next h2 he => rw [he] at h1; exact h1.2
  · next h2 he =>
    rw [he] at h1
    have h3 := strdup_heap h2 n h1.2
    split
    · next h4 he2 => rw [he2] at h3; exact h3
    · next n1 h4 he2 => rw [he2] at h3; exact h3

/-! ### The timer loop and the mailbox drain, task by task -/

theorem timer_expire_events (a : Nat) (t : kernel_task_t) (m0 : kernel_msg_t) (h : x_heap) :
    ∀ e ∈ (timer_expire a t m0 h).2.2, ∃ m, e = .timer_mount a m := by
  unfold timer_expire
  split
  · split
    · dsimp only
      cases (kernel_duplicate_msg h _).1 <;> simp
    · simp
  · simp

theorem timer_advance_events (delta_ms : Int) (a : Nat) (t : kernel_task_t) (h : x_heap) :
    ∀ e ∈ (timer_advance delta_ms a t h).2.2, ∃ m, e = .timer_mount a m := by
  unfold timer_advance
  cases t.timer_msg_queue with
  | none => simp
  | some m =>
    dsimp only
    split
    · split
      · simp
      · exact timer_expire_events a t _ h
    · simp

theorem timer_advance_events_task (delta_ms : Int) (a : Nat) (t : kernel_task_t) (h : x_heap) :
    ∀ e ∈ (timer_advance delta_ms a t h).2.2, e.task = a := by
  intro e he
  obtain ⟨m, rfl⟩ := timer_advance_events delta_ms a t h e he
  rfl

theorem timer_expire_heap (a : Nat) (t : kernel_task_t) (m0 : kernel_msg_t) (h : x_heap)
    (hh : no_alloc_failure h) : no_alloc_failure (timer_expire a t m0 h).2.1 := by
  unfold timer_expire
  split
  · split
    · exact kernel_duplicate_msg_heap h _ hh
    · exact hh
  · exact hh

theorem timer_advance_heap (delta_ms : Int) (a : Nat) (t : kernel_task_t) (h : x_heap)
    (hh : no_alloc_failure h) : no_alloc_failure (timer_advance delta_ms a t h).2.1 := by
  unfold timer_advance
  cases t.timer_msg_queue with
  | none => exact hh
  | some m =>
    dsimp only
    split
    · split
      · exact hh
      · exact timer_expire_heap a t _ h hh
    · exact hh

theorem timer_loop_heap (delta_ms : Int) (ts : List (Nat × kernel_task_t)) (h : x_heap)
    (hh : no_alloc_failure h) : no_alloc_failure (timer_loop delta_ms ts h).2.1 := by
  induction ts generalizing h with
  | nil => exact hh
  | cons x rest ih =>
    obtain ⟨b, u⟩ := x
    exact ih _ (timer_advance_heap delta_ms b u h hh)

theorem timer_loop_addrs (delta_ms : Int) (ts : List (Nat × kernel_task_t)) (h : x_heap) :
    (timer_loop delta_ms ts h).1.map Prod.fst = ts.map Prod.fst := by
  induction ts generalizing h with
  | nil => rfl
  | cons x rest ih =>
    obtain ⟨b, u⟩ := x
    simp [timer_loop, ih]

theorem timer_loop_events_task (delta_ms : Int) (ts : List (Nat × kernel_task_t)) (h : x_heap) :
    ∀ e ∈ (timer_loop delta_ms ts h).2.2, e.task ∈ ts.map Prod.fst := by
  induction ts generalizing h with
  | nil => simp [timer_loop]
  | cons x rest ih =>
    obtain ⟨b, u⟩ := x
    intro e he
    simp only [timer_loop, List.mem_append] at he
    rcases he with he | he
    · simp [timer_advance_events_task delta_ms b u h e he]
    · simpa using Or.inr (by simpa using ih _ e he)

/-- In the timer loop the task at address `a` is handled by `timer_advance` on
its own record, for some state of the allocator. -/
theorem timer_loop_local (delta_ms : Int) (ts : List (Nat × kernel_task_t)) (h0 : x_heap)
    (a : Nat) (t : kernel_task_t) (hnd : (ts.map Prod.fst).Nodup) (hmem : (a, t) ∈ ts) :
    ∃ h, (no_alloc_failure h0 → no_alloc_failure h) ∧
      (a, (timer_advance delta_ms a t h).1) ∈ (timer_loop delta_ms ts h0).1 ∧
      (timer_loop delta_ms ts h0).2.2.filter (fun e => e.task == a)
        = (timer_advance delta_ms a t h).2.2 := by
  induction ts generalizing h0 with
  | nil => simp at hmem
  | cons x rest ih =>
    obtain ⟨b, u⟩ := x
    simp only [List.map_cons, List.nodup_cons] at hnd
    obtain ⟨hb, hnd⟩ := hnd
    rcases List.mem_cons.1 hmem with heq | hmem
    · cases heq
      refine ⟨h0, id, by simp [timer_loop], ?_⟩
      simp only [timer_loop, List.filter_append]
      rw [filter_task_eq_self a _ (timer_advance_events_task delta_ms a t h0),
        filter_task_eq_nil a, List.append_nil]
      intro e he hea
      exact hb (hea ▸ timer_loop_events_task delta_ms rest _ e he)
    · have hne : b ≠ a := by
        intro e
        subst e
        exact hb (List.mem_map.2 ⟨(b, t), hmem, rfl⟩)
      obtain ⟨h, hh, h1, h2⟩ := ih (timer_advance delta_ms b u h0).2.1 hnd hmem
      refine ⟨h, fun h3 => hh (timer_advance_heap delta_ms b u h0 h3), by simp [timer_loop, h1], ?_⟩
      rw [← h2]
      simp only [timer_loop, List.filter_append]
      rw [filter_task_eq_nil a, List.nil_append]
      intro e he hea
      exact hne ((timer_advance_events_task delta_ms b u h0 e he).symm.trans hea)

theorem mails_append (a : Nat) (e1 e2 : List sched_event) :
    mails a (e1 ++ e2) = mails a e1 ++ mails a e2 := by
  induction e1 with
  | nil => rfl
  | cons x rest ih =>
    cases x with
    | mail_mount b m =>
      by_cases hb : b = a <;> simp [mails, hb, ih]
    | _ => simpa [mails] using ih

theorem append_mail_nil (e : Nat × kernel_task_t) : append_mail [] e = e := by
  simp [append_mail, mails]

theorem map_append_mail_nil (ts : List (Nat × kernel_task_t)) : ts.map (append_mail []) = ts := by
  rw [List.map_congr_left (fun e _ => append_mail_nil e), List.map_id']

theorem append_mail_append (e1 e2 : List sched_event) (e : Nat × kernel_task_t) :
    append_mail e2 (append_mail e1 e) = append_mail (e1 ++ e2) e := by
  simp [append_mail, mails_append]

theorem mount_on_eq (a : Nat) (m : kernel_msg_t) (ts : List (Nat × kernel_task_t)) :
    mount_on a m ts = ts.map (append_mail [.mail_mount a m]) := by
  unfold mount_on
  apply List.map_congr_left
  intro e _
  by_cases h : e.1 = a
  · simp [h, append_mail, mails, MOUNT]
  · have h2 : ¬ a = e.1 := fun x => h x.symm
    simp [h, h2, append_mail, mails]

theorem drain_slots_tasks (now : Int) (q : List kernel_msg_t) (ts : List (Nat × kernel_task_t))
    (h : x_heap) (u : Bool) :
    (drain_slots now q ts h u).2.1 = ts.map (append_mail (drain_slots now q ts h u).2.2.2.2) := by
  induction q generalizing ts h u with
  | nil => simp [drain_slots, map_append_mail_nil]
  | cons m rest ih =>
    unfold drain_slots
    by_cases ho : m.mail.occupied = true
    · rw [if_pos ho]
      cases hh : m.mail.task_handler with
      | none => simpa using ih ts h true
      | some a =>
        dsimp only
        cases hn : __new_msg h now m.msg.notification (some m.msg.data) m.msg.length with
        | mk r h1 =>
          cases r with
          | none => simpa using ih ts h1 u
          | some nmsg =>
            dsimp only
            rw [ih, mount_on_eq, List.map_map]
            apply List.map_congr_left
            intro e _
            simp only [Function.comp, append_mail_append, List.singleton_append]
    · rw [if_neg ho]
      simpa using ih ts h u

theorem drain_groups_tasks (now : Int) (gs : List kernel_mailbox_group_t)
    (ts : List (Nat × kernel_task_t)) (h : x_heap) :
    (drain_groups now gs ts h).2.1 = ts.map (append_mail (drain_groups now gs ts h).2.2.2) := by
  induction gs generalizing ts h with
  | nil => simp [drain_groups, map_append_mail_nil]
  | cons g gs ih =>
    unfold drain_groups
    by_cases hu : g.unread_msg = true
    · rw [if_pos hu]
      dsimp only
      rw [ih, drain_slots_tasks, List.map_map]
      apply List.map_congr_left
      intro e _
      simp only [Function.comp, append_mail_append]
    · rw [if_neg hu]
      simpa using ih ts h

theorem drain_slots_heap (now : Int) (q : List kernel_msg_t) (ts : List (Nat × kernel_task_t))
    (h : x_heap) (u : Bool) (hh : no_alloc_failure h) :
    no_alloc_failure (drain_slots now q ts h u).2.2.1 := by
  induction q generalizing ts h u with
  | nil => exact hh
  | cons m rest ih =>
    unfold drain_slots
    by_cases ho : m.mail.occupied = true
    · rw [if_pos ho]
      cases hc : m.mail.task_handler with
      | none => exact ih ts h true hh
      | some a =>
        dsimp only
        have hn := new_msg_heap h now m.msg.notification (some m.msg.data) m.msg.length hh
        cases he : __new_msg h now m.msg.notification (some m.msg.data) m.msg.length with
        | mk r h1 =>
          rw [he] at hn
          cases r with
          | none => exact ih ts h1 u hn
          | some nmsg => exact ih _ h1 u hn
    · rw [if_neg ho]
      exact ih ts h u hh

theorem drain_groups_heap (now : Int) (gs : List kernel_mailbox_group_t)
    (ts : List (Nat × kernel_task_t)) (h : x_heap) (hh : no_alloc_failure h) :
    no_alloc_failure (drain_groups now gs ts h).2.2.1 := by
  induction gs generalizing ts h with
  | nil => exact hh
  | cons g gs ih =>
    unfold drain_groups
    by_cases hu : g.unread_msg = true
    · rw [if_pos hu]
      exact ih _ _ (drain_slots_heap now _ ts h false hh)
    · rw [if_neg hu]
      exact ih ts h hh

theorem drain_slots_events (now : Int) (q : List kernel_msg_t) (ts : List (Nat × kernel_task_t))
    (h : x_heap) (u : Bool) :
    ∀ e ∈ (drain_slots now q ts h u).2.2.2.2, ∃ b m, e = .mail_mount b m := by
  induction q generalizing ts h u with
  | nil => simp [drain_slots]
  | cons m rest ih =>
    unfold drain_slots
    by_cases ho : m.mail.occupied = true
    · rw [if_pos ho]
      cases hh : m.mail.task_handler with
      | none => simpa using ih ts h true
      | some a =>
        dsimp only
        cases hn : __new_msg h now m.msg.notification (some m.msg.data) m.msg.length with
        | mk r h1 =>
          cases r with
          | none => simpa using ih ts h1 u
          | some nmsg =>
            dsimp only
            intro e he
            rcases List.mem_cons.1 he with rfl | he
            · exact ⟨_, _, rfl⟩
            · exact ih _ _ _ e he
    · rw [if_neg ho]
      simpa using ih ts h u

theorem drain_groups_events (now : Int) (gs : List kernel_mailbox_group_t)
    (ts : List (Nat × kernel_task_t)) (h : x_heap) :
    ∀ e ∈ (drain_groups now gs ts h).2.2.2, ∃ b m, e = .mail_mount b m := by
  induction gs generalizing ts h with
  | nil => simp [drain_groups]
  | cons g gs ih =>
    unfold drain_groups
    by_cases hu : g.unread_msg = true
    · rw [if_pos hu]
      dsimp only
      intro e he
      rcases List.mem_append.1 he with he | he
      · exact drain_slots_events now _ _ _ _ e he
      · exact ih _ _ e he
    · rw [if_neg hu]
      simpa using ih ts h

@[simp] theorem task_mail_mount (b : Nat) (m : kernel_msg_t) :
    (sched_event.mail_mount b m).task = b := rfl

theorem filter_mail_events (a : Nat) (ev : List sched_event)
    (h : ∀ e ∈ ev, ∃ b m, e = sched_event.mail_mount b m) :
    ev.filter (fun e => e.task == a) = (mails a ev).map (.mail_mount a) := by
  induction ev with
  | nil => rfl
  | cons x rest ih =>
    have hr := ih (fun e he => h e (List.mem_cons_of_mem _ he))
    obtain ⟨b, m, rfl⟩ := h x (List.mem_cons_self _ _)
    by_cases hb : b = a
    · subst hb
      simp [mails, hr]
    · simp [mails, hr, hb]

/-- One pass, seen from the task at address `a`: its record goes through the
mailbox drain and the timer loop (`pre_dispatch`) and then through
`dispatch_task`, and the steps of the pass that concern it are the mail
mounted on it, its timer steps and its dispatch steps, in this order. -/
theorem sheduler_local {σ : Type} (P : pwr_mgr σ) (env : sched_env) (k : kernel σ) (a : Nat)
    (t : kernel_task_t) (hnd : (k.kernel_task_queue.map Prod.fst).Nodup)
    (hmem : (a, t) ∈ k.kernel_task_queue) :
    ∃ h s,
      (no_alloc_failure k.heap → no_alloc_failure h) ∧
      task_at a (kernel_task_sheduler P env k).1.kernel_task_queue
        = (dispatch_task P env (pass_delta_ms env k.t1) a
            (pre_dispatch (pass_delta_ms env k.t1) a t
              (mails a (drain_groups env.tick_us k.kernel_mailbox_group_queue k.kernel_task_queue
                k.heap).2.2.2) h).1 s).1 ∧
      (kernel_task_sheduler P env k).2.filter (fun e => e.task == a)
        = (mails a (drain_groups env.tick_us k.kernel_mailbox_group_queue k.kernel_task_queue
              k.heap).2.2.2).map (.mail_mount a)
          ++ ((pre_dispatch (pass_delta_ms env k.t1) a t
              (mails a (drain_groups env.tick_us k.kernel_mailbox_group_queue k.kernel_task_queue
                k.heap).2.2.2) h).2.2
            ++ (dispatch_task P env (pass_delta_ms env k.t1) a
                (pre_dispatch (pass_delta_ms env k.t1) a t
                  (mails a (drain_groups env.tick_us k.kernel_mailbox_group_queue
                    k.kernel_task_queue k.heap).2.2.2) h).1 s).2.2) := by
  have hd := drain_groups_tasks env.tick_us k.kernel_mailbox_group_queue k.kernel_task_queue k.heap
  have hde := drain_groups_events env.tick_us k.kernel_mailbox_group_queue k.kernel_task_queue k.heap
  have hdh := drain_groups_heap env.tick_us k.kernel_mailbox_group_queue k.kernel_task_queue k.heap
  unfold kernel_task_sheduler
  dsimp only
  generalize drain_groups env.tick_us k.kernel_mailbox_group_queue k.kernel_task_queue k.heap = d
    at hd hde hdh ⊢
  have hfst : d.2.1.map Prod.fst = k.kernel_task_queue.map Prod.fst := by
    rw [hd, List.map_map]
    apply List.map_congr_left
    intro e _
    rfl
  have hmem0 : (a, { t with msg_queue := t.msg_queue ++ mails a d.2.2.2 }) ∈ d.2.1 := by
    rw [hd]
    exact List.mem_map.2 ⟨(a, t), hmem, rfl⟩
  have hnd0 : (d.2.1.map Prod.fst).Nodup := by rw [hfst]; exact hnd
  by_cases hdl : pass_delta_ms env k.t1 > 0
  · obtain ⟨h, hth, ht1, ht2⟩ := timer_loop_local (pass_delta_ms env k.t1) d.2.1 d.2.2.1 a _ hnd0 hmem0
    have hnd1 : ((timer_loop (pass_delta_ms env k.t1) d.2.1 d.2.2.1).1.map Prod.fst).Nodup := by
      rw [timer_loop_addrs]; exact hnd0
    obtain ⟨s, hs1, hs2⟩ := dispatch_loop_local P env (pass_delta_ms env k.t1) _
      (P.pwr_mgr_timer_update k.pwr (pass_delta_ms env k.t1)) a _ hnd1 ht1
    refine ⟨h, s, fun h3 => hth (hdh h3), ?_, ?_⟩
    · simp only [pre_dispatch, if_pos hdl]
      exact hs1
    · simp only [pre_dispatch, if_pos hdl, List.filter_append]
      rw [hs2, ht2, filter_mail_events a _ hde]
  · obtain ⟨s, hs1, hs2⟩ := dispatch_loop_local P env (pass_delta_ms env k.t1) _
      (P.pwr_mgr_timer_update k.pwr (pass_delta_ms env k.t1)) a _ hnd0 hmem0
    refine ⟨d.2.2.1, s, hdh, ?_, ?_⟩
    · simp only [pre_dispatch, if_neg hdl]
      exact hs1
    · simp only [pre_dispatch, if_neg hdl, List.filter_append]
      rw [hs2, filter_mail_events a _ hde]
      simp

theorem clear_bits_or_pending (x : Nat) :
    clear_bits (x ||| TASK_MSG_PENDING) TASK_MSG_PENDING = clear_bits x TASK_MSG_PENDING := by
  unfold clear_bits
  apply Nat.eq_of_testBit_eq
  intro i
  simp only [Nat.testBit_xor, Nat.testBit_and, Nat.testBit_or]
  cases Nat.testBit x i <;> cases Nat.testBit TASK_MSG_PENDING i <;> rfl

theorem mark_pending_frame (t : kernel_task_t) :
    (mark_pending t).task_name = t.task_name ∧ (mark_pending t).callback = t.callback ∧
    (mark_pending t).arg = t.arg ∧ (mark_pending t).pm = t.pm ∧
    (mark_pending t).busy_without_traffic_time = t.busy_without_traffic_time ∧
    (mark_pending t).busy_timeout = t.busy_timeout ∧
    (mark_pending t).task_suspended = t.task_suspended ∧
    (mark_pending t).task_paused = t.task_paused ∧
    (mark_pending t).task_deleted = t.task_deleted ∧
    (mark_pending t).msg_queue = t.msg_queue ∧
    (mark_pending t).timer_msg_queue = t.timer_msg_queue ∧
    ((mark_pending t).is_busy = t.is_busy ∨
      (mark_pending t).is_busy = t.is_busy ||| TASK_MSG_PENDING) := by
  unfold mark_pending
  split <;> simp

theorem timer_expire_frame (a : Nat) (t : kernel_task_t) (m0 : kernel_msg_t) (h : x_heap) :
    (timer_expire a t m0 h).1.task_name = t.task_name ∧
    (timer_expire a t m0 h).1.callback = t.callback ∧
    (timer_expire a t m0 h).1.arg = t.arg ∧
    (timer_expire a t m0 h).1.pm = t.pm ∧
    (timer_expire a t m0 h).1.busy_without_traffic_time = t.busy_without_traffic_time ∧
    (timer_expire a t m0 h).1.busy_timeout = t.busy_timeout ∧
    (timer_expire a t m0 h).1.task_suspended = t.task_suspended ∧
    (timer_expire a t m0 h).1.task_paused = t.task_paused ∧
    (timer_expire a t m0 h).1.task_deleted = t.task_deleted ∧
    (timer_expire a t m0 h).1.is_busy = t.is_busy := by
  unfold timer_expire
  split
  · split <;> simp
  · simp

theorem timer_advance_frame (delta_ms : Int) (a : Nat) (t : kernel_task_t) (h : x_heap) :
    (timer_advance delta_ms a t h).1.task_name = t.task_name ∧
    (timer_advance delta_ms a t h).1.callback = t.callback ∧
    (timer_advance delta_ms a t h).1.arg = t.arg ∧
    (timer_advance delta_ms a t h).1.pm = t.pm ∧
    (timer_advance delta_ms a t h).1.busy_without_traffic_time = t.busy_without_traffic_time ∧
    (timer_advance delta_ms a t h).1.busy_timeout = t.busy_timeout ∧
    (timer_advance delta_ms a t h).1.task_suspended = t.task_suspended ∧
    (timer_advance delta_ms a t h).1.task_paused = t.task_paused ∧
    (timer_advance delta_ms a t h).1.task_deleted = t.task_deleted ∧
    ((timer_advance delta_ms a t h).1.is_busy = t.is_busy ∨
      (timer_advance delta_ms a t h).1.is_busy = t.is_busy ||| TASK_MSG_PENDING) := by
  unfold timer_advance
  cases t.timer_msg_queue with
  | none => simp
  | some m =>
    dsimp only
    split
    · split
      · simp
      · have f := timer_expire_frame a t (m.set_timer { m.timer with delay := 0 }) h
        have g := mark_pending_frame (timer_expire a t (m.set_timer { m.timer with delay := 0 }) h).1
        obtain ⟨f1, f2, f3, f4, f5, f6, f7, f8, f9, f10⟩ := f
        obtain ⟨g1, g2, g3, g4, g5, g6, g7, g8, g9, _, _, g12⟩ := g
        refine ⟨g1.trans f1, g2.trans f2, g3.trans f3, g4.trans f4, g5.trans f5, g6.trans f6,
          g7.trans f7, g8.trans f8, g9.trans f9, ?_⟩
        rw [← f10]
        exact g12
    · simp

theorem pre_dispatch_frame (delta_ms : Int) (a : Nat) (t : kernel_task_t)
    (extra : List kernel_msg_t) (h : x_heap) :
    (pre_dispatch delta_ms a t extra h).1.task_name = t.task_name ∧
    (pre_dispatch delta_ms a t extra h).1.callback = t.callback ∧
    (pre_dispatch delta_ms a t extra h).1.arg = t.arg ∧
    (pre_dispatch delta_ms a t extra h).1.pm = t.pm ∧
    (pre_dispatch delta_ms a t extra h).1.busy_without_traffic_time = t.busy_without_traffic_time ∧
    (pre_dispatch delta_ms a t extra h).1.busy_timeout = t.busy_timeout ∧
    (pre_dispatch delta_ms a t extra h).1.task_suspended = t.task_suspended ∧
    (pre_dispatch delta_ms a t extra h).1.task_paused = t.task_paused ∧
    (pre_dispatch delta_ms a t extra h).1.task_deleted = t.task_deleted ∧
    clear_bits (pre_dispatch delta_ms a t extra h).1.is_busy TASK_MSG_PENDING
      = clear_bits t.is_busy TASK_MSG_PENDING := by
  unfold pre_dispatch
  split
  · obtain ⟨h1, h2, h3, h4, h5, h6, h7, h8, h9, h10⟩ :=
      timer_advance_frame delta_ms a { t with msg_queue := t.msg_queue ++ extra } h
    refine ⟨h1, h2, h3, h4, h5, h6, h7, h8, h9, ?_⟩
    rcases h10 with e | e
    · rw [e]
    · rw [e, clear_bits_or_pending]
  · simp

theorem pre_dispatch_events (delta_ms : Int) (a : Nat) (t : kernel_task_t)
    (extra : List kernel_msg_t) (h : x_heap) :
    ∀ e ∈ (pre_dispatch delta_ms a t extra h).2.2, ∃ m, e = .timer_mount a m := by
  unfold pre_dispatch
  split
  · exact timer_advance_events delta_ms a _ h
  · simp

theorem reap_fst {σ : Type} (a : Nat) (r : kernel_task_t × σ × List sched_event) :
    (reap a r).1 = if r.1.task_deleted then none else some r.1 := by
  unfold reap
  split <;> rfl

/-- A callback step of a pass, traced back: the record `tp` the dispatch loop
found (the record before the pass after drain and timer loop), the record
`t1` right after the callback and `UNMOUNT`, and the outcome of the pass for
the task. -/
theorem sheduler_delivery {σ : Type} (P : pwr_mgr σ) (env : sched_env) (k : kernel σ) (a : Nat)
    (t : kernel_task_t) (m : kernel_msg_t) (ret : task_state)
    (hnd : (k.kernel_task_queue.map Prod.fst).Nodup) (hmem : (a, t) ∈ k.kernel_task_queue)
    (hcb : sched_event.callback a m ret ∈ (kernel_task_sheduler P env k).2) :
    ∃ (extra : List kernel_msg_t) (h : x_heap) (s : σ) (t1 : kernel_task_t),
      (∃ cb, t.callback = some cb ∧ ret = cb t.task_name m.msg t.arg) ∧
      t.task_paused = false ∧ t.task_suspended = false ∧
      (pre_dispatch (pass_delta_ms env k.t1) a t extra h).1.msg_queue.get?
        (select_msg env.tock_us (pre_dispatch (pass_delta_ms env k.t1) a t extra h).1.msg_queue) = some m ∧
      t1.is_busy = (if ret = TASK_IGNORE then clear_bits t.is_busy TASK_MSG_PENDING else ret) ∧
      t1.msg_queue = UNMOUNT (pre_dispatch (pass_delta_ms env k.t1) a t extra h).1.msg_queue
        (select_msg env.tock_us (pre_dispatch (pass_delta_ms env k.t1) a t extra h).1.msg_queue) ∧
      t1.busy_without_traffic_time = t.busy_without_traffic_time ∧
      t1.task_deleted = t.task_deleted ∧
      task_at a (kernel_task_sheduler P env k).1.kernel_task_queue
        = (if t.task_deleted then none else some (after_drop P a t1 s).1) ∧
      ((after_drop P a t1 s).2.2 ⊆ (kernel_task_sheduler P env k).2) ∧
      (∀ e ∈ (kernel_task_sheduler P env k).2, e = .pwr_diactivate a → e ∈ (after_drop P a t1 s).2.2) := by
  obtain ⟨h, s, _, h1, h2⟩ := sheduler_local P env k a t hnd hmem
  generalize hex : mails a (drain_groups env.tick_us k.kernel_mailbox_group_queue
    k.kernel_task_queue k.heap).2.2.2 = extra at h1 h2
  have hf := pre_dispatch_frame (pass_delta_ms env k.t1) a t extra h
  have hcb2 : sched_event.callback a m ret ∈
      (kernel_task_sheduler P env k).2.filter (fun e => e.task == a) := by
    simp [List.mem_filter, hcb, sched_event.task]
  rw [h2] at hcb2
  simp only [List.mem_append, List.mem_map] at hcb2
  rcases hcb2 with ⟨x, _, hx⟩ | hcb2 | hcb2
  · cases hx
  · obtain ⟨x, hx⟩ := pre_dispatch_events _ _ _ _ _ _ hcb2
    cases hx
  · obtain ⟨s1, d1, d2, d3, d4, d5⟩ := dispatch_callback_inv P env _ a _ s a m ret hcb2
    obtain ⟨_, ⟨cb, c1, c2⟩, g1, t1, g2, g3, g4, g5, g6, g7⟩ :=
      deliver_callback_inv P env a _ s1 a m ret d4
    refine ⟨extra, h, s1, t1, ⟨cb, ?_, ?_⟩, ?_, ?_, g1, ?_, g3, ?_, ?_, ?_, ?_, ?_⟩
    · rw [← c1, hf.2.1]
    · rw [c2, hf.1, hf.2.2.1]
    · rw [← d1, hf.2.2.2.2.2.2.2.1]
    · rw [← d2, hf.2.2.2.2.2.2.1]
    · rw [g2]
      split
      · exact hf.2.2.2.2.2.2.2.2.2
      · rfl
    · rw [g4, hf.2.2.2.2.1]
    · rw [g6, hf.2.2.2.2.2.2.2.2.1]
    · rw [h1, d5, g7, reap_fst]
      simp only [(after_drop_frame P a t1 s1).2.2.1, g6, hf.2.2.2.2.2.2.2.2.1]
    · intro e he
      have : e ∈ (kernel_task_sheduler P env k).2.filter (fun e => e.task == a) := by
        rw [h2, d5, g7]
        simp only [List.mem_append]
        right; right
        unfold reap
        split <;> simp [he]
      exact (List.mem_filter.1 this).1
    · intro e he hee
      subst hee
      have : sched_event.pwr_diactivate a ∈
          (kernel_task_sheduler P env k).2.filter (fun e => e.task == a) := by
        simp [List.mem_filter, he, sched_event.task]
      rw [h2, d5, g7] at this
      simp only [List.mem_append, List.mem_map] at this
      rcases this with ⟨x, _, hx⟩ | this | this
      · cases hx
      · obtain ⟨x, hx⟩ := pre_dispatch_events _ _ _ _ _ _ this
        cases hx
      · unfold reap at this
        split at this <;> simp at this <;> exact this

/-! ### Claims on one scheduler pass -/

/-- C2 (counterexample): a task in state BUSY with busy counter 500 and one
queued message whose callback returns READY_TO_SLEEP: the pass delivers the
message (callback step), requests power deactivation, and leaves the busy
counter at 500, not 0. -/
theorem sheduler_ready_to_sleep_keeps_counter :
    (kernel_task_sheduler pwr_always_on (example_env 10)
        (example_kernel (example_task TASK_READY_TO_SLEEP [plain_msg "a" 5] TASK_BUSY 500))).2
      = [.callback 7 (plain_msg "a" 5) TASK_READY_TO_SLEEP, .delete_msg 7 (plain_msg "a" 5),
          .pwr_diactivate 7]
    ∧ (task_at 7 (kernel_task_sheduler pwr_always_on (example_env 10)
        (example_kernel (example_task TASK_READY_TO_SLEEP [plain_msg "a" 5] TASK_BUSY 500))).1.kernel_task_queue).map
          (fun t => (t.busy_without_traffic_time, t.is_busy)) = some (500, TASK_IDLE) := by
  constructor <;> rfl

theorem keep_pending_cases (t : kernel_task_t) :
    (keep_pending t).is_busy = t.is_busy ∨ (keep_pending t).is_busy = t.is_busy ||| TASK_MSG_PENDING := by
  rw [keep_pending_is_busy]
  split
  · left; rfl
  · right; rfl

/-- C2 (amended): in every pass that delivers a message to task T (callback
step with return value `ret`), T's busy counter is 0 at the end of the pass
when the callback returns IDLE or BUSY, or returns IGNORE while T's state
without MSG_PENDING was IDLE or BUSY; when the callback returns
READY_TO_SLEEP the counter keeps the value it had before the pass. -/
theorem sheduler_delivery_busy_counter {σ : Type} (P : pwr_mgr σ) (env : sched_env)
    (k : kernel σ) (a : Nat) (t t2 : kernel_task_t) (m : kernel_msg_t) (ret : task_state)
    (hnd : (k.kernel_task_queue.map Prod.fst).Nodup) (hmem : (a, t) ∈ k.kernel_task_queue)
    (hcb : sched_event.callback a m ret ∈ (kernel_task_sheduler P env k).2)
    (hafter : task_at a (kernel_task_sheduler P env k).1.kernel_task_queue = some t2) :
    ((ret = TASK_IDLE ∨ ret = TASK_BUSY ∨
        (ret = TASK_IGNORE ∧ (clear_bits t.is_busy TASK_MSG_PENDING = TASK_IDLE ∨
          clear_bits t.is_busy TASK_MSG_PENDING = TASK_BUSY))) →
      t2.busy_without_traffic_time = 0) ∧
    (ret = TASK_READY_TO_SLEEP → t2.busy_without_traffic_time = t.busy_without_traffic_time) := by
  obtain ⟨extra, h, s, t1, _, _, _, _, hb, _, hc, _, hres, _, _⟩ :=
    sheduler_delivery P env k a t m ret hnd hmem hcb
  rw [hres] at hafter
  split at hafter
  · cases hafter
  · simp only [Option.some.injEq] at hafter
    subst hafter
    rw [after_drop_counter, hc]
    have hk := keep_pending_cases t1
    constructor
    · intro hret
      have hb2 : t1.is_busy = TASK_IDLE ∨ t1.is_busy = TASK_BUSY := by
        rcases hret with e | e | ⟨e, e2⟩
        · left; rw [hb, e]; rfl
        · right; rw [hb, e]; rfl
        · rw [hb, if_pos e]; exact e2
      rw [if_pos]
      rcases hb2 with e | e <;> rcases hk with f | f <;> rw [f, e] <;> decide
    · intro hret
      have hb2 : t1.is_busy = TASK_READY_TO_SLEEP := by
        rw [hb, hret]; rfl
      rw [if_neg]
      rcases hk with f | f <;> rw [f, hb2] <;> decide

/-- Witness of C2 (amended): the callback returns IDLE on a task that was BUSY
with counter 500; the counter is 0 after the pass. -/
theorem sheduler_delivery_busy_counter_witness :
    (task_at 7 (kernel_task_sheduler pwr_always_on (example_env 10)
        (example_kernel (example_task TASK_IDLE [plain_msg "a" 5] TASK_BUSY 500))).1.kernel_task_queue).map
          (fun t => t.busy_without_traffic_time) = some 0 := by
  have h := (sheduler_delivery_busy_counter pwr_always_on (example_env 10)
    (example_kernel (example_task TASK_IDLE [plain_msg "a" 5] TASK_BUSY 500)) 7
    (example_task TASK_IDLE [plain_msg "a" 5] TASK_BUSY 500)
    (after_drop pwr_always_on 7 (example_task TASK_IDLE [] TASK_IDLE 500) ()).1
    (plain_msg "a" 5) TASK_IDLE (by decide) (by simp [example_kernel])
    (by decide) rfl).1 (Or.inl rfl)
  exact congrArg some h

theorem reap_events_sub {σ : Type} (a : Nat) (r : kernel_task_t × σ × List sched_event) :
    ∀ e, e = sched_event.pwr_diactivate a → (e ∈ (reap a r).2.2 ↔ e ∈ r.2.2) := by
  intro e he
  subst he
  unfold reap
  split <;> simp

theorem unmount_length (q : List kernel_msg_t) (i : Nat) (m : kernel_msg_t)
    (h : q.get? i = some m) : (UNMOUNT q i).length + 1 = q.length := by
  have hi : i < q.length := by
    by_contra hc
    rw [List.get?_eq_none.2 (by omega)] at h
    cases h
  unfold UNMOUNT
  rw [List.length_eraseIdx_of_lt hi]
  omega

/-- C4 (counterexample): two messages are queued and the callback returns
READY_TO_SLEEP on the first: at the end of the dispatch step the state is
READY_TO_SLEEP | MSG_PENDING (6), not IDLE, and no power deactivation was
requested. -/
theorem dispatch_ready_to_sleep_with_backlog :
    (dispatch_task pwr_always_on (example_env 10) 10 7
        (example_task TASK_READY_TO_SLEEP [plain_msg "a" 5, plain_msg "b" 6] TASK_BUSY 0) ()).2.2
      = [.callback 7 (plain_msg "a" 5) TASK_READY_TO_SLEEP, .delete_msg 7 (plain_msg "a" 5)]
    ∧ (dispatch_task pwr_always_on (example_env 10) 10 7
        (example_task TASK_READY_TO_SLEEP [plain_msg "a" 5, plain_msg "b" 6] TASK_BUSY 0) ()).1.map
          (fun t => (t.is_busy, t.msg_queue))
      = some (TASK_READY_TO_SLEEP ||| TASK_MSG_PENDING, [plain_msg "b" 6]) := by
  constructor <;> rfl

/-- C4 (amended): for every delivery in which the callback returns
READY_TO_SLEEP: when the delivered message was the only one in the task's
queue, power deactivation is requested for the task and its state is IDLE at
the end of the dispatch step; when further messages remain, the state is
READY_TO_SLEEP | MSG_PENDING and no deactivation is requested in that step. -/
theorem dispatch_ready_to_sleep {σ : Type} (P : pwr_mgr σ) (env : sched_env) (delta_ms : Int)
    (a : Nat) (t : kernel_task_t) (s : σ) (a1 : Nat) (m : kernel_msg_t)
    (hcb : sched_event.callback a1 m TASK_READY_TO_SLEEP ∈ (dispatch_task P env delta_ms a t s).2.2) :
    (t.msg_queue.length = 1 →
      sched_event.pwr_diactivate a ∈ (dispatch_task P env delta_ms a t s).2.2 ∧
      ∀ t2, (dispatch_task P env delta_ms a t s).1 = some t2 → t2.is_busy = TASK_IDLE) ∧
    (1 < t.msg_queue.length →
      sched_event.pwr_diactivate a ∉ (dispatch_task P env delta_ms a t s).2.2 ∧
      ∀ t2, (dispatch_task P env delta_ms a t s).1 = some t2 →
        t2.is_busy = TASK_READY_TO_SLEEP ||| TASK_MSG_PENDING) := by
  obtain ⟨s1, _, _, _, d4, d5⟩ := dispatch_callback_inv P env delta_ms a t s a1 m _ hcb
  obtain ⟨_, _, g1, t1, g2, g3, _, _, _, g7⟩ := deliver_callback_inv P env a t s1 a1 m _ d4
  have hlen := unmount_length _ _ _ g1
  rw [← g3] at hlen
  have hb : t1.is_busy = TASK_READY_TO_SLEEP := by rw [g2]; rfl
  have hev : ∀ e, e = sched_event.pwr_diactivate a →
      (e ∈ (dispatch_task P env delta_ms a t s).2.2 ↔ e ∈ (after_drop P a t1 s1).2.2) := by
    intro e he
    rw [d5, reap_events_sub a _ e he, g7]
    subst he
    simp
  have hres : ∀ t2, (dispatch_task P env delta_ms a t s).1 = some t2 →
      t2 = (after_drop P a t1 s1).1 := by
    intro t2 h2
    rw [d5, reap_fst, g7] at h2
    split at h2
    · cases h2
    · simp only [Option.some.injEq] at h2
      exact h2.symm
  constructor
  · intro h1
    have hq : t1.msg_queue = [] := List.length_eq_zero.1 (by omega)
    have hk : (keep_pending t1).is_busy = TASK_READY_TO_SLEEP := by
      rw [keep_pending_is_busy, if_pos hq, hb]
    refine ⟨(hev _ rfl).2 (by rw [after_drop_events, if_pos hk]; simp), ?_⟩
    intro t2 h2
    rw [hres t2 h2, after_drop_is_busy, if_pos hk]
  · intro h1
    have hq : t1.msg_queue ≠ [] := by
      intro e
      rw [e] at hlen
      simp at hlen
      omega
    have hk : (keep_pending t1).is_busy = TASK_READY_TO_SLEEP ||| TASK_MSG_PENDING := by
      rw [keep_pending_is_busy, if_neg hq, hb]
    have hne : (keep_pending t1).is_busy ≠ TASK_READY_TO_SLEEP := by rw [hk]; decide
    refine ⟨fun hm => ?_, ?_⟩
    · have := (hev _ rfl).1 hm
      rw [after_drop_events, if_neg hne] at this
      simp at this
    · intro t2 h2
      rw [hres t2 h2, after_drop_is_busy, if_neg hne, hk]

/-- Witness of C4 (amended): one queued message, callback returns
READY_TO_SLEEP: deactivation is requested and the state ends IDLE. -/
theorem dispatch_ready_to_sleep_witness :
    sched_event.pwr_diactivate 7 ∈ (dispatch_task pwr_always_on (example_env 10) 10 7
        (example_task TASK_READY_TO_SLEEP [plain_msg "a" 5] TASK_BUSY 0) ()).2.2
    ∧ ∀ t2, (dispatch_task pwr_always_on (example_env 10) 10 7
        (example_task TASK_READY_TO_SLEEP [plain_msg "a" 5] TASK_BUSY 0) ()).1 = some t2 →
          t2.is_busy = TASK_IDLE :=
  (dispatch_ready_to_sleep pwr_always_on (example_env 10) 10 7
    (example_task TASK_READY_TO_SLEEP [plain_msg "a" 5] TASK_BUSY 0) () 7 (plain_msg "a" 5)
    (by decide)).1 rfl

/-! ### Eligible tasks are delivered to -/

theorem deliver_eq {σ : Type} (P : pwr_mgr σ) (env : sched_env) (a : Nat) (t : kernel_task_t)
    (s : σ) (m : kernel_msg_t) (cb : CStr → msg_t → Nat → task_state)
    (hq : t.msg_queue.get? (select_msg env.tock_us t.msg_queue) = some m)
    (hc : t.callback = some cb) :
    deliver P env a t s =
      ((after_drop P a { t with
          is_busy := if cb t.task_name m.msg t.arg = TASK_IGNORE
            then clear_bits t.is_busy TASK_MSG_PENDING else cb t.task_name m.msg t.arg,
          msg_queue := UNMOUNT t.msg_queue (select_msg env.tock_us t.msg_queue) } s).1,
       (after_drop P a { t with
          is_busy := if cb t.task_name m.msg t.arg = TASK_IGNORE
            then clear_bits t.is_busy TASK_MSG_PENDING else cb t.task_name m.msg t.arg,
          msg_queue := UNMOUNT t.msg_queue (select_msg env.tock_us t.msg_queue) } s).2.1,
       .callback a m (cb t.task_name m.msg t.arg) :: .delete_msg a m ::
        (after_drop P a { t with
          is_busy := if cb t.task_name m.msg t.arg = TASK_IGNORE
            then clear_bits t.is_busy TASK_MSG_PENDING else cb t.task_name m.msg t.arg,
          msg_queue := UNMOUNT t.msg_queue (select_msg env.tock_us t.msg_queue) } s).2.2) := by
  unfold deliver
  rw [hq]
  simp [call_task, hc]

theorem dispatch_eligible {σ : Type} (P : pwr_mgr σ) (env : sched_env) (delta_ms : Int) (a : Nat)
    (t : kernel_task_t) (s : σ)
    (hck : ∀ s, (P.pwr_mgr_check s t.pm).1 ≠ .POWER_DIACTIVATING)
    (hp : t.task_paused = false) (hs : t.task_suspended = false) (hq : t.msg_queue ≠ [])
    (hpw : t.pm = none ∨ ((∀ s, (P.pwr_mgr_check_power_failure s t.pm).1 = false) ∧
      ∀ s, (P.pwr_mgr_activate s t.pm).1 = true)) :
    ∃ s1, dispatch_task P env delta_ms a t s = reap a (deliver P env a t s1) := by
  unfold dispatch_task
  dsimp only
  rw [if_neg (hck s), drop_paused_not_paused a t hp]
  dsimp only
  have hg : (!t.msg_queue.isEmpty && !t.task_suspended) = true := by
    cases hh : t.msg_queue with
    | nil => exact absurd hh hq
    | cons x r => simp [hs]
  rw [if_pos hg]
  cases hpm : t.pm with
  | none => exact ⟨(P.pwr_mgr_check s none).2, by simp⟩
  | some pm =>
    rcases hpw with hpw | ⟨h1, h2⟩
    · rw [hpm] at hpw; cases hpw
    · rw [hpm] at h1 h2
      simp only [h1, h2, List.nil_append]
      exact ⟨(P.pwr_mgr_activate
        (P.pwr_mgr_check_power_failure (P.pwr_mgr_check s (some pm)).2 (some pm)).2 (some pm)).2,
        by simp⟩

theorem deliver_callbacks {σ : Type} (P : pwr_mgr σ) (env : sched_env) (a : Nat)
    (t : kernel_task_t) (s : σ) (m : kernel_msg_t) (cb : CStr → msg_t → Nat → task_state)
    (hq : t.msg_queue.get? (select_msg env.tock_us t.msg_queue) = some m)
    (hc : t.callback = some cb) :
    (reap a (deliver P env a t s)).2.2.filter (is_callback_of a)
      = [.callback a m (cb t.task_name m.msg t.arg)] := by
  rw [deliver_eq P env a t s m cb hq hc]
  unfold reap
  dsimp only
  rw [after_drop_events]
  split <;> split <;> simp [List.filter_cons, is_callback_of, List.filter_map, Function.comp]

/-- C3 (counterexample): the clock reads 1000 and the queue holds "a" stamped
1005 (elapsed -5) ahead of "b" stamped 1001 (elapsed -1); the scheduler hands
"a" to the callback although "b" has the larger elapsed time. -/
theorem dispatch_delivers_head_when_stamps_ahead :
    (dispatch_task pwr_always_on (example_env 10) 10 7
        (example_task TASK_IDLE [plain_msg "a" 1005, plain_msg "b" 1001] TASK_IDLE 0) ()).2.2
      = [.callback 7 (plain_msg "a" 1005) TASK_IDLE, .delete_msg 7 (plain_msg "a" 1005)]
    ∧ (example_env 10).tock_us (plain_msg "a" 1005).time_stamp
        < (example_env 10).tock_us (plain_msg "b" 1001).time_stamp := by
  constructor
  · rfl
  · decide

/-- C3 (amended): for every task with a non-empty queue that is eligible for
delivery (has a callback, is neither paused nor suspended, and the power
manager lets it run), the dispatch step calls the callback exactly once, with
a message of the queue whose elapsed time is at least that of every message in
the queue whenever some message has a positive elapsed time; when no message
has a positive elapsed time (all time stamps at or ahead of the clock) the
message delivered is the head of the queue. -/
theorem dispatch_delivers_oldest {σ : Type} (P : pwr_mgr σ) (env : sched_env) (delta_ms : Int)
    (a : Nat) (t : kernel_task_t) (s : σ) (cb : CStr → msg_t → Nat → task_state)
    (hc : t.callback = some cb)
    (hck : ∀ s, (P.pwr_mgr_check s t.pm).1 ≠ .POWER_DIACTIVATING)
    (hp : t.task_paused = false) (hs : t.task_suspended = false) (hq : t.msg_queue ≠ [])
    (hpw : t.pm = none ∨ ((∀ s, (P.pwr_mgr_check_power_failure s t.pm).1 = false) ∧
      ∀ s, (P.pwr_mgr_activate s t.pm).1 = true)) :
    ∃ m, m ∈ t.msg_queue ∧
      (dispatch_task P env delta_ms a t s).2.2.filter (is_callback_of a)
        = [.callback a m (cb t.task_name m.msg t.arg)] ∧
      ((∃ p ∈ t.msg_queue, 0 < env.tock_us p.time_stamp) →
        ∀ p ∈ t.msg_queue, env.tock_us p.time_stamp ≤ env.tock_us m.time_stamp) ∧
      ((∀ p ∈ t.msg_queue, env.tock_us p.time_stamp ≤ 0) → t.msg_queue.head? = some m) := by
  obtain ⟨m, h1, h2, h3⟩ := select_msg_spec env.tock_us t.msg_queue hq
  obtain ⟨s1, hd⟩ := dispatch_eligible P env delta_ms a t s hck hp hs hq hpw
  refine ⟨m, List.get?_mem h1, ?_, h2, ?_⟩
  · rw [hd]
    exact deliver_callbacks P env a t s1 m cb h1 hc
  · intro hall
    rw [h3 hall] at h1
    cases hh : t.msg_queue with
    | nil => exact absurd hh hq
    | cons x r =>
      rw [hh] at h1
      simpa using h1

/-- Witness of C3 (amended): "b" stamped 100 is older than the head "a"
stamped 900, and is the message delivered. -/
theorem dispatch_delivers_oldest_witness :
    ∃ m, m ∈ [plain_msg "a" 900, plain_msg "b" 100] ∧
      (dispatch_task pwr_always_on (example_env 10) 10 7
          (example_task TASK_IDLE [plain_msg "a" 900, plain_msg "b" 100] TASK_IDLE 0) ()).2.2.filter
            (is_callback_of 7)
        = [.callback 7 m TASK_IDLE] ∧
      ((∃ p ∈ [plain_msg "a" 900, plain_msg "b" 100], 0 < (example_env 10).tock_us p.time_stamp) →
        ∀ p ∈ [plain_msg "a" 900, plain_msg "b" 100],
          (example_env 10).tock_us p.time_stamp ≤ (example_env 10).tock_us m.time_stamp) ∧
      ((∀ p ∈ [plain_msg "a" 900, plain_msg "b" 100], (example_env 10).tock_us p.time_stamp ≤ 0) →
        [plain_msg "a" 900, plain_msg "b" 100].head? = some m) :=
  dispatch_delivers_oldest pwr_always_on (example_env 10) 10 7
    (example_task TASK_IDLE [plain_msg "a" 900, plain_msg "b" 100] TASK_IDLE 0) ()
    (fun _ _ _ => TASK_IDLE) rfl (fun _ h => by cases h) rfl rfl (by decide) (Or.inl rfl)

theorem drain_slots_handlers (now : Int) (q : List kernel_msg_t) (ts : List (Nat × kernel_task_t))
    (h : x_heap) (u : Bool) :
    ∀ e ∈ (drain_slots now q ts h u).2.2.2.2, ∃ p ∈ q, p.mail.task_handler = some e.task := by
  induction q generalizing ts h u with
  | nil => simp [drain_slots]
  | cons m rest ih =>
    have lift : ∀ (e : sched_event), (∃ p ∈ rest, p.mail.task_handler = some e.task) →
        ∃ p ∈ m :: rest, p.mail.task_handler = some e.task := by
      rintro e ⟨p, hp, hh⟩
      exact ⟨p, List.mem_cons_of_mem _ hp, hh⟩
    unfold drain_slots
    by_cases ho : m.mail.occupied = true
    · rw [if_pos ho]
      cases hh : m.mail.task_handler with
      | none =>
        intro e he
        exact lift e (ih ts h true e (by simpa using he))
      | some a =>
        dsimp only
        cases hn : __new_msg h now m.msg.notification (some m.msg.data) m.msg.length with
        | mk r h1 =>
          cases r with
          | none =>
            intro e he
            exact lift e (ih ts h1 u e (by simpa using he))
          | some nmsg =>
            dsimp only
            intro e he
            rcases List.mem_cons.1 he with rfl | he
            · exact ⟨m, List.mem_cons_self _ _, hh⟩
            · exact lift e (ih _ _ _ e he)
    · rw [if_neg ho]
      intro e he
      exact lift e (ih ts h u e (by simpa using he))

theorem drain_groups_handlers (now : Int) (gs : List kernel_mailbox_group_t)
    (ts : List (Nat × kernel_task_t)) (h : x_heap) :
    ∀ e ∈ (drain_groups now gs ts h).2.2.2,
      ∃ g ∈ gs, ∃ p ∈ g.mailbox_queue, p.mail.task_handler = some e.task := by
  induction gs generalizing ts h with
  | nil => simp [drain_groups]
  | cons g gs ih =>
    have lift : ∀ (e : sched_event),
        (∃ g0 ∈ gs, ∃ p ∈ g0.mailbox_queue, p.mail.task_handler = some e.task) →
        ∃ g0 ∈ g :: gs, ∃ p ∈ g0.mailbox_queue, p.mail.task_handler = some e.task := by
      rintro e ⟨g0, hg0, hh⟩
      exact ⟨g0, List.mem_cons_of_mem _ hg0, hh⟩
    unfold drain_groups
    by_cases hu : g.unread_msg = true
    · rw [if_pos hu]
      dsimp only
      intro e he
      rcases List.mem_append.1 he with he | he
      · exact ⟨g, List.mem_cons_self _ _, drain_slots_handlers now _ _ _ _ e he⟩
      · exact lift e (ih _ _ e he)
    · rw [if_neg hu]
      intro e he
      exact lift e (ih ts h e (by simpa using he))

theorem mails_eq_nil (a : Nat) (ev : List sched_event) (h : ∀ e ∈ ev, e.task ≠ a) :
    mails a ev = [] := by
  induction ev with
  | nil => rfl
  | cons x rest ih =>
    have hr := ih (fun e he => h e (List.mem_cons_of_mem _ he))
    have hx := h x (List.mem_cons_self _ _)
    cases x with
    | mail_mount b m =>
      have hb : ¬ b = a := hx
      simp [mails, hb, hr]
    | _ => simpa [mails] using hr

theorem pre_dispatch_no_input (delta_ms : Int) (a : Nat) (t : kernel_task_t) (h : x_heap)
    (htm : t.timer_msg_queue = none) : pre_dispatch delta_ms a t [] h = (t, h, []) := by
  have e : ({ t with msg_queue := t.msg_queue ++ [] } : kernel_task_t) = t := by simp
  unfold pre_dispatch
  rw [e]
  split
  · unfold timer_advance
    rw [htm]
  · rfl

theorem filter_callback_of_filter_task (a : Nat) (ev : List sched_event) :
    (ev.filter (fun e => e.task == a)).filter (is_callback_of a) = ev.filter (is_callback_of a) := by
  rw [List.filter_filter]
  apply List.filter_congr
  intro e _
  cases e <;> simp [is_callback_of, sched_event.task]

/-- C5: a task with no power handle (which the power manager never reports as
deactivating), not paused, not suspended, not deleted, whose queue holds
exactly one message `m`, with no timer message attached and no mailbox slot
posted to it: one scheduler pass calls the callback exactly once, with `m`;
and if the callback returns IDLE then after the pass the task's `msg_queue` is
empty and its state is exactly IDLE. -/
theorem sheduler_local_echo {σ : Type} (P : pwr_mgr σ) (env : sched_env) (k : kernel σ) (a : Nat)
    (t : kernel_task_t) (m : kernel_msg_t) (cb : CStr → msg_t → Nat → task_state)
    (hnd : (k.kernel_task_queue.map Prod.fst).Nodup) (hmem : (a, t) ∈ k.kernel_task_queue)
    (hck : ∀ s, (P.pwr_mgr_check s none).1 ≠ .POWER_DIACTIVATING)
    (hpm : t.pm = none) (hp : t.task_paused = false) (hs : t.task_suspended = false)
    (hdel : t.task_deleted = false) (hq : t.msg_queue = [m]) (hc : t.callback = some cb)
    (htm : t.timer_msg_queue = none)
    (hmail : ∀ g ∈ k.kernel_mailbox_group_queue, ∀ p ∈ g.mailbox_queue,
      p.mail.task_handler ≠ some a) :
    (kernel_task_sheduler P env k).2.filter (is_callback_of a)
      = [.callback a m (cb t.task_name m.msg t.arg)] ∧
    (cb t.task_name m.msg t.arg = TASK_IDLE →
      ∃ t2, task_at a (kernel_task_sheduler P env k).1.kernel_task_queue = some t2 ∧
        t2.msg_queue = [] ∧ t2.is_busy = TASK_IDLE) := by
  obtain ⟨h, s, _, h1, h2⟩ := sheduler_local P env k a t hnd hmem
  have hm0 : mails a (drain_groups env.tick_us k.kernel_mailbox_group_queue k.kernel_task_queue
      k.heap).2.2.2 = [] := by
    apply mails_eq_nil
    intro e he hea
    obtain ⟨g, hg, p, hp, hh⟩ := drain_groups_handlers _ _ _ _ e he
    exact hmail g hg p hp (hea ▸ hh)
  rw [hm0, pre_dispatch_no_input _ a t h htm] at h1 h2
  simp only [List.map_nil, List.nil_append] at h1 h2
  have hck2 : ∀ s, (P.pwr_mgr_check s t.pm).1 ≠ .POWER_DIACTIVATING := by rw [hpm]; exact hck
  have hqne : t.msg_queue ≠ [] := by rw [hq]; simp
  obtain ⟨s1, hd⟩ := dispatch_eligible P env (pass_delta_ms env k.t1) a t s hck2 hp hs hqne (Or.inl hpm)
  have hsel : t.msg_queue.get? (select_msg env.tock_us t.msg_queue) = some m := by
    obtain ⟨m1, g1, _, _⟩ := select_msg_spec env.tock_us t.msg_queue hqne
    have hm1 := List.get?_mem g1
    rw [hq] at hm1
    rw [g1, List.mem_singleton.1 hm1]
  constructor
  · rw [← filter_callback_of_filter_task, h2, hd]
    exact deliver_callbacks P env a t s1 m cb hsel hc
  · intro hret
    have hlen := unmount_length _ _ _ hsel
    rw [hq] at hlen
    have hempty : UNMOUNT t.msg_queue (select_msg env.tock_us t.msg_queue) = [] := by
      rw [hq]
      exact List.length_eq_zero.1 (by simpa using hlen)
    rw [h1, hd, reap_fst, deliver_eq P env a t s1 m cb hsel hc]
    dsimp only
    rw [(after_drop_frame P a _ s1).2.2.1]
    dsimp only
    rw [hdel, hret, hempty]
    refine ⟨_, rfl, ?_, ?_⟩
    · rw [(after_drop_frame P a _ s1).1]
    · rw [after_drop_is_busy, keep_pending_is_busy]
      simp [TASK_IDLE, TASK_IGNORE, TASK_READY_TO_SLEEP]

/-- Witness of C5: the local echo scenario, task B at address 7 holding the
message "ping" and returning IDLE. -/
theorem sheduler_local_echo_witness :
    (kernel_task_sheduler pwr_always_on (example_env 10)
        (example_kernel (example_task TASK_IDLE [plain_msg "ping" 5] TASK_MSG_PENDING 0))).2.filter
          (is_callback_of 7)
      = [.callback 7 (plain_msg "ping" 5) TASK_IDLE] ∧
    (TASK_IDLE = TASK_IDLE →
      ∃ t2, task_at 7 (kernel_task_sheduler pwr_always_on (example_env 10)
          (example_kernel (example_task TASK_IDLE [plain_msg "ping" 5] TASK_MSG_PENDING 0))).1.kernel_task_queue
            = some t2 ∧ t2.msg_queue = [] ∧ t2.is_busy = TASK_IDLE) :=
  sheduler_local_echo pwr_always_on (example_env 10)
    (example_kernel (example_task TASK_IDLE [plain_msg "ping" 5] TASK_MSG_PENDING 0)) 7
    (example_task TASK_IDLE [plain_msg "ping" 5] TASK_MSG_PENDING 0) (plain_msg "ping" 5)
    (fun _ _ _ => TASK_IDLE) (by decide) (by simp [example_kernel]) (fun _ h => by cases h)
    rfl rfl rfl rfl rfl rfl rfl (by simp [example_kernel])

/-! ### What the dispatch step leaves alone -/

theorem after_drop_no_mount {σ : Type} (P : pwr_mgr σ) (a : Nat) (t : kernel_task_t) (s : σ) :
    ∀ e ∈ (after_drop P a t s).2.2, e.is_mount = false := by
  rw [after_drop_events]
  split <;> simp [sched_event.is_mount]

theorem deliver_no_mount {σ : Type} (P : pwr_mgr σ) (env : sched_env) (a : Nat)
    (t : kernel_task_t) (s : σ) : ∀ e ∈ (deliver P env a t s).2.2, e.is_mount = false := by
  unfold deliver
  cases hq : t.msg_queue.get? (select_msg env.tock_us t.msg_queue) with
  | none => simp
  | some m =>
    intro e he
    simp only [List.mem_append, List.mem_cons] at he
    rcases he with he | he | he
    · unfold call_task at he
      cases hc : t.callback <;> simp [hc] at he
      subst he; rfl
    · subst he; rfl
    · exact after_drop_no_mount P a _ s e he

theorem reap_no_mount {σ : Type} (a : Nat) (r : kernel_task_t × σ × List sched_event)
    (h : ∀ e ∈ r.2.2, e.is_mount = false) : ∀ e ∈ (reap a r).2.2, e.is_mount = false := by
  unfold reap
  by_cases hd : r.1.task_deleted
  · simp only [hd, if_true]
    intro e he
    simp only [List.mem_append, List.mem_map, List.mem_singleton, Option.mem_toList] at he
    rcases he with he | ⟨x, _, rfl⟩ | ⟨x, _, rfl⟩ | rfl
    · exact h e he
    · rfl
    · rfl
    · rfl
  · simpa [hd] using h

theorem drop_paused_no_mount (a : Nat) (t : kernel_task_t) :
    ∀ e ∈ (drop_paused a t).2, e.is_mount = false := by
  unfold drop_paused
  by_cases hp : t.task_paused
  · simp only [hp, if_true]
    intro e he
    simp only [List.mem_map] at he
    obtain ⟨x, _, rfl⟩ := he
    rfl
  · simp [hp]

theorem dispatch_task_no_mount {σ : Type} (P : pwr_mgr σ) (env : sched_env) (delta_ms : Int)
    (a : Nat) (t : kernel_task_t) (s : σ) :
    ∀ e ∈ (dispatch_task P env delta_ms a t s).2.2, e.is_mount = false := by
  have hp := drop_paused_no_mount a t
  unfold dispatch_task
  dsimp only
  split
  · simp [sched_event.is_mount]
  · split
    · split
      · split
        · apply reap_no_mount
          intro e he
          simp only [List.mem_append, List.mem_map, Option.mem_toList] at he
          rcases he with he | ⟨x, _, rfl⟩ | he
          · exact hp e he
          · rfl
          · exact after_drop_no_mount P a _ _ e he
        · split
          · split
            · intro e he
              simp only [List.mem_append, List.mem_map] at he
              rcases he with he | ⟨x, _, rfl⟩
              · exact hp e he
              · rfl
            · exact hp
          · apply reap_no_mount
            intro e he
            simp only [List.mem_append] at he
            rcases he with he | he
            · exact hp e he
            · exact deliver_no_mount P env a _ _ e he
      · apply reap_no_mount
        intro e he
        simp only [List.mem_append] at he
        rcases he with he | he
        · exact hp e he
        · exact deliver_no_mount P env a _ _ e he
    · exact reap_no_mount a _ hp

theorem deliver_same {σ : Type} (P : pwr_mgr σ) (env : sched_env) (a : Nat)
    (t : kernel_task_t) (s : σ) : same_timer_and_flags t (deliver P env a t s).1 := by
  unfold deliver
  cases hq : t.msg_queue.get? (select_msg env.tock_us t.msg_queue) with
  | none => exact ⟨rfl, rfl, rfl, rfl⟩
  | some m =>
    dsimp only
    have f := call_task_frame a t m
    have g := after_drop_frame P a
      { (call_task a t m).1 with
        msg_queue := UNMOUNT (call_task a t m).1.msg_queue (select_msg env.tock_us t.msg_queue) } s
    exact ⟨g.2.1.trans f.2.2.1, g.2.2.2.1.trans f.2.2.2.2.1, g.2.2.2.2.trans f.2.2.2.2.2,
      g.2.2.1.trans f.2.2.2.1⟩

theorem drop_paused_same (a : Nat) (t : kernel_task_t) :
    same_timer_and_flags t (drop_paused a t).1 := by
  unfold drop_paused
  split <;> exact ⟨rfl, rfl, rfl, rfl⟩

theorem busy_without_traffic_same (delta_ms : Int) (t : kernel_task_t) :
    same_timer_and_flags t (busy_without_traffic delta_ms t) := by
  unfold busy_without_traffic
  split <;> exact ⟨rfl, rfl, rfl, rfl⟩

theorem same_trans {t t2 t3 : kernel_task_t} (h1 : same_timer_and_flags t t2)
    (h2 : same_timer_and_flags t2 t3) : same_timer_and_flags t t3 :=
  ⟨h2.1.trans h1.1, h2.2.1.trans h1.2.1, h2.2.2.1.trans h1.2.2.1, h2.2.2.2.trans h1.2.2.2⟩

theorem reap_same {σ : Type} (a : Nat) (t : kernel_task_t)
    (r : kernel_task_t × σ × List sched_event) (hd : t.task_deleted = false)
    (h : same_timer_and_flags t r.1) :
    ∃ t2, (reap a r).1 = some t2 ∧ same_timer_and_flags t t2 := by
  have : r.1.task_deleted = false := h.2.2.2.trans hd
  refine ⟨r.1, ?_, h⟩
  rw [reap_fst, this]
  rfl

/-- A task that is not deleted survives its dispatch step with its timer
message and its flags untouched. -/
theorem dispatch_task_same {σ : Type} (P : pwr_mgr σ) (env : sched_env) (delta_ms : Int)
    (a : Nat) (t : kernel_task_t) (s : σ) (hd : t.task_deleted = false) :
    ∃ t2, (dispatch_task P env delta_ms a t s).1 = some t2 ∧ same_timer_and_flags t t2 := by
  have hp := drop_paused_same a t
  unfold dispatch_task
  dsimp only
  split
  · exact ⟨t, rfl, rfl, rfl, rfl, rfl⟩
  · split
    · split
      · split
        · apply reap_same a t _ hd
          have g := after_drop_frame P a
            { (drop_paused a t).1 with
              is_busy := TASK_IDLE, msg_queue := UNMOUNT (drop_paused a t).1.msg_queue 0 }
            (P.pwr_mgr_check_power_failure (P.pwr_mgr_check s t.pm).2 (drop_paused a t).1.pm).2
          exact ⟨g.2.1.trans hp.1, g.2.2.2.1.trans hp.2.1, g.2.2.2.2.trans hp.2.2.1,
            g.2.2.1.trans hp.2.2.2⟩
        · split
          · split
            · exact ⟨_, rfl, hp.1, hp.2.1, hp.2.2.1, hp.2.2.2⟩
            · exact ⟨_, rfl, hp⟩
          · apply reap_same a t _ hd
            exact same_trans hp (deliver_same P env a _ _)
      · apply reap_same a t _ hd
        exact same_trans hp (deliver_same P env a _ _)
    · apply reap_same a t _ hd
      exact same_trans hp (busy_without_traffic_same delta_ms _)

/-! ### One pass, seen from a task's timer -/

theorem dispatch_loop_sublist {σ : Type} (P : pwr_mgr σ) (env : sched_env) (delta_ms : Int)
    (ts : List (Nat × kernel_task_t)) (s : σ) :
    ((dispatch_loop P env delta_ms ts s).1.map Prod.fst).Sublist (ts.map Prod.fst) := by
  induction ts generalizing s with
  | nil => simp [dispatch_loop]
  | cons x rest ih =>
    obtain ⟨b, u⟩ := x
    simp only [dispatch_loop]
    cases hr : (dispatch_task P env delta_ms b u s).1 with
    | none => exact List.Sublist.cons _ (ih _)
    | some t1 => exact List.Sublist.cons₂ _ (ih _)

theorem sheduler_nodup {σ : Type} (P : pwr_mgr σ) (env : sched_env) (k : kernel σ)
    (hnd : (k.kernel_task_queue.map Prod.fst).Nodup) :
    ((kernel_task_sheduler P env k).1.kernel_task_queue.map Prod.fst).Nodup := by
  have hd := drain_groups_tasks env.tick_us k.kernel_mailbox_group_queue k.kernel_task_queue k.heap
  have hfst : (drain_groups env.tick_us k.kernel_mailbox_group_queue k.kernel_task_queue
      k.heap).2.1.map Prod.fst = k.kernel_task_queue.map Prod.fst := by
    rw [hd, List.map_map]
    apply List.map_congr_left
    intro e _
    rfl
  unfold kernel_task_sheduler
  dsimp only
  apply List.Nodup.sublist (dispatch_loop_sublist P env _ _ _)
  split
  · rw [timer_loop_addrs, hfst]; exact hnd
  · rw [hfst]; exact hnd

theorem sheduler_heap {σ : Type} (P : pwr_mgr σ) (env : sched_env) (k : kernel σ)
    (hh : no_alloc_failure k.heap) : no_alloc_failure (kernel_task_sheduler P env k).1.heap := by
  have hd := drain_groups_heap env.tick_us k.kernel_mailbox_group_queue k.kernel_task_queue
    k.heap hh
  unfold kernel_task_sheduler
  dsimp only
  split
  · exact timer_loop_heap _ _ _ hd
  · exact hd

theorem task_at_mem (a : Nat) (t : kernel_task_t) (ts : List (Nat × kernel_task_t))
    (h : task_at a ts = some t) : (a, t) ∈ ts := by
  unfold task_at at h
  cases hf : ts.find? (fun e => e.1 == a) with
  | none => rw [hf] at h; cases h
  | some e =>
    rw [hf] at h
    simp only [Option.map_some', Option.some.injEq] at h
    have h1 := List.find?_some hf
    have h2 := List.mem_of_find?_eq_some hf
    simp only [beq_iff_eq] at h1
    obtain ⟨e1, e2⟩ := e
    simp only at h h1
    subst h h1
    exact h2

theorem filter_timer_of_filter_task (a : Nat) (ev : List sched_event) :
    (ev.filter (fun e => e.task == a)).filter (is_timer_mount_of a)
      = ev.filter (is_timer_mount_of a) := by
  rw [List.filter_filter]
  apply List.filter_congr
  intro e _
  cases e <;> simp [is_timer_mount_of, sched_event.task]

/-- One pass and the timer of the task at address `a`: the task survives, its
timer message is the one the timer loop left (`pre_dispatch`), its flags are
unchanged, and the timer firings of the pass for `a` are those of
`pre_dispatch`. -/
theorem sheduler_timer_step {σ : Type} (P : pwr_mgr σ) (env : sched_env) (k : kernel σ) (a : Nat)
    (t : kernel_task_t) (hnd : (k.kernel_task_queue.map Prod.fst).Nodup)
    (hmem : (a, t) ∈ k.kernel_task_queue) (hd : t.task_deleted = false) :
    ∃ extra h t2, (no_alloc_failure k.heap → no_alloc_failure h) ∧
      task_at a (kernel_task_sheduler P env k).1.kernel_task_queue = some t2 ∧
      same_timer_and_flags (pre_dispatch (pass_delta_ms env k.t1) a t extra h).1 t2 ∧
      (kernel_task_sheduler P env k).2.filter (is_timer_mount_of a)
        = (pre_dispatch (pass_delta_ms env k.t1) a t extra h).2.2 := by
  obtain ⟨h, s, hh, h1, h2⟩ := sheduler_local P env k a t hnd hmem
  generalize mails a (drain_groups env.tick_us k.kernel_mailbox_group_queue
    k.kernel_task_queue k.heap).2.2.2 = extra at h1 h2
  have hf := pre_dispatch_frame (pass_delta_ms env k.t1) a t extra h
  obtain ⟨t2, e1, e2⟩ := dispatch_task_same P env (pass_delta_ms env k.t1) a
    (pre_dispatch (pass_delta_ms env k.t1) a t extra h).1 s (hf.2.2.2.2.2.2.2.2.1.trans hd)
  refine ⟨extra, h, t2, hh, h1.trans e1, e2, ?_⟩
  rw [← filter_timer_of_filter_task, h2, List.filter_append, List.filter_append]
  have p1 : (extra.map (sched_event.mail_mount a)).filter (is_timer_mount_of a) = [] := by
    rw [List.filter_eq_nil_iff]
    intro e he
    obtain ⟨x, _, rfl⟩ := List.mem_map.1 he
    simp [is_timer_mount_of]
  have p2 : (pre_dispatch (pass_delta_ms env k.t1) a t extra h).2.2.filter (is_timer_mount_of a)
      = (pre_dispatch (pass_delta_ms env k.t1) a t extra h).2.2 := by
    rw [List.filter_eq_self]
    intro e he
    obtain ⟨m, rfl⟩ := pre_dispatch_events _ _ _ _ _ e he
    simp [is_timer_mount_of]
  have p3 : (dispatch_task P env (pass_delta_ms env k.t1) a
      (pre_dispatch (pass_delta_ms env k.t1) a t extra h).1 s).2.2.filter (is_timer_mount_of a) = [] := by
    rw [List.filter_eq_nil_iff]
    intro e he
    have := dispatch_task_no_mount P env _ a _ s e he
    cases e <;> simp [is_timer_mount_of, sched_event.is_mount] at this ⊢
  rw [p1, p2, p3]
  simp

/-! ### The timer of one task over one pass -/

theorem timer_advance_none (delta_ms : Int) (a : Nat) (t : kernel_task_t) (h : x_heap)
    (htm : t.timer_msg_queue = none) : timer_advance delta_ms a t h = (t, h, []) := by
  unfold timer_advance
  rw [htm]

theorem timer_advance_wait (delta_ms : Int) (a : Nat) (t : kernel_task_t) (h : x_heap)
    (tm : kernel_msg_t) (c dl p : Int) (htm : t.timer_msg_queue = some tm)
    (ht : tm.timer = ⟨true, c, dl, p⟩) (hw : dl > delta_ms) :
    (timer_advance delta_ms a t h).1.timer_msg_queue
        = some (tm.set_timer ⟨true, c, dl - delta_ms, p⟩) ∧
      (timer_advance delta_ms a t h).2.2 = [] := by
  unfold timer_advance
  rw [htm]
  simp [ht, hw]

theorem timer_expire_reload (a : Nat) (t : kernel_task_t) (m0 : kernel_msg_t) (h : x_heap)
    (n : String) (hn : m0.msg.notification = some n) (hs : t.task_suspended = false)
    (hh : no_alloc_failure h) (hp : m0.timer.preodic > 0) (hc : m0.timer.cnt ≠ 0) :
    (timer_expire a t m0 h).1.timer_msg_queue
        = some (m0.set_timer { m0.timer with
            cnt := if m0.timer.cnt > 0 then m0.timer.cnt - 1 else m0.timer.cnt,
            delay := m0.timer.preodic }) ∧
      ∃ x, (timer_expire a t m0 h).2.2 = [.timer_mount a x] ∧ x.timer.enable = false := by
  have c1 : (!t.task_suspended) = true := by simp [hs]
  have c2 : (decide (m0.timer.preodic > 0) && m0.timer.cnt != 0) = true := by simp [hp, hc]
  unfold timer_expire
  rw [if_pos c1, if_pos c2]
  dsimp only
  have hd := kernel_duplicate_msg_ok h
    (m0.set_timer { m0.timer with
      cnt := if m0.timer.cnt > 0 then m0.timer.cnt - 1 else m0.timer.cnt,
      delay := m0.timer.preodic }) n hh hn
  rw [hd]
  exact ⟨rfl, _, rfl, rfl⟩

theorem timer_expire_last (a : Nat) (t : kernel_task_t) (m0 : kernel_msg_t) (h : x_heap)
    (hs : t.task_suspended = false) (hone : ¬ (m0.timer.preodic > 0 ∧ m0.timer.cnt ≠ 0)) :
    (timer_expire a t m0 h).1.timer_msg_queue = none ∧
      ∃ x, (timer_expire a t m0 h).2.2 = [.timer_mount a x] ∧ x.timer.enable = false := by
  have c1 : (!t.task_suspended) = true := by simp [hs]
  have c2 : ¬ (decide (m0.timer.preodic > 0) && m0.timer.cnt != 0) = true := by
    intro hc
    simp only [Bool.and_eq_true, decide_eq_true_eq, bne_iff_ne, ne_eq] at hc
    exact hone hc
  unfold timer_expire
  rw [if_pos c1, if_neg c2]
  exact ⟨rfl, _, rfl, rfl⟩

theorem timer_advance_expired (delta_ms : Int) (a : Nat) (t : kernel_task_t) (h : x_heap)
    (tm : kernel_msg_t) (c dl p : Int) (htm : t.timer_msg_queue = some tm)
    (ht : tm.timer = ⟨true, c, dl, p⟩) (hw : ¬ dl > delta_ms) :
    (timer_advance delta_ms a t h).1.timer_msg_queue
        = (timer_expire a t (tm.set_timer ⟨true, c, 0, p⟩) h).1.timer_msg_queue ∧
      (timer_advance delta_ms a t h).2.2 = (timer_expire a t (tm.set_timer ⟨true, c, 0, p⟩) h).2.2 := by
  unfold timer_advance
  rw [htm]
  dsimp only
  rw [ht]
  simp only [if_true, if_neg hw]
  exact ⟨(mark_pending_frame _).2.2.2.2.2.2.2.2.2.2.1, trivial⟩

theorem timer_advance_reload (delta_ms : Int) (a : Nat) (t : kernel_task_t) (h : x_heap)
    (tm : kernel_msg_t) (c dl p : Int) (n : String) (htm : t.timer_msg_queue = some tm)
    (ht : tm.timer = ⟨true, c, dl, p⟩) (hn : tm.msg.notification = some n)
    (hs : t.task_suspended = false) (hh : no_alloc_failure h)
    (hw : ¬ dl > delta_ms) (hp : p > 0) (hc : c ≠ 0) :
    (timer_advance delta_ms a t h).1.timer_msg_queue
        = some (tm.set_timer ⟨true, if c > 0 then c - 1 else c, p, p⟩) ∧
      ∃ x, (timer_advance delta_ms a t h).2.2 = [.timer_mount a x] ∧ x.timer.enable = false := by
  obtain ⟨e1, e2⟩ := timer_advance_expired delta_ms a t h tm c dl p htm ht hw
  obtain ⟨f1, f2⟩ := timer_expire_reload a t (tm.set_timer ⟨true, c, 0, p⟩) h n hn hs hh hp hc
  rw [e1, e2]
  exact ⟨f1, f2⟩

theorem timer_advance_last (delta_ms : Int) (a : Nat) (t : kernel_task_t) (h : x_heap)
    (tm : kernel_msg_t) (c dl p : Int) (htm : t.timer_msg_queue = some tm)
    (ht : tm.timer = ⟨true, c, dl, p⟩) (hs : t.task_suspended = false)
    (hw : ¬ dl > delta_ms) (hone : ¬ (p > 0 ∧ c ≠ 0)) :
    (timer_advance delta_ms a t h).1.timer_msg_queue = none ∧
      ∃ x, (timer_advance delta_ms a t h).2.2 = [.timer_mount a x] ∧ x.timer.enable = false := by
  obtain ⟨e1, e2⟩ := timer_advance_expired delta_ms a t h tm c dl p htm ht hw
  obtain ⟨f1, f2⟩ := timer_expire_last a t (tm.set_timer ⟨true, c, 0, p⟩) h hs hone
  rw [e1, e2]
  exact ⟨f1, f2⟩

/-! ### The timer of one task over a run of passes -/

theorem task_at_of_mem (a : Nat) (t : kernel_task_t) (ts : List (Nat × kernel_task_t))
    (hnd : (ts.map Prod.fst).Nodup) (hmem : (a, t) ∈ ts) : task_at a ts = some t := by
  induction ts with
  | nil => simp at hmem
  | cons x rest ih =>
    obtain ⟨b, u⟩ := x
    simp only [List.map_cons, List.nodup_cons] at hnd
    rcases List.mem_cons.1 hmem with heq | hmem
    · cases heq
      simp [task_at]
    · have hne : b ≠ a := by
        intro e
        subst e
        exact hnd.1 (List.mem_map.2 ⟨(b, t), hmem, rfl⟩)
      have := ih hnd.2 hmem
      simpa [task_at, List.find?_cons, hne] using this

theorem pre_dispatch_timer_none (delta_ms : Int) (a : Nat) (t : kernel_task_t)
    (extra : List kernel_msg_t) (h : x_heap) (htm : t.timer_msg_queue = none) :
    (pre_dispatch delta_ms a t extra h).1.timer_msg_queue = none ∧
      (pre_dispatch delta_ms a t extra h).2.2 = [] := by
  unfold pre_dispatch
  split
  · rw [timer_advance_none delta_ms a { t with msg_queue := t.msg_queue ++ extra } h htm]
    exact ⟨htm, rfl⟩
  · exact ⟨htm, rfl⟩

theorem run_no_timer {σ : Type} (P : pwr_mgr σ) (envs : List sched_env) (k : kernel σ) (a : Nat)
    (t : kernel_task_t) (hnd : (k.kernel_task_queue.map Prod.fst).Nodup)
    (hmem : (a, t) ∈ k.kernel_task_queue) (hd : t.task_deleted = false)
    (htm : t.timer_msg_queue = none) :
    (run_passes P envs k).2.filter (is_timer_mount_of a) = [] ∧
      ∃ t2, task_at a (run_passes P envs k).1.kernel_task_queue = some t2 ∧
        t2.timer_msg_queue = none := by
  induction envs generalizing k t with
  | nil => exact ⟨rfl, t, task_at_of_mem a t _ hnd hmem, htm⟩
  | cons env rest ih =>
    obtain ⟨extra, h, t2, _, e1, e2, e3⟩ := sheduler_timer_step P env k a t hnd hmem hd
    obtain ⟨p1, p2⟩ := pre_dispatch_timer_none (pass_delta_ms env k.t1) a t extra h htm
    have hf := pre_dispatch_frame (pass_delta_ms env k.t1) a t extra h
    obtain ⟨i1, i2⟩ := ih (kernel_task_sheduler P env k).1 t2 (sheduler_nodup P env k hnd)
      (task_at_mem a t2 _ e1) (e2.2.2.2.trans (hf.2.2.2.2.2.2.2.2.1.trans hd)) (e2.1.trans p1)
    simp only [run_passes, List.filter_append]
    rw [e3, p2, i1]
    exact ⟨rfl, i2⟩

theorem firings_succ_reload (c p : Int) (e : Nat) (hp : p > 0) (hc : c ≠ 0) :
    firings c p (e + 1) = firings (if c > 0 then c - 1 else c) p e + 1 := by
  unfold firings
  simp only [hp, if_true]
  by_cases h1 : c > 0
  · have h2 : ¬ c < 0 := by omega
    have h3 : ¬ c - 1 < 0 := by omega
    simp only [h1, if_true, h2, h3, if_false]
    omega
  · have h2 : c < 0 := by omega
    simp only [h1, if_false, h2, if_true]

theorem firings_succ_last (c p : Int) (e : Nat) (hone : ¬ (p > 0 ∧ c ≠ 0)) :
    firings c p (e + 1) = 1 := by
  unfold firings
  by_cases hp : p > 0
  · have hc : c = 0 := by
      by_contra h2
      exact hone ⟨hp, h2⟩
    subst hc
    simp [hp]
  · simp [hp]

/-- The firings of an attached, enabled timer of a task that is neither
suspended nor deleted, over any run of passes in which no allocation fails. -/
theorem run_timer {σ : Type} (P : pwr_mgr σ) (envs : List sched_env) (k : kernel σ) (a : Nat)
    (t : kernel_task_t) (tm : kernel_msg_t) (c dl p : Int) (n : String)
    (hnd : (k.kernel_task_queue.map Prod.fst).Nodup) (hmem : (a, t) ∈ k.kernel_task_queue)
    (hs : t.task_suspended = false) (hd : t.task_deleted = false)
    (hh : no_alloc_failure k.heap) (htm : t.timer_msg_queue = some tm)
    (ht : tm.timer = ⟨true, c, dl, p⟩) (hn : tm.msg.notification = some n) :
    ((run_passes P envs k).2.filter (is_timer_mount_of a)).length
        = firings c p (expiries dl p (deltas k.t1 envs)) ∧
      (∀ e ∈ (run_passes P envs k).2.filter (is_timer_mount_of a),
        ∃ m, e = .timer_mount a m ∧ m.timer.enable = false) ∧
      ((p ≤ 0 ∨ 0 ≤ c) → (if p > 0 then c.toNat + 1 else 1) ≤ expiries dl p (deltas k.t1 envs) →
        ∃ t2, task_at a (run_passes P envs k).1.kernel_task_queue = some t2 ∧
          t2.timer_msg_queue = none) := by
  induction envs generalizing k t tm c dl with
  | nil =>
    refine ⟨?_, by simp [run_passes], ?_⟩
    · simp [run_passes, deltas, expiries, firings]
    · intro _ hle
      simp only [deltas, expiries] at hle
      split at hle <;> omega
  | cons env rest ih =>
    obtain ⟨extra, h, t2, g0, e1, e2, e3⟩ := sheduler_timer_step P env k a t hnd hmem hd
    have hf := pre_dispatch_frame (pass_delta_ms env k.t1) a t extra h
    have hnd2 := sheduler_nodup P env k hnd
    have hmem2 := task_at_mem a t2 _ e1
    have hs2 : t2.task_suspended = false := e2.2.1.trans (hf.2.2.2.2.2.2.1.trans hs)
    have hd2 : t2.task_deleted = false := e2.2.2.2.trans (hf.2.2.2.2.2.2.2.2.1.trans hd)
    have hh2 := sheduler_heap P env k hh
    have ht1 : (kernel_task_sheduler P env k).1.t1 = to_i32 env.tick := rfl
    simp only [run_passes, List.filter_append, List.length_append, List.mem_append]
    rw [e3]
    by_cases hdl : pass_delta_ms env k.t1 > 0
    · have hpre : pre_dispatch (pass_delta_ms env k.t1) a t extra h
          = timer_advance (pass_delta_ms env k.t1) a { t with msg_queue := t.msg_queue ++ extra } h := by
        unfold pre_dispatch
        rw [if_pos hdl]
      rw [hpre] at e2 ⊢
      by_cases hw : dl > pass_delta_ms env k.t1
      · obtain ⟨q1, q2⟩ := timer_advance_wait (pass_delta_ms env k.t1) a
          { t with msg_queue := t.msg_queue ++ extra } h tm c dl p htm ht hw
        obtain ⟨i1, i2, i3⟩ := ih (kernel_task_sheduler P env k).1 t2
          (tm.set_timer ⟨true, c, dl - (pass_delta_ms env k.t1), p⟩) c (dl - (pass_delta_ms env k.t1))
          hnd2 hmem2 hs2 hd2 hh2 (e2.1.trans q1) rfl hn
        rw [ht1] at i1 i3
        simp only [deltas, expiries, if_pos hdl, if_pos hw]
        rw [q2]
        refine ⟨by simpa using i1, ?_, i3⟩
        intro e he
        rcases he with he | he
        · simp at he
        · exact i2 e he
      · by_cases hper : p > 0 ∧ c ≠ 0
        · obtain ⟨q1, x, q2, q3⟩ := timer_advance_reload (pass_delta_ms env k.t1) a
            { t with msg_queue := t.msg_queue ++ extra } h tm c dl p n htm ht hn hs (g0 hh) hw
            hper.1 hper.2
          obtain ⟨i1, i2, i3⟩ := ih (kernel_task_sheduler P env k).1 t2
            (tm.set_timer ⟨true, if c > 0 then c - 1 else c, p, p⟩) (if c > 0 then c - 1 else c) p
            hnd2 hmem2 hs2 hd2 hh2 (e2.1.trans q1) rfl hn
          rw [ht1] at i1 i3
          simp only [deltas, expiries, if_pos hdl, if_neg hw]
          rw [q2, firings_succ_reload c p _ hper.1 hper.2]
          refine ⟨by simp only [List.length_singleton]; omega, ?_, ?_⟩
          · intro e he
            rcases he with he | he
            · exact ⟨x, by simpa using he, q3⟩
            · exact i2 e he
          · intro hfin hle
            apply i3
            · rcases hfin with hfin | hfin
              · omega
              · right
                split <;> omega
            · simp only [if_pos hper.1] at hle ⊢
              have hc0 : c > 0 := by
                rcases hfin with hfin | hfin <;> omega
              simp only [if_pos hc0]
              omega
        · obtain ⟨q1, x, q2, q3⟩ := timer_advance_last (pass_delta_ms env k.t1) a
            { t with msg_queue := t.msg_queue ++ extra } h tm c dl p htm ht hs hw hper
          obtain ⟨i1, i2⟩ := run_no_timer P rest (kernel_task_sheduler P env k).1 a t2 hnd2 hmem2 hd2
            (e2.1.trans q1)
          simp only [deltas, expiries, if_pos hdl, if_neg hw]
          rw [q2, i1, firings_succ_last c p _ hper]
          refine ⟨rfl, ?_, fun _ _ => i2⟩
          intro e he
          rcases he with he | he
          · exact ⟨x, by simpa using he, q3⟩
          · simp at he
    · have hpre : pre_dispatch (pass_delta_ms env k.t1) a t extra h
          = ({ t with msg_queue := t.msg_queue ++ extra }, h, []) := by
        unfold pre_dispatch
        rw [if_neg hdl]
      rw [hpre] at e2 ⊢
      obtain ⟨i1, i2, i3⟩ := ih (kernel_task_sheduler P env k).1 t2 tm c dl
        hnd2 hmem2 hs2 hd2 hh2 (e2.1.trans htm) ht hn
      rw [ht1] at i1 i3
      simp only [deltas, expiries, if_neg hdl]
      refine ⟨by simpa using i1, ?_, i3⟩
      intro e he
      rcases he with he | he
      · simp at he
      · exact i2 e he

/-! ### Posting a timer message -/

theorem update_task_addrs (a : Nat) (f : kernel_task_t → kernel_task_t)
    (ts : List (Nat × kernel_task_t)) : (update_task a f ts).map Prod.fst = ts.map Prod.fst := by
  unfold update_task
  rw [List.map_map]
  apply List.map_congr_left
  intro e _
  simp only [Function.comp]
  split <;> rfl

theorem update_task_mem (a : Nat) (f : kernel_task_t → kernel_task_t) (t : kernel_task_t)
    (ts : List (Nat × kernel_task_t)) (hmem : (a, t) ∈ ts) : (a, f t) ∈ update_task a f ts := by
  unfold update_task
  exact List.mem_map.2 ⟨(a, t), hmem, by simp⟩

theorem post_timer_msg {σ : Type} (outside : Bool) (k : kernel σ) (name : CStr) (a : Nat)
    (t : kernel_task_t) (p : kernel_msg_t) (src : Option String)
    (hnd : (k.kernel_task_queue.map Prod.fst).Nodup) (hmem : (a, t) ∈ k.kernel_task_queue)
    (hfind : get_task_handler name k.kernel_task_queue = some a)
    (hpa : t.task_paused = false) (hen : p.timer.enable = true) :
    (__post_msg_from outside k (some name) (.owned p) src).1 = true ∧
    (__post_msg_from outside k (some name) (.owned p) src).2.kernel_task_queue
      = update_task a
          (fun t => { t with timer_msg_queue := some (p.set_src_task (__strdup__ k.heap src).1) })
          k.kernel_task_queue ∧
    (__post_msg_from outside k (some name) (.owned p) src).2.heap = (__strdup__ k.heap src).2 ∧
    (__post_msg_from outside k (some name) (.owned p) src).2.t1 = k.t1 := by
  have hat := task_at_of_mem a t _ hnd hmem
  have hen2 : (p.set_src_task (__strdup__ k.heap src).1).timer.enable = true := hen
  unfold __post_msg_from
  simp only [hfind, hat, hpa, Bool.false_eq_true, if_false, hen2, if_true]
  trivial

theorem wrap28_id (c : Int) (h1 : -(2 ^ 27) ≤ c) (h2 : c < 2 ^ 27) : wrap28 c = c := by
  unfold wrap28
  have : (c + 2 ^ 27) % 2 ^ 28 = c + 2 ^ 27 := Int.emod_eq_of_lt (by omega) (by omega)
  omega

theorem posted_timer_run {σ : Type} (P : pwr_mgr σ) (outside : Bool) (k : kernel σ) (name : CStr)
    (a : Nat) (t : kernel_task_t) (msg : kernel_msg_t) (nt : String) (src : Option String)
    (d p cnt : Int) (envs : List sched_env)
    (hnd : (k.kernel_task_queue.map Prod.fst).Nodup) (hmem : (a, t) ∈ k.kernel_task_queue)
    (hfind : get_task_handler name k.kernel_task_queue = some a)
    (hs : t.task_suspended = false) (hpa : t.task_paused = false) (hdel : t.task_deleted = false)
    (hh : no_alloc_failure k.heap) (hmsg : msg.mailbox_type = false)
    (hnote : msg.msg.notification = some nt) :
    (__post_msg_from outside k (some name) (.owned (msg_set_repeat_n_timer msg d p cnt).2) src).1
        = true ∧
    ((run_passes P envs (__post_msg_from outside k (some name)
        (.owned (msg_set_repeat_n_timer msg d p cnt).2) src).2).2.filter
          (is_timer_mount_of a)).length
      = firings (wrap28 (if 0 < cnt then cnt - 1 else cnt)) p (expiries d p (deltas k.t1 envs)) ∧
    (∀ e ∈ (run_passes P envs (__post_msg_from outside k (some name)
        (.owned (msg_set_repeat_n_timer msg d p cnt).2) src).2).2.filter (is_timer_mount_of a),
      ∃ m, e = .timer_mount a m ∧ m.timer.enable = false) ∧
    ((p ≤ 0 ∨ 0 ≤ wrap28 (if 0 < cnt then cnt - 1 else cnt)) →
      (if p > 0 then (wrap28 (if 0 < cnt then cnt - 1 else cnt)).toNat + 1 else 1)
        ≤ expiries d p (deltas k.t1 envs) →
      ∃ t2, task_at a (run_passes P envs (__post_msg_from outside k (some name)
          (.owned (msg_set_repeat_n_timer msg d p cnt).2) src).2).1.kernel_task_queue = some t2 ∧
        t2.timer_msg_queue = none) := by
  have hset : msg_set_repeat_n_timer msg d p cnt
      = (true, { msg with u := .timer ⟨true, wrap28 (if 0 < cnt then cnt - 1 else cnt), d, p⟩ }) := by
    simp [msg_set_repeat_n_timer, hmsg]
  rw [hset]
  generalize hq : ({ msg with u := .timer ⟨true, wrap28 (if 0 < cnt then cnt - 1 else cnt), d, p⟩ }
    : kernel_msg_t) = q
  have hqt : q.timer = ⟨true, wrap28 (if 0 < cnt then cnt - 1 else cnt), d, p⟩ := by
    rw [← hq]; rfl
  have hqn : q.msg.notification = some nt := by rw [← hq]; exact hnote
  obtain ⟨o1, o2, o3, o4⟩ := post_timer_msg outside k name a t q src hnd hmem hfind hpa
    (by rw [hqt])
  generalize __post_msg_from outside k (some name) (.owned q) src = r at o1 o2 o3 o4
  have hnd1 : (r.2.kernel_task_queue.map Prod.fst).Nodup := by
    rw [o2, update_task_addrs]; exact hnd
  have hmem1 : (a, { t with timer_msg_queue := some (q.set_src_task (__strdup__ k.heap src).1) })
      ∈ r.2.kernel_task_queue := by
    rw [o2]
    exact update_task_mem a _ t _ hmem
  have hh1 : no_alloc_failure r.2.heap := by
    rw [o3]; exact strdup_heap _ _ hh
  obtain ⟨i1, i2, i3⟩ := run_timer P envs r.2 a _ (q.set_src_task (__strdup__ k.heap src).1)
    (wrap28 (if 0 < cnt then cnt - 1 else cnt)) d p nt hnd1 hmem1 hs hdel hh1 rfl hqt hqn
  rw [o4] at i1 i3
  exact ⟨o1, i1, i2, i3⟩

theorem acc_delta_nonneg (ds : List Int) : 0 ≤ acc_delta ds := by
  induction ds with
  | nil => simp [acc_delta]
  | cons x rest ih =>
    simp only [acc_delta]
    split <;> omega

theorem expiries_not_reached (x p : Int) (ds : List Int) (h : acc_delta ds < x) :
    expiries x p ds = 0 := by
  induction ds generalizing x with
  | nil => rfl
  | cons a rest ih =>
    have hr := acc_delta_nonneg rest
    simp only [acc_delta] at h
    simp only [expiries]
    by_cases ha : a > 0
    · rw [if_pos ha] at h
      rw [if_pos ha, if_pos (by omega)]
      exact ih _ (by omega)
    · rw [if_neg ha] at h
      rw [if_neg ha]
      exact ih _ (by omega)

theorem expiries_reached (x p : Int) (s tl : List Int) (h : reaches x s) :
    expiries x p (s ++ tl) = expiries p p tl + 1 := by
  induction s generalizing x with
  | nil =>
    obtain ⟨h1, h2⟩ := h
    simp [acc_delta] at h1 h2
    omega
  | cons a s ih =>
    cases s with
    | nil =>
      obtain ⟨h1, h2⟩ := h
      simp only [List.dropLast, acc_delta] at h1 h2
      have ha : a > 0 := by
        by_contra hn
        rw [if_neg hn] at h2
        omega
      rw [if_pos ha] at h2
      simp only [List.singleton_append, expiries, if_pos ha]
      rw [if_neg (by omega)]
      rfl
    | cons b s =>
      obtain ⟨h1, h2⟩ := h
      rw [List.dropLast_cons₂] at h1
      rw [acc_delta] at h1 h2
      have hr := acc_delta_nonneg (List.dropLast (b :: s))
      rw [List.cons_append, expiries]
      by_cases ha : a > 0
      · rw [if_pos ha] at h1 h2
        rw [if_pos ha]
        have hw : x > a := by omega
        rw [if_pos hw]
        exact ih (x - a) ⟨by omega, by omega⟩
      · rw [if_neg ha] at h1 h2
        rw [if_neg ha]
        exact ih x ⟨by omega, by omega⟩

theorem expiries_periods (p : Int) (more : List (List Int)) (rest : List Int)
    (h : ∀ s ∈ more, reaches p s) :
    expiries p p (more.flatten ++ rest) = expiries p p rest + more.length := by
  induction more with
  | nil => simp
  | cons s more ih =>
    rw [List.flatten_cons, List.append_assoc, List.length_cons,
      expiries_reached p p s _ (h s (List.mem_cons_self _ _)),
      ih (fun s hs => h s (List.mem_cons_of_mem _ hs))]
    omega

/-- C6 (the claim as stated fails): a timer with delay 100, period 100 and
count 3 is posted to the example task and one pass runs at tick 1000, so that
its `delta_ms` of 1000 has reached 100, 200 and 300.  The pass enqueues one
firing, not three, and the timer stays attached and enabled with the period
as its delay and one repetition left. -/
theorem repeat_timer_overshoot_fires_once :
    deltas 0 [example_env 1000] = [1000]
    ∧ ((run_passes pwr_always_on [example_env 1000]
        (__post_msg_from false (example_kernel (example_task TASK_IDLE [] TASK_IDLE 0))
          (some ⟨1, "T"⟩) (.owned (msg_set_repeat_n_timer (plain_msg "t" 0) 100 100 3).2)
          none).2).2.filter (is_timer_mount_of 7)).length = 1
    ∧ ((task_at 7 (run_passes pwr_always_on [example_env 1000]
        (__post_msg_from false (example_kernel (example_task TASK_IDLE [] TASK_IDLE 0))
          (some ⟨1, "T"⟩) (.owned (msg_set_repeat_n_timer (plain_msg "t" 0) 100 100 3).2)
          none).2).1.kernel_task_queue).bind (fun t => t.timer_msg_queue)).map
            (fun m => (m.timer.enable, m.timer.cnt, m.timer.delay, m.timer.preodic))
        = some (true, 1, 100, 100) := by
  refine ⟨by decide, rfl, rfl⟩

/-- C6 (amended): for every n > 0 within the 28-bit counter range, every delay
d and every period p > 0: a message with `msg_set_repeat_n_timer(msg, d, p, n)`
posted to a local task that is not paused, suspended or deleted produces, over
any run of scheduler passes in which no allocation fails, at most n enqueued
firings, each with its timer disabled, and none while the accumulated
`delta_ms` is below d.  When the `delta_ms` values of the run split into
passes that reach d (at their last pass), then j groups of passes that each reach
p, then a remainder, with j + 1 <= n, and the remainder does not reach p
unless j + 1 = n, the run enqueues exactly j + 1 firings; with j + 1 = n these
are n firings and the timer message is then no longer attached to the task. -/
theorem repeat_n_timer_fires_n_times {σ : Type} (P : pwr_mgr σ) (outside : Bool) (k : kernel σ)
    (name : CStr) (a : Nat) (t : kernel_task_t) (msg : kernel_msg_t) (nt : String)
    (src : Option String) (d p n : Int) (envs : List sched_env)
    (hnd : (k.kernel_task_queue.map Prod.fst).Nodup) (hmem : (a, t) ∈ k.kernel_task_queue)
    (hfind : get_task_handler name k.kernel_task_queue = some a)
    (hs : t.task_suspended = false) (hpa : t.task_paused = false) (hdel : t.task_deleted = false)
    (hh : no_alloc_failure k.heap) (hmsg : msg.mailbox_type = false)
    (hnote : msg.msg.notification = some nt)
    (hp : 0 < p) (hn : 0 < n) (hn28 : n ≤ 2 ^ 27) :
    (__post_msg_from outside k (some name) (.owned (msg_set_repeat_n_timer msg d p n).2) src).1
        = true ∧
    ((run_passes P envs (__post_msg_from outside k (some name)
        (.owned (msg_set_repeat_n_timer msg d p n).2) src).2).2.filter
          (is_timer_mount_of a)).length ≤ n.toNat ∧
    (∀ e ∈ (run_passes P envs (__post_msg_from outside k (some name)
        (.owned (msg_set_repeat_n_timer msg d p n).2) src).2).2.filter (is_timer_mount_of a),
      ∃ m, e = .timer_mount a m ∧ m.timer.enable = false) ∧
    (acc_delta (deltas k.t1 envs) < d →
      ((run_passes P envs (__post_msg_from outside k (some name)
        (.owned (msg_set_repeat_n_timer msg d p n).2) src).2).2.filter
          (is_timer_mount_of a)).length = 0) ∧
    (∀ (s1 : List Int) (more : List (List Int)) (rest : List Int),
      deltas k.t1 envs = s1 ++ (more.flatten ++ rest) →
      reaches d s1 → (∀ s ∈ more, reaches p s) →
      more.length + 1 ≤ n.toNat → (more.length + 1 < n.toNat → acc_delta rest < p) →
      ((run_passes P envs (__post_msg_from outside k (some name)
        (.owned (msg_set_repeat_n_timer msg d p n).2) src).2).2.filter
          (is_timer_mount_of a)).length = more.length + 1 ∧
      (more.length + 1 = n.toNat →
        ∃ t2, task_at a (run_passes P envs (__post_msg_from outside k (some name)
            (.owned (msg_set_repeat_n_timer msg d p n).2) src).2).1.kernel_task_queue = some t2 ∧
          t2.timer_msg_queue = none)) := by
  obtain ⟨h1, h2, h3, h4⟩ := posted_timer_run P outside k name a t msg nt src d p n envs hnd hmem
    hfind hs hpa hdel hh hmsg hnote
  have hw : wrap28 (if 0 < n then n - 1 else n) = n - 1 := by
    rw [if_pos hn]
    exact wrap28_id _ (by omega) (by omega)
  rw [hw] at h2 h4
  have hf : ∀ e : Nat, firings (n - 1) p e = min n.toNat e := by
    intro e
    unfold firings
    have : ¬ n - 1 < 0 := by omega
    simp only [gt_iff_lt, hp, if_true, this, if_false]
    have : (n - 1).toNat + 1 = n.toNat := by omega
    rw [this]
  rw [hf] at h2
  refine ⟨h1, ?_, h3, ?_, ?_⟩
  · rw [h2]
    exact Nat.min_le_left _ _
  · intro hlt
    rw [h2, expiries_not_reached d p _ hlt]
    exact Nat.min_zero _
  · intro s1 more rest hdec hr1 hrm hle hrest
    have he : expiries d p (deltas k.t1 envs) = expiries p p rest + more.length + 1 := by
      rw [hdec, expiries_reached d p s1 _ hr1, expiries_periods p more rest hrm]
    constructor
    · rw [h2, he]
      by_cases hlt : more.length + 1 < n.toNat
      · rw [expiries_not_reached p p rest (hrest hlt)]
        omega
      · omega
    · intro heq
      apply h4 (Or.inr (by omega))
      simp only [gt_iff_lt, hp, if_true]
      omega

/-- Witness of C6: delay 100, period 100, count 3 on the example task; the
passes at ticks 100, 200, 300, 400 have `delta_ms` 100 each, so the first
reaches the delay and the next two the period: exactly 3 firings, the callback
is invoked 3 times, and no timer is left attached. -/
theorem repeat_n_timer_fires_n_times_witness :
    deltas 0 [example_env 100, example_env 200, example_env 300, example_env 400]
        = [100] ++ ([[100], [100]].flatten ++ [100])
    ∧ reaches 100 [100]
    ∧ ((run_passes pwr_always_on [example_env 100, example_env 200, example_env 300, example_env 400]
        (__post_msg_from false (example_kernel (example_task TASK_IDLE [] TASK_IDLE 0))
          (some ⟨1, "T"⟩) (.owned (msg_set_repeat_n_timer (plain_msg "t" 0) 100 100 3).2)
          none).2).2.filter (is_timer_mount_of 7)).length = 3
    ∧ ((run_passes pwr_always_on [example_env 100, example_env 200, example_env 300, example_env 400]
        (__post_msg_from false (example_kernel (example_task TASK_IDLE [] TASK_IDLE 0))
          (some ⟨1, "T"⟩) (.owned (msg_set_repeat_n_timer (plain_msg "t" 0) 100 100 3).2)
          none).2).2.filter (is_callback_of 7)).length = 3
    ∧ ∃ t2, task_at 7 (run_passes pwr_always_on
        [example_env 100, example_env 200, example_env 300, example_env 400]
        (__post_msg_from false (example_kernel (example_task TASK_IDLE [] TASK_IDLE 0))
          (some ⟨1, "T"⟩) (.owned (msg_set_repeat_n_timer (plain_msg "t" 0) 100 100 3).2)
          none).2).1.kernel_task_queue = some t2 ∧ t2.timer_msg_queue = none :=
  have h := (repeat_n_timer_fires_n_times pwr_always_on false
    (example_kernel (example_task TASK_IDLE [] TASK_IDLE 0)) ⟨1, "T"⟩ 7
    (example_task TASK_IDLE [] TASK_IDLE 0) (plain_msg "t" 0) "t" none 100 100 3
    [example_env 100, example_env 200, example_env 300, example_env 400]
    (by decide) (by simp [example_kernel]) rfl rfl rfl rfl (by intro b hb; cases hb) rfl rfl
    (by decide) (by decide) (by decide)).2.2.2.2 [100] [[100], [100]] [100]
    (by decide) (by decide) (by decide) (by decide) (by decide)
  ⟨by decide, by decide, h.1, rfl, h.2 (by decide)⟩

/-- The timer loop across the wrap of the tick: the previous pass left
`t1 = INT32_MAX` and the tick now reads `INT32_MIN`, so `delta_ms` is 1 and a
one-shot timer with delay 1 fires in this pass. -/
theorem timer_fires_across_tick_wrap :
    pass_delta_ms (example_env (-2147483648)) 2147483647 = 1
    ∧ ((kernel_task_sheduler pwr_always_on (example_env (-2147483648))
        (__post_msg_from false
          { example_kernel (example_task TASK_IDLE [] TASK_IDLE 0) with t1 := 2147483647 }
          (some ⟨1, "T"⟩) (.owned (msg_set_repeat_n_timer (plain_msg "t" 0) 1 0 (-1)).2)
          none).2).2.filter (is_timer_mount_of 7)).length = 1 := by
  refine ⟨by decide, rfl⟩

/-- C11 (the code at the failing input): after `create_mailbox(64, 2)` a call
`create_mailbox(8, 4)` returns true but leaves the group list circular: the head
is still the 64-byte group, its `next` is the new 8-byte group and the `next` of
that one is the head again, so the list is no finite sorted list; a further
`create_mailbox(16, 1)` never returns. -/
theorem create_mailbox_below_head_makes_cycle :
    (create_mailboxes [(64, 2), (8, 4)] ⟨[], none⟩ ⟨[]⟩).map
        (fun r => (r.1, r.2.1.kernel_mailbox_group_queue, group_links r.2.1,
          (group_list r.2.1).isNone))
      = some ([true, true], some 0, [(some 1, 64, 2), (some 0, 8, 4)], true)
    ∧ create_mailboxes [(64, 2), (8, 4), (16, 1)] ⟨[], none⟩ ⟨[]⟩ = none := by
  constructor <;> rfl

theorem new_msg_some (h h1 : x_heap) (now : Int) (n : Option String) (d : List Nat) (L : Int)
    (x : kernel_msg_t) (hx : __new_msg h now n (some d) L = (some x, h1)) :
    x = { u := zero_timer, time_stamp := now, msg := ⟨n, none, L, d.take L.toNat⟩ } := by
  unfold __new_msg at hx
  have hb : (if 0 < L then d.take L.toNat else List.replicate L.toNat 0) = d.take L.toNat := by
    by_cases hL : 0 < L
    · rw [if_pos hL]
    · rw [if_neg hL]
      have : L.toNat = 0 := by omega
      rw [this]; rfl
  cases hm : x_malloc h with
  | mk b h2 =>
    rw [hm] at hx
    cases b with
    | false => cases hx
    | true =>
      dsimp only at hx
      cases n with
      | none => simp [__strdup__] at hx
      | some s =>
        unfold __strdup__ at hx
        dsimp only at hx
        cases hm2 : x_malloc h2 with
        | mk b2 h3 =>
          rw [hm2] at hx
          cases b2 with
          | false => simp at hx
          | true =>
            simp only [Prod.mk.injEq, Option.some.injEq] at hx
            rw [← hx.1, hb]

theorem new_msg_ok (h : x_heap) (now : Int) (s : String) (d : Option (List Nat)) (L : Int)
    (hh : no_alloc_failure h) : (__new_msg h now (some s) d L).1.isSome = true := by
  unfold __new_msg
  have h1 := x_malloc_ok h hh
  cases hm : x_malloc h with
  | mk b h2 =>
    rw [hm] at h1
    cases b with
    | false => cases h1.1
    | true =>
      dsimp only
      have h3 := strdup_ok h2 s h1.2
      cases hs : __strdup__ h2 (some s) with
      | mk o h4 =>
        rw [hs] at h3
        cases o with
        | none => cases h3
        | some y => rfl

theorem drain_slots_eq (now : Int) (q : List kernel_msg_t) (ts : List (Nat × kernel_task_t))
    (h : x_heap) (u : Bool) :
    (drain_slots now q ts h u).1 = List.zipWith slot_after (copy_oks now q h).1 q
    ∧ (drain_slots now q ts h u).2.2.1 = (copy_oks now q h).2
    ∧ (drain_slots now q ts h u).2.2.2.1 = (u || q.any slot_unposted)
    ∧ ∀ a, mails a (drain_slots now q ts h u).2.2.2.2 = slot_copies a (copy_oks now q h).1 q := by
  induction q generalizing ts h u with
  | nil => simp [drain_slots, copy_oks, mails, slot_copies]
  | cons m rest ih =>
    unfold drain_slots copy_oks
    by_cases ho : m.mail.occupied = true
    · rw [if_pos ho]
      cases hh : m.mail.task_handler with
      | none =>
        have hp : slot_posted m = false := by simp [slot_posted, hh]
        have hq : slot_unposted m = true := by simp [slot_unposted, hh, ho]
        have := ih ts h true
        simp only [hp, Bool.false_eq_true, if_false, List.zipWith_cons_cons, slot_after,
          List.any_cons, hq, Bool.true_or, Bool.or_true, slot_copies, ho, hh]
        refine ⟨by rw [this.1], this.2.1, by simpa using this.2.2.1, ?_⟩
        intro a
        simpa using this.2.2.2 a
      | some b =>
        have hp : slot_posted m = true := by simp [slot_posted, hh, ho]
        have hq : slot_unposted m = false := by simp [slot_unposted, hh]
        rw [if_pos hp]
        dsimp only
        cases hn : __new_msg h now m.msg.notification (some m.msg.data) m.msg.length with
        | mk r h1 =>
          cases r with
          | none =>
            have := ih ts h1 u
            simp only [Option.isSome_none, List.zipWith_cons_cons, slot_after, hp, if_true,
              Bool.false_eq_true, if_false, List.any_cons, hq, Bool.false_or, slot_copies,
              Bool.false_and]
            refine ⟨by rw [this.1]; rfl, this.2.1, this.2.2.1, ?_⟩
            intro a
            exact this.2.2.2 a
          | some nmsg =>
            have := ih (mount_on b { nmsg with time_stamp := m.time_stamp } ts) h1 u
            have hc : ({ nmsg with time_stamp := m.time_stamp } : kernel_msg_t) = slot_copy m := by
              rw [new_msg_some h h1 now _ _ _ nmsg hn]; rfl
            simp only [Option.isSome_some, List.zipWith_cons_cons, slot_after, hp, if_true,
              List.any_cons, hq, Bool.false_or, slot_copies, Bool.true_and, ho, hh]
            refine ⟨by rw [this.1]; rfl, this.2.1, this.2.2.1, ?_⟩
            intro a
            by_cases hba : b = a
            · subst hba
              rw [← hc]
              simp [mails, this.2.2.2]
            · simp [mails, hba, this.2.2.2]
    · rw [if_neg ho]
      have ho2 : m.mail.occupied = false := by simpa using ho
      have hp : slot_posted m = false := by simp [slot_posted, ho2]
      have hq : slot_unposted m = false := by simp [slot_unposted, ho2]
      have := ih ts h u
      simp only [hp, Bool.false_eq_true, if_false, List.zipWith_cons_cons, slot_after,
        List.any_cons, hq, Bool.false_or, slot_copies, ho2, Bool.and_false, Bool.false_and]
      refine ⟨by rw [this.1], this.2.1, this.2.2.1, ?_⟩
      intro a
      exact this.2.2.2 a

theorem drain_groups_eq (now : Int) (gs : List kernel_mailbox_group_t)
    (ts : List (Nat × kernel_task_t)) (h : x_heap) :
    (drain_groups now gs ts h).1 = List.zipWith group_after (group_oks now gs h).1 gs
    ∧ (drain_groups now gs ts h).2.2.1 = (group_oks now gs h).2
    ∧ ∀ a, mails a (drain_groups now gs ts h).2.2.2 = group_copies a (group_oks now gs h).1 gs := by
  induction gs generalizing ts h with
  | nil => simp [drain_groups, group_oks, mails, group_copies]
  | cons g gs ih =>
    unfold drain_groups group_oks
    by_cases hu : g.unread_msg = true
    · rw [if_pos hu, if_pos hu]
      dsimp only
      have hs := drain_slots_eq now g.mailbox_queue ts h false
      have := ih (drain_slots now g.mailbox_queue ts h false).2.1 (drain_slots now g.mailbox_queue ts h false).2.2.1
      rw [hs.2.1] at this
      rw [hs.2.1]
      refine ⟨?_, this.2.1, ?_⟩
      · rw [List.zipWith_cons_cons, this.1, hs.1, hs.2.2.1]
        simp [group_after, hu]
      · intro a
        rw [mails_append, this.2.2 a, hs.2.2.2 a]
        simp [group_copies, hu]
    · rw [if_neg hu, if_neg hu]
      have := ih ts h
      refine ⟨?_, this.2.1, ?_⟩
      · rw [List.zipWith_cons_cons]
        simp [group_after, hu, this.1]
      · intro a
        simp [group_copies, hu, this.2.2 a]

theorem claim_slot_wf (now : Int) (n : String) (d : List Nat) (L : Int) (q : List kernel_msg_t)
    (hq : ∀ p ∈ q, slot_wf p) : ∀ p ∈ (claim_slot now n d L q).2, slot_wf p := by
  induction q with
  | nil => intro p hp; cases hp
  | cons x rest ih =>
    have hx : slot_wf x := hq x (List.mem_cons_self _ _)
    have hrest : ∀ p ∈ rest, slot_wf p := fun p hp => hq p (List.mem_cons_of_mem _ hp)
    unfold claim_slot
    by_cases ho : x.mail.occupied = true
    · have : (!x.mail.occupied) = false := by simp [ho]
      rw [this]
      simp only [Bool.false_eq_true, if_false]
      intro p hp
      rcases List.mem_cons.1 hp with h | h
      · rw [h]; exact hx
      · exact ih hrest p h
    · have ho2 : x.mail.occupied = false := by simpa using ho
      have : (!x.mail.occupied) = true := by simp [ho2]
      rw [this]
      simp only [if_true]
      by_cases ht : x.mail.token = true
      · rw [if_pos ht]
        intro p hp
        rcases List.mem_cons.1 hp with h | h
        · rw [h]; exact hx
        · exact ih hrest p h
      · rw [if_neg ht]
        simp only [mail_set_mail, ho2, Bool.false_eq_true, if_false]
        intro p hp
        rcases List.mem_cons.1 hp with h | h
        · rw [h]
          constructor
          · intro hc; simp [kernel_msg_t.mail] at hc
          · intro _; simp
        · exact hrest p h

theorem new_msg_from_isr_wf (now : Int) (n : String) (d : List Nat) (L : Int)
    (gs : List kernel_mailbox_group_t) (hw : pool_wf gs) :
    pool_wf (__new_msg_from_isr now n d L gs).2 := by
  induction gs with
  | nil => intro g hg; cases hg
  | cons g rest ih =>
    have hg0 : ∀ p ∈ g.mailbox_queue, slot_wf p := hw g (List.mem_cons_self _ _)
    have hrest : pool_wf rest := fun x hx => hw x (List.mem_cons_of_mem _ hx)
    have hc := claim_slot_wf now n d L g.mailbox_queue hg0
    unfold __new_msg_from_isr
    by_cases hb : g.box_size > to_i32 (L + 1)
    · rw [if_pos hb]
      cases hcl : claim_slot now n d L g.mailbox_queue with
      | mk o q =>
        rw [hcl] at hc
        cases o with
        | some i =>
          intro x hx
          rcases List.mem_cons.1 hx with h | h
          · rw [h]; exact hc
          · exact hrest x h
        | none =>
          intro x hx
          rcases List.mem_cons.1 hx with h | h
          · rw [h]; exact hc
          · exact ih hrest x h
    · rw [if_neg hb]
      intro x hx
      rcases List.mem_cons.1 hx with h | h
      · rw [h]; exact hg0
      · exact ih hrest x h

theorem update_slot_wf (g i : Nat) (f : kernel_msg_t → kernel_msg_t)
    (gs : List kernel_mailbox_group_t) (hw : pool_wf gs)
    (hf : ∀ p, slot_at g i gs = some p → slot_wf p → slot_wf (f p)) :
    pool_wf (update_slot g i f gs) := by
  unfold update_slot
  cases hg : gs.get? g with
  | none => exact hw
  | some grp =>
    dsimp only
    cases hp : grp.mailbox_queue.get? i with
    | none => exact hw
    | some p =>
      dsimp only
      have hgm : grp ∈ gs := List.get?_mem hg
      have hpm : p ∈ grp.mailbox_queue := List.get?_mem hp
      have hsa : slot_at g i gs = some p := by
        unfold slot_at
        rw [hg]
        exact hp
      intro x hx y hy
      rcases List.mem_or_eq_of_mem_set hx with h | h
      · exact hw x h y hy
      · rw [h] at hy
        rcases List.mem_or_eq_of_mem_set hy with h2 | h2
        · exact hw grp hgm y h2
        · rw [h2]
          exact hf p hsa (hw grp hgm p hpm)

theorem release_slot_wf (p : kernel_msg_t) : slot_wf (release_slot p) := by
  constructor
  · intro _; simp [release_slot]
  · intro hc; simp [release_slot] at hc

theorem delete_msg_wf {σ : Type} (k : kernel σ) (msg : xMsgHandler)
    (hw : pool_wf k.kernel_mailbox_group_queue) :
    pool_wf (__delete_msg k msg).kernel_mailbox_group_queue := by
  cases msg with
  | owned m => exact hw
  | slot g i => exact update_slot_wf g i _ _ hw (fun p _ _ => release_slot_wf p)

theorem post_msg_wf {σ : Type} (outside : Bool) (k : kernel σ) (target_task : Option CStr)
    (msg : xMsgHandler) (src_task : Option String) (hl : handle_live k msg)
    (hw : pool_wf k.kernel_mailbox_group_queue) :
    pool_wf (__post_msg_from outside k target_task msg src_task).2.kernel_mailbox_group_queue := by
  unfold __post_msg_from
  cases target_task with
  | none => exact delete_msg_wf k msg hw
  | some name =>
    dsimp only
    cases get_task_handler name k.kernel_task_queue with
    | none =>
      dsimp only
      cases outside <;> exact delete_msg_wf k msg hw
    | some a =>
      dsimp only
      cases task_at a k.kernel_task_queue with
      | none => exact delete_msg_wf k msg hw
      | some t =>
        dsimp only
        by_cases hp : t.task_paused = true
        · rw [if_pos hp]; exact delete_msg_wf k msg hw
        · rw [if_neg hp]
          cases msg with
          | owned m =>
            dsimp only
            split <;> exact hw
          | slot g i =>
            dsimp only
            obtain ⟨p0, hp0, ho0⟩ := hl
            apply update_slot_wf g i _ _ hw
            intro p hsp hwp
            rw [hp0] at hsp
            cases hsp
            constructor
            · intro hc; simp [ho0] at hc
            · intro _; exact hwp.2 ho0

theorem drain_slots_wf (now : Int) (q : List kernel_msg_t) (ts : List (Nat × kernel_task_t))
    (h : x_heap) (u : Bool) (hh : no_alloc_failure h) (hq : ∀ p ∈ q, slot_wf p) :
    ∀ p ∈ (drain_slots now q ts h u).1, slot_wf p := by
  induction q generalizing ts h u with
  | nil => intro p hp; cases hp
  | cons m rest ih =>
    have hx : slot_wf m := hq m (List.mem_cons_self _ _)
    have hrest : ∀ p ∈ rest, slot_wf p := fun p hp => hq p (List.mem_cons_of_mem _ hp)
    unfold drain_slots
    by_cases ho : m.mail.occupied = true
    · rw [if_pos ho]
      cases hc : m.mail.task_handler with
      | none =>
        intro p hp
        rcases List.mem_cons.1 hp with e | e
        · rw [e]; exact hx
        · exact ih ts h true hh hrest p e
      | some a =>
        dsimp only
        cases hn : m.msg.notification with
        | none => exact absurd hn (hx.2 ho)
        | some s =>
          have hok := new_msg_ok h now s (some m.msg.data) m.msg.length hh
          have hheap := new_msg_heap h now (some s) (some m.msg.data) m.msg.length hh
          cases hnm : __new_msg h now (some s) (some m.msg.data) m.msg.length with
          | mk r h1 =>
            rw [hnm] at hok hheap
            cases r with
            | none => cases hok
            | some nmsg =>
              intro p hp
              rcases List.mem_cons.1 hp with e | e
              · rw [e]
                constructor
                · intro _; rfl
                · intro hcc; cases hcc
              · exact ih _ h1 u hheap hrest p e
    · rw [if_neg ho]
      intro p hp
      rcases List.mem_cons.1 hp with e | e
      · rw [e]; exact hx
      · exact ih ts h u hh hrest p e

theorem drain_groups_wf (now : Int) (gs : List kernel_mailbox_group_t)
    (ts : List (Nat × kernel_task_t)) (h : x_heap) (hh : no_alloc_failure h) (hw : pool_wf gs) :
    pool_wf (drain_groups now gs ts h).1 := by
  induction gs generalizing ts h with
  | nil => intro g hg; cases hg
  | cons g rest ih =>
    have hg0 : ∀ p ∈ g.mailbox_queue, slot_wf p := hw g (List.mem_cons_self _ _)
    have hrest : pool_wf rest := fun x hx => hw x (List.mem_cons_of_mem _ hx)
    unfold drain_groups
    by_cases hu : g.unread_msg = true
    · rw [if_pos hu]
      intro x hx
      rcases List.mem_cons.1 hx with e | e
      · rw [e]; exact drain_slots_wf now _ ts h false hh hg0
      · exact ih _ _ (drain_slots_heap now _ ts h false hh) hrest x e
    · rw [if_neg hu]
      intro x hx
      rcases List.mem_cons.1 hx with e | e
      · rw [e]; exact hg0
      · exact ih ts h hh hrest x e

theorem mailbox_step_wf {σ : Type} (P : pwr_mgr σ) (k k1 : kernel σ) (hs : mailbox_step P k k1)
    (hw : pool_wf k.kernel_mailbox_group_queue) : pool_wf k1.kernel_mailbox_group_queue := by
  cases hs with
  | isr now n d L => exact new_msg_from_isr_wf now n d L _ hw
  | post outside target msg src hl => exact post_msg_wf outside k target msg src hl hw
  | delete msg hl => exact delete_msg_wf k msg hw
  | pass env hh => exact drain_groups_wf env.tick_us _ k.kernel_task_queue k.heap hh hw

theorem mailbox_reachable_wf {σ : Type} (P : pwr_mgr σ) (k0 k : kernel σ)
    (hr : mailbox_reachable P k0 k) (hw : pool_wf k0.kernel_mailbox_group_queue) :
    pool_wf k.kernel_mailbox_group_queue := by
  induction hr with
  | start => exact hw
  | step k k1 _ hs ih => exact mailbox_step_wf P k k1 hs ih

theorem pool_8_64_wf : pool_wf pool_8_64 := by
  intro g hg p hp
  have : p = empty_slot := by
    simp only [pool_8_64, List.mem_cons, List.mem_singleton, List.not_mem_nil, or_false] at hg
    rcases hg with e | e <;> rw [e] at hp <;> exact List.eq_of_mem_replicate hp
  rw [this]
  constructor
  · intro _; rfl
  · intro hc; cases hc

/-- C12 (counterexample): an interrupt handler creates the message "irq" and
posts it to the paused task "T"; the post fails and deletes the message, and
the slot is then free (`occupied = 0`, `task_handler = NULL`) while its
notification, length and payload are still those of the message: the payload
metadata of a free slot is not zeroed. -/
theorem deleted_slot_keeps_metadata :
    mailbox_reachable pwr_always_on paused_kernel
      (__post_msg_from false paused_kernel_isr (some ⟨1, "T"⟩) (.slot 0 0) none).2
    ∧ (__post_msg_from false paused_kernel_isr (some ⟨1, "T"⟩) (.slot 0 0) none).1 = false
    ∧ slot_at 0 0 (__post_msg_from false paused_kernel_isr (some ⟨1, "T"⟩) (.slot 0 0)
        none).2.kernel_mailbox_group_queue
      = some { u := .mail ⟨false, false, none⟩, time_stamp := 5,
               msg := ⟨some "irq", none, 2, [1, 2]⟩ } := by
  refine ⟨?_, rfl, rfl⟩
  exact .step _ _ (.step _ _ .start (.isr paused_kernel 5 "irq" [1, 2] 2))
    (.post paused_kernel_isr false (some ⟨1, "T"⟩) (.slot 0 0) none ⟨_, rfl, rfl⟩)

/-- C12 (as the code has it): start from a pool in which every free slot has
`task_handler = NULL` and every occupied slot has a notification (for instance
the pool `create_mailbox` builds).  In every state reached through
`__new_msg_from_isr`, `__post_msg_from` and `__delete_msg` on live handles and
scheduler passes in which no allocation fails, every slot with `occupied = 0`
has `task_handler = NULL`.  (Its payload metadata is not promised to be
zero.) -/
theorem free_slot_has_no_task {σ : Type} (P : pwr_mgr σ) (k0 k : kernel σ)
    (hw : pool_wf k0.kernel_mailbox_group_queue) (hr : mailbox_reachable P k0 k) :
    ∀ g ∈ k.kernel_mailbox_group_queue, ∀ p ∈ g.mailbox_queue,
      p.mail.occupied = false → p.mail.task_handler = none :=
  fun g hg p hp => (mailbox_reachable_wf P k0 k hr hw g hg p hp).1

/-- Witness of C12: the pool of two groups after one message was created from
interrupt context; the second slot of the 64-byte group is free and carries no
task. -/
theorem free_slot_has_no_task_witness :
    empty_slot.mail.occupied = false ∧ empty_slot.mail.task_handler = none :=
  ⟨rfl, free_slot_has_no_task pwr_always_on paused_kernel paused_kernel_isr pool_8_64_wf
    (.step _ _ .start (.isr paused_kernel 5 "irq" [1, 2] 2))
    ⟨List.replicate 2 empty_slot, 64, 2, false⟩ (by decide) empty_slot (by decide) rfl⟩

theorem slot_at_update_slot (g i : Nat) (f : kernel_msg_t → kernel_msg_t)
    (gs : List kernel_mailbox_group_t) (p : kernel_msg_t) (hp : slot_at g i gs = some p) :
    slot_at g i (update_slot g i f gs) = some (f p) := by
  unfold slot_at at hp
  unfold update_slot
  cases hg : gs.get? g with
  | none => rw [hg] at hp; cases hp
  | some grp =>
    rw [hg] at hp
    dsimp only at hp
    dsimp only
    rw [hp]
    dsimp only
    unfold slot_at
    have hlt : g < gs.length := by
      rw [List.get?_eq_some] at hg
      exact hg.1
    have hlt2 : i < grp.mailbox_queue.length := by
      rw [List.get?_eq_some] at hp
      exact hp.1
    simp [List.getElem?_set, hlt, hlt2]

theorem task_at_update_task (a : Nat) (f : kernel_task_t → kernel_task_t) (t : kernel_task_t)
    (ts : List (Nat × kernel_task_t)) (hnd : (ts.map Prod.fst).Nodup) (hmem : (a, t) ∈ ts) :
    task_at a (update_task a f ts) = some (f t) :=
  task_at_of_mem a (f t) _ (by rw [update_task_addrs]; exact hnd) (update_task_mem a f t ts hmem)

theorem post_plain_msg {σ : Type} (outside : Bool) (k : kernel σ) (name : CStr) (a : Nat)
    (t : kernel_task_t) (p : kernel_msg_t) (src : Option String)
    (hnd : (k.kernel_task_queue.map Prod.fst).Nodup) (hmem : (a, t) ∈ k.kernel_task_queue)
    (hfind : get_task_handler name k.kernel_task_queue = some a)
    (hpa : t.task_paused = false) (hen : p.timer.enable = false) :
    (__post_msg_from outside k (some name) (.owned p) src).1 = true ∧
    (__post_msg_from outside k (some name) (.owned p) src).2.kernel_task_queue
      = update_task a
          (fun t => { t with
            msg_queue := MOUNT t.msg_queue (some (p.set_src_task (__strdup__ k.heap src).1)),
            is_busy := t.is_busy ||| TASK_MSG_PENDING })
          k.kernel_task_queue := by
  have hat := task_at_of_mem a t _ hnd hmem
  have hen2 : (p.set_src_task (__strdup__ k.heap src).1).timer.enable = false := hen
  unfold __post_msg_from
  simp only [hfind, hat, hpa, Bool.false_eq_true, if_false, hen2]
  trivial

/-- C15: a post to a local task that is paused returns false and leaves the
whole task list as it was (so the task's `msg_queue`, `timer_msg_queue` and
`is_busy` too), whether the message is owned or a mailbox slot; the message is
deleted, and a mailbox slot is thereby released: `occupied = 0`, `token = 0`
(and `task_handler = NULL`). -/
theorem post_to_paused_task {σ : Type} (outside : Bool) (k : kernel σ) (name : CStr) (a : Nat)
    (t : kernel_task_t) (msg : xMsgHandler) (src : Option String)
    (hfind : get_task_handler name k.kernel_task_queue = some a)
    (hat : task_at a k.kernel_task_queue = some t) (hpa : t.task_paused = true) :
    (__post_msg_from outside k (some name) msg src).1 = false
    ∧ (__post_msg_from outside k (some name) msg src).2.kernel_task_queue = k.kernel_task_queue
    ∧ (__post_msg_from outside k (some name) msg src).2 = __delete_msg k msg
    ∧ ∀ g i p, msg = .slot g i → slot_at g i k.kernel_mailbox_group_queue = some p →
        ∃ p1, slot_at g i
            (__post_msg_from outside k (some name) msg src).2.kernel_mailbox_group_queue = some p1
          ∧ p1.mail.occupied = false ∧ p1.mail.token = false ∧ p1.mail.task_handler = none
          ∧ p1.msg = p.msg := by
  have hpost : __post_msg_from outside k (some name) msg src = (false, __delete_msg k msg) := by
    unfold __post_msg_from
    simp only [hfind, hat, hpa, if_true]
  rw [hpost]
  refine ⟨rfl, ?_, rfl, ?_⟩
  · cases msg <;> rfl
  · intro g i p hm hs
    subst hm
    exact ⟨release_slot p, slot_at_update_slot g i release_slot _ p hs, rfl, rfl, rfl, rfl⟩

/-- Witness of C15: the slot of the message "irq" posted to the paused task
"T". -/
theorem post_to_paused_task_witness :
    (__post_msg_from false paused_kernel_isr (some ⟨1, "T"⟩) (.slot 0 0) none).1 = false
    ∧ (__post_msg_from false paused_kernel_isr (some ⟨1, "T"⟩) (.slot 0 0) none).2.kernel_task_queue
        = paused_kernel_isr.kernel_task_queue
    ∧ (__post_msg_from false paused_kernel_isr (some ⟨1, "T"⟩) (.slot 0 0) none).2
        = __delete_msg paused_kernel_isr (.slot 0 0)
    ∧ ∀ g i p, xMsgHandler.slot 0 0 = .slot g i →
        slot_at g i paused_kernel_isr.kernel_mailbox_group_queue = some p →
        ∃ p1, slot_at g i
            (__post_msg_from false paused_kernel_isr (some ⟨1, "T"⟩) (.slot 0 0)
              none).2.kernel_mailbox_group_queue = some p1
          ∧ p1.mail.occupied = false ∧ p1.mail.token = false ∧ p1.mail.task_handler = none
          ∧ p1.msg = p.msg :=
  post_to_paused_task false paused_kernel_isr ⟨1, "T"⟩ 7
    { example_task TASK_IDLE [] TASK_IDLE 0 with task_paused := true } (.slot 0 0) none rfl rfl rfl

/-- C16: a post of an owned message to a local task that is not paused returns
true.  When the timer of the message is enabled the message (with `src_task`
set) becomes the task's timer message whatever timer message the task had, and
nothing else of the record changes (so `msg_queue` and `is_busy` are as
before); when it is not enabled the message is appended to `msg_queue`,
`TASK_MSG_PENDING` is or-ed into `is_busy` and nothing else changes (so
`timer_msg_queue` is as before). -/
theorem post_owned_msg {σ : Type} (outside : Bool) (k : kernel σ) (name : CStr) (a : Nat)
    (t : kernel_task_t) (p : kernel_msg_t) (src : Option String)
    (hnd : (k.kernel_task_queue.map Prod.fst).Nodup) (hmem : (a, t) ∈ k.kernel_task_queue)
    (hfind : get_task_handler name k.kernel_task_queue = some a)
    (hpa : t.task_paused = false) :
    (__post_msg_from outside k (some name) (.owned p) src).1 = true
    ∧ (p.timer.enable = true →
        task_at a (__post_msg_from outside k (some name) (.owned p) src).2.kernel_task_queue
          = some { t with timer_msg_queue := some (p.set_src_task (__strdup__ k.heap src).1) })
    ∧ (p.timer.enable = false →
        task_at a (__post_msg_from outside k (some name) (.owned p) src).2.kernel_task_queue
          = some { t with
              msg_queue := t.msg_queue ++ [p.set_src_task (__strdup__ k.heap src).1],
              is_busy := t.is_busy ||| TASK_MSG_PENDING }) := by
  refine ⟨?_, ?_, ?_⟩
  · cases hen : p.timer.enable with
    | true => exact (post_timer_msg outside k name a t p src hnd hmem hfind hpa hen).1
    | false => exact (post_plain_msg outside k name a t p src hnd hmem hfind hpa hen).1
  · intro hen
    rw [(post_timer_msg outside k name a t p src hnd hmem hfind hpa hen).2.1]
    exact task_at_update_task a _ t _ hnd hmem
  · intro hen
    rw [(post_plain_msg outside k name a t p src hnd hmem hfind hpa hen).2]
    rw [task_at_update_task a _ t _ hnd hmem]
    simp [MOUNT]

/-- Witness of C16: the message "ping" posted to the idle task "T". -/
theorem post_owned_msg_witness :
    (__post_msg_from false (example_kernel (example_task TASK_IDLE [] TASK_IDLE 0))
        (some ⟨1, "T"⟩) (.owned (plain_msg "ping" 5)) none).1 = true
    ∧ ((plain_msg "ping" 5).timer.enable = true →
        task_at 7 (__post_msg_from false (example_kernel (example_task TASK_IDLE [] TASK_IDLE 0))
            (some ⟨1, "T"⟩) (.owned (plain_msg "ping" 5)) none).2.kernel_task_queue
          = some { example_task TASK_IDLE [] TASK_IDLE 0 with
              timer_msg_queue := some ((plain_msg "ping" 5).set_src_task
                (__strdup__ (example_kernel (example_task TASK_IDLE [] TASK_IDLE 0)).heap none).1) })
    ∧ ((plain_msg "ping" 5).timer.enable = false →
        task_at 7 (__post_msg_from false (example_kernel (example_task TASK_IDLE [] TASK_IDLE 0))
            (some ⟨1, "T"⟩) (.owned (plain_msg "ping" 5)) none).2.kernel_task_queue
          = some { example_task TASK_IDLE [] TASK_IDLE 0 with
              msg_queue := (example_task TASK_IDLE [] TASK_IDLE 0).msg_queue
                ++ [(plain_msg "ping" 5).set_src_task
                  (__strdup__ (example_kernel (example_task TASK_IDLE [] TASK_IDLE 0)).heap none).1],
              is_busy := (example_task TASK_IDLE [] TASK_IDLE 0).is_busy ||| TASK_MSG_PENDING }) :=
  post_owned_msg false (example_kernel (example_task TASK_IDLE [] TASK_IDLE 0)) ⟨1, "T"⟩ 7
    (example_task TASK_IDLE [] TASK_IDLE 0) (plain_msg "ping" 5) none
    (by simp [example_kernel]) (by simp [example_kernel]) rfl rfl

theorem sheduler_event_of_task {σ : Type} (P : pwr_mgr σ) (env : sched_env) (k : kernel σ)
    (a : Nat) (l : List sched_event)
    (h2 : (kernel_task_sheduler P env k).2.filter (fun e => e.task == a) = l)
    (e : sched_event) (he : e ∈ (kernel_task_sheduler P env k).2) (hea : e.task = a) : e ∈ l := by
  rw [← h2]
  exact List.mem_filter.2 ⟨he, by simp [hea]⟩

theorem timer_expire_suspended (a : Nat) (t : kernel_task_t) (m0 : kernel_msg_t) (h : x_heap)
    (hs : t.task_suspended = true) :
    timer_expire a t m0 h = ({ t with timer_msg_queue := some m0 }, h, []) := by
  unfold timer_expire
  simp [hs]

theorem timer_advance_suspended (delta_ms : Int) (a : Nat) (t : kernel_task_t) (h : x_heap)
    (hd : delta_ms > 0) (hs : t.task_suspended = true) :
    (timer_advance delta_ms a t h).1.msg_queue = t.msg_queue
    ∧ (timer_advance delta_ms a t h).1.timer_msg_queue
        = t.timer_msg_queue.map (count_down delta_ms)
    ∧ (timer_advance delta_ms a t h).2.2 = [] := by
  unfold timer_advance
  cases htm : t.timer_msg_queue with
  | none => simp [htm]
  | some m =>
    dsimp only
    by_cases he : m.timer.enable = true
    · rw [if_pos he]
      by_cases hw : m.timer.delay > delta_ms
      · rw [if_pos hw]
        simp [count_down, hd, he, hw]
      · rw [if_neg hw, timer_expire_suspended a t _ h hs]
        have hf := mark_pending_frame { t with
          timer_msg_queue := some (m.set_timer { m.timer with delay := 0 }) }
        refine ⟨hf.2.2.2.2.2.2.2.2.2.1, ?_, rfl⟩
        dsimp only
        rw [hf.2.2.2.2.2.2.2.2.2.2.1]
        simp [count_down, hd, he, hw]
    · rw [if_neg he]
      simp [count_down, he, htm]

theorem pre_dispatch_suspended (delta_ms : Int) (a : Nat) (t : kernel_task_t)
    (extra : List kernel_msg_t) (h : x_heap) (hs : t.task_suspended = true) :
    (pre_dispatch delta_ms a t extra h).1.msg_queue = t.msg_queue ++ extra
    ∧ (pre_dispatch delta_ms a t extra h).1.timer_msg_queue
        = t.timer_msg_queue.map (count_down delta_ms)
    ∧ (pre_dispatch delta_ms a t extra h).2.2 = [] := by
  unfold pre_dispatch
  by_cases hd : delta_ms > 0
  · rw [if_pos hd]
    exact timer_advance_suspended delta_ms a { t with msg_queue := t.msg_queue ++ extra } h hd hs
  · rw [if_neg hd]
    refine ⟨rfl, ?_, rfl⟩
    cases t.timer_msg_queue with
    | none => rfl
    | some m => simp [count_down, hd]

theorem dispatch_suspended {σ : Type} (P : pwr_mgr σ) (env : sched_env) (delta_ms : Int)
    (a : Nat) (t : kernel_task_t) (s : σ) (hs : t.task_suspended = true)
    (hp : t.task_paused = false) (hd : t.task_deleted = false) :
    ∃ t2, (dispatch_task P env delta_ms a t s).1 = some t2 ∧ t2.msg_queue = t.msg_queue
      ∧ t2.timer_msg_queue = t.timer_msg_queue ∧ t2.is_busy = t.is_busy
      ∧ ∀ e ∈ (dispatch_task P env delta_ms a t s).2.2, e = .pwr_diactivate a := by
  unfold dispatch_task
  dsimp only
  by_cases hc : (P.pwr_mgr_check s t.pm).1 = .POWER_DIACTIVATING
  · rw [if_pos hc]
    exact ⟨t, rfl, rfl, rfl, rfl, by simp⟩
  · rw [if_neg hc, drop_paused_not_paused a t hp]
    dsimp only
    have hg : (!t.msg_queue.isEmpty && !t.task_suspended) = false := by simp [hs]
    rw [hg]
    simp only [Bool.false_eq_true, if_false]
    have hb : (busy_without_traffic delta_ms t).task_deleted = false := by
      rw [(busy_without_traffic_same delta_ms t).2.2.2, hd]
    unfold reap
    simp only [hb, Bool.false_eq_true, if_false]
    refine ⟨_, rfl, ?_, (busy_without_traffic_same delta_ms t).1, ?_, by simp⟩
    · unfold busy_without_traffic; split <;> rfl
    · unfold busy_without_traffic; split <;> rfl

/-- C17: a task that is suspended and neither paused nor deleted, in one
scheduler pass (whatever the power manager says): its callback is not called,
no message of it is deleted and no timer message is queued for it; its queue
after the pass is the queue before followed by the copies the mailbox drain
made for it; and its timer message, if it has one, is still attached, an
enabled one with its delay counted down by `delta_ms`, the `int32_t`
difference `t2 - t1` of the pass (to 0 when it expired). -/
theorem sheduler_suspended_holds_messages {σ : Type} (P : pwr_mgr σ) (env : sched_env)
    (k : kernel σ) (a : Nat) (t : kernel_task_t)
    (hnd : (k.kernel_task_queue.map Prod.fst).Nodup) (hmem : (a, t) ∈ k.kernel_task_queue)
    (hs : t.task_suspended = true) (hp : t.task_paused = false) (hd : t.task_deleted = false) :
    (∃ t2, task_at a (kernel_task_sheduler P env k).1.kernel_task_queue = some t2
      ∧ t2.msg_queue = t.msg_queue
          ++ group_copies a (group_oks env.tick_us k.kernel_mailbox_group_queue k.heap).1
              k.kernel_mailbox_group_queue
      ∧ t2.timer_msg_queue = t.timer_msg_queue.map (count_down (pass_delta_ms env k.t1)))
    ∧ (∀ m ret, sched_event.callback a m ret ∉ (kernel_task_sheduler P env k).2)
    ∧ (∀ m, sched_event.delete_msg a m ∉ (kernel_task_sheduler P env k).2)
    ∧ (∀ m, sched_event.timer_mount a m ∉ (kernel_task_sheduler P env k).2) := by
  obtain ⟨h, s, _, h1, h2⟩ := sheduler_local P env k a t hnd hmem
  have hm := (drain_groups_eq env.tick_us k.kernel_mailbox_group_queue k.kernel_task_queue
    k.heap).2.2 a
  rw [hm] at h1 h2
  have hpre := pre_dispatch_suspended (pass_delta_ms env k.t1) a t
    (group_copies a (group_oks env.tick_us k.kernel_mailbox_group_queue k.heap).1
      k.kernel_mailbox_group_queue) h hs
  have hf := pre_dispatch_frame (pass_delta_ms env k.t1) a t
    (group_copies a (group_oks env.tick_us k.kernel_mailbox_group_queue k.heap).1
      k.kernel_mailbox_group_queue) h
  obtain ⟨t2, e1, e2, e3, _, e5⟩ := dispatch_suspended P env (pass_delta_ms env k.t1) a _ s
    (hf.2.2.2.2.2.2.1.trans hs) (hf.2.2.2.2.2.2.2.1.trans hp) (hf.2.2.2.2.2.2.2.2.1.trans hd)
  have hev : ∀ e ∈ (kernel_task_sheduler P env k).2, e.task = a →
      (∃ m, e = .mail_mount a m) ∨ e = .pwr_diactivate a := by
    intro e he hea
    have := sheduler_event_of_task P env k a _ h2 e he hea
    rw [hpre.2.2, List.nil_append] at this
    rcases List.mem_append.1 this with hx | hx
    · obtain ⟨m, _, hm2⟩ := List.mem_map.1 hx
      exact Or.inl ⟨m, hm2.symm⟩
    · exact Or.inr (e5 e hx)
  refine ⟨⟨t2, h1.trans e1, by rw [e2, hpre.1], by rw [e3, hpre.2.1]⟩, ?_, ?_, ?_⟩
  · intro m ret hc
    rcases hev _ hc rfl with ⟨m2, hx⟩ | hx <;> cases hx
  · intro m hc
    rcases hev _ hc rfl with ⟨m2, hx⟩ | hx <;> cases hx
  · intro m hc
    rcases hev _ hc rfl with ⟨m2, hx⟩ | hx <;> cases hx

/-- Witness of C17: the suspended task "T" with one queued message and a
timer that expires in the pass. -/
theorem sheduler_suspended_holds_messages_witness :
    (∃ t2, task_at 7 (kernel_task_sheduler pwr_always_on (example_env 10)
          (example_kernel suspended_task)).1.kernel_task_queue = some t2
      ∧ t2.msg_queue = suspended_task.msg_queue
          ++ group_copies 7 (group_oks (example_env 10).tick_us
              (example_kernel suspended_task).kernel_mailbox_group_queue
              (example_kernel suspended_task).heap).1
              (example_kernel suspended_task).kernel_mailbox_group_queue
      ∧ t2.timer_msg_queue = suspended_task.timer_msg_queue.map
          (count_down ((example_env 10).tick - (example_kernel suspended_task).t1)))
    ∧ (∀ m ret, sched_event.callback 7 m ret ∉
        (kernel_task_sheduler pwr_always_on (example_env 10) (example_kernel suspended_task)).2)
    ∧ (∀ m, sched_event.delete_msg 7 m ∉
        (kernel_task_sheduler pwr_always_on (example_env 10) (example_kernel suspended_task)).2)
    ∧ (∀ m, sched_event.timer_mount 7 m ∉
        (kernel_task_sheduler pwr_always_on (example_env 10) (example_kernel suspended_task)).2) :=
  sheduler_suspended_holds_messages pwr_always_on (example_env 10) (example_kernel suspended_task)
    7 suspended_task (by simp [example_kernel]) (by simp [example_kernel]) rfl rfl rfl

theorem pre_dispatch_not_expiring (delta_ms : Int) (a : Nat) (t : kernel_task_t)
    (extra : List kernel_msg_t) (h : x_heap)
    (hne : ∀ m, t.timer_msg_queue = some m → ¬ expires_in delta_ms m) :
    (pre_dispatch delta_ms a t extra h).1.timer_msg_queue
      = t.timer_msg_queue.map (count_down delta_ms) := by
  unfold pre_dispatch
  by_cases hd : delta_ms > 0
  · rw [if_pos hd]
    unfold timer_advance
    cases htm : t.timer_msg_queue with
    | none => simp [htm]
    | some m =>
      dsimp only
      by_cases he : m.timer.enable = true
      · rw [if_pos he]
        by_cases hw : m.timer.delay > delta_ms
        · rw [if_pos hw]
          simp [count_down, hd, he, hw]
        · exact absurd ⟨hd, he, by omega⟩ (hne m htm)
      · rw [if_neg he]
        simp [count_down, he, htm]
  · rw [if_neg hd]
    cases t.timer_msg_queue with
    | none => rfl
    | some m => simp [count_down, hd]

theorem dispatch_paused {σ : Type} (P : pwr_mgr σ) (env : sched_env) (delta_ms : Int)
    (a : Nat) (t : kernel_task_t) (s : σ) (hp : t.task_paused = true)
    (hck : ∀ s, (P.pwr_mgr_check s t.pm).1 ≠ .POWER_DIACTIVATING) :
    (dispatch_task P env delta_ms a t s).1
      = (if t.task_deleted = true then none
         else some { t with msg_queue := [], is_busy := TASK_IDLE })
    ∧ ∀ e ∈ (dispatch_task P env delta_ms a t s).2.2,
        (∃ m, e = .delete_msg a m) ∨ e = .free_task a := by
  have hdp : drop_paused a t
      = ({ t with msg_queue := [], is_busy := TASK_IDLE }, t.msg_queue.map (.delete_msg a)) := by
    unfold drop_paused
    rw [if_pos hp]
  have hb : busy_without_traffic delta_ms { t with msg_queue := [], is_busy := TASK_IDLE }
      = { t with msg_queue := [], is_busy := TASK_IDLE } := by
    unfold busy_without_traffic
    rw [if_neg]
    simp [TASK_IDLE, TASK_MSG_PENDING, TASK_BUSY]
  unfold dispatch_task
  dsimp only
  rw [if_neg (hck s), hdp]
  dsimp only
  simp only [List.isEmpty_nil, Bool.not_true, Bool.false_and, Bool.false_eq_true, if_false]
  rw [hb]
  unfold reap
  dsimp only
  by_cases hd : t.task_deleted = true
  · rw [if_pos hd, if_pos hd]
    refine ⟨rfl, ?_⟩
    intro e he
    simp only [List.map_nil, List.nil_append, List.mem_append, List.mem_map, List.mem_singleton,
      Option.mem_toList] at he
    rcases he with ⟨m, _, hm⟩ | ⟨m, _, hm⟩ | hm
    · exact Or.inl ⟨m, hm.symm⟩
    · exact Or.inl ⟨m, hm.symm⟩
    · exact Or.inr hm
  · rw [if_neg hd, if_neg hd]
    refine ⟨rfl, ?_⟩
    intro e he
    obtain ⟨m, _, hm⟩ := List.mem_map.1 he
    exact Or.inl ⟨m, hm.symm⟩

/-- C18: a paused task for which the power manager does not report
`POWER_DIACTIVATING`, in one scheduler pass: its callback is not called; if it
is marked deleted it is freed, otherwise after the pass its `msg_queue` is
empty and its state is exactly `TASK_IDLE`, and if its timer message did not
expire in the pass the timer message is still attached, unchanged but for the
delay of an enabled timer, which is counted down by `delta_ms` (the `int32_t`
difference `t2 - t1` of the pass, `pass_delta_ms`). -/
theorem sheduler_paused_drops_messages {σ : Type} (P : pwr_mgr σ) (env : sched_env)
    (k : kernel σ) (a : Nat) (t : kernel_task_t)
    (hnd : (k.kernel_task_queue.map Prod.fst).Nodup) (hmem : (a, t) ∈ k.kernel_task_queue)
    (hp : t.task_paused = true)
    (hck : ∀ s, (P.pwr_mgr_check s t.pm).1 ≠ .POWER_DIACTIVATING) :
    (∃ t2, task_at a (kernel_task_sheduler P env k).1.kernel_task_queue
          = (if t.task_deleted = true then none else some t2)
      ∧ t2.msg_queue = [] ∧ t2.is_busy = TASK_IDLE
      ∧ ((∀ m, t.timer_msg_queue = some m → ¬ expires_in (pass_delta_ms env k.t1) m) →
          t2.timer_msg_queue = t.timer_msg_queue.map (count_down (pass_delta_ms env k.t1))))
    ∧ (∀ m ret, sched_event.callback a m ret ∉ (kernel_task_sheduler P env k).2) := by
  obtain ⟨h, s, _, h1, h2⟩ := sheduler_local P env k a t hnd hmem
  have hf := pre_dispatch_frame (pass_delta_ms env k.t1) a t
    (mails a (drain_groups env.tick_us k.kernel_mailbox_group_queue k.kernel_task_queue
      k.heap).2.2.2) h
  have hck2 : ∀ s, (P.pwr_mgr_check s (pre_dispatch (pass_delta_ms env k.t1) a t
      (mails a (drain_groups env.tick_us k.kernel_mailbox_group_queue k.kernel_task_queue
        k.heap).2.2.2) h).1.pm).1 ≠ .POWER_DIACTIVATING := by
    rw [hf.2.2.2.1]; exact hck
  obtain ⟨d1, d2⟩ := dispatch_paused P env (pass_delta_ms env k.t1) a _ s
    (hf.2.2.2.2.2.2.2.1.trans hp) hck2
  rw [hf.2.2.2.2.2.2.2.2.1] at d1
  constructor
  · refine ⟨_, h1.trans d1, rfl, rfl, ?_⟩
    intro hne
    exact pre_dispatch_not_expiring (pass_delta_ms env k.t1) a t _ h hne
  · intro m ret hc
    have := sheduler_event_of_task P env k a _ h2 _ hc rfl
    rcases List.mem_append.1 this with hx | hx
    · obtain ⟨m2, _, hm2⟩ := List.mem_map.1 hx
      cases hm2
    · rcases List.mem_append.1 hx with hy | hy
      · obtain ⟨m2, hm2⟩ := pre_dispatch_events _ _ _ _ _ _ hy
        cases hm2
      · rcases d2 _ hy with ⟨m2, hm2⟩ | hm2 <;> cases hm2

/-- Witness of C18: the paused task "T" with one queued message and a timer
of 40 ms, in a pass of 10 ms. -/
theorem sheduler_paused_drops_messages_witness :
    (∃ t2, task_at 7 (kernel_task_sheduler pwr_always_on (example_env 10)
          (example_kernel paused_task)).1.kernel_task_queue
          = (if paused_task.task_deleted = true then none else some t2)
      ∧ t2.msg_queue = [] ∧ t2.is_busy = TASK_IDLE
      ∧ ((∀ m, paused_task.timer_msg_queue = some m →
            ¬ expires_in ((example_env 10).tick - (example_kernel paused_task).t1) m) →
          t2.timer_msg_queue = paused_task.timer_msg_queue.map
            (count_down ((example_env 10).tick - (example_kernel paused_task).t1))))
    ∧ (∀ m ret, sched_event.callback 7 m ret ∉
        (kernel_task_sheduler pwr_always_on (example_env 10) (example_kernel paused_task)).2) :=
  sheduler_paused_drops_messages pwr_always_on (example_env 10) (example_kernel paused_task)
    7 paused_task (by simp [example_kernel]) (by simp [example_kernel]) rfl
    (fun _ h => by cases h)

theorem unmount_zero (q : List kernel_msg_t) : UNMOUNT q 0 = q.tail := by
  cases q <;> rfl

theorem after_drop_idle {σ : Type} (P : pwr_mgr σ) (a : Nat) (t : kernel_task_t) (s : σ)
    (hi : t.is_busy = TASK_IDLE) :
    (after_drop P a t s).1.is_busy
      = (if t.msg_queue = [] then TASK_IDLE else TASK_IDLE ||| TASK_MSG_PENDING)
    ∧ (after_drop P a t s).2.2 = [] := by
  have hkp := keep_pending_is_busy t
  rw [hi] at hkp
  have hne : (keep_pending t).is_busy ≠ TASK_READY_TO_SLEEP := by
    rw [hkp]
    split <;> decide
  rw [after_drop_is_busy, after_drop_events, if_neg hne, if_neg hne, hkp]
  exact ⟨rfl, rfl⟩

theorem dispatch_power_failure {σ : Type} (P : pwr_mgr σ) (env : sched_env) (delta_ms : Int)
    (a : Nat) (t : kernel_task_t) (s : σ) (x : Nat) (hpm : t.pm = some x)
    (hp : t.task_paused = false) (hs : t.task_suspended = false) (hd : t.task_deleted = false)
    (hq : t.msg_queue ≠ [])
    (hck : ∀ s, (P.pwr_mgr_check s t.pm).1 ≠ .POWER_DIACTIVATING)
    (hpf : ∀ s, (P.pwr_mgr_check_power_failure s t.pm).1 = true) :
    ∃ t2, (dispatch_task P env delta_ms a t s).1 = some t2 ∧ t2.msg_queue = t.msg_queue.tail
      ∧ t2.is_busy = (if t.msg_queue.tail = [] then TASK_IDLE else TASK_IDLE ||| TASK_MSG_PENDING)
      ∧ ∀ e ∈ (dispatch_task P env delta_ms a t s).2.2, ∃ m, e = .delete_msg a m := by
  unfold dispatch_task
  dsimp only
  rw [if_neg (hck s), drop_paused_not_paused a t hp]
  dsimp only
  have hg : (!t.msg_queue.isEmpty && !t.task_suspended) = true := by
    cases hh : t.msg_queue with
    | nil => exact absurd hh hq
    | cons x r => simp [hs]
  rw [if_pos hg]
  rw [hpm] at hck hpf
  rw [hpm]
  simp only [hpf, if_true, List.nil_append]
  have hfr := after_drop_frame P a
    { t with pm := some x, is_busy := TASK_IDLE, msg_queue := UNMOUNT t.msg_queue 0 }
    (P.pwr_mgr_check_power_failure (P.pwr_mgr_check s (some x)).2 (some x)).2
  have hidle := after_drop_idle P a
    { t with pm := some x, is_busy := TASK_IDLE, msg_queue := UNMOUNT t.msg_queue 0 }
    (P.pwr_mgr_check_power_failure (P.pwr_mgr_check s (some x)).2 (some x)).2 rfl
  have hdel : (after_drop P a
      { t with pm := some x, is_busy := TASK_IDLE, msg_queue := UNMOUNT t.msg_queue 0 }
      (P.pwr_mgr_check_power_failure (P.pwr_mgr_check s (some x)).2 (some x)).2).1.task_deleted
        = false := hfr.2.2.1.trans hd
  unfold reap
  dsimp only
  rw [hdel]
  simp only [Bool.false_eq_true, if_false]
  refine ⟨_, rfl, hfr.1.trans (unmount_zero _), ?_, ?_⟩
  · rw [hidle.1]
    show (if UNMOUNT t.msg_queue 0 = [] then _ else _) = _
    rw [unmount_zero]
  · intro e he
    rw [hidle.2] at he
    simp only [List.append_nil, List.mem_map, Option.mem_toList] at he
    obtain ⟨m, _, hm⟩ := he
    exact ⟨m, hm.symm⟩

theorem dispatch_give_up {σ : Type} (P : pwr_mgr σ) (env : sched_env) (delta_ms : Int)
    (a : Nat) (t : kernel_task_t) (s : σ) (x : Nat) (hpm : t.pm = some x)
    (hp : t.task_paused = false) (hs : t.task_suspended = false) (hq : t.msg_queue ≠ [])
    (hpf : ∀ s, (P.pwr_mgr_check_power_failure s t.pm).1 = false)
    (hac : ∀ s, (P.pwr_mgr_activate s t.pm).1 = false)
    (hgu : ∀ s, (P.pwr_mgr_check s t.pm).1 = .POWER_GIVE_UP_ACTIVATE) :
    (dispatch_task P env delta_ms a t s).1 = some { t with msg_queue := [], is_busy := TASK_IDLE }
      ∧ ∀ e ∈ (dispatch_task P env delta_ms a t s).2.2, ∃ m, e = .delete_msg a m := by
  have hck : (P.pwr_mgr_check s t.pm).1 ≠ .POWER_DIACTIVATING := by
    rw [hgu s]; intro hc; cases hc
  unfold dispatch_task
  dsimp only
  rw [if_neg hck, drop_paused_not_paused a t hp]
  dsimp only
  have hg : (!t.msg_queue.isEmpty && !t.task_suspended) = true := by
    cases hh : t.msg_queue with
    | nil => exact absurd hh hq
    | cons x r => simp [hs]
  rw [if_pos hg]
  rw [hpm] at hpf hac hgu
  rw [hpm]
  simp only [hpf, hac, hgu, Bool.false_eq_true, if_false, Bool.not_false, if_true,
    List.nil_append]
  refine ⟨trivial, ?_⟩
  intro e he
  obtain ⟨m, _, hm⟩ := List.mem_map.1 he
  exact ⟨m, hm.symm⟩

/-- C19 (counterexample): the task "T" has a power handle whose failure flag
is set and two queued messages; the pass drops the head message, and the task
state after the pass is `TASK_IDLE | TASK_MSG_PENDING`, not `TASK_IDLE`. -/
theorem power_failure_with_backlog_keeps_pending :
    (kernel_task_sheduler pwr_failed (example_env 10)
        (example_kernel (powered_task [plain_msg "a" 5, plain_msg "b" 6]
          TASK_MSG_PENDING))).1.kernel_task_queue.map (fun e => (e.2.is_busy, e.2.msg_queue))
      = [(TASK_MSG_PENDING, [plain_msg "b" 6])]
    ∧ TASK_MSG_PENDING ≠ TASK_IDLE := by
  constructor
  · rfl
  · decide

/-- C19 (as the code has it): a task with a power handle, neither paused nor
suspended nor deleted, with no timer message and no mailbox slot posted to it,
whose queue is not empty.  If the power manager does not report
`POWER_DIACTIVATING` and the power-failure flag of the handle is set, one pass
calls no callback of the task, drops the head message of its queue and leaves
its state `TASK_IDLE` when that was the only message and
`TASK_IDLE | TASK_MSG_PENDING` when messages remain.  If the flag is clear,
activation fails and the power manager reports `POWER_GIVE_UP_ACTIVATE`, one
pass calls no callback, empties the queue and leaves the state `TASK_IDLE`. -/
theorem sheduler_power_failure_drops {σ : Type} (P : pwr_mgr σ) (env : sched_env)
    (k : kernel σ) (a : Nat) (t : kernel_task_t) (x : Nat)
    (hnd : (k.kernel_task_queue.map Prod.fst).Nodup) (hmem : (a, t) ∈ k.kernel_task_queue)
    (hpm : t.pm = some x) (hp : t.task_paused = false) (hs : t.task_suspended = false)
    (hd : t.task_deleted = false) (htm : t.timer_msg_queue = none)
    (hmail : ∀ g ∈ k.kernel_mailbox_group_queue, ∀ p ∈ g.mailbox_queue,
      p.mail.task_handler ≠ some a)
    (hq : t.msg_queue ≠ []) :
    ((∀ s, (P.pwr_mgr_check s t.pm).1 ≠ .POWER_DIACTIVATING) →
      (∀ s, (P.pwr_mgr_check_power_failure s t.pm).1 = true) →
      (∃ t2, task_at a (kernel_task_sheduler P env k).1.kernel_task_queue = some t2
        ∧ t2.msg_queue = t.msg_queue.tail
        ∧ t2.is_busy
            = (if t.msg_queue.tail = [] then TASK_IDLE else TASK_IDLE ||| TASK_MSG_PENDING))
      ∧ ∀ m ret, sched_event.callback a m ret ∉ (kernel_task_sheduler P env k).2)
    ∧ ((∀ s, (P.pwr_mgr_check_power_failure s t.pm).1 = false) →
      (∀ s, (P.pwr_mgr_activate s t.pm).1 = false) →
      (∀ s, (P.pwr_mgr_check s t.pm).1 = .POWER_GIVE_UP_ACTIVATE) →
      (∃ t2, task_at a (kernel_task_sheduler P env k).1.kernel_task_queue = some t2
        ∧ t2.msg_queue = [] ∧ t2.is_busy = TASK_IDLE)
      ∧ ∀ m ret, sched_event.callback a m ret ∉ (kernel_task_sheduler P env k).2) := by
  obtain ⟨h, s, _, h1, h2⟩ := sheduler_local P env k a t hnd hmem
  have hm0 : mails a (drain_groups env.tick_us k.kernel_mailbox_group_queue k.kernel_task_queue
      k.heap).2.2.2 = [] := by
    apply mails_eq_nil
    intro e he hea
    obtain ⟨g, hg, p, hp, hh⟩ := drain_groups_handlers _ _ _ _ e he
    exact hmail g hg p hp (hea ▸ hh)
  rw [hm0, pre_dispatch_no_input _ a t h htm] at h1 h2
  simp only [List.map_nil, List.nil_append] at h1 h2
  constructor
  · intro hck hpf
    obtain ⟨t2, e1, e2, e3, e4⟩ :=
      dispatch_power_failure P env (pass_delta_ms env k.t1) a t s x hpm hp hs hd hq hck hpf
    refine ⟨⟨t2, h1.trans e1, e2, e3⟩, ?_⟩
    intro m ret hc
    obtain ⟨m2, hm2⟩ := e4 _ (sheduler_event_of_task P env k a _ h2 _ hc rfl)
    cases hm2
  · intro hpf hac hgu
    obtain ⟨e1, e4⟩ := dispatch_give_up P env (pass_delta_ms env k.t1) a t s x hpm hp hs hq hpf hac hgu
    refine ⟨⟨_, h1.trans e1, rfl, rfl⟩, ?_⟩
    intro m ret hc
    obtain ⟨m2, hm2⟩ := e4 _ (sheduler_event_of_task P env k a _ h2 _ hc rfl)
    cases hm2

/-- Witness of C19: the task "T" with the power handle 1 and the two messages
"a", "b", first under a power manager whose failure flag is set, then under
one that has given up activating. -/
theorem sheduler_power_failure_drops_witness :
    ((∃ t2, task_at 7 (kernel_task_sheduler pwr_failed (example_env 10)
          (example_kernel (powered_task [plain_msg "a" 5, plain_msg "b" 6]
            TASK_MSG_PENDING))).1.kernel_task_queue = some t2
        ∧ t2.msg_queue = (powered_task [plain_msg "a" 5, plain_msg "b" 6]
            TASK_MSG_PENDING).msg_queue.tail
        ∧ t2.is_busy
            = (if (powered_task [plain_msg "a" 5, plain_msg "b" 6]
                TASK_MSG_PENDING).msg_queue.tail = [] then TASK_IDLE
               else TASK_IDLE ||| TASK_MSG_PENDING))
      ∧ ∀ m ret, sched_event.callback 7 m ret ∉ (kernel_task_sheduler pwr_failed (example_env 10)
          (example_kernel (powered_task [plain_msg "a" 5, plain_msg "b" 6] TASK_MSG_PENDING))).2)
    ∧ ((∃ t2, task_at 7 (kernel_task_sheduler pwr_give_up (example_env 10)
          (example_kernel (powered_task [plain_msg "a" 5, plain_msg "b" 6]
            TASK_MSG_PENDING))).1.kernel_task_queue = some t2
        ∧ t2.msg_queue = [] ∧ t2.is_busy = TASK_IDLE)
      ∧ ∀ m ret, sched_event.callback 7 m ret ∉ (kernel_task_sheduler pwr_give_up (example_env 10)
          (example_kernel (powered_task [plain_msg "a" 5, plain_msg "b" 6]
            TASK_MSG_PENDING))).2) :=
  ⟨(sheduler_power_failure_drops pwr_failed (example_env 10)
      (example_kernel (powered_task [plain_msg "a" 5, plain_msg "b" 6] TASK_MSG_PENDING)) 7
      (powered_task [plain_msg "a" 5, plain_msg "b" 6] TASK_MSG_PENDING) 1
      (by simp [example_kernel]) (by simp [example_kernel]) rfl rfl rfl rfl rfl
      (fun _ h => by cases h) (by simp [powered_task, example_task])).1
      (fun _ h => by cases h) (fun _ => rfl),
   (sheduler_power_failure_drops pwr_give_up (example_env 10)
      (example_kernel (powered_task [plain_msg "a" 5, plain_msg "b" 6] TASK_MSG_PENDING)) 7
      (powered_task [plain_msg "a" 5, plain_msg "b" 6] TASK_MSG_PENDING) 1
      (by simp [example_kernel]) (by simp [example_kernel]) rfl rfl rfl rfl rfl
      (fun _ h => by cases h) (by simp [powered_task, example_task])).2
      (fun _ => rfl) (fun _ => rfl) (fun _ => rfl)⟩

theorem idle_group_loop_eq (gs : List kernel_mailbox_group_t) :
    idle_group_loop gs = gs.any (fun g => g.unread_msg) := by
  induction gs with
  | nil => rfl
  | cons g rest ih =>
    unfold idle_group_loop
    cases hu : g.unread_msg <;> simp [hu, ih]

theorem idle_task_loop_eq (ts : List (Nat × kernel_task_t)) (m : Nat) :
    idle_task_loop ts m
      = if ts.any (fun e => e.2.is_busy != TASK_IDLE) then none
        else some ((timer_delays ts).foldl min m) := by
  induction ts generalizing m with
  | nil => simp [idle_task_loop, timer_delays]
  | cons e rest ih =>
    obtain ⟨a, t⟩ := e
    unfold idle_task_loop timer_delays
    by_cases hb : t.is_busy = TASK_IDLE
    · have h1 : ¬ t.is_busy ≠ TASK_IDLE := fun h => h hb
      rw [if_neg h1]
      simp only [List.any_cons, hb, bne_self_eq_false, Bool.false_or]
      cases t.timer_msg_queue with
      | none => exact ih m
      | some x =>
        dsimp only
        by_cases he : x.timer.enable = true
        · rw [if_pos he, if_pos he]
          simp only [List.foldl_cons]
          by_cases hl : to_u32 x.timer.delay < m
          · rw [if_pos hl, ih]
            have : min m (to_u32 x.timer.delay) = to_u32 x.timer.delay := by omega
            rw [this]
          · rw [if_neg hl, ih]
            have : min m (to_u32 x.timer.delay) = m := by omega
            rw [this]
        · rw [if_neg he, if_neg he]
          exact ih m
    · rw [if_pos hb]
      simp [hb]

theorem pending_loop_eq (retry : Nat → Int) (l : List Nat) (m : Int) :
    pending_loop retry l m
      = if m ≥ 0 then ((l.map retry).filter (fun x => x ≥ 0)).foldl min m
        else
          match (l.map retry).filter (fun x => x ≥ 0) with
          | [] => m
          | x :: rest => rest.foldl min x := by
  induction l generalizing m with
  | nil =>
    unfold pending_loop
    by_cases hm : m ≥ 0 <;> simp [hm]
  | cons t rest ih =>
    unfold pending_loop
    by_cases hr : retry t ≥ 0
    · rw [if_pos hr]
      have hf : ((t :: rest).map retry).filter (fun x => x ≥ 0)
          = retry t :: (rest.map retry).filter (fun x => x ≥ 0) := by
        simp [hr]
      rw [hf]
      by_cases hm : m ≥ 0
      · rw [if_pos hm, if_pos hm, ih]
        have : min m (retry t) ≥ 0 := by omega
        rw [if_pos this]
        rfl
      · rw [if_neg hm, if_neg hm, ih, if_pos hr]
    · rw [if_neg hr]
      have hf : ((t :: rest).map retry).filter (fun x => x ≥ 0)
          = (rest.map retry).filter (fun x => x ≥ 0) := by
        simp [hr]
      rw [hf]
      exact ih m

theorem try_send_eq (retry : Nat → Int) (q : List MCUs_t) :
    try_send_tunnel_pending_packet retry q = pending_time_spec retry q := by
  induction q with
  | nil => rfl
  | cons mcu rest ih =>
    unfold try_send_tunnel_pending_packet
    by_cases hl : mcu.is_local = true
    · rw [if_pos hl, pending_loop_eq]
      simp [pending_time_spec, retry_times, hl]
    · rw [if_neg hl, ih]
      simp [pending_time_spec, retry_times, hl]

/-- C21: `kernel_idle_time` returns 0 when a mailbox group has unread mail or a
task's state is not `TASK_IDLE`; otherwise it returns the least of
`0xFFFFFFFF`, the delays of the enabled task timers (read as `uint32_t`, as the
comparison in the code does), the pending retry time when it is not negative
and the mmap unsync timeout when it is not negative.  The pending retry time
(`try_send_tunnel_pending_packet`) is the least retry time that is not negative
among the tunnels of the local core, and -1 when there is none. -/
theorem kernel_idle_time_is_minimum (retry : Nat → Int) (groups : List kernel_mailbox_group_t)
    (tasks : List (Nat × kernel_task_t)) (q : List MCUs_t) (timeout : Int) :
    kernel_idle_time retry groups tasks q timeout = idle_time_spec retry groups tasks q timeout
    ∧ try_send_tunnel_pending_packet retry q = pending_time_spec retry q := by
  refine ⟨?_, try_send_eq retry q⟩
  unfold kernel_idle_time idle_time_spec
  rw [idle_group_loop_eq, idle_task_loop_eq, try_send_eq]
  cases hg : groups.any (fun g => g.unread_msg)
  · cases ht : tasks.any (fun e => e.2.is_busy != TASK_IDLE)
    · simp only [Bool.false_eq_true, if_false, Bool.or_self, List.foldl_append]
      by_cases hp : pending_time_spec retry q ≥ 0
      · by_cases hto : timeout ≥ 0
        · simp only [if_pos hp, if_pos hto, List.foldl_cons, List.foldl_nil]
          rw [min_comm (to_u32 timeout), min_comm (to_u32 (pending_time_spec retry q))]
        · simp only [if_pos hp, if_neg hto, List.foldl_cons, List.foldl_nil]
          rw [min_comm]
      · by_cases hto : timeout ≥ 0
        · simp only [if_neg hp, if_pos hto, List.foldl_cons, List.foldl_nil]
          rw [min_comm]
        · simp only [if_neg hp, if_neg hto, List.foldl_nil]
    · simp
  · simp

theorem clear_bits_idem (x m : Nat) : clear_bits (clear_bits x m) m = clear_bits x m := by
  unfold clear_bits
  apply Nat.eq_of_testBit_eq
  intro i
  simp only [Nat.testBit_xor, Nat.testBit_and]
  cases Nat.testBit x i <;> cases Nat.testBit m i <;> rfl

/-- C22 (counterexample): the task "T" holds "sleep" and "ping"; its callback
returns `TASK_READY_TO_SLEEP` for "sleep" and `TASK_IGNORE` for "ping".  The
first pass delivers "sleep" and leaves the state
`TASK_READY_TO_SLEEP | TASK_MSG_PENDING` with "ping" queued.  The second pass
delivers "ping", the callback returns `TASK_IGNORE`, and the state after the
delivery is `TASK_IDLE`: the `switch` that follows found exactly
`TASK_READY_TO_SLEEP`, deactivated the power and reset the state, so the bit
`TASK_READY_TO_SLEEP` that was set before the delivery is not set after it. -/
theorem sheduler_ignore_in_ready_to_sleep_ends_idle :
    (task_at 7 (kernel_task_sheduler pwr_always_on (example_env 10)
        (example_kernel (ignoring_task [plain_msg "sleep" 5, plain_msg "ping" 6]
          TASK_MSG_PENDING))).1.kernel_task_queue).map (fun t => (t.is_busy, t.msg_queue))
      = some (TASK_READY_TO_SLEEP ||| TASK_MSG_PENDING, [plain_msg "ping" 6])
    ∧ (kernel_task_sheduler pwr_always_on (example_env 20)
        (kernel_task_sheduler pwr_always_on (example_env 10)
          (example_kernel (ignoring_task [plain_msg "sleep" 5, plain_msg "ping" 6]
            TASK_MSG_PENDING))).1).2
      = [.callback 7 (plain_msg "ping" 6) TASK_IGNORE, .delete_msg 7 (plain_msg "ping" 6),
          .pwr_diactivate 7]
    ∧ (task_at 7 (kernel_task_sheduler pwr_always_on (example_env 20)
        (kernel_task_sheduler pwr_always_on (example_env 10)
          (example_kernel (ignoring_task [plain_msg "sleep" 5, plain_msg "ping" 6]
            TASK_MSG_PENDING))).1).1.kernel_task_queue).map (fun t => t.is_busy)
      = some TASK_IDLE
    ∧ clear_bits (TASK_READY_TO_SLEEP ||| TASK_MSG_PENDING) TASK_MSG_PENDING = TASK_READY_TO_SLEEP
    ∧ clear_bits TASK_IDLE TASK_MSG_PENDING ≠ TASK_READY_TO_SLEEP := by
  refine ⟨rfl, rfl, rfl, by decide, by decide⟩

/-- C22 (amended): for every delivery to a task that is not marked deleted, let `b` be the
task state after the callback assignment and the `DROP_MSG` step, that is the
value the `switch( t->is_busy )` reads: `b` is the state before without
`TASK_MSG_PENDING` when the callback returned `TASK_IGNORE`, and the returned
value otherwise, with `TASK_MSG_PENDING` or-ed in exactly when the queue is
still not empty.  So on `TASK_IGNORE` the bits of `b` other than
`TASK_MSG_PENDING` are those of the state before, and on any other return
value `r`, `b` is `r` when the queue is empty and `r | TASK_MSG_PENDING` when
it is not.  The state after the pass is `b`, except that `TASK_READY_TO_SLEEP`
is turned into `TASK_IDLE` by the `switch`. -/
theorem sheduler_callback_state {σ : Type} (P : pwr_mgr σ) (env : sched_env) (k : kernel σ)
    (a : Nat) (t : kernel_task_t) (m : kernel_msg_t) (ret : task_state)
    (hnd : (k.kernel_task_queue.map Prod.fst).Nodup) (hmem : (a, t) ∈ k.kernel_task_queue)
    (hdel : t.task_deleted = false)
    (hcb : sched_event.callback a m ret ∈ (kernel_task_sheduler P env k).2) :
    ∃ t2 b, task_at a (kernel_task_sheduler P env k).1.kernel_task_queue = some t2
      ∧ b = (if ret = TASK_IGNORE then clear_bits t.is_busy TASK_MSG_PENDING else ret)
            ||| (if t2.msg_queue = [] then 0 else TASK_MSG_PENDING)
      ∧ t2.is_busy = (if b = TASK_READY_TO_SLEEP then TASK_IDLE else b)
      ∧ (ret = TASK_IGNORE →
          clear_bits b TASK_MSG_PENDING = clear_bits t.is_busy TASK_MSG_PENDING)
      ∧ (ret ≠ TASK_IGNORE →
          b = if t2.msg_queue = [] then ret else ret ||| TASK_MSG_PENDING) := by
  obtain ⟨extra, h, s, t1, _, _, _, _, hb, _, _, _, hat, _, _⟩ :=
    sheduler_delivery P env k a t m ret hnd hmem hcb
  rw [hdel] at hat
  simp only [Bool.false_eq_true, if_false] at hat
  have hq := (after_drop_frame P a t1 s).1
  have hkp := keep_pending_is_busy t1
  have hbe : (keep_pending t1).is_busy
      = (if ret = TASK_IGNORE then clear_bits t.is_busy TASK_MSG_PENDING else ret)
        ||| (if (after_drop P a t1 s).1.msg_queue = [] then 0 else TASK_MSG_PENDING) := by
    rw [hkp, hq, hb]
    by_cases he : t1.msg_queue = []
    · rw [if_pos he, if_pos he]; simp
    · rw [if_neg he, if_neg he]
  refine ⟨(after_drop P a t1 s).1, (keep_pending t1).is_busy, hat, hbe,
    after_drop_is_busy P a t1 s, ?_, ?_⟩
  · intro hr
    rw [hbe, if_pos hr]
    by_cases he : (after_drop P a t1 s).1.msg_queue = []
    · rw [if_pos he, Nat.or_zero, clear_bits_idem]
    · rw [if_neg he, clear_bits_or_pending, clear_bits_idem]
  · intro hr
    rw [hbe, if_neg hr]
    by_cases he : (after_drop P a t1 s).1.msg_queue = []
    · rw [if_pos he, if_pos he, Nat.or_zero]
    · rw [if_neg he, if_neg he]

/-- Witness of C22: the task "T" holding the message "ping", its callback
returning `TASK_IDLE`. -/
theorem sheduler_callback_state_witness :
    ∃ t2 b, task_at 7 (kernel_task_sheduler pwr_always_on (example_env 10)
        (example_kernel (example_task TASK_IDLE [plain_msg "ping" 5]
          TASK_MSG_PENDING 0))).1.kernel_task_queue = some t2
      ∧ b = (if TASK_IDLE = TASK_IGNORE
              then clear_bits (example_task TASK_IDLE [plain_msg "ping" 5]
                TASK_MSG_PENDING 0).is_busy TASK_MSG_PENDING
              else TASK_IDLE)
            ||| (if t2.msg_queue = [] then 0 else TASK_MSG_PENDING)
      ∧ t2.is_busy = (if b = TASK_READY_TO_SLEEP then TASK_IDLE else b)
      ∧ (TASK_IDLE = TASK_IGNORE →
          clear_bits b TASK_MSG_PENDING
            = clear_bits (example_task TASK_IDLE [plain_msg "ping" 5]
                TASK_MSG_PENDING 0).is_busy TASK_MSG_PENDING)
      ∧ (TASK_IDLE ≠ TASK_IGNORE →
          b = if t2.msg_queue = [] then TASK_IDLE else TASK_IDLE ||| TASK_MSG_PENDING) :=
  sheduler_callback_state pwr_always_on (example_env 10)
    (example_kernel (example_task TASK_IDLE [plain_msg "ping" 5] TASK_MSG_PENDING 0)) 7
    (example_task TASK_IDLE [plain_msg "ping" 5] TASK_MSG_PENDING 0) (plain_msg "ping" 5)
    TASK_IDLE (by simp [example_kernel]) (by simp [example_kernel]) rfl
    (List.mem_cons_self _ _)

theorem create_kernel_mmap_reserved (h : x_heap) (mem_name : String) (mem : List Nat)
    (mem_size : Int) (hr : mem_name = "mmap_array" ∨ mem_name = "mmap") :
    create_kernel_mmap h mem_name mem mem_size = none := by
  unfold create_kernel_mmap
  rw [if_pos hr]
  rfl

theorem create_kernel_mmap_some (h : x_heap) (mem_name : String) (mem : List Nat)
    (mem_size : Int) (hr : ¬ (mem_name = "mmap_array" ∨ mem_name = "mmap")) :
    ∃ r, create_kernel_mmap h mem_name mem mem_size = some r
      ∧ (∀ p, r.1 = some p → p.prev_sync_mem = none ∧ p.mem = mem ∧ p.mem_size = mem_size
          ∧ p.sync_already = false)
      ∧ (no_alloc_failure h → r.1.isSome = true ∧ no_alloc_failure r.2) := by
  unfold create_kernel_mmap
  rw [if_neg hr]
  cases hm : x_malloc h with
  | mk b h1 =>
    cases b with
    | false =>
      refine ⟨_, rfl, ?_, ?_⟩
      · intro p hp; cases hp
      · intro hh
        have := (x_malloc_ok h hh).1
        rw [hm] at this
        cases this
    | true =>
      refine ⟨_, rfl, ?_, ?_⟩
      · intro p hp
        simp only [Option.some.injEq] at hp
        subst hp
        exact ⟨rfl, rfl, rfl, rfl⟩
      · intro hh
        have := (x_malloc_ok h hh).2
        rw [hm] at this
        exact ⟨rfl, strdup_heap h1 _ this⟩

theorem kernel_mmap_from_some (h : x_heap) (queue : List kernel_mmap_t) (core_name mem_name : String)
    (mem : List Nat) (mem_size : Int) (hr : ¬ (mem_name = "mmap_array" ∨ mem_name = "mmap")) :
    ∃ r, kernel_mmap_from h queue core_name mem_name mem mem_size = some r
      ∧ ((r.1 = none ∧ r.2.1 = queue) ∨
          ∃ p, r.1 = some p ∧ r.2.1 = queue ++ [p] ∧ p.prev_sync_mem = none ∧ p.mem = mem
            ∧ p.mem_size = mem_size ∧ p.sync_already = false)
      ∧ (no_alloc_failure h → r.1.isSome = true) := by
  obtain ⟨r0, e0, f0, g0⟩ := create_kernel_mmap_some h mem_name mem mem_size hr
  unfold kernel_mmap_from
  rw [e0]
  obtain ⟨o, h1⟩ := r0
  cases o with
  | none =>
    refine ⟨_, rfl, Or.inl ⟨rfl, rfl⟩, ?_⟩
    intro hh
    have := (g0 hh).1
    cases this
  | some p =>
    obtain ⟨a1, a2, a3, a4⟩ := f0 p rfl
    exact ⟨_, rfl, Or.inr ⟨_, rfl, rfl, a1, a2, a3, a4⟩, fun _ => rfl⟩

theorem memcpy_zeros (mem : List Nat) (n : Nat) :
    memcpy (List.replicate n 0) mem n = mem.take n := by
  unfold memcpy
  simp

theorem kernel_mmap_to_some (h : x_heap) (queue : List kernel_mmap_t) (core_name mem_name : String)
    (mem : List Nat) (mem_size : Int) (hr : ¬ (mem_name = "mmap_array" ∨ mem_name = "mmap")) :
    ∃ r, kernel_mmap_to h queue core_name mem_name mem mem_size = some r
      ∧ ((r.1 = none ∧ r.2.1 = queue) ∨
          ∃ p, r.1 = some p ∧ r.2.1 = queue ++ [p]
            ∧ p.prev_sync_mem = some (mem.take mem_size.toNat) ∧ p.mem = mem
            ∧ p.mem_size = mem_size)
      ∧ (no_alloc_failure h → r.1.isSome = true) := by
  obtain ⟨r0, e0, f0, g0⟩ := create_kernel_mmap_some h mem_name mem mem_size hr
  unfold kernel_mmap_to
  rw [e0]
  obtain ⟨o, h1⟩ := r0
  cases o with
  | none =>
    refine ⟨_, rfl, Or.inl ⟨rfl, rfl⟩, ?_⟩
    intro hh
    have := (g0 hh).1
    cases this
  | some p =>
    obtain ⟨a1, a2, a3, a4⟩ := f0 p rfl
    dsimp only
    cases hm : x_malloc h1 with
    | mk b h2 =>
      cases b with
      | false =>
        refine ⟨_, rfl, Or.inl ⟨rfl, rfl⟩, ?_⟩
        intro hh
        have := (x_malloc_ok h1 (g0 hh).2).1
        rw [hm] at this
        cases this
      | true =>
        refine ⟨_, rfl, Or.inr ⟨_, rfl, rfl, ?_, a2, a3⟩, fun _ => rfl⟩
        dsimp only
        rw [memcpy_zeros]

/-- C23: `kernel_mmap_from` and `kernel_mmap_to` called with the region name
"mmap" or "mmap_array" do not return (the `ERROR` of `create_kernel_mmap` is
fatal) and so add no region; with any other name they return, the list after
the call is the list before or the list before with one region appended, and
when no allocation fails it is the latter. -/
theorem mmap_reserved_names_rejected (h : x_heap) (from_queue to_queue : List kernel_mmap_t)
    (core_name mem_name : String) (mem : List Nat) (mem_size : Int) :
    ((mem_name = "mmap_array" ∨ mem_name = "mmap") →
      kernel_mmap_from h from_queue core_name mem_name mem mem_size = none
      ∧ kernel_mmap_to h to_queue core_name mem_name mem mem_size = none)
    ∧ (¬ (mem_name = "mmap_array" ∨ mem_name = "mmap") →
      (∃ r, kernel_mmap_from h from_queue core_name mem_name mem mem_size = some r
        ∧ (r.2.1 = from_queue ∨ ∃ p, r.2.1 = from_queue ++ [p])
        ∧ (no_alloc_failure h → ∃ p, r.2.1 = from_queue ++ [p]))
      ∧ (∃ r, kernel_mmap_to h to_queue core_name mem_name mem mem_size = some r
        ∧ (r.2.1 = to_queue ∨ ∃ p, r.2.1 = to_queue ++ [p])
        ∧ (no_alloc_failure h → ∃ p, r.2.1 = to_queue ++ [p]))) := by
  constructor
  · intro hr
    unfold kernel_mmap_from kernel_mmap_to
    rw [create_kernel_mmap_reserved h mem_name mem mem_size hr]
    exact ⟨rfl, rfl⟩
  · intro hr
    constructor
    · obtain ⟨r, e, f, g⟩ := kernel_mmap_from_some h from_queue core_name mem_name mem mem_size hr
      refine ⟨r, e, ?_, ?_⟩
      · rcases f with ⟨_, f2⟩ | ⟨p, _, f2, _⟩
        · exact Or.inl f2
        · exact Or.inr ⟨p, f2⟩
      · intro hh
        have hs := g hh
        rcases f with ⟨f1, _⟩ | ⟨p, _, f2, _⟩
        · rw [f1] at hs; cases hs
        · exact ⟨p, f2⟩
    · obtain ⟨r, e, f, g⟩ := kernel_mmap_to_some h to_queue core_name mem_name mem mem_size hr
      refine ⟨r, e, ?_, ?_⟩
      · rcases f with ⟨_, f2⟩ | ⟨p, _, f2, _⟩
        · exact Or.inl f2
        · exact Or.inr ⟨p, f2⟩
      · intro hh
        have hs := g hh
        rcases f with ⟨f1, _⟩ | ⟨p, _, f2, _⟩
        · rw [f1] at hs; cases hs
        · exact ⟨p, f2⟩

/-- Witness of C23: the names "mmap" and "battery" on empty lists. -/
theorem mmap_reserved_names_rejected_witness :
    (kernel_mmap_from ⟨[]⟩ [] "peer" "mmap" [1, 2] 2 = none
      ∧ kernel_mmap_to ⟨[]⟩ [] "peer" "mmap" [1, 2] 2 = none)
    ∧ ((∃ r, kernel_mmap_from ⟨[]⟩ [] "peer" "battery" [1, 2] 2 = some r
        ∧ (r.2.1 = [] ∨ ∃ p, r.2.1 = [] ++ [p])
        ∧ (no_alloc_failure ⟨[]⟩ → ∃ p, r.2.1 = [] ++ [p]))
      ∧ (∃ r, kernel_mmap_to ⟨[]⟩ [] "peer" "battery" [1, 2] 2 = some r
        ∧ (r.2.1 = [] ∨ ∃ p, r.2.1 = [] ++ [p])
        ∧ (no_alloc_failure ⟨[]⟩ → ∃ p, r.2.1 = [] ++ [p]))) :=
  ⟨(mmap_reserved_names_rejected ⟨[]⟩ [] [] "peer" "mmap" [1, 2] 2).1 (Or.inr rfl),
   (mmap_reserved_names_rejected ⟨[]⟩ [] [] "peer" "battery" [1, 2] 2).2 (by decide)⟩

theorem update_to_loop_spec {σ : Type} (T : transport σ) (q : List MCUs_t)
    (target_core : Option String) (diff_sync : Bool) (regions : List kernel_mmap_t)
    (i0 : Nat) (ret0 : Bool) (s : σ) :
    (∀ j ok, sync_event.mmap_send j ok ∈
        (update_to_loop T q target_core diff_sync regions i0 ret0 s).2.2.2 →
        i0 ≤ j ∧ j < i0 + regions.length)
    ∧ (∀ e ∈ (update_to_loop T q target_core diff_sync regions i0 ret0 s).2.2.2,
        ∃ j ok, e = .mmap_send j ok)
    ∧ (∀ j p, regions.get? j = some p →
        (sync_event.mmap_send (i0 + j) true ∈
            (update_to_loop T q target_core diff_sync regions i0 ret0 s).2.2.2 →
          (update_to_loop T q target_core diff_sync regions i0 ret0 s).2.1.get? j
            = some (take_snapshot p))
        ∧ (sync_event.mmap_send (i0 + j) true ∉
            (update_to_loop T q target_core diff_sync regions i0 ret0 s).2.2.2 →
          (update_to_loop T q target_core diff_sync regions i0 ret0 s).2.1.get? j = some p)
        ∧ (wants_send target_core diff_sync p = false →
          ∀ ok, sync_event.mmap_send (i0 + j) ok ∉
            (update_to_loop T q target_core diff_sync regions i0 ret0 s).2.2.2))
    ∧ (∀ j, sync_event.mmap_send (i0 + j) false ∈
          (update_to_loop T q target_core diff_sync regions i0 ret0 s).2.2.2 →
        (update_to_loop T q target_core diff_sync regions i0 ret0 s).1 = false
        ∧ sync_event.mmap_send (i0 + j) true ∉
            (update_to_loop T q target_core diff_sync regions i0 ret0 s).2.2.2
        ∧ ∀ j2 ok, j < j2 → sync_event.mmap_send (i0 + j2) ok ∉
            (update_to_loop T q target_core diff_sync regions i0 ret0 s).2.2.2) := by
  induction regions generalizing i0 ret0 s with
  | nil =>
    refine ⟨?_, ?_, ?_, ?_⟩
    · intro j ok h; simp [update_to_loop] at h
    · intro e h; simp [update_to_loop] at h
    · intro j p h; cases h
    · intro j h; simp [update_to_loop] at h
  | cons p rest ih =>
    have skip : ∀ (ret1 : Bool) (s1 : σ),
        (∀ j ok, sync_event.mmap_send j ok ∈
            (update_to_loop T q target_core diff_sync rest (i0 + 1) ret1 s1).2.2.2 →
            i0 ≤ j ∧ j < i0 + (p :: rest).length)
        ∧ (∀ j ok, sync_event.mmap_send j ok ∈
            (update_to_loop T q target_core diff_sync rest (i0 + 1) ret1 s1).2.2.2 → i0 + 1 ≤ j)
        ∧ (∀ j p1, rest.get? j = some p1 →
            (sync_event.mmap_send (i0 + (j + 1)) true ∈
                (update_to_loop T q target_core diff_sync rest (i0 + 1) ret1 s1).2.2.2 →
              (update_to_loop T q target_core diff_sync rest (i0 + 1) ret1 s1).2.1.get? j
                = some (take_snapshot p1))
            ∧ (sync_event.mmap_send (i0 + (j + 1)) true ∉
                (update_to_loop T q target_core diff_sync rest (i0 + 1) ret1 s1).2.2.2 →
              (update_to_loop T q target_core diff_sync rest (i0 + 1) ret1 s1).2.1.get? j
                = some p1)
            ∧ (wants_send target_core diff_sync p1 = false →
              ∀ ok, sync_event.mmap_send (i0 + (j + 1)) ok ∉
                (update_to_loop T q target_core diff_sync rest (i0 + 1) ret1 s1).2.2.2))
        ∧ (∀ j, sync_event.mmap_send (i0 + (j + 1)) false ∈
              (update_to_loop T q target_core diff_sync rest (i0 + 1) ret1 s1).2.2.2 →
            (update_to_loop T q target_core diff_sync rest (i0 + 1) ret1 s1).1 = false
            ∧ sync_event.mmap_send (i0 + (j + 1)) true ∉
                (update_to_loop T q target_core diff_sync rest (i0 + 1) ret1 s1).2.2.2
            ∧ ∀ j2 ok, j + 1 < j2 → sync_event.mmap_send (i0 + j2) ok ∉
                (update_to_loop T q target_core diff_sync rest (i0 + 1) ret1 s1).2.2.2) := by
      intro ret1 s1
      obtain ⟨a1, _, a3, a4⟩ := ih (i0 + 1) ret1 s1
      refine ⟨?_, ?_, ?_, ?_⟩
      · intro j ok h
        have := a1 j ok h
        simp only [List.length_cons]
        omega
      · intro j ok h
        exact (a1 j ok h).1
      · intro j p1 hj
        have e : i0 + (j + 1) = i0 + 1 + j := by omega
        rw [e]
        exact a3 j p1 hj
      · intro j h
        have e : i0 + (j + 1) = i0 + 1 + j := by omega
        rw [e] at h ⊢
        obtain ⟨b1, b2, b3⟩ := a4 j h
        refine ⟨b1, b2, ?_⟩
        intro j2 ok hlt
        obtain ⟨j3, rfl⟩ : ∃ j3, j2 = j3 + 1 := ⟨j2 - 1, by omega⟩
        have e2 : i0 + (j3 + 1) = i0 + 1 + j3 := by omega
        rw [e2]
        exact b3 j3 ok (by omega)
    have hev := fun ret1 s1 => (ih (i0 + 1) ret1 s1).2.1
    have skipped : ∀ (ret1 : Bool) (s1 : σ) (hw : wants_send target_core diff_sync p = false),
        (∀ j ok, sync_event.mmap_send j ok ∈
            (update_to_loop T q target_core diff_sync rest (i0 + 1) ret1 s1).2.2.2 →
            i0 ≤ j ∧ j < i0 + (p :: rest).length)
        ∧ (∀ e ∈ (update_to_loop T q target_core diff_sync rest (i0 + 1) ret1 s1).2.2.2,
            ∃ j ok, e = .mmap_send j ok)
        ∧ (∀ j p1, (p :: rest).get? j = some p1 →
            (sync_event.mmap_send (i0 + j) true ∈
                (update_to_loop T q target_core diff_sync rest (i0 + 1) ret1 s1).2.2.2 →
              (p :: (update_to_loop T q target_core diff_sync rest (i0 + 1) ret1 s1).2.1).get? j
                = some (take_snapshot p1))
            ∧ (sync_event.mmap_send (i0 + j) true ∉
                (update_to_loop T q target_core diff_sync rest (i0 + 1) ret1 s1).2.2.2 →
              (p :: (update_to_loop T q target_core diff_sync rest (i0 + 1) ret1 s1).2.1).get? j
                = some p1)
            ∧ (wants_send target_core diff_sync p1 = false →
              ∀ ok, sync_event.mmap_send (i0 + j) ok ∉
                (update_to_loop T q target_core diff_sync rest (i0 + 1) ret1 s1).2.2.2))
        ∧ (∀ j, sync_event.mmap_send (i0 + j) false ∈
              (update_to_loop T q target_core diff_sync rest (i0 + 1) ret1 s1).2.2.2 →
            (update_to_loop T q target_core diff_sync rest (i0 + 1) ret1 s1).1 = false
            ∧ sync_event.mmap_send (i0 + j) true ∉
                (update_to_loop T q target_core diff_sync rest (i0 + 1) ret1 s1).2.2.2
            ∧ ∀ j2 ok, j < j2 → sync_event.mmap_send (i0 + j2) ok ∉
                (update_to_loop T q target_core diff_sync rest (i0 + 1) ret1 s1).2.2.2) := by
      intro ret1 s1 hw
      obtain ⟨c1, c2, c3, c4⟩ := skip ret1 s1
      refine ⟨c1, hev ret1 s1, ?_, ?_⟩
      · intro j p1 hj
        cases j with
        | zero =>
          simp only [List.get?_cons_zero, Option.some.injEq] at hj
          subst hj
          refine ⟨?_, fun _ => rfl, ?_⟩
          · intro h
            have := c2 _ _ h
            omega
          · intro _ ok h
            have := c2 _ _ h
            omega
        | succ j =>
          simp only [List.get?_cons_succ] at hj
          simpa using c3 j p1 hj
      · intro j h
        cases j with
        | zero =>
          have := c2 _ _ h
          omega
        | succ j => exact c4 j h
    unfold update_to_loop
    by_cases h1 : (target_core.isSome && p.core != target_core) = true
    · rw [if_pos h1]
      exact skipped ret0 s (by simp [wants_send, h1])
    · rw [if_neg h1]
      by_cases h2 : (diff_sync && memcmp_zero p.mem (p.prev_sync_mem.getD []) p.mem_size.toNat)
          = true
      · rw [if_pos h2]
        exact skipped ret0 s (by simp [wants_send, h2])
      · rw [if_neg h2]
        have hw : wants_send target_core diff_sync p = true := by
          simp only [Bool.not_eq_true] at h1 h2
          simp [wants_send, h1, h2]
        dsimp only
        by_cases h3 : (!(kernel_mmap_outside T s q (get_my_core_name q) p.core p.mem_name p.mem
            p.mem_size none).1) = true
        · rw [if_pos h3]
          refine ⟨?_, ?_, ?_, ?_⟩
          · intro j ok h
            simp only [List.mem_singleton, sync_event.mmap_send.injEq] at h
            simp only [List.length_cons]
            omega
          · intro e h
            simp only [List.mem_singleton] at h
            exact ⟨_, _, h⟩
          · intro j p1 hj
            refine ⟨?_, fun _ => hj, ?_⟩
            · intro h
              simp at h
            · intro hw1 ok h
              simp only [List.mem_singleton, sync_event.mmap_send.injEq] at h
              have hj0 : j = 0 := by omega
              subst hj0
              simp only [List.get?_cons_zero, Option.some.injEq] at hj
              subst hj
              rw [hw] at hw1
              cases hw1
          · intro j h
            refine ⟨rfl, by simp, ?_⟩
            intro j2 ok hlt hh
            simp only [List.mem_singleton, sync_event.mmap_send.injEq] at h hh
            omega
        · rw [if_neg h3]
          obtain ⟨c1, c2, c3, c4⟩ := skip true
            (kernel_mmap_outside T s q (get_my_core_name q) p.core p.mem_name p.mem
              p.mem_size none).2
          refine ⟨?_, ?_, ?_, ?_⟩
          · intro j ok h
            rcases List.mem_cons.1 h with h | h
            · simp only [sync_event.mmap_send.injEq] at h
              simp only [List.length_cons]
              omega
            · exact c1 j ok h
          · intro e h
            rcases List.mem_cons.1 h with h | h
            · exact ⟨_, _, h⟩
            · exact hev _ _ e h
          · intro j p1 hj
            cases j with
            | zero =>
              simp only [List.get?_cons_zero, Option.some.injEq] at hj
              subst hj
              refine ⟨fun _ => rfl, ?_, ?_⟩
              · intro h
                exact absurd (List.mem_cons_self _ _) h
              · intro hw1
                rw [hw] at hw1
                cases hw1
            | succ j =>
              simp only [List.get?_cons_succ] at hj
              obtain ⟨d1, d2, d3⟩ := c3 j p1 hj
              refine ⟨?_, ?_, ?_⟩
              · intro h
                rcases List.mem_cons.1 h with h | h
                · simp only [sync_event.mmap_send.injEq] at h
                  omega
                · simpa using d1 h
              · intro h
                have : sync_event.mmap_send (i0 + (j + 1)) true ∉
                    (update_to_loop T q target_core diff_sync rest (i0 + 1) true
                      (kernel_mmap_outside T s q (get_my_core_name q) p.core p.mem_name p.mem
                        p.mem_size none).2).2.2.2 :=
                  fun hh => h (List.mem_cons_of_mem _ hh)
                simpa using d2 this
              · intro hw1 ok h
                rcases List.mem_cons.1 h with h | h
                · simp only [sync_event.mmap_send.injEq] at h
                  omega
                · exact d3 hw1 ok h
          · intro j h
            rcases List.mem_cons.1 h with h | h
            · simp at h
            · cases j with
              | zero =>
                have := c2 _ _ h
                omega
              | succ j =>
                obtain ⟨b1, b2, b3⟩ := c4 j h
                refine ⟨b1, ?_, ?_⟩
                · intro hh
                  rcases List.mem_cons.1 hh with hh | hh
                  · simp only [sync_event.mmap_send.injEq] at hh
                    omega
                  · exact b2 hh
                · intro j2 ok hlt hh
                  rcases List.mem_cons.1 hh with hh | hh
                  · simp only [sync_event.mmap_send.injEq] at hh
                    omega
                  · exact b3 j2 ok hlt hh

theorem memcmp_zero_take (x : List Nat) (n : Nat) : memcmp_zero x (x.take n) n = true := by
  simp [memcmp_zero, List.take_take]

theorem take_snapshot_matches (p : kernel_mmap_t) (hbuf : p.mem_size.toNat ≤ p.mem.length) :
    (take_snapshot p).mem = p.mem
    ∧ ∃ snap, (take_snapshot p).prev_sync_mem = some snap
      ∧ snap.take p.mem_size.toNat = p.mem.take p.mem_size.toNat
      ∧ memcmp_zero (take_snapshot p).mem snap (take_snapshot p).mem_size.toNat = true := by
  have hl : (p.mem.take p.mem_size.toNat).length = p.mem_size.toNat := by
    rw [List.length_take]; omega
  have ht : (memcpy (p.prev_sync_mem.getD []) p.mem p.mem_size.toNat).take p.mem_size.toNat
      = p.mem.take p.mem_size.toNat := by
    unfold memcpy
    rw [List.take_append_of_le_length (by omega), List.take_take]
    simp
  refine ⟨rfl, _, rfl, ht, ?_⟩
  show memcmp_zero p.mem _ p.mem_size.toNat = true
  unfold memcmp_zero
  rw [ht]
  simp

/-- C24: `kernel_mmap_to`, called with a name that is not reserved while no
allocation fails, creates a region, appends it to the list, and gives it a
snapshot that holds the first `mem_size` bytes of its buffer (so `memcmp` of
buffer and snapshot is 0); whenever it returns a region at all, the region has
that snapshot.  `kernel_mmap_from` under the same conditions creates and
appends a region without a snapshot (`prev_sync_mem = NULL`), and whenever it
returns a region the region has none.  After `kernel_mmap_update_to` every
region for which a send succeeded in that call has its buffer as before and a
snapshot equal to the buffer over `mem_size` bytes (the buffer holding at
least `mem_size` bytes). -/
theorem mmap_snapshot_matches_buffer {σ : Type} (T : transport σ) (q : List MCUs_t)
    (h : x_heap) (queue : List kernel_mmap_t) (core_name mem_name : String) (mem : List Nat)
    (mem_size : Int) (target_core : Option String) (diff_sync : Bool) (s : σ) :
    (¬ (mem_name = "mmap_array" ∨ mem_name = "mmap") → no_alloc_failure h →
      ∃ r p, kernel_mmap_to h queue core_name mem_name mem mem_size = some r ∧ r.1 = some p
        ∧ r.2.1 = queue ++ [p] ∧ p.mem = mem ∧ p.mem_size = mem_size
        ∧ p.prev_sync_mem = some (mem.take mem_size.toNat)
        ∧ memcmp_zero p.mem (mem.take mem_size.toNat) mem_size.toNat = true)
    ∧ (∀ r p, kernel_mmap_to h queue core_name mem_name mem mem_size = some r → r.1 = some p →
      r.2.1 = queue ++ [p] ∧ p.mem = mem ∧ p.prev_sync_mem = some (mem.take mem_size.toNat)
      ∧ memcmp_zero p.mem (mem.take mem_size.toNat) mem_size.toNat = true)
    ∧ (¬ (mem_name = "mmap_array" ∨ mem_name = "mmap") → no_alloc_failure h →
      ∃ r p, kernel_mmap_from h queue core_name mem_name mem mem_size = some r ∧ r.1 = some p
        ∧ r.2.1 = queue ++ [p] ∧ p.mem = mem ∧ p.mem_size = mem_size ∧ p.prev_sync_mem = none)
    ∧ (∀ r p, kernel_mmap_from h queue core_name mem_name mem mem_size = some r →
      r.1 = some p → r.2.1 = queue ++ [p] ∧ p.mem = mem ∧ p.prev_sync_mem = none)
    ∧ (∀ j p, queue.get? j = some p → p.mem_size.toNat ≤ p.mem.length →
      sync_event.mmap_send j true ∈
        (kernel_mmap_update_to T q target_core diff_sync queue s).2.2.2 →
      ∃ p2 snap, (kernel_mmap_update_to T q target_core diff_sync queue s).2.1.get? j = some p2
        ∧ p2.mem = p.mem ∧ p2.prev_sync_mem = some snap
        ∧ memcmp_zero p2.mem snap p2.mem_size.toNat = true) := by
  refine ⟨?_, ?_, ?_, ?_, ?_⟩
  · intro hres hh
    obtain ⟨r0, e0, f0, g0⟩ := kernel_mmap_to_some h queue core_name mem_name mem mem_size hres
    rcases f0 with ⟨f1, _⟩ | ⟨p0, f1, f2, f3, f4, f5⟩
    · have := g0 hh
      rw [f1] at this
      cases this
    · refine ⟨r0, p0, e0, f1, f2, f4, f5, f3, ?_⟩
      rw [f4]
      exact memcmp_zero_take mem _
  · intro r p hr hp
    by_cases hres : mem_name = "mmap_array" ∨ mem_name = "mmap"
    · unfold kernel_mmap_to at hr
      rw [create_kernel_mmap_reserved h mem_name mem mem_size hres] at hr
      cases hr
    · obtain ⟨r0, e0, f0, _⟩ := kernel_mmap_to_some h queue core_name mem_name mem mem_size hres
      rw [e0] at hr
      cases hr
      rcases f0 with ⟨f1, _⟩ | ⟨p0, f1, f2, f3, f4, _⟩
      · rw [f1] at hp; cases hp
      · rw [f1] at hp
        cases hp
        refine ⟨f2, f4, f3, ?_⟩
        rw [f4]
        exact memcmp_zero_take mem _
  · intro hres hh
    obtain ⟨r0, e0, f0, g0⟩ := kernel_mmap_from_some h queue core_name mem_name mem mem_size hres
    rcases f0 with ⟨f1, _⟩ | ⟨p0, f1, f2, f3, f4, f5, _⟩
    · have := g0 hh
      rw [f1] at this
      cases this
    · exact ⟨r0, p0, e0, f1, f2, f4, f5, f3⟩
  · intro r p hr hp
    by_cases hres : mem_name = "mmap_array" ∨ mem_name = "mmap"
    · unfold kernel_mmap_from at hr
      rw [create_kernel_mmap_reserved h mem_name mem mem_size hres] at hr
      cases hr
    · obtain ⟨r0, e0, f0, _⟩ := kernel_mmap_from_some h queue core_name mem_name mem mem_size hres
      rw [e0] at hr
      cases hr
      rcases f0 with ⟨f1, _⟩ | ⟨p0, f1, f2, f3, f4, _⟩
      · rw [f1] at hp; cases hp
      · rw [f1] at hp
        cases hp
        exact ⟨f2, f4, f3⟩
  · intro j p hj hbuf hev
    have hs := (update_to_loop_spec T q target_core diff_sync queue 0 false s).2.2.1 j p hj
    unfold kernel_mmap_update_to at hev ⊢
    rw [Nat.zero_add] at hs
    obtain ⟨m1, snap, m2, _, m4⟩ := take_snapshot_matches p hbuf
    exact ⟨take_snapshot p, snap, hs.1 hev, m1, m2, m4⟩

/-- Witness of C24: `kernel_mmap_to` and `kernel_mmap_from` create the region
"level" with the buffer 7, 9, the first with the snapshot 7, 9 and the second
with none; and the region "battery", whose buffer changed since the last
snapshot, is sent over a working transport. -/
theorem mmap_snapshot_matches_buffer_witness :
    (∃ r p, kernel_mmap_to ⟨[]⟩ [example_region "battery" [1, 2] (some [0, 0])] "peer" "level"
          [7, 9] 2 = some r ∧ r.1 = some p
        ∧ r.2.1 = [example_region "battery" [1, 2] (some [0, 0])] ++ [p] ∧ p.mem = [7, 9]
        ∧ p.mem_size = 2 ∧ p.prev_sync_mem = some [7, 9]
        ∧ memcmp_zero p.mem [7, 9] 2 = true)
    ∧ (∃ r p, kernel_mmap_from ⟨[]⟩ [example_region "battery" [1, 2] (some [0, 0])] "peer" "level"
          [7, 9] 2 = some r ∧ r.1 = some p
        ∧ r.2.1 = [example_region "battery" [1, 2] (some [0, 0])] ++ [p] ∧ p.mem = [7, 9]
        ∧ p.mem_size = 2 ∧ p.prev_sync_mem = none)
    ∧ ∃ p2 snap, (kernel_mmap_update_to tunnel_up example_mcus none true
        [example_region "battery" [1, 2] (some [0, 0])] ()).2.1.get? 0 = some p2
      ∧ p2.mem = (example_region "battery" [1, 2] (some [0, 0])).mem
      ∧ p2.prev_sync_mem = some snap
      ∧ memcmp_zero p2.mem snap p2.mem_size.toNat = true :=
  have h := mmap_snapshot_matches_buffer tunnel_up example_mcus ⟨[]⟩
    [example_region "battery" [1, 2] (some [0, 0])] "peer" "level" [7, 9] 2 none true ()
  ⟨h.1 (by decide) (by intro b hb; cases hb),
    h.2.2.1 (by decide) (by intro b hb; cases hb),
    h.2.2.2.2 0 (example_region "battery" [1, 2] (some [0, 0])) rfl (by decide) (by decide)⟩

/-- C25: in `kernel_mmap_update_to`, when the send for the region at position
`j` fails the call returns false, the region at `j` and every later region are
as before (snapshots included) and no send is made for a later region; and a
region whose `to_core` differs from a non-NULL `target_core` is as before and
is never sent. -/
theorem mmap_update_to_stops_at_failure {σ : Type} (T : transport σ) (q : List MCUs_t)
    (target_core : Option String) (diff_sync : Bool) (queue : List kernel_mmap_t) (s : σ) :
    (∀ j, sync_event.mmap_send j false ∈
        (kernel_mmap_update_to T q target_core diff_sync queue s).2.2.2 →
      (kernel_mmap_update_to T q target_core diff_sync queue s).1 = false
      ∧ (∀ j2 p, j ≤ j2 → queue.get? j2 = some p →
          (kernel_mmap_update_to T q target_core diff_sync queue s).2.1.get? j2 = some p)
      ∧ (∀ j2 ok, j < j2 → sync_event.mmap_send j2 ok ∉
          (kernel_mmap_update_to T q target_core diff_sync queue s).2.2.2))
    ∧ (∀ j p tc, queue.get? j = some p → target_core = some tc → p.core ≠ some tc →
      (kernel_mmap_update_to T q target_core diff_sync queue s).2.1.get? j = some p
      ∧ ∀ ok, sync_event.mmap_send j ok ∉
          (kernel_mmap_update_to T q target_core diff_sync queue s).2.2.2) := by
  obtain ⟨_, _, a3, a4⟩ := update_to_loop_spec T q target_core diff_sync queue 0 false s
  simp only [Nat.zero_add] at a3 a4
  unfold kernel_mmap_update_to
  constructor
  · intro j hj
    obtain ⟨b1, b2, b3⟩ := a4 j hj
    refine ⟨b1, ?_, b3⟩
    intro j2 p hle hp
    apply (a3 j2 p hp).2.1
    rcases Nat.eq_or_lt_of_le hle with e | e
    · rw [← e]; exact b2
    · exact b3 j2 true e
  · intro j p tc hj ht hc
    have hw : wants_send target_core diff_sync p = false := by
      have : (p.core != some tc) = true := by simpa using hc
      simp [wants_send, ht, this]
    have hno := (a3 j p hj).2.2 hw
    exact ⟨(a3 j p hj).2.1 (hno true), hno⟩

/-- Witness of C25: two regions changed since their snapshots and a transport
that refuses every send. -/
theorem mmap_update_to_stops_at_failure_witness :
    (kernel_mmap_update_to tunnel_down example_mcus none true
        [example_region "battery" [1, 2] (some [0, 0]),
         example_region "lock" [3, 4] (some [0, 0])] ()).1 = false
    ∧ (∀ j2 p, 0 ≤ j2 →
        [example_region "battery" [1, 2] (some [0, 0]),
         example_region "lock" [3, 4] (some [0, 0])].get? j2 = some p →
        (kernel_mmap_update_to tunnel_down example_mcus none true
          [example_region "battery" [1, 2] (some [0, 0]),
           example_region "lock" [3, 4] (some [0, 0])] ()).2.1.get? j2 = some p)
    ∧ (∀ j2 ok, 0 < j2 → sync_event.mmap_send j2 ok ∉
        (kernel_mmap_update_to tunnel_down example_mcus none true
          [example_region "battery" [1, 2] (some [0, 0]),
           example_region "lock" [3, 4] (some [0, 0])] ()).2.2.2) :=
  (mmap_update_to_stops_at_failure tunnel_down example_mcus none true
    [example_region "battery" [1, 2] (some [0, 0]),
     example_region "lock" [3, 4] (some [0, 0])] ()).1 0 (by decide)

theorem memcpy_take (dst src : List Nat) (n : Nat) (h : n ≤ src.length) :
    (memcpy dst src n).take n = src.take n := by
  unfold memcpy
  rw [List.take_append_of_le_length (by rw [List.length_take]; omega), List.take_take]
  simp

theorem update_from_cond (q : List MCUs_t) (core_name mem_name : String) (mem_size : Int)
    (p : kernel_mmap_t) :
    (p.core = some core_name ∧ (is_mcu_exist core_name q).isSome
        ∧ p.mem_name = some mem_name ∧ p.mem_size = mem_size)
      ↔ (region_matches core_name mem_name mem_size p = true
          ∧ (is_mcu_exist core_name q).isSome = true) := by
  simp only [region_matches, Bool.and_eq_true, beq_iff_eq]
  constructor
  · rintro ⟨a, b, c, d⟩; exact ⟨⟨⟨a, c⟩, d⟩, b⟩
  · rintro ⟨⟨⟨a, c⟩, d⟩, b⟩; exact ⟨a, b, c, d⟩

/-- C26: the same inbound update (same peer, region name, size and bytes, the
bytes being at least `mem_size` long) applied twice in a row: the second
application changes nothing and calls no callback, and both together call at
most one callback. -/
theorem mmap_update_from_twice (q : List MCUs_t) (core_name mem_name : String) (mem : List Nat)
    (mem_size : Int) (regions : List kernel_mmap_t) (hlen : mem_size.toNat ≤ mem.length) :
    (kernel_mmap_update_from q core_name mem_name mem mem_size
        (kernel_mmap_update_from q core_name mem_name mem mem_size regions).1).1
      = (kernel_mmap_update_from q core_name mem_name mem mem_size regions).1
    ∧ (kernel_mmap_update_from q core_name mem_name mem mem_size
        (kernel_mmap_update_from q core_name mem_name mem mem_size regions).1).2 = []
    ∧ ((kernel_mmap_update_from q core_name mem_name mem mem_size regions).2
        ++ (kernel_mmap_update_from q core_name mem_name mem mem_size
          (kernel_mmap_update_from q core_name mem_name mem mem_size regions).1).2).length ≤ 1 := by
  induction regions with
  | nil => simp [kernel_mmap_update_from]
  | cons p rest ih =>
    by_cases hc : p.core = some core_name ∧ (is_mcu_exist core_name q).isSome
        ∧ p.mem_name = some mem_name ∧ p.mem_size = mem_size
    · have hsz : p.mem_size.toNat ≤ mem.length := by rw [hc.2.2.2]; exact hlen
      by_cases hm : memcmp_zero p.mem mem p.mem_size.toNat = true
      · have e1 : kernel_mmap_update_from q core_name mem_name mem mem_size (p :: rest)
            = ({ p with sync_already := true } :: rest, []) := by
          rw [kernel_mmap_update_from, if_pos hc]
          simp [hm]
        have e2 : kernel_mmap_update_from q core_name mem_name mem mem_size
            ({ p with sync_already := true } :: rest)
            = ({ p with sync_already := true } :: rest, []) := by
          rw [kernel_mmap_update_from, if_pos hc]
          simp [hm]
        rw [e1]
        dsimp only
        rw [e2]
        simp
      · have hm2 : memcmp_zero (memcpy p.mem mem p.mem_size.toNat) mem p.mem_size.toNat
            = true := by
          unfold memcmp_zero
          rw [memcpy_take _ _ _ hsz]
          simp
        have e1 : kernel_mmap_update_from q core_name mem_name mem mem_size (p :: rest)
            = ({ p with sync_already := true, mem := memcpy p.mem mem p.mem_size.toNat } :: rest,
                match p.update_callback with
                | some cb =>
                  [.update_callback cb p.arg (memcpy p.mem mem p.mem_size.toNat) p.mem_size]
                | none => []) := by
          rw [kernel_mmap_update_from, if_pos hc]
          simp [hm]
        have e2 : kernel_mmap_update_from q core_name mem_name mem mem_size
            ({ p with sync_already := true, mem := memcpy p.mem mem p.mem_size.toNat } :: rest)
            = ({ p with sync_already := true, mem := memcpy p.mem mem p.mem_size.toNat } :: rest,
                []) := by
          rw [kernel_mmap_update_from, if_pos hc]
          simp [hm2]
        rw [e1]
        dsimp only
        rw [e2]
        refine ⟨rfl, rfl, ?_⟩
        cases p.update_callback <;> simp
    · have e1 : kernel_mmap_update_from q core_name mem_name mem mem_size (p :: rest)
          = (p :: (kernel_mmap_update_from q core_name mem_name mem mem_size rest).1,
              (kernel_mmap_update_from q core_name mem_name mem mem_size rest).2) := by
        rw [kernel_mmap_update_from, if_neg hc]
      have e2 : ∀ l, kernel_mmap_update_from q core_name mem_name mem mem_size (p :: l)
          = (p :: (kernel_mmap_update_from q core_name mem_name mem mem_size l).1,
              (kernel_mmap_update_from q core_name mem_name mem mem_size l).2) := by
        intro l
        rw [kernel_mmap_update_from, if_neg hc]
      rw [e1]
      dsimp only
      rw [e2]
      dsimp only
      exact ⟨by rw [ih.1], ih.2.1, ih.2.2⟩

/-- Witness of C26: the bytes 1, 2 pushed twice into the zeroed region
"battery" of the known peer "peer". -/
theorem mmap_update_from_twice_witness :
    (kernel_mmap_update_from example_mcus "peer" "battery" [1, 2] 2
        (kernel_mmap_update_from example_mcus "peer" "battery" [1, 2] 2
          [example_from_region]).1).1
      = (kernel_mmap_update_from example_mcus "peer" "battery" [1, 2] 2 [example_from_region]).1
    ∧ (kernel_mmap_update_from example_mcus "peer" "battery" [1, 2] 2
        (kernel_mmap_update_from example_mcus "peer" "battery" [1, 2] 2
          [example_from_region]).1).2 = []
    ∧ ((kernel_mmap_update_from example_mcus "peer" "battery" [1, 2] 2 [example_from_region]).2
        ++ (kernel_mmap_update_from example_mcus "peer" "battery" [1, 2] 2
          (kernel_mmap_update_from example_mcus "peer" "battery" [1, 2] 2
            [example_from_region]).1).2).length ≤ 1 :=
  mmap_update_from_twice example_mcus "peer" "battery" [1, 2] 2 [example_from_region]
    (by decide)

theorem update_from_no_match (q : List MCUs_t) (core_name mem_name : String) (mem : List Nat)
    (mem_size : Int) (regions : List kernel_mmap_t)
    (h : (∀ p ∈ regions, region_matches core_name mem_name mem_size p = false)
      ∨ is_mcu_exist core_name q = none) :
    kernel_mmap_update_from q core_name mem_name mem mem_size regions = (regions, []) := by
  induction regions with
  | nil => rfl
  | cons p rest ih =>
    have hc : ¬ (p.core = some core_name ∧ (is_mcu_exist core_name q).isSome
        ∧ p.mem_name = some mem_name ∧ p.mem_size = mem_size) := by
      rw [update_from_cond]
      rintro ⟨c1, c2⟩
      rcases h with h | h
      · rw [h p (List.mem_cons_self _ _)] at c1; cases c1
      · rw [h] at c2; cases c2
    have hrest : (∀ p ∈ rest, region_matches core_name mem_name mem_size p = false)
        ∨ is_mcu_exist core_name q = none := by
      rcases h with h | h
      · exact Or.inl (fun x hx => h x (List.mem_cons_of_mem _ hx))
      · exact Or.inr h
    rw [kernel_mmap_update_from, if_neg hc, ih hrest]

/-- C27 (counterexample): an update for the region "battery" of the peer "peer"
arrives while "peer" is not in the list of cores: the region matches on peer,
name and size, yet it is left as it was (`sync_already` false, buffer zero). -/
theorem mmap_update_from_unknown_peer_ignored :
    kernel_mmap_update_from [] "peer" "battery" [1, 2] 2 [example_from_region]
      = ([example_from_region], [])
    ∧ region_matches "peer" "battery" 2 example_from_region = true
    ∧ example_from_region.sync_already = false := by
  decide

/-- C27 (as the code has it): an inbound update whose peer is a known core and
whose (peer, name, size) is that of a from-region: the first such region in
the list has `sync_already = true` and a buffer that equals the incoming bytes
over `mem_size` bytes after the call, and no other region changes.  An update
that matches no region on all three of peer, name and size, or whose peer is
not a known core, leaves every region as it was and calls no callback. -/
theorem mmap_update_from_first_match (q : List MCUs_t) (core_name mem_name : String)
    (mem : List Nat) (mem_size : Int) (pre post : List kernel_mmap_t) (p : kernel_mmap_t)
    (hlen : mem_size.toNat ≤ mem.length)
    (hpre : ∀ x ∈ pre, region_matches core_name mem_name mem_size x = false) :
    (region_matches core_name mem_name mem_size p = true →
      (is_mcu_exist core_name q).isSome = true →
      ∃ p2, (kernel_mmap_update_from q core_name mem_name mem mem_size
            (pre ++ p :: post)).1 = pre ++ p2 :: post
        ∧ p2.sync_already = true
        ∧ p2.mem.take mem_size.toNat = mem.take mem_size.toNat
        ∧ p2.core = p.core ∧ p2.mem_name = p.mem_name ∧ p2.mem_size = p.mem_size
        ∧ p2.prev_sync_mem = p.prev_sync_mem)
    ∧ (∀ regions, ((∀ x ∈ regions, region_matches core_name mem_name mem_size x = false)
          ∨ is_mcu_exist core_name q = none) →
        kernel_mmap_update_from q core_name mem_name mem mem_size regions = (regions, [])) := by
  refine ⟨?_, fun regions h => update_from_no_match q core_name mem_name mem mem_size regions h⟩
  intro hm hk
  induction pre with
  | nil =>
    have hc := (update_from_cond q core_name mem_name mem_size p).2 ⟨hm, hk⟩
    have hsz : p.mem_size = mem_size := hc.2.2.2
    simp only [List.nil_append]
    rw [kernel_mmap_update_from, if_pos hc]
    by_cases hmm : memcmp_zero p.mem mem p.mem_size.toNat = true
    · refine ⟨{ p with sync_already := true }, by simp [hmm], rfl, ?_, rfl, rfl, rfl, rfl⟩
      unfold memcmp_zero at hmm
      rw [hsz] at hmm
      simpa using hmm
    · refine ⟨{ p with sync_already := true, mem := memcpy p.mem mem p.mem_size.toNat },
        by simp [hmm], rfl, ?_, rfl, rfl, rfl, rfl⟩
      dsimp only
      rw [hsz]
      exact memcpy_take _ _ _ hlen
  | cons x rest ih =>
    have hx : ¬ (x.core = some core_name ∧ (is_mcu_exist core_name q).isSome
        ∧ x.mem_name = some mem_name ∧ x.mem_size = mem_size) := by
      rw [update_from_cond]
      rintro ⟨c1, _⟩
      rw [hpre x (List.mem_cons_self _ _)] at c1
      cases c1
    obtain ⟨p2, e, rest2⟩ := ih (fun y hy => hpre y (List.mem_cons_of_mem _ hy))
    refine ⟨p2, ?_, rest2⟩
    simp only [List.cons_append]
    rw [kernel_mmap_update_from, if_neg hx]
    dsimp only
    rw [e]

/-- Witness of C27: the bytes 1, 2 pushed into the region "battery" of the
known peer "peer". -/
theorem mmap_update_from_first_match_witness :
    ∃ p2, (kernel_mmap_update_from example_mcus "peer" "battery" [1, 2] 2
          ([] ++ example_from_region :: [])).1 = [] ++ p2 :: []
      ∧ p2.sync_already = true
      ∧ p2.mem.take (2 : Int).toNat = [1, 2].take (2 : Int).toNat
      ∧ p2.core = example_from_region.core ∧ p2.mem_name = example_from_region.mem_name
      ∧ p2.mem_size = example_from_region.mem_size
      ∧ p2.prev_sync_mem = example_from_region.prev_sync_mem :=
  (mmap_update_from_first_match example_mcus "peer" "battery" [1, 2] 2 [] []
    example_from_region (by decide) (fun _ h => by cases h)).1 (by decide) (by decide)

theorem is_mcu_exist_update (n m : String) (f : MCUs_t → MCUs_t) (q : List MCUs_t)
    (hf : ∀ x, (f x).core = x.core) :
    is_mcu_exist m (update_mcu n f q)
      = if m = n then (is_mcu_exist n q).map f else is_mcu_exist m q := by
  induction q with
  | nil => simp [is_mcu_exist, update_mcu]
  | cons p rest ih =>
    unfold update_mcu
    by_cases hp : p.core = n
    · rw [if_pos hp]
      by_cases hm : m = n
      · subst hm
        simp [is_mcu_exist, List.find?_cons, hf, hp]
      · have : ¬ p.core = m := fun e => hm (e.symm.trans hp)
        simp [is_mcu_exist, List.find?_cons, hf, this, hm]
    · rw [if_neg hp]
      by_cases hm : m = n
      · subst hm
        have ih2 := ih
        rw [if_pos rfl] at ih2
        simp only [is_mcu_exist] at ih2 ⊢
        simp [List.find?_cons, hp, ih2]
      · have ih2 := ih
        rw [if_neg hm] at ih2
        simp only [is_mcu_exist] at ih2 ⊢
        rw [if_neg hm]
        by_cases hpm : p.core = m
        · simp [List.find?_cons, hpm]
        · simp [List.find?_cons, hpm, ih2]

theorem get_my_core_name_update (n : String) (f : MCUs_t → MCUs_t) (q : List MCUs_t)
    (hf : ∀ x, (f x).core = x.core) (hl : ∀ x, (f x).is_local = x.is_local) :
    get_my_core_name (update_mcu n f q) = get_my_core_name q := by
  induction q with
  | nil => rfl
  | cons p rest ih =>
    unfold update_mcu
    by_cases hp : p.core = n
    · rw [if_pos hp]
      cases hpl : p.is_local <;> simp [get_my_core_name, List.find?_cons, hl, hf, hpl]
    · rw [if_neg hp]
      simp only [get_my_core_name] at ih ⊢
      cases hpl : p.is_local <;> simp [List.find?_cons, hpl, ih]

theorem first_occurrences_congr (P Q : String → Bool) (l : List String) (h : ∀ x, P x = Q x) :
    first_occurrences P l = first_occurrences Q l := by
  have : P = Q := funext h
  rw [this]

theorem first_occurrences_spec (P : String → Bool) (l : List String) :
    (first_occurrences P l).Nodup
    ∧ ∀ x, x ∈ first_occurrences P l ↔ (x ∈ l ∧ P x = true) := by
  induction l generalizing P with
  | nil => simp [first_occurrences]
  | cons n rest ih =>
    unfold first_occurrences
    by_cases hP : P n = true
    · rw [if_pos hP]
      obtain ⟨i1, i2⟩ := ih (fun m => P m && m != n)
      constructor
      · rw [List.nodup_cons]
        refine ⟨?_, i1⟩
        intro hn
        have := ((i2 n).1 hn).2
        simp at this
      · intro x
        rw [List.mem_cons, i2 x, List.mem_cons]
        constructor
        · rintro (e | ⟨e1, e2⟩)
          · subst e; exact ⟨Or.inl rfl, hP⟩
          · simp only [Bool.and_eq_true] at e2
            exact ⟨Or.inr e1, e2.1⟩
        · rintro ⟨e | e, e2⟩
          · exact Or.inl e
          · by_cases hx : x = n
            · exact Or.inl hx
            · exact Or.inr ⟨e, by simp [e2, hx]⟩
    · rw [if_neg hP]
      obtain ⟨i1, i2⟩ := ih P
      refine ⟨i1, ?_⟩
      intro x
      rw [i2 x, List.mem_cons]
      constructor
      · rintro ⟨e1, e2⟩; exact ⟨Or.inr e1, e2⟩
      · rintro ⟨e | e, e2⟩
        · subst e; exact absurd e2 hP
        · exact ⟨e, e2⟩

theorem first_occurrences_length (P : String → Bool) (l : List String) :
    (first_occurrences P l).length = ((l.filter P).dedup).length := by
  obtain ⟨h1, h2⟩ := first_occurrences_spec P l
  rw [← List.toFinset_card_of_nodup h1, ← List.card_toFinset]
  congr 1
  ext x
  simp [h2]

theorem request_due_cleared (q : List MCUs_t) (n : String) :
    request_due (q.map (fun m => { m with mmap_req_sent := false })) n = known_core q n := by
  unfold request_due known_core is_mcu_exist
  rw [List.find?_map]
  have : ((fun p : MCUs_t => p.core == n) ∘ fun m : MCUs_t => { m with mmap_req_sent := false })
      = fun p : MCUs_t => p.core == n := rfl
  rw [this]
  cases List.find? (fun p : MCUs_t => p.core == n) q <;> rfl

theorem is_mcu_exist_none (n : String) (q : List MCUs_t) (h : is_mcu_exist n q = none) :
    n ∉ q.map (fun m => m.core) := by
  intro hm
  obtain ⟨x, hx, hxe⟩ := List.mem_map.1 hm
  unfold is_mcu_exist at h
  have := List.find?_eq_none.1 h x hx
  simp at this
  exact this hxe

theorem is_mcu_exist_some (n : String) (q : List MCUs_t) (m : MCUs_t)
    (h : is_mcu_exist n q = some m) : m ∈ q ∧ m.core = n := by
  unfold is_mcu_exist at h
  have h1 := List.find?_some h
  exact ⟨List.mem_of_find?_eq_some h, by simpa using h1⟩

theorem update_mcu_names (n : String) (m1 : MCUs_t) (q : List MCUs_t) (h : m1.core = n) :
    (update_mcu n (fun _ => m1) q).map (fun m => m.core) = q.map (fun m => m.core) := by
  induction q with
  | nil => rfl
  | cons p rest ih =>
    unfold update_mcu
    by_cases hp : p.core = n
    · rw [if_pos hp]
      simp [h, hp]
    · rw [if_neg hp]
      simp [ih]

theorem update_mcu_mem (n : String) (m1 : MCUs_t) (q : List MCUs_t) (x : MCUs_t)
    (h : x ∈ update_mcu n (fun _ => m1) q) : x ∈ q ∨ x = m1 := by
  induction q with
  | nil => cases h
  | cons p rest ih =>
    unfold update_mcu at h
    by_cases hp : p.core = n
    · rw [if_pos hp] at h
      rcases List.mem_cons.1 h with e | e
      · exact Or.inr e
      · exact Or.inl (List.mem_cons_of_mem _ e)
    · rw [if_neg hp] at h
      rcases List.mem_cons.1 h with e | e
      · exact Or.inl (e ▸ List.mem_cons_self _ _)
      · rcases ih e with e2 | e2
        · exact Or.inl (List.mem_cons_of_mem _ e2)
        · exact Or.inr e2

theorem set_cached_names (n : String) (b : Bool) (l : List kernel_external_task_t) :
    (set_cached n b l).map (fun t => t.task_name) = l.map (fun t => t.task_name) := by
  induction l with
  | nil => rfl
  | cons t rest ih =>
    unfold set_cached
    by_cases ht : t.task_name = n
    · rw [if_pos ht]; rfl
    · rw [if_neg ht]; simp [ih]

theorem add_task_keeps (h : x_heap) (m : MCUs_t) (n : String) (r : MCUs_t × x_heap)
    (hr : kernel_add_task_to_mcu h m n = some r) :
    r.1.core = m.core ∧ r.1.is_local = m.is_local
    ∧ ((m.task_queue.map (fun t => t.task_name)).Nodup →
        (r.1.task_queue.map (fun t => t.task_name)).Nodup) := by
  unfold kernel_add_task_to_mcu at hr
  cases hf : kernel_is_task_on_mcu m n with
  | some t =>
    rw [hf] at hr
    cases hr
    exact ⟨rfl, rfl, fun x => x⟩
  | none =>
    rw [hf] at hr
    dsimp only at hr
    cases hm : x_malloc h with
    | mk b h1 =>
      rw [hm] at hr
      cases b with
      | false => cases hr
      | true =>
        cases hr
        refine ⟨rfl, rfl, ?_⟩
        intro hnd
        dsimp only
        rw [List.map_append, List.nodup_append]
        refine ⟨hnd, by simp, ?_⟩
        intro x hx hy
        simp only [List.map_cons, List.map_nil, List.mem_singleton] at hy
        subst hy
        obtain ⟨t, ht, hte⟩ := List.mem_map.1 hx
        unfold kernel_is_task_on_mcu at hf
        have := List.find?_eq_none.1 hf t ht
        simp at this
        exact this hte

theorem add_local_tasks_keeps (l : List String) (h : x_heap) (m : MCUs_t) (r : MCUs_t × x_heap)
    (hr : add_local_tasks l h m = some r) :
    r.1.core = m.core ∧ r.1.is_local = m.is_local
    ∧ ((m.task_queue.map (fun t => t.task_name)).Nodup →
        (r.1.task_queue.map (fun t => t.task_name)).Nodup) := by
  induction l generalizing h m with
  | nil =>
    unfold add_local_tasks at hr
    cases hr
    exact ⟨rfl, rfl, fun x => x⟩
  | cons n rest ih =>
    unfold add_local_tasks at hr
    cases ha : kernel_add_task_to_mcu h m n with
    | none => rw [ha] at hr; cases hr
    | some r1 =>
      rw [ha] at hr
      obtain ⟨a1, a2, a3⟩ := add_task_keeps h m n r1 ha
      obtain ⟨b1, b2, b3⟩ := ih r1.2 r1.1 hr
      exact ⟨b1.trans a1, b2.trans a2, fun x => b3 (a3 x)⟩

theorem add_listed_tasks_keeps (l : List String) (h : x_heap) (m : MCUs_t) (r : MCUs_t × x_heap)
    (hr : add_listed_tasks l h m = some r) :
    r.1.core = m.core ∧ r.1.is_local = m.is_local
    ∧ ((m.task_queue.map (fun t => t.task_name)).Nodup →
        (r.1.task_queue.map (fun t => t.task_name)).Nodup) := by
  induction l generalizing h m with
  | nil =>
    unfold add_listed_tasks at hr
    cases hr
    exact ⟨rfl, rfl, fun x => x⟩
  | cons n rest ih =>
    unfold add_listed_tasks at hr
    cases hf : kernel_is_task_on_mcu m n with
    | some t =>
      rw [hf] at hr
      obtain ⟨b1, b2, b3⟩ := ih _ _ hr
      refine ⟨b1, b2, ?_⟩
      intro x
      apply b3
      dsimp only
      rw [set_cached_names]
      exact x
    | none =>
      rw [hf] at hr
      dsimp only at hr
      cases ha : kernel_add_task_to_mcu h m n with
      | none => rw [ha] at hr; cases hr
      | some r1 =>
        rw [ha] at hr
        obtain ⟨a1, a2, a3⟩ := add_task_keeps h m n r1 ha
        obtain ⟨b1, b2, b3⟩ := ih _ _ hr
        refine ⟨b1.trans a1, b2.trans a2, ?_⟩
        intro x
        apply b3
        dsimp only
        rw [set_cached_names]
        exact a3 x

theorem add_cached_tasks_keeps (l : List String) (h : x_heap) (m : MCUs_t) (r : MCUs_t × x_heap)
    (hr : add_cached_tasks l h m = some r) :
    r.1.core = m.core ∧ r.1.is_local = m.is_local
    ∧ ((m.task_queue.map (fun t => t.task_name)).Nodup →
        (r.1.task_queue.map (fun t => t.task_name)).Nodup) := by
  induction l generalizing h m with
  | nil =>
    unfold add_cached_tasks at hr
    cases hr
    exact ⟨rfl, rfl, fun x => x⟩
  | cons n rest ih =>
    unfold add_cached_tasks at hr
    cases hf : kernel_is_task_on_mcu m n with
    | some t =>
      rw [hf] at hr
      exact ih _ _ hr
    | none =>
      rw [hf] at hr
      dsimp only at hr
      cases ha : kernel_add_task_to_mcu h m n with
      | none => rw [ha] at hr; cases hr
      | some r1 =>
        rw [ha] at hr
        obtain ⟨a1, a2, a3⟩ := add_task_keeps h m n r1 ha
        obtain ⟨b1, b2, b3⟩ := ih _ _ hr
        refine ⟨b1.trans a1, b2.trans a2, ?_⟩
        intro x
        apply b3
        dsimp only
        rw [set_cached_names]
        exact a3 x

theorem clear_cache_keeps (m : MCUs_t) :
    (kernel_clear_cache_task_on_mcu m).core = m.core
    ∧ (kernel_clear_cache_task_on_mcu m).is_local = m.is_local
    ∧ ((m.task_queue.map (fun t => t.task_name)).Nodup →
        ((kernel_clear_cache_task_on_mcu m).task_queue.map (fun t => t.task_name)).Nodup) := by
  unfold kernel_clear_cache_task_on_mcu
  split
  · refine ⟨rfl, rfl, ?_⟩
    intro hnd
    exact List.Nodup.sublist (List.Sublist.map _ (List.filter_sublist _)) hnd
  · exact ⟨rfl, rfl, fun x => x⟩

theorem absorb_extra_keeps (core : core_obj) (m : MCUs_t) :
    (absorb_extra core m).core = m.core ∧ (absorb_extra core m).is_local = m.is_local
    ∧ (absorb_extra core m).task_queue = m.task_queue := by
  unfold absorb_extra
  split <;> exact ⟨rfl, rfl, rfl⟩

theorem kernel_create_mcu_cases (h : x_heap) (n : String) (tunnel : List Nat) (jump : Int)
    (q : List MCUs_t) :
    (∃ h1, kernel_create_mcu h n tunnel jump q = (none, q, h1))
    ∨ ∃ h1, kernel_create_mcu h n tunnel jump q
        = (some ⟨[], tunnel, jump, false, false, false, false, n⟩,
            q ++ [⟨[], tunnel, jump, false, false, false, false, n⟩], h1) := by
  unfold kernel_create_mcu
  cases hm : x_malloc h with
  | mk b h1 =>
    cases b with
    | false => exact Or.inl ⟨h1, rfl⟩
    | true => exact Or.inr ⟨h1, rfl⟩

theorem inv_replace (ok : String → Prop) (q : List MCUs_t) (n : String) (m m1 : MCUs_t)
    (hinv : core_names_nodup q ∧ task_names_nodup q ∧ locals_ok ok q)
    (hm : is_mcu_exist n q = some m) (hc : m1.core = m.core) (hl : m1.is_local = m.is_local)
    (ht : (m.task_queue.map (fun t => t.task_name)).Nodup →
      (m1.task_queue.map (fun t => t.task_name)).Nodup) :
    core_names_nodup (update_mcu n (fun _ => m1) q)
    ∧ task_names_nodup (update_mcu n (fun _ => m1) q)
    ∧ locals_ok ok (update_mcu n (fun _ => m1) q) := by
  obtain ⟨hmem, hmc⟩ := is_mcu_exist_some n q m hm
  obtain ⟨i1, i2, i3⟩ := hinv
  refine ⟨?_, ?_, ?_⟩
  · unfold core_names_nodup
    rw [update_mcu_names n m1 q (hc.trans hmc)]
    exact i1
  · intro x hx
    rcases update_mcu_mem n m1 q x hx with e | e
    · exact i2 x e
    · rw [e]; exact ht (i2 m hmem)
  · intro x hx hxl
    rcases update_mcu_mem n m1 q x hx with e | e
    · exact i3 x e hxl
    · rw [e] at hxl ⊢
      rw [hc]
      exact i3 m hmem (hl ▸ hxl)

theorem inv_append (ok : String → Prop) (q : List MCUs_t) (n : String) (m1 : MCUs_t)
    (hinv : core_names_nodup q ∧ task_names_nodup q ∧ locals_ok ok q)
    (hm : is_mcu_exist n q = none) (hc : m1.core = n)
    (ht : (m1.task_queue.map (fun t => t.task_name)).Nodup)
    (hl : m1.is_local = true → ok n) :
    core_names_nodup (q ++ [m1]) ∧ task_names_nodup (q ++ [m1]) ∧ locals_ok ok (q ++ [m1]) := by
  obtain ⟨i1, i2, i3⟩ := hinv
  refine ⟨?_, ?_, ?_⟩
  · unfold core_names_nodup
    rw [List.map_append, List.nodup_append]
    refine ⟨i1, by simp, ?_⟩
    intro x hx hy
    simp only [List.map_cons, List.map_nil, List.mem_singleton] at hy
    rw [hy, hc] at hx
    exact is_mcu_exist_none n q hm hx
  · intro x hx
    rcases List.mem_append.1 hx with e | e
    · exact i2 x e
    · rw [List.mem_singleton.1 e]; exact ht
  · intro x hx hxl
    rcases List.mem_append.1 hx with e | e
    · exact i3 x e hxl
    · rw [List.mem_singleton.1 e] at hxl ⊢
      rw [hc]
      exact hl hxl

theorem synchonize_tasklist_inv (ok : String → Prop) (h h1 : x_heap) (local_core : Option String)
    (tunnels : List Nat) (tasks : List (Nat × kernel_task_t)) (q q1 : List MCUs_t)
    (hok : ∀ n, local_core = some n → ok n)
    (hr : synchonize_tasklist h local_core tunnels tasks q = some (q1, h1))
    (hinv : core_names_nodup q ∧ task_names_nodup q ∧ locals_ok ok q) :
    core_names_nodup q1 ∧ task_names_nodup q1 ∧ locals_ok ok q1 := by
  unfold synchonize_tasklist at hr
  cases local_core with
  | none => cases hr; exact hinv
  | some name =>
    dsimp only at hr
    cases hm : is_mcu_exist name q with
    | some mcu =>
      rw [hm] at hr
      dsimp only at hr
      cases ha : add_local_tasks (tasks.map (fun e => e.2.task_name.chars)) h mcu with
      | none => rw [ha] at hr; cases hr
      | some r =>
        rw [ha] at hr
        cases hr
        obtain ⟨a1, a2, a3⟩ := add_local_tasks_keeps _ _ _ _ ha
        exact inv_replace ok q name mcu r.1 hinv hm a1 a2 a3
    | none =>
      rw [hm] at hr
      dsimp only at hr
      rcases kernel_create_mcu_cases h name [] 0 q with ⟨h2, e⟩ | ⟨h2, e⟩
      · rw [e] at hr
        cases hr
        exact hinv
      · rw [e] at hr
        dsimp only at hr
        cases ha : add_local_tasks (tasks.map (fun e => e.2.task_name.chars)) h2
            { task_queue := [], tunnel := [] ++ tunnels, jump := 0, is_local := true,
              support_json_extra := true, mmap_req_sent := false, task_modified := false,
              core := name } with
        | none => rw [ha] at hr; cases hr
        | some r =>
          rw [ha] at hr
          cases hr
          obtain ⟨a1, _, a3⟩ := add_local_tasks_keeps _ _ _ _ ha
          exact inv_append ok q name r.1 hinv hm a1 (a3 (by simp)) (fun _ => hok name rfl)

theorem unpack_core_inv (ok : String → Prop) (h h1 : x_heap) (tunnel : List Nat)
    (env : topo_envelope) (n : String) (q q1 : List MCUs_t)
    (hr : unpack_core h tunnel env n q = some (q1, h1))
    (hinv : core_names_nodup q ∧ task_names_nodup q ∧ locals_ok ok q) :
    core_names_nodup q1 ∧ task_names_nodup q1 ∧ locals_ok ok q1 := by
  unfold unpack_core at hr
  cases ho : env.object n with
  | none => rw [ho] at hr; cases hr; exact hinv
  | some core =>
    rw [ho] at hr
    dsimp only at hr
    cases hta : core.task_array with
    | none => rw [hta] at hr; cases hr; exact hinv
    | some tasks =>
      rw [hta] at hr
      dsimp only at hr
      cases hm : is_mcu_exist n q with
      | none =>
        rw [hm] at hr
        dsimp only at hr
        rcases kernel_create_mcu_cases h n tunnel (core.jump.getD 1) q with ⟨h2, e⟩ | ⟨h2, e⟩
        · rw [e] at hr
          cases hr
          exact hinv
        · rw [e] at hr
          dsimp only at hr
          cases ha : add_listed_tasks tasks h2
              (absorb_extra core
                { task_queue := [], tunnel := tunnel, jump := core.jump.getD 1, is_local := false,
                  support_json_extra := false, mmap_req_sent := false, task_modified := true,
                  core := n }) with
          | none => rw [ha] at hr; cases hr
          | some r =>
            rw [ha] at hr
            cases hr
            obtain ⟨a1, a2, a3⟩ := add_listed_tasks_keeps _ _ _ _ ha
            obtain ⟨b1, b2, b3⟩ := absorb_extra_keeps core
              { task_queue := [], tunnel := tunnel, jump := core.jump.getD 1, is_local := false,
                support_json_extra := false, mmap_req_sent := false, task_modified := true,
                core := n }
            obtain ⟨c1, c2, c3⟩ := clear_cache_keeps r.1
            apply inv_append ok q n _ hinv hm (c1.trans (a1.trans b1))
            · apply c3
              apply a3
              rw [b3]
              simp
            · intro hl
              rw [c2, a2, b2] at hl
              cases hl
      | some mcu =>
        rw [hm] at hr
        dsimp only at hr
        cases ha : add_listed_tasks tasks h
            (absorb_extra core
              (match core.jump with
               | some jump =>
                 if jump < mcu.jump then
                   { mcu with tunnel := tunnel, jump := jump, task_modified := true }
                 else mcu
               | none => mcu)) with
        | none => rw [ha] at hr; cases hr
        | some r =>
          rw [ha] at hr
          cases hr
          obtain ⟨a1, a2, a3⟩ := add_listed_tasks_keeps _ _ _ _ ha
          obtain ⟨b1, b2, b3⟩ := absorb_extra_keeps core
            (match core.jump with
             | some jump =>
               if jump < mcu.jump then
                 { mcu with tunnel := tunnel, jump := jump, task_modified := true }
               else mcu
             | none => mcu)
          have hj : (match core.jump with
              | some jump =>
                if jump < mcu.jump then
                  { mcu with tunnel := tunnel, jump := jump, task_modified := true }
                else mcu
              | none => mcu).core = mcu.core
            ∧ (match core.jump with
              | some jump =>
                if jump < mcu.jump then
                  { mcu with tunnel := tunnel, jump := jump, task_modified := true }
                else mcu
              | none => mcu).is_local = mcu.is_local
            ∧ (match core.jump with
              | some jump =>
                if jump < mcu.jump then
                  { mcu with tunnel := tunnel, jump := jump, task_modified := true }
                else mcu
              | none => mcu).task_queue = mcu.task_queue := by
            cases core.jump with
            | none => exact ⟨rfl, rfl, rfl⟩
            | some jump =>
              dsimp only
              split <;> exact ⟨rfl, rfl, rfl⟩
          obtain ⟨c1, c2, c3⟩ := clear_cache_keeps r.1
          apply inv_replace ok q n mcu _ hinv hm
          · exact c1.trans (a1.trans (b1.trans hj.1))
          · exact c2.trans (a2.trans (b2.trans hj.2.1))
          · intro hnd
            apply c3
            apply a3
            rw [b3, hj.2.2]
            exact hnd

theorem unpack_cores_inv (ok : String → Prop) (tunnel : List Nat) (env : topo_envelope)
    (l : List String) (h h1 : x_heap) (q q1 : List MCUs_t)
    (hr : unpack_cores tunnel env l h q = some (q1, h1))
    (hinv : core_names_nodup q ∧ task_names_nodup q ∧ locals_ok ok q) :
    core_names_nodup q1 ∧ task_names_nodup q1 ∧ locals_ok ok q1 := by
  induction l generalizing h q with
  | nil =>
    unfold unpack_cores at hr
    cases hr
    exact hinv
  | cons n rest ih =>
    unfold unpack_cores at hr
    cases hu : unpack_core h tunnel env n q with
    | none => rw [hu] at hr; cases hr
    | some r =>
      rw [hu] at hr
      exact ih r.2 r.1 hr (unpack_core_inv ok h r.2 tunnel env n q r.1 hu hinv)

theorem recover_core_inv (ok : String → Prop) (h h1 : x_heap) (tunnel : List Nat)
    (env : topo_envelope) (n : String) (q q1 : List MCUs_t)
    (hr : recover_core h tunnel env n q = some (q1, h1))
    (hinv : core_names_nodup q ∧ task_names_nodup q ∧ locals_ok ok q) :
    core_names_nodup q1 ∧ task_names_nodup q1 ∧ locals_ok ok q1 := by
  unfold recover_core at hr
  cases ho : env.object n with
  | none => rw [ho] at hr; cases hr; exact hinv
  | some core =>
    rw [ho] at hr
    dsimp only at hr
    cases hm : is_mcu_exist n q with
    | some mcu => rw [hm] at hr; cases hr; exact hinv
    | none =>
      rw [hm] at hr
      dsimp only at hr
      rcases kernel_create_mcu_cases h n tunnel (core.jump.getD 1) q with ⟨h2, e⟩ | ⟨h2, e⟩
      · rw [e] at hr
        cases hr
        exact hinv
      · rw [e] at hr
        dsimp only at hr
        obtain ⟨b1, b2, b3⟩ := absorb_extra_keeps core
          { task_queue := [], tunnel := tunnel, jump := core.jump.getD 1, is_local := false,
            support_json_extra := false, mmap_req_sent := false, task_modified := false,
            core := n }
        cases hta : core.task_array with
        | none =>
          rw [hta] at hr
          cases hr
          apply inv_append ok q n _ hinv hm b1
          · rw [b3]; simp
          · intro hl
            rw [b2] at hl
            cases hl
        | some tasks =>
          rw [hta] at hr
          dsimp only at hr
          cases ha : add_cached_tasks tasks h2
              (absorb_extra core
                { task_queue := [], tunnel := tunnel, jump := core.jump.getD 1, is_local := false,
                  support_json_extra := false, mmap_req_sent := false, task_modified := false,
                  core := n }) with
          | none => rw [ha] at hr; cases hr
          | some r =>
            rw [ha] at hr
            cases hr
            obtain ⟨a1, a2, a3⟩ := add_cached_tasks_keeps _ _ _ _ ha
            apply inv_append ok q n _ hinv hm (a1.trans b1)
            · apply a3
              rw [b3]
              simp
            · intro hl
              rw [a2, b2] at hl
              cases hl

theorem recover_cores_inv (ok : String → Prop) (tunnel : List Nat) (env : topo_envelope)
    (l : List String) (h h1 : x_heap) (q q1 : List MCUs_t)
    (hr : recover_cores tunnel env l h q = some (q1, h1))
    (hinv : core_names_nodup q ∧ task_names_nodup q ∧ locals_ok ok q) :
    core_names_nodup q1 ∧ task_names_nodup q1 ∧ locals_ok ok q1 := by
  induction l generalizing h q with
  | nil =>
    unfold recover_cores at hr
    cases hr
    exact hinv
  | cons n rest ih =>
    unfold recover_cores at hr
    cases hu : recover_core h tunnel env n q with
    | none => rw [hu] at hr; cases hr
    | some r =>
      rw [hu] at hr
      exact ih r.2 r.1 hr (recover_core_inv ok h r.2 tunnel env n q r.1 hu hinv)

theorem mcu_step_inv (ok : String → Prop) (q q1 : List MCUs_t) (hs : mcu_step ok q q1)
    (hinv : core_names_nodup q ∧ task_names_nodup q ∧ locals_ok ok q) :
    core_names_nodup q1 ∧ task_names_nodup q1 ∧ locals_ok ok q1 := by
  cases hs
  case sync h h1 local_core tunnels tasks hok hr =>
    exact synchonize_tasklist_inv ok h h1 local_core tunnels tasks q q1 hok hr hinv
  case topology h h1 tunnel env hr =>
    unfold kernel_msg_layer_unpack at hr
    cases hn : get_my_core_name q with
    | none => rw [hn] at hr; cases hr; exact hinv
    | some x =>
      rw [hn] at hr
      exact unpack_cores_inv ok tunnel env env.cores h h1 q q1 hr hinv
  case restore h h1 tunnel env hr =>
    exact recover_cores_inv ok tunnel env env.cores h h1 q q1 hr hinv

theorem mcu_reachable_inv (ok : String → Prop) (q : List MCUs_t) (hr : mcu_reachable ok q) :
    core_names_nodup q ∧ task_names_nodup q ∧ locals_ok ok q := by
  induction hr with
  | start =>
    refine ⟨?_, ?_, ?_⟩
    · exact List.nodup_nil
    · intro m hm; cases hm
    · intro m hm; cases hm
  | step q q1 _ hs ih => exact mcu_step_inv ok q q1 hs ih

theorem locals_at_most_one (L : String) (q : List MCUs_t) (h1 : core_names_nodup q)
    (h3 : locals_ok (fun n => n = L) q) : (q.filter (fun m => m.is_local)).length ≤ 1 := by
  have hnd : ((q.filter (fun m => m.is_local)).map (fun m => m.core)).Nodup :=
    List.Nodup.sublist (List.Sublist.map _ (List.filter_sublist _)) h1
  have hall : ∀ x ∈ (q.filter (fun m => m.is_local)).map (fun m => m.core), x = L := by
    intro x hx
    obtain ⟨m, hm, rfl⟩ := List.mem_map.1 hx
    obtain ⟨hm1, hm2⟩ := List.mem_filter.1 hm
    exact h3 m hm1 hm2
  have hlen : ((q.filter (fun m => m.is_local)).map (fun m => m.core)).length ≤ 1 := by
    generalize (q.filter (fun m => m.is_local)).map (fun m => m.core) = l at hnd hall
    match l, hnd, hall with
    | [], _, _ => simp
    | [_], _, _ => simp
    | a :: b :: rest, hnd, hall =>
      have ha := hall a (List.mem_cons_self _ _)
      have hb := hall b (List.mem_cons_of_mem _ (List.mem_cons_self _ _))
      rw [List.nodup_cons] at hnd
      exact absurd (ha.trans hb.symm ▸ List.mem_cons_self _ _) hnd.1
  simpa using hlen

/-- C29 (counterexample): `synchonize_tasklist( "A", 0 )` followed by
`synchonize_tasklist( "B", 0 )` leaves two records with `is_local = true`. -/
theorem two_local_core_names_make_two_locals :
    mcu_reachable (fun _ => True) two_locals
    ∧ (two_locals.filter (fun m => m.is_local)).length = 2 := by
  refine ⟨?_, rfl⟩
  exact .step _ _
    (.step _ _ .start
      (.sync ⟨[]⟩ ⟨[]⟩ (some "A") [] [] [] [⟨[], [], 0, true, true, false, false, "A"⟩]
        (fun _ _ => trivial) rfl))
    (.sync ⟨[]⟩ ⟨[]⟩ (some "B") [] [] [⟨[], [], 0, true, true, false, false, "A"⟩] two_locals
      (fun _ _ => trivial) rfl)

/-- C29 (as the code has it): when every call of `synchonize_tasklist` with a
`local_core` that is not NULL passes the same name `L`, then in every state
reached from the empty list by such calls, topology receptions and restores at
most one record has `is_local = true`. -/
theorem at_most_one_local_core (L : String) (q : List MCUs_t)
    (hr : mcu_reachable (fun n => n = L) q) : (q.filter (fun m => m.is_local)).length ≤ 1 :=
  locals_at_most_one L q (mcu_reachable_inv _ q hr).1 (mcu_reachable_inv _ q hr).2.2

/-- Witness of C29: the list after one `synchonize_tasklist( "me", 1, tunnel 1 )`. -/
theorem at_most_one_local_core_witness :
    (local_only.filter (fun m => m.is_local)).length ≤ 1 :=
  at_most_one_local_core "me" local_only
    (.step _ _ .start
      (.sync ⟨[]⟩ ⟨[]⟩ (some "me") [1] one_task [] local_only (fun _ h => by cases h; rfl) rfl))

/-- C30: in every state reached from the empty list by calls of
`synchonize_tasklist` (with any names), receptions of topology envelopes (any
`Cores` array, a name listed twice included) and restores, no two records have
the same `core` and no record's task list holds the same task name twice. -/
theorem core_and_task_names_unique (q : List MCUs_t) (hr : mcu_reachable (fun _ => True) q) :
    core_names_nodup q ∧ task_names_nodup q :=
  ⟨(mcu_reachable_inv _ q hr).1, (mcu_reachable_inv _ q hr).2.1⟩

/-- Witness of C30: the list after two `synchonize_tasklist` calls with
different names. -/
theorem core_and_task_names_unique_witness :
    core_names_nodup two_locals ∧ task_names_nodup two_locals :=
  core_and_task_names_unique two_locals
    (.step _ _
      (.step _ _ .start
        (.sync ⟨[]⟩ ⟨[]⟩ (some "A") [] [] [] [⟨[], [], 0, true, true, false, false, "A"⟩]
          (fun _ _ => trivial) rfl))
      (.sync ⟨[]⟩ ⟨[]⟩ (some "B") [] [] [⟨[], [], 0, true, true, false, false, "A"⟩] two_locals
        (fun _ _ => trivial) rfl))

/-! ### The router and the remote post -/

theorem router_raw_loop_none {α : Type} (tunnels : Nat → comm_tunnel_t) (dst : String) (msg : α)
    (len : Int) (avoid : Option Nat) (q : List MCUs_t) (h : is_mcu_exist dst q = none) :
    router_raw_loop tunnels dst msg len avoid q = some (false, []) := by
  induction q with
  | nil => rfl
  | cons p rest ih =>
    unfold is_mcu_exist at h
    rw [List.find?_cons] at h
    by_cases hp : p.core = dst
    · simp [hp] at h
    · have hb : (p.core == dst) = false := by simpa using hp
      rw [hb] at h
      unfold router_raw_loop
      rw [if_neg hp]
      exact ih h

theorem router_raw_loop_some {α : Type} (tunnels : Nat → comm_tunnel_t) (dst : String) (msg : α)
    (len : Int) (avoid : Option Nat) (q : List MCUs_t) (mcu : MCUs_t)
    (h : is_mcu_exist dst q = some mcu) :
    router_raw_loop tunnels dst msg len avoid q =
      if mcu.tunnel.head? = avoid then some (false, [])
      else
        match mcu.tunnel.head? with
        | some tunnel => some (true, [.send (tunnels tunnel).send_proc tunnel msg len])
        | none => none := by
  induction q with
  | nil => simp [is_mcu_exist] at h
  | cons p rest ih =>
    unfold is_mcu_exist at h
    rw [List.find?_cons] at h
    by_cases hp : p.core = dst
    · have hb : (p.core == dst) = true := by simpa using hp
      rw [hb] at h
      simp only [Option.some.injEq] at h
      subst h
      unfold router_raw_loop
      rw [if_pos hp]
    · have hb : (p.core == dst) = false := by simpa using hp
      rw [hb] at h
      unfold router_raw_loop
      rw [if_neg hp]
      exact ih h

/-- C31 (the code at the failing input): the first record named "P" has tunnel
1, which is passive and not enabled; `kernel_router_raw` hands the three bytes to
the send procedure of tunnel 1 and returns true, and so does a remote post of
a notification to the task "T" of "P" through `try_post_msg_outside`, which
runs no test of the tunnel before it calls `kernel_router_json`. -/
theorem router_raw_sends_on_passive_tunnel :
    (passive_tunnels 1).passive_tunnel = true ∧ (passive_tunnels 1).tunnel_enabled = false
    ∧ (is_mcu_exist "P" post_mcus).map (fun m => m.tunnel) = some [1]
    ∧ kernel_router_raw passive_tunnels (some "P") (some [1, 2, 3]) 3 none post_mcus
        = some (true, [.send 5 1 [1, 2, 3] 3])
    ∧ (try_post_msg_outside tunnel_up passive_tunnels example_layout (fun _ => 40)
          printable_prefix false post_mcus example_post_state (some "T") (payload_msg "n" [])
          none).map (fun r => (r.1, r.2.2.2))
        = some (true, [.send 5 1 ⟨some ⟨some "T", some "n", none, none, false, none, none, none⟩, none⟩ 41]) := by
  refine ⟨rfl, rfl, ?_, ?_, ?_⟩ <;> decide

theorem kernel_router_raw_sends {α : Type} (tunnels : Nat → comm_tunnel_t) (dst : String) (m : α)
    (len : Int) (avoid : Option Nat) (q : List MCUs_t) (r : Bool × List (route_event α))
    (hr : kernel_router_raw tunnels (some dst) (some m) len avoid q = some r) :
    ∀ e ∈ r.2, ∃ mcu tunnel, is_mcu_exist dst q = some mcu ∧ mcu.tunnel.head? = some tunnel
      ∧ some tunnel ≠ avoid ∧ e = .send (tunnels tunnel).send_proc tunnel m len := by
  unfold kernel_router_raw at hr
  dsimp only at hr
  by_cases hl : len = 0
  · rw [if_pos hl] at hr
    simp only [Option.some.injEq] at hr
    subst hr
    simp
  · rw [if_neg hl] at hr
    cases hm : is_mcu_exist dst q with
    | none =>
      rw [router_raw_loop_none tunnels dst m len avoid q hm] at hr
      simp only [Option.some.injEq] at hr
      subst hr
      simp
    | some mcu =>
      rw [router_raw_loop_some tunnels dst m len avoid q mcu hm] at hr
      by_cases ha : mcu.tunnel.head? = avoid
      · rw [if_pos ha] at hr
        simp only [Option.some.injEq] at hr
        subst hr
        simp
      · rw [if_neg ha] at hr
        cases ht : mcu.tunnel.head? with
        | none => rw [ht] at hr; simp at hr
        | some tunnel =>
          rw [ht] at hr
          simp only [Option.some.injEq] at hr
          subst hr
          intro e he
          simp only [List.mem_singleton] at he
          exact ⟨mcu, tunnel, rfl, ht, by rw [← ht]; exact ha, he⟩

theorem kernel_router_json_sends {J : Type} (tunnels : Nat → comm_tunnel_t) (L : extra_layout)
    (strlen_js : J → Nat) (h : x_heap) (dst : String) (j : J) (extra_data : Option (List Nat))
    (length : Nat) (avoid : Option Nat) (q : List MCUs_t)
    (r : Bool × List (route_event (wire J)) × x_heap)
    (hr : kernel_router_json tunnels L strlen_js h (some dst) (some j) extra_data length avoid q
      = some r) :
    ∀ e ∈ r.2.1, ∃ mcu tunnel len, is_mcu_exist dst q = some mcu ∧ mcu.tunnel.head? = some tunnel
      ∧ some tunnel ≠ avoid
      ∧ e = .send (tunnels tunnel).send_proc tunnel
          ⟨j, match extra_data with
              | some d => if length > 0 then some ⟨.cJSON_HexString, length, d.take length⟩ else none
              | none => none⟩ len := by
  unfold kernel_router_json at hr
  dsimp only at hr
  cases hc : cJSON_Create h with
  | mk b h1 =>
    rw [hc] at hr
    cases b with
    | false =>
      simp only [Option.some.injEq] at hr
      subst hr
      simp
    | true =>
      dsimp only at hr
      cases extra_data with
      | none =>
        dsimp only at hr
        rw [Option.map_eq_some'] at hr
        obtain ⟨r0, hr0, rfl⟩ := hr
        intro e he
        obtain ⟨mcu, tunnel, h1, h2, h3, h4⟩ := kernel_router_raw_sends tunnels dst _ _ avoid q r0 hr0 e he
        exact ⟨mcu, tunnel, _, h1, h2, h3, h4⟩
      | some d =>
        dsimp only at hr
        by_cases hl : length > 0
        · rw [if_pos hl] at hr
          cases hx : x_malloc h1 with
          | mk b2 h2 =>
            rw [hx] at hr
            cases b2 with
            | false =>
              simp only [Option.some.injEq] at hr
              subst hr
              simp
            | true =>
              dsimp only at hr
              rw [Option.map_eq_some'] at hr
              obtain ⟨r0, hr0, rfl⟩ := hr
              intro e he
              obtain ⟨mcu, tunnel, h1, h2, h3, h4⟩ :=
                kernel_router_raw_sends tunnels dst _ _ avoid q r0 hr0 e he
              refine ⟨mcu, tunnel,
                (strlen_js j + 1 + length + L.sizeof_struct - L.sizeof_data : Int), h1, h2, h3, ?_⟩
              rw [h4]
              simp [hl]
        · rw [if_neg hl] at hr
          rw [Option.map_eq_some'] at hr
          obtain ⟨r0, hr0, rfl⟩ := hr
          intro e he
          obtain ⟨mcu, tunnel, h1, h2, h3, h4⟩ := kernel_router_raw_sends tunnels dst _ _ avoid q r0 hr0 e he
          refine ⟨mcu, tunnel, (strlen_js j + 1 : Int), h1, h2, h3, ?_⟩
          rw [h4]
          simp [hl]

/-- The frames of a remote post: each goes to the tunnel of the first record
named as the core that holds the target task, with the envelope of
`msg_envelope` (or the object without "msg") and, with `all_support_json_extra`
and a payload length that is not 0 modulo 65536, the payload appended. -/
theorem try_post_msg_outside_sends {σ : Type} (T : transport σ) (tunnels : Nat → comm_tunnel_t)
    (L : extra_layout) (strlen_js : Option msg_js → Nat) (str_verify : List Nat → Int → Int)
    (all : Bool) (q : List MCUs_t) (c : post_state σ) (target : String) (msg : kernel_msg_t)
    (src_task : Option String)
    (r : Bool × post_state σ × List sync_event × List (route_event (wire (Option msg_js))))
    (hr : try_post_msg_outside T tunnels L strlen_js str_verify all q c (some target) msg src_task
      = some r) :
    ∀ e ∈ r.2.2.2, ∃ mcu0 mcu tunnel len js,
      q.find? (fun mcu => (kernel_is_task_on_mcu mcu target).isSome) = some mcu0
      ∧ is_mcu_exist mcu0.core q = some mcu ∧ mcu.tunnel.head? = some tunnel
      ∧ (js = none ∨ js = some (msg_envelope all str_verify target msg src_task))
      ∧ e = .send (tunnels tunnel).send_proc tunnel
          ⟨js, if all = true ∧ (msg.msg.length % 65536).toNat > 0 then
                some ⟨.cJSON_HexString, (msg.msg.length % 65536).toNat,
                  msg.msg.data.take (msg.msg.length % 65536).toNat⟩
              else none⟩ len := by
  unfold try_post_msg_outside at hr
  dsimp only at hr
  cases hf : q.find? (fun mcu => (kernel_is_task_on_mcu mcu target).isSome) with
  | none =>
    rw [hf] at hr
    simp only [Option.some.injEq] at hr
    subst hr
    simp
  | some mcu0 =>
    rw [hf] at hr
    dsimp only at hr
    cases hc : cJSON_Create c.heap with
    | mk b h1 =>
      rw [hc] at hr
      cases b with
      | false =>
        simp only [Option.some.injEq] at hr
        subst hr
        simp
      | true =>
        dsimp only at hr
        rw [Option.map_eq_some'] at hr
        obtain ⟨r0, hr0, rfl⟩ := hr
        intro e he
        dsimp only at he
        cases hc2 : cJSON_Create h1 with
        | mk b2 h2 =>
          rw [hc2] at hr0
          cases b2 with
          | false =>
            cases all with
            | true =>
              simp only [if_true] at hr0
              obtain ⟨mcu, tunnel, len, e1, e2, _, e4⟩ :=
                kernel_router_json_sends tunnels L strlen_js _ mcu0.core _ _ _ none q r0 hr0 e he
              refine ⟨mcu0, mcu, tunnel, len, none, rfl, e1, e2, Or.inl rfl, ?_⟩
              rw [e4]
              by_cases hl : (msg.msg.length % 65536).toNat > 0
              · simp [hl]
              · simp [hl]
            | false =>
              simp only [Bool.false_eq_true, if_false] at hr0
              obtain ⟨mcu, tunnel, len, e1, e2, _, e4⟩ :=
                kernel_router_json_sends tunnels L strlen_js _ mcu0.core _ _ _ none q r0 hr0 e he
              refine ⟨mcu0, mcu, tunnel, len, none, rfl, e1, e2, Or.inl rfl, ?_⟩
              rw [e4]
              simp
          | true =>
            cases all with
            | true =>
              simp only [if_true] at hr0
              obtain ⟨mcu, tunnel, len, e1, e2, _, e4⟩ :=
                kernel_router_json_sends tunnels L strlen_js _ mcu0.core _ _ _ none q r0 hr0 e he
              refine ⟨mcu0, mcu, tunnel, len,
                some (msg_envelope true str_verify target msg src_task), rfl, e1, e2, Or.inr rfl, ?_⟩
              rw [e4]
              by_cases hl : (msg.msg.length % 65536).toNat > 0
              · simp [hl]
              · simp [hl]
            | false =>
              simp only [Bool.false_eq_true, if_false] at hr0
              obtain ⟨mcu, tunnel, len, e1, e2, _, e4⟩ :=
                kernel_router_json_sends tunnels L strlen_js _ mcu0.core _ _ _ none q r0 hr0 e he
              refine ⟨mcu0, mcu, tunnel, len,
                some (msg_envelope false str_verify target msg src_task), rfl, e1, e2, Or.inr rfl, ?_⟩
              rw [e4]
              simp

/-- The loop avoidance of `kernel_router_raw`: when the first record named
`dst_core` has its tunnel equal to `avoid_tunnel`, the function (with non-NULL
arguments and `len` not 0) sends nothing and returns false; when that record
has a tunnel different from `avoid_tunnel`, it hands the bytes to the send
procedure of that tunnel and returns true; and every frame of a remote post
through `try_post_msg_outside`, which passes `avoid_tunnel = NULL`, goes to the
tunnel of the first record named as the core that holds the target task. -/
theorem kernel_router_raw_avoid_tunnel {α σ : Type} (tunnels : Nat → comm_tunnel_t)
    (dst : String) (msg : α) (len : Int) (avoid : Option Nat) (q : List MCUs_t) (mcu : MCUs_t)
    (hm : is_mcu_exist dst q = some mcu) (hl : len ≠ 0) :
    (mcu.tunnel.head? = avoid →
      kernel_router_raw tunnels (some dst) (some msg) len avoid q = some (false, []))
    ∧ (∀ tunnel, mcu.tunnel.head? = some tunnel → some tunnel ≠ avoid →
      kernel_router_raw tunnels (some dst) (some msg) len avoid q
        = some (true, [.send (tunnels tunnel).send_proc tunnel msg len]))
    ∧ (∀ (T : transport σ) (L : extra_layout) (strlen_js : Option msg_js → Nat)
        (str_verify : List Nat → Int → Int) (all : Bool) (c : post_state σ) (target : String)
        (pmsg : kernel_msg_t) (src_task : Option String)
        (r : Bool × post_state σ × List sync_event × List (route_event (wire (Option msg_js)))),
      try_post_msg_outside T tunnels L strlen_js str_verify all q c (some target) pmsg src_task
        = some r →
      ∀ e ∈ r.2.2.2, ∃ mcu0 mcu1 tunnel w n,
        q.find? (fun m => (kernel_is_task_on_mcu m target).isSome) = some mcu0
        ∧ is_mcu_exist mcu0.core q = some mcu1 ∧ mcu1.tunnel.head? = some tunnel
        ∧ e = .send (tunnels tunnel).send_proc tunnel w n) := by
  refine ⟨?_, ?_, ?_⟩
  · intro ha
    unfold kernel_router_raw
    dsimp only
    rw [if_neg hl, router_raw_loop_some tunnels dst msg len avoid q mcu hm, if_pos ha]
  · intro tunnel ht ha
    unfold kernel_router_raw
    dsimp only
    rw [if_neg hl, router_raw_loop_some tunnels dst msg len avoid q mcu hm, ht, if_neg ha]
  · intro T L strlen_js str_verify all c target pmsg src_task r hr e he
    obtain ⟨mcu0, mcu1, tunnel, n, js, h1, h2, h3, _, h5⟩ :=
      try_post_msg_outside_sends T tunnels L strlen_js str_verify all q c target pmsg src_task r hr
        e he
    exact ⟨mcu0, mcu1, tunnel, _, n, h1, h2, h3, h5⟩

/-- An instance of the loop avoidance: a frame for "P" that came in on tunnel 1
is not sent back on it, and is sent when it came in on tunnel 2. -/
theorem kernel_router_raw_avoid_tunnel_example :
    kernel_router_raw passive_tunnels (some "P") (some [1, 2, 3]) 3 (some 1) post_mcus
      = some (false, [])
    ∧ kernel_router_raw passive_tunnels (some "P") (some [1, 2, 3]) 3 (some 2) post_mcus
      = some (true, [.send 5 1 [1, 2, 3] 3]) :=
  ⟨(@kernel_router_raw_avoid_tunnel (List Nat) Unit passive_tunnels "P" [1, 2, 3] 3 (some 1) post_mcus
      ⟨[⟨false, "T"⟩], [1], 1, false, true, false, false, "P"⟩ (by decide) (by decide)).1 rfl,
   (@kernel_router_raw_avoid_tunnel (List Nat) Unit passive_tunnels "P" [1, 2, 3] 3 (some 2) post_mcus
      ⟨[⟨false, "T"⟩], [1], 1, false, true, false, false, "P"⟩ (by decide) (by decide)).2.1 1 rfl
        (by decide)⟩

/-- C32 (the code at the failing input): a notification "n" with the timer set
by `msg_set_repeat_n_timer( msg, 100, 100, 3 )` holds the remaining count 2; the
envelope `try_post_msg_outside` sends to the core "P" carries `cnt = 2`; the
node "P" decodes it with `msg_set_timer`, which decrements a positive count
again, and posts a message whose remaining count is 1, the other fields being
those of the original. -/
theorem remote_timer_count_decremented_again :
    timer_example.timer = ⟨true, 2, 100, 100⟩
    ∧ (try_post_msg_outside tunnel_up passive_tunnels example_layout (fun _ => 40)
          printable_prefix false post_mcus example_post_state (some "T") timer_example
          (some "a")).map (fun r => (r.1, r.2.2.2))
        = some (true, [.send 5 1 ⟨some timer_envelope, none⟩ 41])
    ∧ (unpack_msg ⟨[]⟩ 0 example_layout (fun _ => 40) peer_mcus ⟨some timer_envelope, none⟩ 41).1.map
          (fun r => (r.1, r.2.1.timer, r.2.1.msg, r.2.2))
        = some ("T", ⟨true, 1, 100, 100⟩, ⟨some "n", none, 0, []⟩, some "a") := by
  refine ⟨?_, ?_, ?_⟩ <;> decide

/-- C33 (counterexample): the peer "P" has `support_json_extra` set but another
record has not, so `all_support_json_extra` is false and the payload 1, 2, 3
posted to the task "T" of "P" is carried as a hex string inside the envelope
with nothing appended; and with `all_support_json_extra` set the string payload
"hi" is carried as the data string and is appended after the envelope as
well. -/
theorem remote_post_encoding_uses_global_flag :
    (is_mcu_exist "P" post_mcus).map (fun m => m.support_json_extra) = some true
    ∧ is_all_support post_mcus = false
    ∧ printable_prefix [1, 2, 3] 3 ≠ 3
    ∧ (try_post_msg_outside tunnel_up passive_tunnels example_layout (fun _ => 40)
          printable_prefix (is_all_support post_mcus) post_mcus example_post_state (some "T")
          (payload_msg "n" [1, 2, 3]) none).map (fun r => r.2.2.2)
        = some [.send 5 1
            ⟨some ⟨some "T", some "n", some (.HexString [1, 2, 3] 3), none, false, none, none, none⟩,
              none⟩ 41]
    ∧ is_all_support (post_mcus.take 2) = true
    ∧ printable_prefix [104, 105] 2 = 2
    ∧ (try_post_msg_outside tunnel_up passive_tunnels example_layout (fun _ => 40)
          printable_prefix (is_all_support (post_mcus.take 2)) (post_mcus.take 2)
          example_post_state (some "T") (payload_msg "n" [104, 105]) none).map (fun r => r.2.2.2)
        = some [.send 5 1
            ⟨some ⟨some "T", some "n", some (.String [104, 105]), none, false, none, none, none⟩,
              some ⟨.cJSON_HexString, 2, [104, 105]⟩⟩ 47] := by
  refine ⟨?_, ?_, ?_, ?_, ?_, ?_, ?_⟩ <;> decide

/-- C33 (amended): in a remote post the payload encoding is chosen from the
global `all_support_json_extra`, not from the destination record's own flag.
In every envelope sent with the item "msg": a payload of positive length that
`str_verify` accepts as a string of exactly `length` bytes is the data string;
any other payload of positive length is an empty hex-string marker when
`all_support_json_extra` is set, with the payload appended after the envelope
(for a length below 65536), and is a hex string of the payload inside the
envelope, with nothing appended, when the flag is clear.  With the flag clear
nothing is ever appended. -/
theorem remote_post_payload_encoding {σ : Type} (T : transport σ) (tunnels : Nat → comm_tunnel_t)
    (L : extra_layout) (strlen_js : Option msg_js → Nat) (str_verify : List Nat → Int → Int)
    (all : Bool) (q : List MCUs_t) (c : post_state σ) (target : String) (msg : kernel_msg_t)
    (src_task : Option String)
    (r : Bool × post_state σ × List sync_event × List (route_event (wire (Option msg_js))))
    (hr : try_post_msg_outside T tunnels L strlen_js str_verify all q c (some target) msg src_task
      = some r)
    (proc tunnel : Nat) (w : wire (Option msg_js)) (len : Int)
    (he : route_event.send proc tunnel w len ∈ r.2.2.2) (env : msg_js) (hw : w.js = some env)
    (hpos : msg.msg.length > 0) :
    (str_verify msg.msg.data msg.msg.length = msg.msg.length →
      env.data = some (.String (c_string msg.msg.data)))
    ∧ (str_verify msg.msg.data msg.msg.length ≠ msg.msg.length → all = true →
      env.data = some (.HexString [] 0)
      ∧ (msg.msg.length < 65536 →
        w.extra = some ⟨.cJSON_HexString, msg.msg.length.toNat,
          msg.msg.data.take msg.msg.length.toNat⟩))
    ∧ (str_verify msg.msg.data msg.msg.length ≠ msg.msg.length → all = false →
      env.data = some (.HexString (msg.msg.data.take msg.msg.length.toNat) msg.msg.length)
      ∧ w.extra = none)
    ∧ (all = false → w.extra = none) := by
  obtain ⟨mcu0, mcu, t1, n, js, _, _, _, hjs, h5⟩ :=
    try_post_msg_outside_sends T tunnels L strlen_js str_verify all q c target msg src_task r hr
      _ he
  simp only [route_event.send.injEq] at h5
  obtain ⟨_, _, h5, _⟩ := h5
  subst h5
  dsimp only at hw
  rcases hjs with hjs | hjs
  · rw [hjs] at hw; cases hw
  · rw [hjs] at hw
    simp only [Option.some.injEq] at hw
    subst hw
    refine ⟨?_, ?_, ?_, ?_⟩
    · intro hs
      simp [msg_envelope, hpos, hs]
    · intro hs ha
      subst ha
      refine ⟨by simp [msg_envelope, hpos, hs, cJSON_CreateHexString], ?_⟩
      intro hlt
      have hmod : msg.msg.length % 65536 = msg.msg.length := Int.emod_eq_of_lt (by omega) hlt
      have hp : (msg.msg.length % 65536).toNat > 0 := by rw [hmod]; omega
      simp [hp, hmod, hpos]
    · intro hs ha
      subst ha
      exact ⟨by simp [msg_envelope, hpos, hs, cJSON_CreateHexString], by simp⟩
    · intro ha
      subst ha
      simp

/-- Witness of C33 (amended): the payload 1, 2, 3 posted to the task "T" of
"P" with the global flag clear is a hex string inside the envelope and nothing
is appended. -/
theorem remote_post_payload_encoding_witness :
    printable_prefix [1, 2, 3] 3 ≠ 3
    ∧ (some (cJSON_data.HexString [1, 2, 3] 3)
        = some (.HexString ((payload_msg "n" [1, 2, 3]).msg.data.take
            (payload_msg "n" [1, 2, 3]).msg.length.toNat) (payload_msg "n" [1, 2, 3]).msg.length)
      ∧ (none : Option json_extra_data_t) = none) :=
  ⟨by decide,
   (remote_post_payload_encoding tunnel_up passive_tunnels example_layout (fun _ => 40)
      printable_prefix false post_mcus example_post_state "T" (payload_msg "n" [1, 2, 3]) none
      (true, example_post_state, [],
        [.send 5 1
          ⟨some ⟨some "T", some "n", some (.HexString [1, 2, 3] 3), none, false, none, none, none⟩,
            none⟩ 41])
      rfl 5 1
      ⟨some ⟨some "T", some "n", some (.HexString [1, 2, 3] 3), none, false, none, none, none⟩, none⟩
      41 (List.mem_singleton.2 rfl)
      ⟨some "T", some "n", some (.HexString [1, 2, 3] 3), none, false, none, none, none⟩ rfl
      (by decide)).2.2.1 (by decide) rfl⟩

/-! ### The topology envelope as it is built -/

theorem cJSON_Create_ok (h : x_heap) (hh : no_alloc_failure h) :
    ∃ h1, cJSON_Create h = (true, h1) ∧ no_alloc_failure h1 := by
  obtain ⟨h1, h2⟩ := x_malloc_ok h hh
  exact ⟨(x_malloc h).2, by unfold cJSON_Create; rw [← h1], h2⟩

theorem pack_tasks_some (ts : List kernel_external_task_t) (h : x_heap)
    (r : List String × x_heap) (hr : pack_tasks ts h = some r) :
    r.1 = ts.map (fun t => t.task_name) := by
  induction ts generalizing h r with
  | nil => simp [pack_tasks] at hr; subst hr; rfl
  | cons t rest ih =>
    unfold pack_tasks at hr
    cases hc : cJSON_Create h with
    | mk b h1 =>
      rw [hc] at hr
      cases b with
      | false => simp at hr
      | true =>
        dsimp only at hr
        rw [Option.map_eq_some'] at hr
        obtain ⟨r0, hr0, rfl⟩ := hr
        simp [ih h1 r0 hr0]

theorem pack_tasks_ok (ts : List kernel_external_task_t) (h : x_heap) (hh : no_alloc_failure h) :
    ∃ r, pack_tasks ts h = some r ∧ no_alloc_failure r.2 := by
  induction ts generalizing h with
  | nil => exact ⟨([], h), rfl, hh⟩
  | cons t rest ih =>
    obtain ⟨h1, hc, hh1⟩ := cJSON_Create_ok h hh
    obtain ⟨r, hr, hh2⟩ := ih h1 hh1
    unfold pack_tasks
    rw [hc]
    dsimp only
    rw [hr]
    exact ⟨_, rfl, hh2⟩

theorem pack_core_some (mcu : MCUs_t) (jump : Int) (h : x_heap) (r : (String × core_obj) × x_heap)
    (hr : pack_core mcu jump h = some r) :
    r.1 = (mcu.core, ⟨some jump, some mcu.support_json_extra, some (task_names mcu)⟩) := by
  unfold pack_core at hr
  cases hc : cJSON_Create h with
  | mk b h1 =>
    rw [hc] at hr
    cases b with
    | false => simp at hr
    | true =>
      dsimp only at hr
      cases hc1 : cJSON_Create h1 with
      | mk b1 h2 =>
        rw [hc1] at hr
        cases b1 with
        | false => simp at hr
        | true =>
          dsimp only at hr
          cases hc2 : cJSON_Create h2 with
          | mk b2 h3 =>
            rw [hc2] at hr
            cases b2 with
            | false => simp at hr
            | true =>
              dsimp only at hr
              rw [Option.map_eq_some'] at hr
              obtain ⟨r0, hr0, rfl⟩ := hr
              simp [pack_tasks_some _ _ _ hr0, task_names]

theorem pack_core_ok (mcu : MCUs_t) (jump : Int) (h : x_heap) (hh : no_alloc_failure h) :
    ∃ r, pack_core mcu jump h = some r ∧ no_alloc_failure r.2 := by
  obtain ⟨h1, hc, hh1⟩ := cJSON_Create_ok h hh
  obtain ⟨h2, hc1, hh2⟩ := cJSON_Create_ok h1 hh1
  obtain ⟨h3, hc2, hh3⟩ := cJSON_Create_ok h2 hh2
  obtain ⟨r, hr, hh4⟩ := pack_tasks_ok mcu.task_queue h3 hh3
  unfold pack_core
  rw [hc]
  dsimp only
  rw [hc1]
  dsimp only
  rw [hc2]
  dsimp only
  rw [hr]
  exact ⟨_, rfl, hh4⟩

theorem sync_pack_loop_some (q : List MCUs_t) (h : x_heap) (r : List (String × core_obj) × x_heap)
    (hr : sync_pack_loop q h = some r) :
    r.1 = (q.filter announced).map (fun m =>
      (m.core, ⟨some (to_i32 (m.jump + 1)), some m.support_json_extra, some (task_names m)⟩)) := by
  induction q generalizing h r with
  | nil => simp [sync_pack_loop] at hr; subst hr; rfl
  | cons m rest ih =>
    unfold sync_pack_loop at hr
    by_cases hs : (!m.is_local && m.task_queue.any (fun t => t.cached)) = true
    · rw [if_pos hs] at hr
      have ha : announced m = false := by
        unfold announced
        cases hl : m.is_local <;> cases hc : m.task_queue.any (fun t => t.cached) <;>
          simp [hl, hc] at hs ⊢
      rw [List.filter_cons_of_neg (by simp [ha])]
      exact ih h r hr
    · rw [if_neg hs] at hr
      have ha : announced m = true := by
        unfold announced
        cases hl : m.is_local <;> cases hc : m.task_queue.any (fun t => t.cached) <;>
          simp [hl, hc] at hs ⊢
      rw [List.filter_cons_of_pos ha]
      cases hp : pack_core m (to_i32 (m.jump + 1)) h with
      | none => rw [hp] at hr; simp at hr
      | some r1 =>
        rw [hp] at hr
        dsimp only at hr
        rw [Option.map_eq_some'] at hr
        obtain ⟨r0, hr0, rfl⟩ := hr
        simp [ih r1.2 r0 hr0, pack_core_some m _ h r1 hp]

theorem sync_pack_loop_ok (q : List MCUs_t) (h : x_heap) (hh : no_alloc_failure h) :
    ∃ r, sync_pack_loop q h = some r ∧ no_alloc_failure r.2 := by
  induction q generalizing h with
  | nil => exact ⟨([], h), rfl, hh⟩
  | cons m rest ih =>
    unfold sync_pack_loop
    by_cases hs : (!m.is_local && m.task_queue.any (fun t => t.cached)) = true
    · rw [if_pos hs]
      exact ih h hh
    · rw [if_neg hs]
      obtain ⟨r1, hp, hh1⟩ := pack_core_ok m (to_i32 (m.jump + 1)) h hh
      obtain ⟨r0, hr0, hh2⟩ := ih r1.2 hh1
      rw [hp]
      dsimp only
      rw [hr0]
      exact ⟨_, rfl, hh2⟩

theorem synchonize_pack_some (h : x_heap) (q : List MCUs_t) (r : List (String × core_obj) × x_heap)
    (hr : synchonize_pack h q = some r) :
    r.1 = (q.filter announced).map (fun m =>
      (m.core, ⟨some (to_i32 (m.jump + 1)), some m.support_json_extra, some (task_names m)⟩)) := by
  unfold synchonize_pack at hr
  cases hc : cJSON_Create h with
  | mk b h1 =>
    rw [hc] at hr
    cases b with
    | false => simp at hr
    | true =>
      dsimp only at hr
      cases hc1 : cJSON_Create h1 with
      | mk b1 h2 =>
        rw [hc1] at hr
        cases b1 with
        | false => simp at hr
        | true =>
          dsimp only at hr
          cases hl : sync_pack_loop q h2 with
          | none => rw [hl] at hr; simp at hr
          | some r0 =>
            rw [hl] at hr
            dsimp only at hr
            cases hc2 : cJSON_Create r0.2 with
            | mk b2 h3 =>
              rw [hc2] at hr
              cases b2 with
              | false => simp at hr
              | true =>
                simp only [Option.some.injEq] at hr
                subst hr
                exact sync_pack_loop_some q h2 r0 hl

theorem synchonize_pack_ok (h : x_heap) (q : List MCUs_t) (hh : no_alloc_failure h) :
    ∃ r, synchonize_pack h q = some r := by
  obtain ⟨h1, hc, hh1⟩ := cJSON_Create_ok h hh
  obtain ⟨h2, hc1, hh2⟩ := cJSON_Create_ok h1 hh1
  obtain ⟨r0, hl, hh3⟩ := sync_pack_loop_ok q h2 hh2
  obtain ⟨h3, hc2, _⟩ := cJSON_Create_ok r0.2 hh3
  unfold synchonize_pack
  rw [hc]
  dsimp only
  rw [hc1]
  dsimp only
  rw [hl]
  dsimp only
  rw [hc2]
  exact ⟨_, rfl⟩

theorem announced_iff (m : MCUs_t) :
    announced m = true ↔ (m.is_local = true ∨ ∀ t ∈ m.task_queue, t.cached = false) := by
  unfold announced
  cases m.is_local <;> simp

/-- The envelope of `synchonize_tasklist`: whenever the function returns with an
envelope built, the cores listed in it are exactly the records, after the
local task list was updated, that are local or have no cached task, in the
order of the records; each is listed with Jump = the `int` sum `jump + 1`, its
`support_json_extra` flag and the names of all its tasks in order.  With an
allocator that does not fail the envelope is built for every list of
records. -/
theorem synchonize_envelope_lists (h : x_heap) (local_core : Option String) (tunnels : List Nat)
    (kernel_task_queue : List (Nat × kernel_task_t)) (q q1 : List MCUs_t)
    (env : List (String × core_obj))
    (hr : synchonize_tasklist_envelope h local_core tunnels kernel_task_queue q
      = some (q1, some env)) :
    env = (q1.filter announced).map (fun m =>
        (m.core, ⟨some (to_i32 (m.jump + 1)), some m.support_json_extra, some (task_names m)⟩))
    ∧ (∀ e, e ∈ env ↔ ∃ m ∈ q1, (m.is_local = true ∨ ∀ t ∈ m.task_queue, t.cached = false)
        ∧ e = (m.core, ⟨some (to_i32 (m.jump + 1)), some m.support_json_extra, some (task_names m)⟩))
    ∧ (∀ h2, no_alloc_failure h2 → ∃ r, synchonize_pack h2 q1 = some r) := by
  unfold synchonize_tasklist_envelope at hr
  cases hs : synchonize_tasklist h local_core tunnels kernel_task_queue q with
  | none => rw [hs] at hr; simp at hr
  | some r0 =>
    rw [hs] at hr
    simp only [Option.some.injEq, Prod.mk.injEq, Option.map_eq_some'] at hr
    obtain ⟨rfl, r1, hp, rfl⟩ := hr
    have he := synchonize_pack_some r0.2 r0.1 r1 hp
    refine ⟨he, ?_, fun h2 hh => synchonize_pack_ok h2 r0.1 hh⟩
    intro e
    rw [he]
    simp only [List.mem_map, List.mem_filter, announced_iff]
    constructor
    · rintro ⟨m, ⟨hm, ha⟩, rfl⟩
      exact ⟨m, hm, ha, rfl⟩
    · rintro ⟨m, hm, ha, rfl⟩
      exact ⟨m, ⟨hm, ha⟩, rfl⟩

/-- An instance: the node "Y" announces itself and the peer "X" (Jump 4), not
the peer "Z", whose task is cached. -/
theorem synchonize_envelope_lists_example :
    [("Y", (⟨some 1, some true, some ["t2"]⟩ : core_obj)), ("X", ⟨some 4, some false, some ["t1"]⟩)]
      = (cached_mcus.filter announced).map (fun m =>
        (m.core, ⟨some (to_i32 (m.jump + 1)), some m.support_json_extra, some (task_names m)⟩)) :=
  (synchonize_envelope_lists ⟨[]⟩ none [] [] cached_mcus cached_mcus
    [("Y", ⟨some 1, some true, some ["t2"]⟩), ("X", ⟨some 4, some false, some ["t1"]⟩)] rfl).1

/-- C34 (the code at the failing input): the node "Y" receives on tunnel 2 a
topology envelope that lists the core "X" with Jump 2147483647 and stores that
hop count.  The envelope `synchonize_tasklist` then builds lists "Y" with Jump
1 and "X" with Jump -2147483648: the `int` sum `mcu->jump + 1` has overflowed,
and the value sent is not the stored hop count plus one. -/
theorem synchonize_envelope_jump_overflows :
    (kernel_msg_layer_unpack ⟨[]⟩ [2] far_envelope (cached_mcus.take 1)).map
        (fun r => r.1.map (fun m => (m.core, m.jump)))
      = some [("Y", 0), ("X", 2147483647)]
    ∧ ((kernel_msg_layer_unpack ⟨[]⟩ [2] far_envelope (cached_mcus.take 1)).bind
        (fun r => synchonize_tasklist_envelope ⟨[]⟩ (some "Y") [] [] r.1)).map
          (fun r => r.2.map (fun env => env.map (fun e => (e.1, e.2.jump))))
      = some (some [("Y", some 1), ("X", some (-2147483648))])
    ∧ (2147483647 : Int) + 1 ≠ -2147483648 := by
  refine ⟨by decide, by decide, by decide⟩

/-! ### The backup of the records of a tunnel -/

theorem backup_pack_loop_some (tunnel : Option Nat) (q : List MCUs_t) (h : x_heap)
    (r : List (String × core_obj) × x_heap) (hr : backup_pack_loop tunnel q h = some r) :
    r.1 = (q.filter (on_tunnel tunnel)).map (fun m =>
      (m.core, ⟨some m.jump, some m.support_json_extra, some (task_names m)⟩)) := by
  induction q generalizing h r with
  | nil => simp [backup_pack_loop] at hr; subst hr; rfl
  | cons m rest ih =>
    unfold backup_pack_loop at hr
    by_cases hs : (!m.is_local && m.tunnel.head? == tunnel) = true
    · rw [if_pos hs] at hr
      rw [List.filter_cons_of_pos (by simpa [on_tunnel] using hs)]
      cases hp : pack_core m m.jump h with
      | none => rw [hp] at hr; simp at hr
      | some r1 =>
        rw [hp] at hr
        dsimp only at hr
        rw [Option.map_eq_some'] at hr
        obtain ⟨r0, hr0, rfl⟩ := hr
        simp [ih r1.2 r0 hr0, pack_core_some m _ h r1 hp]
    · rw [if_neg hs] at hr
      rw [List.filter_cons_of_neg (by simpa [on_tunnel] using hs)]
      exact ih h r hr

theorem backup_pack_loop_ok (tunnel : Option Nat) (q : List MCUs_t) (h : x_heap)
    (hh : no_alloc_failure h) :
    ∃ r, backup_pack_loop tunnel q h = some r ∧ no_alloc_failure r.2 := by
  induction q generalizing h with
  | nil => exact ⟨([], h), rfl, hh⟩
  | cons m rest ih =>
    unfold backup_pack_loop
    by_cases hs : (!m.is_local && m.tunnel.head? == tunnel) = true
    · rw [if_pos hs]
      obtain ⟨r1, hp, hh1⟩ := pack_core_ok m m.jump h hh
      obtain ⟨r0, hr0, hh2⟩ := ih r1.2 hh1
      rw [hp]
      dsimp only
      rw [hr0]
      exact ⟨_, rfl, hh2⟩
    · rw [if_neg hs]
      exact ih h hh

theorem backup_some (h : x_heap) (tunnel : Option Nat) (q : List MCUs_t)
    (env : List (String × core_obj))
    (hr : kernel_backup_external_task_on_tunnel h tunnel q = some env) :
    (∃ m ∈ q, on_tunnel tunnel m = true ∧ m.task_modified = true)
    ∧ env = (q.filter (on_tunnel tunnel)).map (fun m =>
      (m.core, ⟨some m.jump, some m.support_json_extra, some (task_names m)⟩)) := by
  unfold kernel_backup_external_task_on_tunnel at hr
  by_cases ha : q.any (fun mcu => !mcu.is_local && mcu.tunnel.head? == tunnel && mcu.task_modified)
      = true
  · rw [if_pos ha] at hr
    constructor
    · rw [List.any_eq_true] at ha
      obtain ⟨m, hm, hc⟩ := ha
      simp only [Bool.and_eq_true] at hc
      exact ⟨m, hm, by simpa [on_tunnel] using hc.1, hc.2⟩
    · cases hc : cJSON_Create h with
      | mk b h1 =>
        rw [hc] at hr
        cases b with
        | false => simp at hr
        | true =>
          dsimp only at hr
          cases hc1 : cJSON_Create h1 with
          | mk b1 h2 =>
            rw [hc1] at hr
            cases b1 with
            | false => simp at hr
            | true =>
              dsimp only at hr
              cases hl : backup_pack_loop tunnel q h2 with
              | none => rw [hl] at hr; simp at hr
              | some r0 =>
                rw [hl] at hr
                dsimp only at hr
                cases hc2 : cJSON_Create r0.2 with
                | mk b2 h3 =>
                  rw [hc2] at hr
                  cases b2 with
                  | false => simp at hr
                  | true =>
                    simp only [Option.some.injEq] at hr
                    subst hr
                    exact backup_pack_loop_some tunnel q h2 r0 hl
  · rw [if_neg ha] at hr
    cases hr

theorem backup_ok (h : x_heap) (tunnel : Option Nat) (q : List MCUs_t) (hh : no_alloc_failure h)
    (hm : ∃ m ∈ q, on_tunnel tunnel m = true ∧ m.task_modified = true) :
    ∃ env, kernel_backup_external_task_on_tunnel h tunnel q = some env := by
  have ha : q.any (fun mcu => !mcu.is_local && mcu.tunnel.head? == tunnel && mcu.task_modified)
      = true := by
    rw [List.any_eq_true]
    obtain ⟨m, hm, h1, h2⟩ := hm
    refine ⟨m, hm, ?_⟩
    simp only [Bool.and_eq_true]
    exact ⟨by simpa [on_tunnel] using h1, h2⟩
  obtain ⟨h1, hc, hh1⟩ := cJSON_Create_ok h hh
  obtain ⟨h2, hc1, hh2⟩ := cJSON_Create_ok h1 hh1
  obtain ⟨r0, hl, hh3⟩ := backup_pack_loop_ok tunnel q h2 hh2
  obtain ⟨h3, hc2, _⟩ := cJSON_Create_ok r0.2 hh3
  unfold kernel_backup_external_task_on_tunnel
  rw [if_pos ha, hc]
  dsimp only
  rw [hc1]
  dsimp only
  rw [hl]
  dsimp only
  rw [hc2]
  exact ⟨_, rfl⟩

/-- C38 (counterexample): on tunnel 1 the peer "A" has `task_modified` set and
the peer "B" has not; the snapshot of tunnel 1 lists both "A" and "B". -/
theorem backup_lists_unmodified_peer :
    (is_mcu_exist "B" backup_mcus).map (fun m => (m.tunnel, m.task_modified)) = some ([1], false)
    ∧ kernel_backup_external_task_on_tunnel ⟨[]⟩ (some 1) backup_mcus
      = some [("A", ⟨some 1, some true, some ["t1"]⟩), ("B", ⟨some 2, some false, some ["t2"]⟩)] :=
  ⟨by decide, rfl⟩

/-- C38 (amended): with an allocator that does not fail,
`kernel_backup_external_task_on_tunnel( t )` returns NULL exactly when no record
that is not local and whose tunnel is `t` has `task_modified` set; otherwise the
snapshot lists every record that is not local and whose tunnel is `t`, whether
its `task_modified` is set or not, in the order of the records, each with its
`jump`, its `support_json_extra` flag and the names of all its tasks. -/
theorem backup_lists_all_peers_of_tunnel (h : x_heap) (tunnel : Option Nat) (q : List MCUs_t)
    (hh : no_alloc_failure h) :
    (kernel_backup_external_task_on_tunnel h tunnel q = none ↔
      ∀ m ∈ q, m.is_local = false → m.tunnel.head? = tunnel → m.task_modified = false)
    ∧ ∀ env, kernel_backup_external_task_on_tunnel h tunnel q = some env →
      env = (q.filter (fun m => !m.is_local && m.tunnel.head? == tunnel)).map (fun m =>
        (m.core, ⟨some m.jump, some m.support_json_extra, some (task_names m)⟩)) := by
  constructor
  · constructor
    · intro hn m hm hl ht
      by_contra hmod
      obtain ⟨env, he⟩ := backup_ok h tunnel q hh
        ⟨m, hm, by simp [on_tunnel, hl, ht], by simpa using hmod⟩
      rw [hn] at he
      cases he
    · intro hall
      cases hr : kernel_backup_external_task_on_tunnel h tunnel q with
      | none => rfl
      | some env =>
        obtain ⟨⟨m, hm, h1, h2⟩, _⟩ := backup_some h tunnel q env hr
        simp only [on_tunnel, Bool.and_eq_true, Bool.not_eq_true', beq_iff_eq] at h1
        rw [hall m hm h1.1 h1.2] at h2
        cases h2
  · intro env hr
    exact (backup_some h tunnel q env hr).2

/-- Witness of C38 (amended): the snapshot of tunnel 2 lists the peer "C"
alone, and the snapshot of a tunnel without peers is NULL. -/
theorem backup_lists_all_peers_of_tunnel_witness :
    no_alloc_failure ⟨[]⟩
    ∧ kernel_backup_external_task_on_tunnel ⟨[]⟩ (some 3) backup_mcus = none
    ∧ [("C", (⟨some 1, some false, some ["t3"]⟩ : core_obj))]
      = (backup_mcus.filter (fun m => !m.is_local && m.tunnel.head? == some 2)).map (fun m =>
        (m.core, ⟨some m.jump, some m.support_json_extra, some (task_names m)⟩)) :=
  ⟨(by intro b hb; cases hb),
   (backup_lists_all_peers_of_tunnel ⟨[]⟩ (some 3) backup_mcus (by intro b hb; cases hb)).1.2
     (by decide),
   (backup_lists_all_peers_of_tunnel ⟨[]⟩ (some 2) backup_mcus (by intro b hb; cases hb)).2
     [("C", ⟨some 1, some false, some ["t3"]⟩)] rfl⟩

/-! ### The records under a topology envelope -/

theorem same_route_refl (a : MCUs_t) : same_route a a :=
  ⟨rfl, rfl, rfl, rfl, rfl, fun x => x⟩

theorem same_route_trans {a b c : MCUs_t} (h1 : same_route a b) (h2 : same_route b c) :
    same_route a c :=
  ⟨h1.1.trans h2.1, h1.2.1.trans h2.2.1, h1.2.2.1.trans h2.2.2.1, h1.2.2.2.1.trans h2.2.2.2.1,
    h1.2.2.2.2.1.trans h2.2.2.2.2.1, fun x => h1.2.2.2.2.2 (h2.2.2.2.2.2 x)⟩

theorem set_cached_keeps (n : String) (b : Bool) (l : List kernel_external_task_t)
    (t : kernel_external_task_t) (ht : t ∈ l) (hc : t.cached = b) : t ∈ set_cached n b l := by
  induction l with
  | nil => cases ht
  | cons x rest ih =>
    unfold set_cached
    by_cases hx : x.task_name = n
    · rw [if_pos hx]
      rcases List.mem_cons.1 ht with rfl | h
      · have : ({ t with cached := b } : kernel_external_task_t) = t := by
          cases t; simp at hc; subst hc; rfl
        rw [this]
        exact List.mem_cons_self _ _
      · exact List.mem_cons_of_mem _ h
    · rw [if_neg hx]
      rcases List.mem_cons.1 ht with rfl | h
      · exact List.mem_cons_self _ _
      · exact List.mem_cons_of_mem _ (ih h)

theorem set_cached_found (n : String) (b : Bool) (l : List kernel_external_task_t)
    (h : ∃ t ∈ l, t.task_name = n) : ∃ t ∈ set_cached n b l, t.task_name = n ∧ t.cached = b := by
  induction l with
  | nil => obtain ⟨t, ht, _⟩ := h; cases ht
  | cons x rest ih =>
    unfold set_cached
    by_cases hx : x.task_name = n
    · rw [if_pos hx]
      exact ⟨{ x with cached := b }, List.mem_cons_self _ _, hx, rfl⟩
    · rw [if_neg hx]
      obtain ⟨t, ht, hn⟩ := h
      rcases List.mem_cons.1 ht with rfl | h1
      · exact absurd hn hx
      · obtain ⟨t1, h2, h3⟩ := ih ⟨t, h1, hn⟩
        exact ⟨t1, List.mem_cons_of_mem _ h2, h3⟩

theorem set_cached_mem (n : String) (b : Bool) (l : List kernel_external_task_t)
    (t : kernel_external_task_t) (ht : t ∈ set_cached n b l) :
    t ∈ l ∨ (t.cached = b ∧ t.task_name = n) := by
  induction l with
  | nil => simp [set_cached] at ht
  | cons x rest ih =>
    unfold set_cached at ht
    by_cases hx : x.task_name = n
    · rw [if_pos hx] at ht
      rcases List.mem_cons.1 ht with rfl | h
      · exact Or.inr ⟨rfl, hx⟩
      · exact Or.inl (List.mem_cons_of_mem _ h)
    · rw [if_neg hx] at ht
      rcases List.mem_cons.1 ht with rfl | h
      · exact Or.inl (List.mem_cons_self _ _)
      · rcases ih h with h1 | h1
        · exact Or.inl (List.mem_cons_of_mem _ h1)
        · exact Or.inr h1

theorem is_task_on_mcu_some (m : MCUs_t) (n : String) (t : kernel_external_task_t)
    (h : kernel_is_task_on_mcu m n = some t) : t ∈ m.task_queue ∧ t.task_name = n := by
  unfold kernel_is_task_on_mcu at h
  exact ⟨List.mem_of_find?_eq_some h, by simpa using List.find?_some h⟩

theorem add_task_result (h : x_heap) (m : MCUs_t) (n : String) (r : MCUs_t × x_heap)
    (hr : kernel_add_task_to_mcu h m n = some r) :
    ((∃ t, kernel_is_task_on_mcu m n = some t) ∧ r.1 = m)
    ∨ (kernel_is_task_on_mcu m n = none
        ∧ r.1 = { m with task_queue := m.task_queue ++ [⟨false, n⟩] }) := by
  unfold kernel_add_task_to_mcu at hr
  cases hf : kernel_is_task_on_mcu m n with
  | some t =>
    rw [hf] at hr
    cases hr
    exact Or.inl ⟨⟨t, rfl⟩, rfl⟩
  | none =>
    rw [hf] at hr
    dsimp only at hr
    cases hx : x_malloc h with
    | mk b h1 =>
      rw [hx] at hr
      cases b with
      | false => cases hr
      | true => cases hr; exact Or.inr ⟨rfl, rfl⟩

theorem add_task_ok (h : x_heap) (m : MCUs_t) (n : String) (hh : no_alloc_failure h) :
    ∃ r, kernel_add_task_to_mcu h m n = some r ∧ no_alloc_failure r.2 := by
  unfold kernel_add_task_to_mcu
  cases hf : kernel_is_task_on_mcu m n with
  | some t => exact ⟨_, rfl, hh⟩
  | none =>
    dsimp only
    obtain ⟨h1, h2⟩ := x_malloc_ok h hh
    cases hx : x_malloc h with
    | mk b hx1 =>
      rw [hx] at h1 h2
      dsimp only at h1 h2
      subst h1
      exact ⟨_, rfl, h2⟩

theorem add_listed_tasks_spec (l : List String) (h : x_heap) (m : MCUs_t) (r : MCUs_t × x_heap)
    (hr : add_listed_tasks l h m = some r) :
    same_route r.1 m
    ∧ (∀ t ∈ m.task_queue, t.cached = false → t ∈ r.1.task_queue)
    ∧ (∀ n ∈ l, ∃ t ∈ r.1.task_queue, t.task_name = n ∧ t.cached = false) := by
  induction l generalizing h m with
  | nil =>
    unfold add_listed_tasks at hr
    cases hr
    exact ⟨same_route_refl _, fun t ht _ => ht, fun n hn => by cases hn⟩
  | cons n rest ih =>
    unfold add_listed_tasks at hr
    cases hf : kernel_is_task_on_mcu m n with
    | some t =>
      rw [hf] at hr
      obtain ⟨b1, b2, b3⟩ := ih _ _ hr
      obtain ⟨f1, f2⟩ := is_task_on_mcu_some m n t hf
      refine ⟨same_route_trans b1 ⟨rfl, rfl, rfl, rfl, rfl, fun x => x⟩, ?_, ?_⟩
      · intro x hx hc
        exact b2 x (set_cached_keeps n false _ x hx hc) hc
      · intro n1 hn1
        rcases List.mem_cons.1 hn1 with rfl | hn1
        · obtain ⟨t1, h1, h2, h3⟩ := set_cached_found n1 false m.task_queue ⟨t, f1, f2⟩
          exact ⟨t1, b2 t1 h1 h3, h2, h3⟩
        · exact b3 n1 hn1
    | none =>
      rw [hf] at hr
      dsimp only at hr
      cases ha : kernel_add_task_to_mcu h m n with
      | none => rw [ha] at hr; cases hr
      | some r1 =>
        rw [ha] at hr
        obtain ⟨b1, b2, b3⟩ := ih _ _ hr
        have hq : r1.1 = { m with task_queue := m.task_queue ++ [⟨false, n⟩] } := by
          rcases add_task_result h m n r1 ha with ⟨⟨t, ht⟩, _⟩ | ⟨_, e⟩
          · rw [hf] at ht; cases ht
          · exact e
        refine ⟨same_route_trans b1 ?_, ?_, ?_⟩
        · rw [hq]
          exact ⟨rfl, rfl, rfl, rfl, rfl, fun _ => rfl⟩
        · intro x hx hc
          apply b2 x _ hc
          apply set_cached_keeps n false _ x _ hc
          rw [hq]
          exact List.mem_append_left _ hx
        · intro n1 hn1
          rcases List.mem_cons.1 hn1 with rfl | hn1
          · obtain ⟨t1, h1, h2, h3⟩ := set_cached_found n1 false r1.1.task_queue
              ⟨⟨false, n1⟩, by rw [hq]; simp, rfl⟩
            exact ⟨t1, b2 t1 h1 h3, h2, h3⟩
          · exact b3 n1 hn1

theorem add_listed_tasks_ok (l : List String) (h : x_heap) (m : MCUs_t) (hh : no_alloc_failure h) :
    ∃ r, add_listed_tasks l h m = some r ∧ no_alloc_failure r.2 := by
  induction l generalizing h m with
  | nil => exact ⟨_, rfl, hh⟩
  | cons n rest ih =>
    unfold add_listed_tasks
    cases hf : kernel_is_task_on_mcu m n with
    | some t => exact ih _ _ hh
    | none =>
      dsimp only
      obtain ⟨r1, ha, hh1⟩ := add_task_ok h m n hh
      rw [ha]
      exact ih _ _ hh1

theorem clear_cache_tasks (m : MCUs_t) :
    (kernel_clear_cache_task_on_mcu m).task_queue = m.task_queue.filter (fun t => !t.cached) := by
  unfold kernel_clear_cache_task_on_mcu
  by_cases h : m.task_queue.any (fun t => t.cached) = true
  · rw [if_pos h]
  · rw [if_neg h]
    symm
    rw [List.filter_eq_self]
    intro t ht
    rw [List.any_eq_true] at h
    cases hc : t.cached with
    | false => rfl
    | true => exact absurd ⟨t, ht, hc⟩ h

theorem clear_cache_route (m : MCUs_t) : same_route (kernel_clear_cache_task_on_mcu m) m := by
  unfold kernel_clear_cache_task_on_mcu
  split
  · exact ⟨rfl, rfl, rfl, rfl, rfl, fun _ => rfl⟩
  · exact same_route_refl m

theorem absorb_extra_route (core : core_obj) (m : MCUs_t) :
    (absorb_extra core m).core = m.core ∧ (absorb_extra core m).tunnel = m.tunnel
    ∧ (absorb_extra core m).jump = m.jump ∧ (absorb_extra core m).is_local = m.is_local
    ∧ (absorb_extra core m).task_modified = m.task_modified
    ∧ (absorb_extra core m).task_queue = m.task_queue := by
  unfold absorb_extra
  cases core.support_json_extra <;> exact ⟨rfl, rfl, rfl, rfl, rfl, rfl⟩

theorem is_mcu_exist_replace (n x : String) (m1 : MCUs_t) (q : List MCUs_t) (h1 : m1.core = n) :
    is_mcu_exist x (update_mcu n (fun _ => m1) q)
      = if x = n then (is_mcu_exist n q).map (fun _ => m1) else is_mcu_exist x q := by
  induction q with
  | nil => simp [update_mcu, is_mcu_exist]
  | cons p rest ih =>
    unfold update_mcu
    by_cases hp : p.core = n
    · rw [if_pos hp]
      unfold is_mcu_exist
      by_cases hx : x = n
      · subst hx
        simp [List.find?_cons, hp, h1]
      · have e1 : (m1.core == x) = false := by simp [h1]; exact fun e => hx e.symm
        have e2 : (p.core == x) = false := by simp [hp]; exact fun e => hx e.symm
        simp [List.find?_cons, e1, e2, hx]
    · rw [if_neg hp]
      unfold is_mcu_exist at ih ⊢
      by_cases hx : x = n
      · subst hx
        have e2 : (p.core == x) = false := by simpa using hp
        simp only [List.find?_cons, e2, if_true] at ih ⊢
        exact ih
      · simp only [List.find?_cons, if_neg hx] at ih ⊢
        cases (p.core == x)
        · exact ih
        · rfl

theorem is_mcu_exist_append (x : String) (q : List MCUs_t) (m1 : MCUs_t) :
    is_mcu_exist x (q ++ [m1])
      = match is_mcu_exist x q with
        | some m => some m
        | none => if m1.core = x then some m1 else none := by
  unfold is_mcu_exist
  rw [List.find?_append]
  cases q.find? (fun p => p.core == x) with
  | some m => rfl
  | none =>
    by_cases h : m1.core = x
    · simp [h]
    · simp [h]

theorem unpack_core_skip (h h1 : x_heap) (tunnel : List Nat) (env : topo_envelope) (n : String)
    (q q1 : List MCUs_t) (hr : unpack_core h tunnel env n q = some (q1, h1))
    (hs : ∀ core tasks, env.object n = some core → core.task_array ≠ some tasks) : q1 = q := by
  unfold unpack_core at hr
  cases ho : env.object n with
  | none => rw [ho] at hr; cases hr; rfl
  | some core =>
    rw [ho] at hr
    dsimp only at hr
    cases hta : core.task_array with
    | none => rw [hta] at hr; cases hr; rfl
    | some tasks => exact absurd hta (hs core tasks ho)

theorem unpack_known_aux (h : x_heap) (core : core_obj) (tasks : List String) (n : String)
    (q : List MCUs_t) (mcu m0 : MCUs_t) (r : MCUs_t × x_heap)
    (hc0 : m0.core = mcu.core) (hl0 : m0.is_local = mcu.is_local)
    (hq0 : m0.task_queue = mcu.task_queue) (hm : is_mcu_exist n q = some mcu)
    (ha : add_listed_tasks tasks h (absorb_extra core m0) = some r) :
    is_mcu_exist n (update_mcu n (fun _ => kernel_clear_cache_task_on_mcu r.1) q)
        = some (kernel_clear_cache_task_on_mcu r.1)
      ∧ (kernel_clear_cache_task_on_mcu r.1).core = n
      ∧ (kernel_clear_cache_task_on_mcu r.1).is_local = mcu.is_local
      ∧ (kernel_clear_cache_task_on_mcu r.1).tunnel = m0.tunnel
      ∧ (kernel_clear_cache_task_on_mcu r.1).jump = m0.jump
      ∧ (m0.task_modified = true → (kernel_clear_cache_task_on_mcu r.1).task_modified = true)
      ∧ (∀ t ∈ tasks, ∃ x ∈ (kernel_clear_cache_task_on_mcu r.1).task_queue,
          x.task_name = t ∧ x.cached = false)
      ∧ (∀ x ∈ (kernel_clear_cache_task_on_mcu r.1).task_queue, x.cached = false)
      ∧ (∀ x ∈ mcu.task_queue, x.cached = false →
          x ∈ (kernel_clear_cache_task_on_mcu r.1).task_queue) := by
  obtain ⟨a1, a2, a3⟩ := add_listed_tasks_spec _ _ _ _ ha
  obtain ⟨b1, b2, b3, b4, b5, b6⟩ := absorb_extra_route core m0
  obtain ⟨c1, c2, c3, c4, c5, c6⟩ := clear_cache_route r.1
  obtain ⟨d1, d2, d3, d4, d5, d6⟩ := a1
  obtain ⟨e1, e2⟩ := is_mcu_exist_some n q mcu hm
  have hcore : (kernel_clear_cache_task_on_mcu r.1).core = n := by
    rw [c1, d1, b1, hc0, e2]
  refine ⟨?_, hcore, ?_, ?_, ?_, ?_, ?_, ?_, ?_⟩
  · rw [is_mcu_exist_replace n n _ q hcore, if_pos rfl, hm]
    rfl
  · rw [c4, d4, b4, hl0]
  · rw [c2, d2, b2]
  · rw [c3, d3, b3]
  · intro hmod
    exact c6 (d6 (by rw [b5, hmod]))
  · intro t ht
    obtain ⟨x, hx, hn, hc⟩ := a3 t ht
    refine ⟨x, ?_, hn, hc⟩
    rw [clear_cache_tasks, List.mem_filter]
    exact ⟨hx, by simp [hc]⟩
  · intro x hx
    rw [clear_cache_tasks, List.mem_filter] at hx
    simpa using hx.2
  · intro x hx hc
    rw [clear_cache_tasks, List.mem_filter]
    refine ⟨a2 x ?_ hc, by simp [hc]⟩
    rw [b6, hq0]
    exact hx

theorem unpack_core_known (h h1 : x_heap) (tunnel : List Nat) (env : topo_envelope) (n : String)
    (q q1 : List MCUs_t) (core : core_obj) (tasks : List String) (mcu : MCUs_t)
    (ho : env.object n = some core) (hta : core.task_array = some tasks)
    (hm : is_mcu_exist n q = some mcu)
    (hr : unpack_core h tunnel env n q = some (q1, h1)) :
    ∃ m1, q1 = update_mcu n (fun _ => m1) q ∧ is_mcu_exist n q1 = some m1
      ∧ m1.core = n ∧ m1.is_local = mcu.is_local
      ∧ (∀ j, core.jump = some j → j < mcu.jump →
          m1.tunnel = tunnel ∧ m1.jump = j ∧ m1.task_modified = true)
      ∧ ((∀ j, core.jump = some j → mcu.jump ≤ j) →
          m1.tunnel = mcu.tunnel ∧ m1.jump = mcu.jump
          ∧ (mcu.task_modified = true → m1.task_modified = true))
      ∧ m1.jump ≤ mcu.jump
      ∧ (∀ t ∈ tasks, ∃ x ∈ m1.task_queue, x.task_name = t ∧ x.cached = false)
      ∧ (∀ x ∈ m1.task_queue, x.cached = false)
      ∧ (∀ x ∈ mcu.task_queue, x.cached = false → x ∈ m1.task_queue) := by
  unfold unpack_core at hr
  rw [ho] at hr
  dsimp only at hr
  rw [hta] at hr
  dsimp only at hr
  rw [hm] at hr
  dsimp only at hr
  cases hj : core.jump with
  | none =>
    rw [hj] at hr
    dsimp only at hr
    cases ha : add_listed_tasks tasks h (absorb_extra core mcu) with
    | none => rw [ha] at hr; cases hr
    | some r =>
      rw [ha] at hr
      simp only [Option.some.injEq, Prod.mk.injEq] at hr
      obtain ⟨hq1, _⟩ := hr
      obtain ⟨x1, x2, x3, x4, x5, x6, x7, x8, x9⟩ :=
        unpack_known_aux h core tasks n q mcu mcu r rfl rfl rfl hm ha
      refine ⟨_, hq1.symm, by rw [← hq1]; exact x1, x2, x3, ?_, ?_, by rw [x5], x7, x8, x9⟩
      · intro j hj2; cases hj2
      · intro _; exact ⟨x4, x5, x6⟩
  | some j =>
    rw [hj] at hr
    dsimp only at hr
    by_cases hlt : j < mcu.jump
    · rw [if_pos hlt] at hr
      cases ha : add_listed_tasks tasks h
          (absorb_extra core { mcu with tunnel := tunnel, jump := j, task_modified := true }) with
      | none => rw [ha] at hr; cases hr
      | some r =>
        rw [ha] at hr
        simp only [Option.some.injEq, Prod.mk.injEq] at hr
        obtain ⟨hq1, _⟩ := hr
        obtain ⟨x1, x2, x3, x4, x5, x6, x7, x8, x9⟩ :=
          unpack_known_aux h core tasks n q mcu
            { mcu with tunnel := tunnel, jump := j, task_modified := true } r rfl rfl rfl hm ha
        refine ⟨_, hq1.symm, by rw [← hq1]; exact x1, x2, x3, ?_, ?_, ?_, x7, x8, x9⟩
        · intro j2 hj2 _
          cases hj2
          exact ⟨x4, x5, x6 rfl⟩
        · intro hall
          have := hall j rfl
          omega
        · rw [x5]
          exact le_of_lt hlt
    · rw [if_neg hlt] at hr
      cases ha : add_listed_tasks tasks h (absorb_extra core mcu) with
      | none => rw [ha] at hr; cases hr
      | some r =>
        rw [ha] at hr
        simp only [Option.some.injEq, Prod.mk.injEq] at hr
        obtain ⟨hq1, _⟩ := hr
        obtain ⟨x1, x2, x3, x4, x5, x6, x7, x8, x9⟩ :=
          unpack_known_aux h core tasks n q mcu mcu r rfl rfl rfl hm ha
        refine ⟨_, hq1.symm, by rw [← hq1]; exact x1, x2, x3, ?_, ?_, by rw [x5], x7, x8, x9⟩
        · intro j2 hj2 h2
          cases hj2
          exact absurd h2 hlt
        · intro _; exact ⟨x4, x5, x6⟩

theorem unpack_core_unknown (h h1 : x_heap) (tunnel : List Nat) (env : topo_envelope) (n : String)
    (q q1 : List MCUs_t) (core : core_obj) (tasks : List String)
    (ho : env.object n = some core) (hta : core.task_array = some tasks)
    (hm : is_mcu_exist n q = none)
    (hr : unpack_core h tunnel env n q = some (q1, h1)) :
    q1 = q ∨ ∃ m1, q1 = q ++ [m1] ∧ m1.core = n ∧ m1.is_local = false ∧ m1.tunnel = tunnel
      ∧ m1.jump = core.jump.getD 1 ∧ m1.task_modified = true
      ∧ (∀ t ∈ tasks, ∃ x ∈ m1.task_queue, x.task_name = t ∧ x.cached = false)
      ∧ (∀ x ∈ m1.task_queue, x.cached = false) := by
  unfold unpack_core at hr
  rw [ho] at hr
  dsimp only at hr
  rw [hta] at hr
  dsimp only at hr
  rw [hm] at hr
  dsimp only at hr
  rcases kernel_create_mcu_cases h n tunnel (core.jump.getD 1) q with ⟨h2, e⟩ | ⟨h2, e⟩
  · rw [e] at hr
    cases hr
    exact Or.inl rfl
  · rw [e] at hr
    dsimp only at hr
    cases ha : add_listed_tasks tasks h2
        (absorb_extra core
          { task_queue := [], tunnel := tunnel, jump := core.jump.getD 1, is_local := false,
            support_json_extra := false, mmap_req_sent := false, task_modified := true,
            core := n }) with
    | none => rw [ha] at hr; cases hr
    | some r =>
      rw [ha] at hr
      simp only [Option.some.injEq, Prod.mk.injEq] at hr
      obtain ⟨hq1, _⟩ := hr
      obtain ⟨a1, a2, a3⟩ := add_listed_tasks_spec _ _ _ _ ha
      obtain ⟨b1, b2, b3, b4, b5, b6⟩ := absorb_extra_route core
        { task_queue := [], tunnel := tunnel, jump := core.jump.getD 1, is_local := false,
          support_json_extra := false, mmap_req_sent := false, task_modified := true,
          core := n }
      obtain ⟨c1, c2, c3, c4, c5, c6⟩ := clear_cache_route r.1
      obtain ⟨d1, d2, d3, d4, d5, d6⟩ := a1
      right
      refine ⟨kernel_clear_cache_task_on_mcu r.1, hq1.symm, ?_, ?_, ?_, ?_, ?_, ?_, ?_⟩
      · rw [c1, d1, b1]
      · rw [c4, d4, b4]
      · rw [c2, d2, b2]
      · rw [c3, d3, b3]
      · exact c6 (d6 (by rw [b5]))
      · intro t ht
        obtain ⟨x, hx, hn, hc⟩ := a3 t ht
        refine ⟨x, ?_, hn, hc⟩
        rw [clear_cache_tasks, List.mem_filter]
        exact ⟨hx, by simp [hc]⟩
      · intro x hx
        rw [clear_cache_tasks, List.mem_filter] at hx
        simpa using hx.2

theorem unpack_core_other (h h1 : x_heap) (tunnel : List Nat) (env : topo_envelope) (n x : String)
    (q q1 : List MCUs_t) (hx : x ≠ n) (hr : unpack_core h tunnel env n q = some (q1, h1)) :
    is_mcu_exist x q1 = is_mcu_exist x q
    ∨ (is_mcu_exist x q = none ∧ is_mcu_exist n q = none) := by
  cases ho : env.object n with
  | none =>
    rw [unpack_core_skip h h1 tunnel env n q q1 hr (fun c t hc => by rw [ho] at hc; cases hc)]
    exact Or.inl rfl
  | some core =>
    cases hta : core.task_array with
    | none =>
      rw [unpack_core_skip h h1 tunnel env n q q1 hr
        (fun c t hc => by rw [ho] at hc; cases hc; rw [hta]; exact fun e => by cases e)]
      exact Or.inl rfl
    | some tasks =>
      cases hm : is_mcu_exist n q with
      | some mcu =>
        obtain ⟨m1, e1, _, e3, _⟩ := unpack_core_known h h1 tunnel env n q q1 core tasks mcu ho hta hm hr
        rw [e1, is_mcu_exist_replace n x m1 q e3, if_neg hx]
        exact Or.inl rfl
      | none =>
        rcases unpack_core_unknown h h1 tunnel env n q q1 core tasks ho hta hm hr with e | ⟨m1, e1, e2, _⟩
        · rw [e]; exact Or.inl rfl
        · left
          rw [e1, is_mcu_exist_append]
          cases is_mcu_exist x q with
          | some m => rfl
          | none =>
            dsimp only
            rw [if_neg (by rw [e2]; exact fun e => hx e.symm)]

/-! ### Hop counts under the steps on the records -/

theorem hops_refl (q : List MCUs_t) : hops_not_increased q q :=
  fun _ m hm => ⟨m, hm, le_refl _⟩

theorem hops_trans {q q1 q2 : List MCUs_t} (h1 : hops_not_increased q q1)
    (h2 : hops_not_increased q1 q2) : hops_not_increased q q2 := by
  intro x m hm
  obtain ⟨m1, e1, e2⟩ := h1 x m hm
  obtain ⟨m2, e3, e4⟩ := h2 x m1 e1
  exact ⟨m2, e3, le_trans e4 e2⟩

theorem hops_append (q : List MCUs_t) (m1 : MCUs_t) : hops_not_increased q (q ++ [m1]) := by
  intro x m hm
  refine ⟨m, ?_, le_refl _⟩
  rw [is_mcu_exist_append, hm]

theorem hops_replace (n : String) (q : List MCUs_t) (m1 : MCUs_t) (hc : m1.core = n)
    (hj : ∀ m, is_mcu_exist n q = some m → m1.jump ≤ m.jump) :
    hops_not_increased q (update_mcu n (fun _ => m1) q) := by
  intro x m hm
  rw [is_mcu_exist_replace n x m1 q hc]
  by_cases hx : x = n
  · subst hx
    rw [if_pos rfl, hm]
    exact ⟨m1, rfl, hj m hm⟩
  · rw [if_neg hx]
    exact ⟨m, hm, le_refl _⟩

theorem unpack_core_hops (h h1 : x_heap) (tunnel : List Nat) (env : topo_envelope) (n : String)
    (q q1 : List MCUs_t) (hr : unpack_core h tunnel env n q = some (q1, h1)) :
    hops_not_increased q q1 := by
  cases ho : env.object n with
  | none =>
    rw [unpack_core_skip h h1 tunnel env n q q1 hr (fun c t hc => by rw [ho] at hc; cases hc)]
    exact hops_refl q
  | some core =>
    cases hta : core.task_array with
    | none =>
      rw [unpack_core_skip h h1 tunnel env n q q1 hr
        (fun c t hc => by rw [ho] at hc; cases hc; rw [hta]; exact fun e => by cases e)]
      exact hops_refl q
    | some tasks =>
      cases hm : is_mcu_exist n q with
      | some mcu =>
        obtain ⟨m1, e1, _, e3, _, _, _, e7, _⟩ :=
          unpack_core_known h h1 tunnel env n q q1 core tasks mcu ho hta hm hr
        rw [e1]
        apply hops_replace n q m1 e3
        intro m hm2
        rw [hm] at hm2
        cases hm2
        exact e7
      | none =>
        rcases unpack_core_unknown h h1 tunnel env n q q1 core tasks ho hta hm hr with e | ⟨m1, e1, _⟩
        · rw [e]; exact hops_refl q
        · rw [e1]; exact hops_append q m1

theorem unpack_cores_hops (tunnel : List Nat) (env : topo_envelope) (l : List String)
    (h h1 : x_heap) (q q1 : List MCUs_t) (hr : unpack_cores tunnel env l h q = some (q1, h1)) :
    hops_not_increased q q1 := by
  induction l generalizing h q with
  | nil => unfold unpack_cores at hr; cases hr; exact hops_refl _
  | cons n rest ih =>
    unfold unpack_cores at hr
    cases hu : unpack_core h tunnel env n q with
    | none => rw [hu] at hr; cases hr
    | some r =>
      rw [hu] at hr
      exact hops_trans (unpack_core_hops h r.2 tunnel env n q r.1 hu) (ih r.2 r.1 hr)

theorem add_local_tasks_spec (l : List String) (h : x_heap) (m : MCUs_t) (r : MCUs_t × x_heap)
    (hr : add_local_tasks l h m = some r) :
    same_route r.1 m ∧ (∀ t ∈ m.task_queue, t ∈ r.1.task_queue)
    ∧ (∀ x ∈ r.1.task_queue, x ∈ m.task_queue ∨ x.cached = false) := by
  induction l generalizing h m with
  | nil =>
    unfold add_local_tasks at hr
    cases hr
    exact ⟨same_route_refl _, fun t ht => ht, fun x hx => Or.inl hx⟩
  | cons n rest ih =>
    unfold add_local_tasks at hr
    cases ha : kernel_add_task_to_mcu h m n with
    | none => rw [ha] at hr; cases hr
    | some r1 =>
      rw [ha] at hr
      obtain ⟨b1, b2, b3⟩ := ih _ _ hr
      rcases add_task_result h m n r1 ha with ⟨_, e⟩ | ⟨_, e⟩
      · rw [e] at b1 b2 b3
        exact ⟨b1, b2, b3⟩
      · rw [e] at b1 b2 b3
        refine ⟨same_route_trans b1 ⟨rfl, rfl, rfl, rfl, rfl, fun x => x⟩, ?_, ?_⟩
        · intro t ht
          exact b2 t (List.mem_append_left _ ht)
        · intro x hx
          rcases b3 x hx with h1 | h1
          · rcases List.mem_append.1 h1 with h2 | h2
            · exact Or.inl h2
            · simp only [List.mem_singleton] at h2
              subst h2
              exact Or.inr rfl
          · exact Or.inr h1

theorem synchonize_tasklist_result (h h1 : x_heap) (local_core : Option String)
    (tunnels : List Nat) (tasks : List (Nat × kernel_task_t)) (q q1 : List MCUs_t)
    (hr : synchonize_tasklist h local_core tunnels tasks q = some (q1, h1)) :
    q1 = q
    ∨ (∃ name mcu m1, is_mcu_exist name q = some mcu ∧ q1 = update_mcu name (fun _ => m1) q
        ∧ same_route m1 mcu ∧ (∀ t ∈ mcu.task_queue, t ∈ m1.task_queue)
        ∧ (∀ x ∈ m1.task_queue, x ∈ mcu.task_queue ∨ x.cached = false))
    ∨ (∃ name m1, is_mcu_exist name q = none ∧ q1 = q ++ [m1] ∧ m1.core = name
        ∧ m1.is_local = true) := by
  unfold synchonize_tasklist at hr
  cases local_core with
  | none => cases hr; exact Or.inl rfl
  | some name =>
    dsimp only at hr
    cases hm : is_mcu_exist name q with
    | some mcu =>
      rw [hm] at hr
      dsimp only at hr
      cases ha : add_local_tasks (tasks.map (fun e => e.2.task_name.chars)) h mcu with
      | none => rw [ha] at hr; cases hr
      | some r =>
        rw [ha] at hr
        cases hr
        obtain ⟨a1, a2, a3⟩ := add_local_tasks_spec _ _ _ _ ha
        exact Or.inr (Or.inl ⟨name, mcu, r.1, hm, rfl, a1, a2, a3⟩)
    | none =>
      rw [hm] at hr
      dsimp only at hr
      rcases kernel_create_mcu_cases h name [] 0 q with ⟨h2, e⟩ | ⟨h2, e⟩
      · rw [e] at hr
        cases hr
        exact Or.inl rfl
      · rw [e] at hr
        dsimp only at hr
        cases ha : add_local_tasks (tasks.map (fun e => e.2.task_name.chars)) h2
            { task_queue := [], tunnel := [] ++ tunnels, jump := 0, is_local := true,
              support_json_extra := true, mmap_req_sent := false, task_modified := false,
              core := name } with
        | none => rw [ha] at hr; cases hr
        | some r =>
          rw [ha] at hr
          cases hr
          obtain ⟨a1, _, _⟩ := add_local_tasks_spec _ _ _ _ ha
          exact Or.inr (Or.inr ⟨name, r.1, hm, rfl, a1.1, a1.2.2.2.1⟩)

theorem synchonize_tasklist_hops (h h1 : x_heap) (local_core : Option String)
    (tunnels : List Nat) (tasks : List (Nat × kernel_task_t)) (q q1 : List MCUs_t)
    (hr : synchonize_tasklist h local_core tunnels tasks q = some (q1, h1)) :
    hops_not_increased q q1 := by
  rcases synchonize_tasklist_result h h1 local_core tunnels tasks q q1 hr with
    e | ⟨name, mcu, m1, e1, e2, e3, _⟩ | ⟨name, m1, _, e2, _⟩
  · rw [e]; exact hops_refl q
  · rw [e2]
    apply hops_replace name q m1
    · rw [e3.1]; exact (is_mcu_exist_some name q mcu e1).2
    · intro m hm
      rw [e1] at hm
      cases hm
      rw [e3.2.2.1]
  · rw [e2]; exact hops_append q m1

/-! ### The records under a restore -/

theorem is_task_on_mcu_none (m : MCUs_t) (n : String) (h : kernel_is_task_on_mcu m n = none) :
    ∀ t ∈ m.task_queue, t.task_name ≠ n := by
  unfold kernel_is_task_on_mcu at h
  rw [List.find?_eq_none] at h
  intro t ht
  simpa using h t ht

theorem set_cached_append_new (n : String) (b c : Bool) (old : List kernel_external_task_t)
    (h : ∀ t ∈ old, t.task_name ≠ n) :
    set_cached n b (old ++ [⟨c, n⟩]) = old ++ [⟨b, n⟩] := by
  induction old with
  | nil => simp [set_cached]
  | cons x rest ih =>
    have hx : x.task_name ≠ n := h x (List.mem_cons_self _ _)
    rw [List.cons_append]
    unfold set_cached
    rw [if_neg hx, ih (fun t ht => h t (List.mem_cons_of_mem _ ht))]
    rfl

theorem add_cached_tasks_spec (l : List String) (h : x_heap) (m : MCUs_t) (r : MCUs_t × x_heap)
    (hr : add_cached_tasks l h m = some r) :
    same_route r.1 m ∧ r.1.task_modified = m.task_modified
    ∧ (∀ t ∈ m.task_queue, t ∈ r.1.task_queue)
    ∧ (∀ x ∈ r.1.task_queue, x ∈ m.task_queue ∨ (x.cached = true ∧ x.task_name ∈ l))
    ∧ (∀ n ∈ l, ∃ x ∈ r.1.task_queue, x.task_name = n) := by
  induction l generalizing h m with
  | nil =>
    unfold add_cached_tasks at hr
    cases hr
    exact ⟨same_route_refl _, rfl, fun t ht => ht, fun x hx => Or.inl hx, fun n hn => by cases hn⟩
  | cons n rest ih =>
    unfold add_cached_tasks at hr
    cases hf : kernel_is_task_on_mcu m n with
    | some t =>
      rw [hf] at hr
      obtain ⟨b1, b2, b3, b4, b5⟩ := ih _ _ hr
      obtain ⟨f1, f2⟩ := is_task_on_mcu_some m n t hf
      refine ⟨b1, b2, b3, ?_, ?_⟩
      · intro x hx
        rcases b4 x hx with h1 | ⟨h1, h2⟩
        · exact Or.inl h1
        · exact Or.inr ⟨h1, List.mem_cons_of_mem _ h2⟩
      · intro n1 hn1
        rcases List.mem_cons.1 hn1 with rfl | hn1
        · exact ⟨t, b3 t f1, f2⟩
        · exact b5 n1 hn1
    | none =>
      rw [hf] at hr
      dsimp only at hr
      cases ha : kernel_add_task_to_mcu h m n with
      | none => rw [ha] at hr; cases hr
      | some r1 =>
        rw [ha] at hr
        have hq : r1.1 = { m with task_queue := m.task_queue ++ [⟨false, n⟩] } := by
          rcases add_task_result h m n r1 ha with ⟨⟨t, ht⟩, _⟩ | ⟨_, e⟩
          · rw [hf] at ht; cases ht
          · exact e
        dsimp only at hr
        rw [hq] at hr
        dsimp only at hr
        rw [set_cached_append_new n true false m.task_queue (is_task_on_mcu_none m n hf)] at hr
        obtain ⟨b1, b2, b3, b4, b5⟩ := ih _ _ hr
        refine ⟨same_route_trans b1 ⟨rfl, rfl, rfl, rfl, rfl, fun x => x⟩, b2, ?_, ?_, ?_⟩
        · intro t ht
          exact b3 t (List.mem_append_left _ ht)
        · intro x hx
          rcases b4 x hx with h1 | ⟨h1, h2⟩
          · rcases List.mem_append.1 h1 with h3 | h3
            · exact Or.inl h3
            · simp only [List.mem_singleton] at h3
              subst h3
              exact Or.inr ⟨rfl, List.mem_cons_self _ _⟩
          · exact Or.inr ⟨h1, List.mem_cons_of_mem _ h2⟩
        · intro n1 hn1
          rcases List.mem_cons.1 hn1 with rfl | hn1
          · exact ⟨⟨true, n1⟩, b3 _ (by simp), rfl⟩
          · exact b5 n1 hn1

theorem add_cached_tasks_ok (l : List String) (h : x_heap) (m : MCUs_t) (hh : no_alloc_failure h) :
    ∃ r, add_cached_tasks l h m = some r ∧ no_alloc_failure r.2 := by
  induction l generalizing h m with
  | nil => exact ⟨_, rfl, hh⟩
  | cons n rest ih =>
    unfold add_cached_tasks
    cases hf : kernel_is_task_on_mcu m n with
    | some t => exact ih _ _ hh
    | none =>
      dsimp only
      obtain ⟨r1, ha, hh1⟩ := add_task_ok h m n hh
      rw [ha]
      exact ih _ _ hh1

/-- What `recover_core` appends for the name `n`: a record that is not local, on
the tunnel of the restore, with the hop count of the text (1 when "Jump" is
missing), whose tasks are all cached and are those of "TaskArray". -/
theorem recover_core_result (h h1 : x_heap) (tunnel : List Nat) (env : topo_envelope)
    (n : String) (q q1 : List MCUs_t) (hr : recover_core h tunnel env n q = some (q1, h1)) :
    q1 = q
    ∨ ∃ m1 core, q1 = q ++ [m1] ∧ is_mcu_exist n q = none ∧ env.object n = some core
      ∧ m1.core = n ∧ m1.tunnel = tunnel ∧ m1.jump = core.jump.getD 1 ∧ m1.is_local = false
      ∧ m1.task_modified = false
      ∧ (∀ x ∈ m1.task_queue, x.cached = true)
      ∧ (∀ tasks, core.task_array = some tasks →
          (∀ t ∈ tasks, ∃ x ∈ m1.task_queue, x.task_name = t)
          ∧ ∀ x ∈ m1.task_queue, x.task_name ∈ tasks)
      ∧ (core.task_array = none → m1.task_queue = []) := by
  unfold recover_core at hr
  cases ho : env.object n with
  | none => rw [ho] at hr; cases hr; exact Or.inl rfl
  | some core =>
    rw [ho] at hr
    dsimp only at hr
    cases hm : is_mcu_exist n q with
    | some mcu => rw [hm] at hr; cases hr; exact Or.inl rfl
    | none =>
      rw [hm] at hr
      dsimp only at hr
      rcases kernel_create_mcu_cases h n tunnel (core.jump.getD 1) q with ⟨h2, e⟩ | ⟨h2, e⟩
      · rw [e] at hr
        cases hr
        exact Or.inl rfl
      · rw [e] at hr
        dsimp only at hr
        obtain ⟨b1, b2, b3, b4, b5, b6⟩ := absorb_extra_route core
          { task_queue := [], tunnel := tunnel, jump := core.jump.getD 1, is_local := false,
            support_json_extra := false, mmap_req_sent := false, task_modified := false,
            core := n }
        cases hta : core.task_array with
        | none =>
          rw [hta] at hr
          cases hr
          right
          refine ⟨_, core, rfl, rfl, rfl, b1, b2, b3, b4, b5, ?_, ?_, fun _ => b6⟩
          · intro x hx
            rw [b6] at hx
            cases hx
          · intro tasks ht
            rw [hta] at ht
            cases ht
        | some tasks =>
          rw [hta] at hr
          dsimp only at hr
          cases ha : add_cached_tasks tasks h2
              (absorb_extra core
                { task_queue := [], tunnel := tunnel, jump := core.jump.getD 1, is_local := false,
                  support_json_extra := false, mmap_req_sent := false, task_modified := false,
                  core := n }) with
          | none => rw [ha] at hr; cases hr
          | some r =>
            rw [ha] at hr
            cases hr
            obtain ⟨a1, a2, a3, a4, a5⟩ := add_cached_tasks_spec _ _ _ _ ha
            obtain ⟨d1, d2, d3, d4, d5, d6⟩ := a1
            right
            refine ⟨r.1, core, rfl, rfl, rfl, d1.trans b1, d2.trans b2, d3.trans b3, d4.trans b4,
              a2.trans b5, ?_, ?_, fun e => by rw [hta] at e; cases e⟩
            · intro x hx
              rcases a4 x hx with h3 | ⟨h3, _⟩
              · rw [b6] at h3; cases h3
              · exact h3
            · intro tasks2 ht
              rw [hta] at ht
              cases ht
              refine ⟨a5, ?_⟩
              intro x hx
              rcases a4 x hx with h3 | ⟨_, h3⟩
              · rw [b6] at h3; cases h3
              · exact h3

theorem recover_core_hops (h h1 : x_heap) (tunnel : List Nat) (env : topo_envelope)
    (n : String) (q q1 : List MCUs_t) (hr : recover_core h tunnel env n q = some (q1, h1)) :
    hops_not_increased q q1 := by
  rcases recover_core_result h h1 tunnel env n q q1 hr with e | ⟨m1, core, e, _⟩
  · rw [e]; exact hops_refl q
  · rw [e]; exact hops_append q m1

theorem recover_cores_hops (tunnel : List Nat) (env : topo_envelope) (l : List String)
    (h h1 : x_heap) (q q1 : List MCUs_t) (hr : recover_cores tunnel env l h q = some (q1, h1)) :
    hops_not_increased q q1 := by
  induction l generalizing h q with
  | nil => unfold recover_cores at hr; cases hr; exact hops_refl _
  | cons n rest ih =>
    unfold recover_cores at hr
    cases hu : recover_core h tunnel env n q with
    | none => rw [hu] at hr; cases hr
    | some r =>
      rw [hu] at hr
      exact hops_trans (recover_core_hops h r.2 tunnel env n q r.1 hu) (ih r.2 r.1 hr)

theorem mcu_step_hops (ok : String → Prop) (q q1 : List MCUs_t) (hs : mcu_step ok q q1) :
    hops_not_increased q q1 := by
  cases hs
  case sync h h1 local_core tunnels tasks hok hr =>
    exact synchonize_tasklist_hops h h1 local_core tunnels tasks q q1 hr
  case topology h h1 tunnel env hr =>
    unfold kernel_msg_layer_unpack at hr
    cases hl : get_my_core_name q with
    | none => rw [hl] at hr; cases hr; exact hops_refl _
    | some n =>
      rw [hl] at hr
      exact unpack_cores_hops tunnel env env.cores h h1 q q1 hr
  case restore h h1 tunnel env hr =>
    exact recover_cores_hops tunnel env env.cores h h1 q q1 hr

theorem mcu_steps_hops (ok : String → Prop) (q q1 : List MCUs_t)
    (hs : Relation.ReflTransGen (mcu_step ok) q q1) : hops_not_increased q q1 := by
  induction hs with
  | refl => exact hops_refl q
  | tail _ hstep ih => exact hops_trans ih (mcu_step_hops ok _ _ hstep)

/-! ### Hop reduction -/

theorem unpack_cores_settled (tunnel : List Nat) (env : topo_envelope) (x : String)
    (core : core_obj) (tasks : List String) (j : Int)
    (ho : env.object x = some core) (hta : core.task_array = some tasks)
    (hj : core.jump = some j) (l : List String) (h h1 : x_heap) (q q1 : List MCUs_t)
    (m : MCUs_t) (hm : is_mcu_exist x q = some m) (hle : m.jump ≤ j)
    (hr : unpack_cores tunnel env l h q = some (q1, h1)) :
    ∃ m1, is_mcu_exist x q1 = some m1 ∧ m1.tunnel = m.tunnel ∧ m1.jump = m.jump
      ∧ (m.task_modified = true → m1.task_modified = true) := by
  induction l generalizing h q m with
  | nil => unfold unpack_cores at hr; cases hr; exact ⟨m, hm, rfl, rfl, fun e => e⟩
  | cons n rest ih =>
    unfold unpack_cores at hr
    cases hu : unpack_core h tunnel env n q with
    | none => rw [hu] at hr; cases hr
    | some r =>
      rw [hu] at hr
      dsimp only at hr
      by_cases hx : x = n
      · subst hx
        obtain ⟨m1, _, e2, _, _, _, e6, _⟩ :=
          unpack_core_known h r.2 tunnel env x q r.1 core tasks m ho hta hm hu
        obtain ⟨e7, e8, e9⟩ := e6 (fun j2 hj2 => by rw [hj] at hj2; cases hj2; exact hle)
        obtain ⟨m2, f1, f2, f3, f4⟩ := ih r.2 r.1 m1 e2 (by rw [e8]; exact hle) hr
        exact ⟨m2, f1, f2.trans e7, f3.trans e8, fun e => f4 (e9 e)⟩
      · rcases unpack_core_other h r.2 tunnel env n x q r.1 hx hu with e | ⟨e, _⟩
        · exact ih r.2 r.1 m (by rw [e]; exact hm) hle hr
        · rw [hm] at e; cases e

theorem unpack_cores_rehome (tunnel : List Nat) (env : topo_envelope) (x : String)
    (core : core_obj) (tasks : List String) (j : Int)
    (ho : env.object x = some core) (hta : core.task_array = some tasks)
    (hj : core.jump = some j) (l : List String) (hx : x ∈ l) (h h1 : x_heap)
    (q q1 : List MCUs_t) (m : MCUs_t) (hm : is_mcu_exist x q = some m)
    (hr : unpack_cores tunnel env l h q = some (q1, h1)) :
    ∃ m1, is_mcu_exist x q1 = some m1
      ∧ (j < m.jump → m1.tunnel = tunnel ∧ m1.jump = j ∧ m1.task_modified = true)
      ∧ (m.jump ≤ j → m1.tunnel = m.tunnel ∧ m1.jump = m.jump) := by
  induction l generalizing h q with
  | nil => cases hx
  | cons n rest ih =>
    unfold unpack_cores at hr
    cases hu : unpack_core h tunnel env n q with
    | none => rw [hu] at hr; cases hr
    | some r =>
      rw [hu] at hr
      dsimp only at hr
      by_cases hxn : x = n
      · subst hxn
        obtain ⟨m1, _, e2, _, _, e5, e6, _⟩ :=
          unpack_core_known h r.2 tunnel env x q r.1 core tasks m ho hta hm hu
        have hle : m1.jump ≤ j := by
          by_cases hlt : j < m.jump
          · rw [(e5 j hj hlt).2.1]
          · have := (e6 (fun j2 hj2 => by rw [hj] at hj2; cases hj2; omega)).2.1
            omega
        obtain ⟨m2, f1, f2, f3, f4⟩ :=
          unpack_cores_settled tunnel env x core tasks j ho hta hj rest r.2 h1 r.1 q1 m1 e2 hle hr
        refine ⟨m2, f1, ?_, ?_⟩
        · intro hlt
          obtain ⟨g1, g2, g3⟩ := e5 j hj hlt
          exact ⟨f2.trans g1, f3.trans g2, f4 g3⟩
        · intro hge
          obtain ⟨g1, g2, _⟩ := e6 (fun j2 hj2 => by rw [hj] at hj2; cases hj2; exact hge)
          exact ⟨f2.trans g1, f3.trans g2⟩
      · rcases unpack_core_other h r.2 tunnel env n x q r.1 hxn hu with e | ⟨e, _⟩
        · rcases List.mem_cons.1 hx with e1 | e1
          · exact absurd e1 hxn
          · exact ih e1 r.2 r.1 (by rw [e]; exact hm) hr
        · rw [hm] at e; cases e

/-- C35 (counterexample): the node "Y" knows "X" over tunnel 2 with hop count 3;
an envelope that lists "X" with Jump 2 and no "TaskArray" arrives on tunnel 1;
every record is unchanged, "X" keeps tunnel 2 and hop count 3. -/
theorem topology_entry_without_tasks_ignored :
    get_my_core_name cached_mcus = some "Y"
    ∧ (bare_envelope.object "X").map (fun c => (c.jump, c.task_array)) = some (some 2, none)
    ∧ (is_mcu_exist "X" cached_mcus).map (fun m => (m.tunnel, m.jump)) = some ([2], 3)
    ∧ (kernel_msg_layer_unpack ⟨[]⟩ [1] bare_envelope cached_mcus).map (fun r => r.1)
        = some cached_mcus := by
  refine ⟨?_, ?_, ?_, ?_⟩ <;> decide

/-- C35 (amended): at a node that has a local record, on receipt of a topology
envelope on the tunnel `tunnel` that lists a known core `x` with Jump = `j` and
a "TaskArray": if `j` is less than the hop count of `x`, then after the call
the tunnel of `x` is `tunnel`, its hop count is `j` and `task_modified` is set;
if `j` is at least the hop count, the tunnel and the hop count of `x` are
unchanged.  And over every sequence of calls of `synchonize_tasklist`, envelope
receptions and restores, the hop count of a known core never increases. -/
theorem topology_hop_reduction (h h1 : x_heap) (tunnel : List Nat) (env : topo_envelope)
    (x : String) (core : core_obj) (tasks : List String) (j : Int) (q q1 : List MCUs_t)
    (m : MCUs_t) (hl : get_my_core_name q ≠ none) (hx : x ∈ env.cores)
    (ho : env.object x = some core) (hta : core.task_array = some tasks)
    (hj : core.jump = some j) (hm : is_mcu_exist x q = some m)
    (hr : kernel_msg_layer_unpack h tunnel env q = some (q1, h1)) :
    (∃ m1, is_mcu_exist x q1 = some m1
      ∧ (j < m.jump → m1.tunnel = tunnel ∧ m1.jump = j ∧ m1.task_modified = true)
      ∧ (m.jump ≤ j → m1.tunnel = m.tunnel ∧ m1.jump = m.jump))
    ∧ ∀ (ok : String → Prop) (qa qb : List MCUs_t),
        Relation.ReflTransGen (mcu_step ok) qa qb → hops_not_increased qa qb := by
  refine ⟨?_, fun ok qa qb hs => mcu_steps_hops ok qa qb hs⟩
  unfold kernel_msg_layer_unpack at hr
  cases hg : get_my_core_name q with
  | none => exact absurd hg hl
  | some n =>
    rw [hg] at hr
    exact unpack_cores_rehome tunnel env x core tasks j ho hta hj env.cores hx h h1 q q1 m hm hr

/-- Witness of C35 (amended), the spec's scenario: "Y" knows "X" over tunnel 2
with hop count 3; the envelope listing "X" with Jump 2 arrives on tunnel 1;
"X" is then on tunnel 1 with hop count 2 and `task_modified` set. -/
theorem topology_hop_reduction_witness :
    ∃ m1, is_mcu_exist "X"
        [⟨[⟨false, "t2"⟩], [1, 2], 0, true, true, false, false, "Y"⟩,
         ⟨[⟨false, "t1"⟩], [1], 2, false, false, false, true, "X"⟩,
         ⟨[⟨true, "t3"⟩], [1], 1, false, false, false, false, "Z"⟩] = some m1
      ∧ ((2 : Int) < 3 → m1.tunnel = [1] ∧ m1.jump = 2 ∧ m1.task_modified = true)
      ∧ ((3 : Int) ≤ 2 → m1.tunnel = [2] ∧ m1.jump = 3) :=
  (topology_hop_reduction ⟨[]⟩ ⟨[]⟩ [1] hop_envelope "X" ⟨some 2, none, some ["t1"]⟩ ["t1"] 2
    cached_mcus
    [⟨[⟨false, "t2"⟩], [1, 2], 0, true, true, false, false, "Y"⟩,
     ⟨[⟨false, "t1"⟩], [1], 2, false, false, false, true, "X"⟩,
     ⟨[⟨true, "t3"⟩], [1], 1, false, false, false, false, "Z"⟩]
    ⟨[⟨false, "t1"⟩], [2], 3, false, false, false, false, "X"⟩
    (by decide) (by decide) rfl rfl rfl (by decide) (by decide)).1

/-! ### Cached tasks and the announcement -/

theorem envelope_names (h : x_heap) (local_core : Option String) (tunnels : List Nat)
    (tasks : List (Nat × kernel_task_t)) (q q2 : List MCUs_t) (e : List (String × core_obj))
    (hr : synchonize_tasklist_envelope h local_core tunnels tasks q = some (q2, some e)) :
    e.map (fun x => x.1) = (q2.filter announced).map (fun m => m.core)
    ∧ ∃ h1, synchonize_tasklist h local_core tunnels tasks q = some (q2, h1) := by
  unfold synchonize_tasklist_envelope at hr
  cases hs : synchonize_tasklist h local_core tunnels tasks q with
  | none => rw [hs] at hr; simp at hr
  | some r0 =>
    rw [hs] at hr
    simp only [Option.some.injEq, Prod.mk.injEq, Option.map_eq_some'] at hr
    obtain ⟨rfl, r1, hp, rfl⟩ := hr
    refine ⟨?_, r0.2, rfl⟩
    rw [synchonize_pack_some r0.2 r0.1 r1 hp]
    simp [Function.comp]

theorem uncached_after_sync (h h1 : x_heap) (local_core : Option String) (tunnels : List Nat)
    (tasks : List (Nat × kernel_task_t)) (q q1 : List MCUs_t) (p : String) (m : MCUs_t)
    (hm : is_mcu_exist p q = some m) (hc : ∀ x ∈ m.task_queue, x.cached = false)
    (hr : synchonize_tasklist h local_core tunnels tasks q = some (q1, h1)) :
    ∃ m1, is_mcu_exist p q1 = some m1 ∧ ∀ x ∈ m1.task_queue, x.cached = false := by
  rcases synchonize_tasklist_result h h1 local_core tunnels tasks q q1 hr with
    e | ⟨name, mcu, m1, e1, e2, e3, _, e5⟩ | ⟨name, m1, _, e2, _⟩
  · rw [e]; exact ⟨m, hm, hc⟩
  · have hcore : m1.core = name := by rw [e3.1]; exact (is_mcu_exist_some name q mcu e1).2
    rw [e2, is_mcu_exist_replace name p m1 q hcore]
    by_cases hp : p = name
    · subst hp
      rw [if_pos rfl, e1]
      refine ⟨m1, rfl, ?_⟩
      intro x hx
      rw [hm] at e1
      cases e1
      rcases e5 x hx with h2 | h2
      · exact hc x h2
      · exact h2
    · rw [if_neg hp]
      exact ⟨m, hm, hc⟩
  · rw [e2, is_mcu_exist_append, hm]
    exact ⟨m, rfl, hc⟩

theorem announced_in_envelope (h : x_heap) (local_core : Option String) (tunnels : List Nat)
    (tasks : List (Nat × kernel_task_t)) (q q2 : List MCUs_t) (e : List (String × core_obj))
    (p : String) (m : MCUs_t) (hm : is_mcu_exist p q = some m)
    (hc : ∀ x ∈ m.task_queue, x.cached = false)
    (hr : synchonize_tasklist_envelope h local_core tunnels tasks q = some (q2, some e)) :
    p ∈ e.map (fun x => x.1) := by
  obtain ⟨e1, h1, hs⟩ := envelope_names h local_core tunnels tasks q q2 e hr
  obtain ⟨m1, f1, f2⟩ := uncached_after_sync h h1 local_core tunnels tasks q q2 p m hm hc hs
  obtain ⟨g1, g2⟩ := is_mcu_exist_some p q2 m1 f1
  rw [e1, List.mem_map]
  refine ⟨m1, ?_, g2⟩
  rw [List.mem_filter]
  exact ⟨g1, (announced_iff m1).2 (Or.inr f2)⟩

theorem unpack_core_ok (h : x_heap) (tunnel : List Nat) (env : topo_envelope) (p : String)
    (q : List MCUs_t) (core : core_obj) (tasks : List String)
    (ho : env.object p = some core) (hta : core.task_array = some tasks)
    (hh : no_alloc_failure h) :
    ∃ r m, unpack_core h tunnel env p q = some r ∧ is_mcu_exist p r.1 = some m := by
  cases hm : is_mcu_exist p q with
  | some mcu =>
    have hsome : ∃ r, unpack_core h tunnel env p q = some r := by
      unfold unpack_core
      rw [ho]
      dsimp only
      rw [hta]
      dsimp only
      rw [hm]
      dsimp only
      generalize (absorb_extra core _) = m0
      obtain ⟨r, hr, _⟩ := add_listed_tasks_ok tasks h m0 hh
      rw [hr]
      exact ⟨_, rfl⟩
    obtain ⟨r, hr⟩ := hsome
    obtain ⟨m1, _, e2, _⟩ := unpack_core_known h r.2 tunnel env p q r.1 core tasks mcu ho hta hm hr
    exact ⟨r, m1, hr, e2⟩
  | none =>
    obtain ⟨x1, x2⟩ := x_malloc_ok h hh
    have hcr : kernel_create_mcu h p tunnel (core.jump.getD 1) q
        = (some ⟨[], tunnel, core.jump.getD 1, false, false, false, false, p⟩,
            q ++ [⟨[], tunnel, core.jump.getD 1, false, false, false, false, p⟩], (x_malloc h).2) := by
      unfold kernel_create_mcu
      cases hx : x_malloc h with
      | mk b hx1 =>
        rw [hx] at x1
        dsimp only at x1
        subst x1
        rfl
    obtain ⟨r, hr, _⟩ := add_listed_tasks_ok tasks (x_malloc h).2
      (absorb_extra core
        { task_queue := [], tunnel := tunnel, jump := core.jump.getD 1, is_local := false,
          support_json_extra := false, mmap_req_sent := false, task_modified := true,
          core := p }) x2
    have hsome : unpack_core h tunnel env p q
        = some (q ++ [kernel_clear_cache_task_on_mcu r.1], r.2) := by
      unfold unpack_core
      rw [ho]
      dsimp only
      rw [hta]
      dsimp only
      rw [hm]
      dsimp only
      rw [hcr]
      dsimp only
      rw [hr]
    refine ⟨_, kernel_clear_cache_task_on_mcu r.1, hsome, ?_⟩
    dsimp only
    rw [is_mcu_exist_append, hm]
    dsimp only
    obtain ⟨a1, _⟩ := add_listed_tasks_spec _ _ _ _ hr
    rw [if_pos]
    rw [(clear_cache_route r.1).1, a1.1, (absorb_extra_route core _).1]

/-- C36: once the entry of a topology envelope for the core `p`, with a
"TaskArray", has been processed, the task list of `p` holds every listed task,
holds no task with `cached` set, and still holds every task that was on `p`
before and was not cached; `p` is then listed in the envelope of the next
`synchonize_tasklist`.  With an allocator that does not fail the entry is
processed and `p` has a record afterwards. -/
theorem topology_entry_confirms_tasks (h h1 : x_heap) (tunnel : List Nat) (env : topo_envelope)
    (p : String) (core : core_obj) (tasks : List String) (q q1 : List MCUs_t) (m1 : MCUs_t)
    (ho : env.object p = some core) (hta : core.task_array = some tasks)
    (hr : unpack_core h tunnel env p q = some (q1, h1))
    (hm1 : is_mcu_exist p q1 = some m1) :
    (∀ t ∈ tasks, ∃ x ∈ m1.task_queue, x.task_name = t)
    ∧ (∀ x ∈ m1.task_queue, x.cached = false)
    ∧ (∀ m, is_mcu_exist p q = some m → ∀ x ∈ m.task_queue, x.cached = false →
        x ∈ m1.task_queue)
    ∧ (∀ h2 local_core tunnels kernel_task_queue q2 e,
        synchonize_tasklist_envelope h2 local_core tunnels kernel_task_queue q1
          = some (q2, some e) → p ∈ e.map (fun x => x.1))
    ∧ (∀ h0, no_alloc_failure h0 →
        ∃ r m, unpack_core h0 tunnel env p q = some r ∧ is_mcu_exist p r.1 = some m) := by
  have key : (∀ t ∈ tasks, ∃ x ∈ m1.task_queue, x.task_name = t ∧ x.cached = false)
      ∧ (∀ x ∈ m1.task_queue, x.cached = false)
      ∧ (∀ m, is_mcu_exist p q = some m → ∀ x ∈ m.task_queue, x.cached = false →
          x ∈ m1.task_queue) := by
    cases hm : is_mcu_exist p q with
    | some mcu =>
      obtain ⟨m2, _, e2, _, _, _, _, _, e8, e9, e10⟩ :=
        unpack_core_known h h1 tunnel env p q q1 core tasks mcu ho hta hm hr
      rw [hm1] at e2
      cases e2
      refine ⟨e8, e9, ?_⟩
      intro m hm2
      cases hm2
      exact e10
    | none =>
      rcases unpack_core_unknown h h1 tunnel env p q q1 core tasks ho hta hm hr with
        e | ⟨m2, e1, e2, _, _, _, _, e7, e8⟩
      · rw [e, hm] at hm1; cases hm1
      · rw [e1, is_mcu_exist_append, hm] at hm1
        dsimp only at hm1
        rw [if_pos e2] at hm1
        cases hm1
        exact ⟨e7, e8, fun m hm2 => by cases hm2⟩
  obtain ⟨k1, k2, k3⟩ := key
  refine ⟨?_, k2, k3, ?_, fun h0 hh => unpack_core_ok h0 tunnel env p q core tasks ho hta hh⟩
  · intro t ht
    obtain ⟨x, hx, hn, _⟩ := k1 t ht
    exact ⟨x, hx, hn⟩
  · intro h2 local_core tunnels kernel_task_queue q2 e he
    exact announced_in_envelope h2 local_core tunnels kernel_task_queue q1 q2 e p m1 hm1 k2 he

/-- Witness of C36, the spec's scenario: the node "Y" holds the restored record
of "Z" with the cached task "t3"; "Z" announces itself with the tasks "t3" and
"t4"; the record of "Z" then holds both, none cached, and "Z" is in the next
announcement of "Y". -/
theorem topology_entry_confirms_tasks_witness :
    (∀ t ∈ ["t3", "t4"], ∃ x ∈ [(⟨false, "t3"⟩ : kernel_external_task_t), ⟨false, "t4"⟩],
        x.task_name = t)
    ∧ (∀ x ∈ [(⟨false, "t3"⟩ : kernel_external_task_t), ⟨false, "t4"⟩], x.cached = false)
    ∧ "Z" ∈ [("Y", (⟨some 1, some true, some ["t2"]⟩ : core_obj)),
        ("X", ⟨some 4, some false, some ["t1"]⟩),
        ("Z", ⟨some 2, some false, some ["t3", "t4"]⟩)].map (fun x => x.1) :=
  ⟨(topology_entry_confirms_tasks ⟨[]⟩ ⟨[]⟩ [1]
      ⟨["Z"], fun n => if n = "Z" then some ⟨some 1, none, some ["t3", "t4"]⟩ else none⟩ "Z"
      ⟨some 1, none, some ["t3", "t4"]⟩ ["t3", "t4"] cached_mcus
      [⟨[⟨false, "t2"⟩], [1, 2], 0, true, true, false, false, "Y"⟩,
       ⟨[⟨false, "t1"⟩], [2], 3, false, false, false, false, "X"⟩,
       ⟨[⟨false, "t3"⟩, ⟨false, "t4"⟩], [1], 1, false, false, false, true, "Z"⟩]
      ⟨[⟨false, "t3"⟩, ⟨false, "t4"⟩], [1], 1, false, false, false, true, "Z"⟩
      rfl rfl (by decide) (by decide)).1,
   (topology_entry_confirms_tasks ⟨[]⟩ ⟨[]⟩ [1]
      ⟨["Z"], fun n => if n = "Z" then some ⟨some 1, none, some ["t3", "t4"]⟩ else none⟩ "Z"
      ⟨some 1, none, some ["t3", "t4"]⟩ ["t3", "t4"] cached_mcus
      [⟨[⟨false, "t2"⟩], [1, 2], 0, true, true, false, false, "Y"⟩,
       ⟨[⟨false, "t1"⟩], [2], 3, false, false, false, false, "X"⟩,
       ⟨[⟨false, "t3"⟩, ⟨false, "t4"⟩], [1], 1, false, false, false, true, "Z"⟩]
      ⟨[⟨false, "t3"⟩, ⟨false, "t4"⟩], [1], 1, false, false, false, true, "Z"⟩
      rfl rfl (by decide) (by decide)).2.1,
   (topology_entry_confirms_tasks ⟨[]⟩ ⟨[]⟩ [1]
      ⟨["Z"], fun n => if n = "Z" then some ⟨some 1, none, some ["t3", "t4"]⟩ else none⟩ "Z"
      ⟨some 1, none, some ["t3", "t4"]⟩ ["t3", "t4"] cached_mcus
      [⟨[⟨false, "t2"⟩], [1, 2], 0, true, true, false, false, "Y"⟩,
       ⟨[⟨false, "t1"⟩], [2], 3, false, false, false, false, "X"⟩,
       ⟨[⟨false, "t3"⟩, ⟨false, "t4"⟩], [1], 1, false, false, false, true, "Z"⟩]
      ⟨[⟨false, "t3"⟩, ⟨false, "t4"⟩], [1], 1, false, false, false, true, "Z"⟩
      rfl rfl (by decide) (by decide)).2.2.2.1 ⟨[]⟩ none [] []
      [⟨[⟨false, "t2"⟩], [1, 2], 0, true, true, false, false, "Y"⟩,
       ⟨[⟨false, "t1"⟩], [2], 3, false, false, false, false, "X"⟩,
       ⟨[⟨false, "t3"⟩, ⟨false, "t4"⟩], [1], 1, false, false, false, true, "Z"⟩]
      [("Y", ⟨some 1, some true, some ["t2"]⟩), ("X", ⟨some 4, some false, some ["t1"]⟩),
       ("Z", ⟨some 2, some false, some ["t3", "t4"]⟩)] rfl⟩

/-! ### Restore -/

theorem recover_cores_result (tunnel : List Nat) (env : topo_envelope) (l : List String)
    (h h1 : x_heap) (q q1 : List MCUs_t) (hr : recover_cores tunnel env l h q = some (q1, h1)) :
    ∃ new, q1 = q ++ new ∧ ∀ m ∈ new, is_mcu_exist m.core q = none ∧ m.core ∈ l
      ∧ ∃ core, env.object m.core = some core ∧ m.tunnel = tunnel
        ∧ m.jump = core.jump.getD 1 ∧ m.is_local = false
        ∧ (∀ x ∈ m.task_queue, x.cached = true)
        ∧ (∀ tasks, core.task_array = some tasks →
            (∀ t ∈ tasks, ∃ x ∈ m.task_queue, x.task_name = t)
            ∧ ∀ x ∈ m.task_queue, x.task_name ∈ tasks) := by
  induction l generalizing h q with
  | nil =>
    unfold recover_cores at hr
    cases hr
    exact ⟨[], by simp, fun m hm => by cases hm⟩
  | cons n rest ih =>
    unfold recover_cores at hr
    cases hu : recover_core h tunnel env n q with
    | none => rw [hu] at hr; cases hr
    | some r =>
      rw [hu] at hr
      dsimp only at hr
      obtain ⟨new, e1, e2⟩ := ih r.2 r.1 hr
      rcases recover_core_result h r.2 tunnel env n q r.1 hu with e |
        ⟨m1, core, f1, f2, f3, f4, f5, f6, f7, _, f9, f10, _⟩
      · rw [e] at e1 e2
        refine ⟨new, e1, ?_⟩
        intro m hm
        obtain ⟨g1, g2, g3⟩ := e2 m hm
        exact ⟨g1, List.mem_cons_of_mem _ g2, g3⟩
      · refine ⟨m1 :: new, by rw [e1, f1]; simp, ?_⟩
        intro m hm
        rcases List.mem_cons.1 hm with rfl | hm
        · rw [f4]
          exact ⟨f2, List.mem_cons_self _ _, core, f3, f5, f6, f7, f9, f10⟩
        · obtain ⟨g1, g2, g3⟩ := e2 m hm
          refine ⟨?_, List.mem_cons_of_mem _ g2, g3⟩
          rw [f1, is_mcu_exist_append] at g1
          cases hq : is_mcu_exist m.core q with
          | none => rfl
          | some x => rw [hq] at g1; cases g1

theorem recover_core_ok (h : x_heap) (tunnel : List Nat) (env : topo_envelope) (n : String)
    (q : List MCUs_t) (hh : no_alloc_failure h) :
    ∃ r, recover_core h tunnel env n q = some r ∧ no_alloc_failure r.2
      ∧ (∀ core, env.object n = some core → ∃ m, is_mcu_exist n r.1 = some m) := by
  unfold recover_core
  cases ho : env.object n with
  | none => exact ⟨_, rfl, hh, fun c hc => by cases hc⟩
  | some core =>
    dsimp only
    cases hm : is_mcu_exist n q with
    | some mcu => exact ⟨_, rfl, hh, fun _ _ => ⟨mcu, hm⟩⟩
    | none =>
      dsimp only
      obtain ⟨x1, x2⟩ := x_malloc_ok h hh
      have hcr : kernel_create_mcu h n tunnel (core.jump.getD 1) q
          = (some ⟨[], tunnel, core.jump.getD 1, false, false, false, false, n⟩,
              q ++ [⟨[], tunnel, core.jump.getD 1, false, false, false, false, n⟩],
              (x_malloc h).2) := by
        unfold kernel_create_mcu
        cases hx : x_malloc h with
        | mk b hx1 =>
          rw [hx] at x1
          dsimp only at x1
          subst x1
          rfl
      rw [hcr]
      dsimp only
      cases hta : core.task_array with
      | none =>
        refine ⟨_, rfl, x2, fun _ _ => ?_⟩
        dsimp only
        rw [is_mcu_exist_append, hm]
        dsimp only
        rw [if_pos (absorb_extra_route core _).1]
        exact ⟨_, rfl⟩
      | some tasks =>
        dsimp only
        generalize hm0 : (absorb_extra core _) = m0
        obtain ⟨r, hr, hh2⟩ := add_cached_tasks_ok tasks (x_malloc h).2 m0 x2
        rw [hr]
        refine ⟨_, rfl, hh2, fun _ _ => ⟨r.1, ?_⟩⟩
        dsimp only
        rw [is_mcu_exist_append, hm]
        dsimp only
        obtain ⟨a1, _⟩ := add_cached_tasks_spec _ _ _ _ hr
        rw [if_pos]
        rw [a1.1, ← hm0, (absorb_extra_route core _).1]

theorem recover_cores_ok (tunnel : List Nat) (env : topo_envelope) (l : List String)
    (h : x_heap) (q : List MCUs_t) (hh : no_alloc_failure h) :
    ∃ r, recover_cores tunnel env l h q = some r
      ∧ ∀ x core, x ∈ l → env.object x = some core → ∃ m, is_mcu_exist x r.1 = some m := by
  induction l generalizing h q with
  | nil => exact ⟨_, rfl, fun x c hx => by cases hx⟩
  | cons n rest ih =>
    obtain ⟨r, hr, hh1, hc⟩ := recover_core_ok h tunnel env n q hh
    obtain ⟨r2, hr2, hc2⟩ := ih r.2 r.1 hh1
    unfold recover_cores
    rw [hr]
    dsimp only
    refine ⟨r2, hr2, ?_⟩
    intro x core hx ho
    rcases List.mem_cons.1 hx with rfl | hx
    · obtain ⟨m, hm⟩ := hc core ho
      obtain ⟨m1, e1, _⟩ := recover_cores_hops tunnel env rest r.2 r2.2 r.1 r2.1 hr2 x m hm
      exact ⟨m1, e1⟩
    · exact hc2 x core hx ho

theorem held_back_after_sync (h h1 : x_heap) (local_core : Option String) (tunnels : List Nat)
    (tasks : List (Nat × kernel_task_t)) (q q1 : List MCUs_t) (x : String)
    (hu : held_back x q) (hx : ∃ m ∈ q, m.core = x)
    (hr : synchonize_tasklist h local_core tunnels tasks q = some (q1, h1)) :
    held_back x q1 := by
  rcases synchonize_tasklist_result h h1 local_core tunnels tasks q q1 hr with
    e | ⟨name, mcu, m1, e1, e2, e3, e4, _⟩ | ⟨name, m1, e1, e2, e3, _⟩
  · rw [e]; exact hu
  · rw [e2]
    intro m hm hc
    rcases update_mcu_mem name m1 q m hm with h2 | h2
    · exact hu m h2 hc
    · subst h2
      obtain ⟨g1, g2⟩ := is_mcu_exist_some name q mcu e1
      obtain ⟨u1, t, u2, u3⟩ := hu mcu g1 (by rw [← e3.1]; exact hc)
      exact ⟨by rw [e3.2.2.2.1]; exact u1, t, e4 t u2, u3⟩
  · rw [e2]
    intro m hm hc
    rcases List.mem_append.1 hm with h2 | h2
    · exact hu m h2 hc
    · simp only [List.mem_singleton] at h2
      subst h2
      exfalso
      obtain ⟨m0, hm0, hc0⟩ := hx
      apply is_mcu_exist_none name q e1
      rw [List.mem_map]
      exact ⟨m0, hm0, by rw [hc0, ← hc, e3]⟩

theorem held_back_not_in_envelope (h : x_heap) (local_core : Option String) (tunnels : List Nat)
    (tasks : List (Nat × kernel_task_t)) (q q2 : List MCUs_t) (e : List (String × core_obj))
    (x : String) (hu : held_back x q) (hx : ∃ m ∈ q, m.core = x)
    (hr : synchonize_tasklist_envelope h local_core tunnels tasks q = some (q2, some e)) :
    x ∉ e.map (fun y => y.1) := by
  obtain ⟨e1, h1, hs⟩ := envelope_names h local_core tunnels tasks q q2 e hr
  have hu2 := held_back_after_sync h h1 local_core tunnels tasks q q2 x hu hx hs
  rw [e1, List.mem_map]
  rintro ⟨m, hm, hc⟩
  rw [List.mem_filter] at hm
  obtain ⟨u1, t, u2, u3⟩ := hu2 m hm.1 hc
  rcases (announced_iff m).1 hm.2 with h2 | h2
  · rw [u1] at h2; cases h2
  · rw [h2 t u2] at u3; cases u3

/-- C37: whenever `kernel_recover_external_task_on_tunnel( t, text )` returns, the
records are the ones before the call, unchanged and in place, followed by new
records; each new record is for a core listed in "Cores" with an object in
the text and without a record before, is not local, has the tunnel `t` and
the "Jump" of the text (1 when the text has none), and its tasks are those of
its "TaskArray", every one with `cached` set.  With an allocator that does not
fail the call returns and every listed core with an object has a record
afterwards.  A core restored with a "TaskArray" that is not empty is absent
from the envelope of the next `synchonize_tasklist`. -/
theorem restore_creates_cached_records (h h1 : x_heap) (tunnel : List Nat) (env : topo_envelope)
    (q q1 : List MCUs_t)
    (hr : kernel_recover_external_task_on_tunnel h tunnel env q = some (q1, h1)) :
    (∃ new, q1 = q ++ new ∧ ∀ m ∈ new, is_mcu_exist m.core q = none ∧ m.core ∈ env.cores
      ∧ ∃ core, env.object m.core = some core ∧ m.tunnel = tunnel
        ∧ m.jump = core.jump.getD 1 ∧ m.is_local = false
        ∧ (∀ x ∈ m.task_queue, x.cached = true)
        ∧ (∀ tasks, core.task_array = some tasks →
            (∀ t ∈ tasks, ∃ x ∈ m.task_queue, x.task_name = t)
            ∧ ∀ x ∈ m.task_queue, x.task_name ∈ tasks))
    ∧ (∀ x m, is_mcu_exist x q = some m → is_mcu_exist x q1 = some m)
    ∧ (∀ h0, no_alloc_failure h0 →
        ∃ r, kernel_recover_external_task_on_tunnel h0 tunnel env q = some r
          ∧ ∀ x core, x ∈ env.cores → env.object x = some core →
            ∃ m, is_mcu_exist x r.1 = some m)
    ∧ (∀ x core tasks, is_mcu_exist x q = none → (∃ m ∈ q1, m.core = x) →
        env.object x = some core → core.task_array = some tasks → tasks ≠ [] →
        ∀ h2 local_core tunnels kernel_task_queue q2 e,
          synchonize_tasklist_envelope h2 local_core tunnels kernel_task_queue q1
            = some (q2, some e) → x ∉ e.map (fun y => y.1)) := by
  unfold kernel_recover_external_task_on_tunnel at hr
  obtain ⟨new, e1, e2⟩ := recover_cores_result tunnel env env.cores h h1 q q1 hr
  refine ⟨⟨new, e1, e2⟩, ?_, ?_, ?_⟩
  · intro x m hm
    rw [e1]
    unfold is_mcu_exist at hm ⊢
    rw [List.find?_append, hm]
    rfl
  · intro h0 hh
    unfold kernel_recover_external_task_on_tunnel
    exact recover_cores_ok tunnel env env.cores h0 q hh
  · intro x core tasks hq hx ho hta hne h2 local_core tunnels kernel_task_queue q2 e he
    apply held_back_not_in_envelope h2 local_core tunnels kernel_task_queue q1 q2 e x _ hx he
    intro m hm hc
    rw [e1] at hm
    rcases List.mem_append.1 hm with h3 | h3
    · exfalso
      apply is_mcu_exist_none x q hq
      rw [List.mem_map]
      exact ⟨m, h3, hc⟩
    · obtain ⟨_, _, core2, g1, _, _, g4, g5, g6⟩ := e2 m h3
      rw [hc, ho] at g1
      cases g1
      refine ⟨g4, ?_⟩
      obtain ⟨g7, _⟩ := g6 tasks hta
      cases tasks with
      | nil => exact absurd rfl hne
      | cons t rest =>
        obtain ⟨y, hy, _⟩ := g7 t (List.mem_cons_self _ _)
        exact ⟨y, hy, g5 y hy⟩

/-- Witness of C37, the spec's scenario: the node "Y" restores a backup of
tunnel 1 that holds "Z" with the task "t3"; the record of "Z" is appended with
"t3" cached, and "Z" is not in the next announcement of "Y". -/
theorem restore_creates_cached_records_witness :
    (∀ x m, is_mcu_exist x (cached_mcus.take 2) = some m → is_mcu_exist x cached_mcus = some m)
    ∧ "Z" ∉ [("Y", (⟨some 1, some true, some ["t2"]⟩ : core_obj)),
        ("X", ⟨some 4, some false, some ["t1"]⟩)].map (fun y => y.1) :=
  ⟨(restore_creates_cached_records ⟨[]⟩ ⟨[]⟩ [1] backup_text (cached_mcus.take 2) cached_mcus
      (by decide)).2.1,
   (restore_creates_cached_records ⟨[]⟩ ⟨[]⟩ [1] backup_text (cached_mcus.take 2) cached_mcus
      (by decide)).2.2.2 "Z" ⟨some 1, some false, some ["t3"]⟩ ["t3"] (by decide)
      ⟨⟨[⟨true, "t3"⟩], [1], 1, false, false, false, false, "Z"⟩, by decide, rfl⟩ rfl rfl
      (by decide) ⟨[]⟩ none [] [] cached_mcus
      [("Y", ⟨some 1, some true, some ["t2"]⟩), ("X", ⟨some 4, some false, some ["t1"]⟩)] rfl⟩

/-! ### Successive ISR messages -/

theorem claim_slot_fst_none (now : Int) (n : String) (d : List Nat) (L : Int)
    (q : List kernel_msg_t) (h : (claim_slot now n d L q).1 = none) :
    claim_slot now n d L q = (none, q) := by
  apply claim_slot_none
  intro p hp
  by_contra hf
  have := claim_slot_isSome now n d L q ⟨p, hp, by simpa using hf⟩
  rw [h] at this
  cases this

theorem claim_slot_count (now : Int) (n : String) (d : List Nat) (L : Int)
    (q : List kernel_msg_t) (i : Nat) (h : (claim_slot now n d L q).1 = some i) :
    ((claim_slot now n d L q).2.filter slot_free).length + 1 = (q.filter slot_free).length := by
  induction q generalizing i with
  | nil => simp [claim_slot] at h
  | cons p rest ih =>
    unfold claim_slot at h ⊢
    cases ho : p.mail.occupied with
    | true =>
      simp only [ho, Bool.not_true, Bool.false_eq_true, if_false, Option.map_eq_some'] at h ⊢
      obtain ⟨i0, hi0, _⟩ := h
      have hp : slot_free p = false := by simp [slot_free, ho]
      simp only [List.filter_cons, hp, Bool.false_eq_true, if_false]
      exact ih i0 hi0
    | false =>
      cases ht : p.mail.token with
      | true =>
        simp only [ho, ht, Bool.not_false, if_true, Option.map_eq_some'] at h ⊢
        obtain ⟨i0, hi0, _⟩ := h
        have hp : slot_free p = false := by simp [slot_free, ho, ht]
        simp only [List.filter_cons, hp, Bool.false_eq_true, if_false]
        exact ih i0 hi0
      | false =>
        have hp : slot_free p = true := by simp [slot_free, ho, ht]
        have hp2 : ∀ x : kernel_msg_t, x.mail.occupied = true → slot_free x = false :=
          fun x hx => by simp [slot_free, hx]
        simp only [ho, ht, Bool.not_false, if_true, Bool.false_eq_true, if_false, mail_set_mail]
        rw [List.filter_cons_of_pos hp, List.filter_cons_of_neg]
        · simp
        · rw [hp2]
          · simp
          · rfl

theorem claim_slot_get (now : Int) (n : String) (d : List Nat) (L : Int)
    (q : List kernel_msg_t) (i : Nat) (h : (claim_slot now n d L q).1 = some i) :
    (∃ p, (claim_slot now n d L q).2.get? i = some p ∧ p.mail.occupied = true)
    ∧ ∀ j, j ≠ i → (claim_slot now n d L q).2.get? j = q.get? j := by
  induction q generalizing i with
  | nil => simp [claim_slot] at h
  | cons p rest ih =>
    unfold claim_slot at h ⊢
    cases ho : p.mail.occupied with
    | true =>
      simp only [ho, Bool.not_true, Bool.false_eq_true, if_false, Option.map_eq_some'] at h ⊢
      obtain ⟨i0, hi0, rfl⟩ := h
      obtain ⟨h1, h2⟩ := ih i0 hi0
      refine ⟨by simpa using h1, ?_⟩
      intro j hj
      cases j with
      | zero => rfl
      | succ j => simpa using h2 j (by omega)
    | false =>
      cases ht : p.mail.token with
      | true =>
        simp only [ho, ht, Bool.not_false, if_true, Option.map_eq_some'] at h ⊢
        obtain ⟨i0, hi0, rfl⟩ := h
        obtain ⟨h1, h2⟩ := ih i0 hi0
        refine ⟨by simpa using h1, ?_⟩
        intro j hj
        cases j with
        | zero => rfl
        | succ j => simpa using h2 j (by omega)
      | false =>
        simp [ho, ht] at h
        subst h
        simp only [ho, ht, Bool.not_false, if_true, Bool.false_eq_true, if_false,
          mail_set_mail]
        refine ⟨⟨_, rfl, rfl⟩, ?_⟩
        intro j hj
        cases j with
        | zero => exact absurd rfl hj
        | succ j => rfl

theorem new_msg_from_isr_fst_none (now : Int) (n : String) (d : List Nat) (L : Int)
    (gs : List kernel_mailbox_group_t) (h : (__new_msg_from_isr now n d L gs).1 = none) :
    (∀ g ∈ gs, g.box_size > to_i32 (L + 1) → ∀ p ∈ g.mailbox_queue, slot_free p = false)
    ∧ __new_msg_from_isr now n d L gs = (none, gs) := by
  have hall : ∀ g ∈ gs, g.box_size > to_i32 (L + 1) → ∀ p ∈ g.mailbox_queue, slot_free p = false := by
    intro g hg hb p hp
    by_contra hf
    have := new_msg_from_isr_isSome now n d L gs ⟨g, hg, hb, p, hp, by simpa using hf⟩
    rw [h] at this
    cases this
  exact ⟨hall, new_msg_from_isr_none now n d L gs hall⟩

theorem new_msg_from_isr_count (now : Int) (n : String) (d : List Nat) (L L0 : Int)
    (gs : List kernel_mailbox_group_t) (hL : L0 + 1 ≤ to_i32 (L + 1)) (gi si : Nat)
    (h : (__new_msg_from_isr now n d L gs).1 = some (gi, si)) :
    free_slots L0 (__new_msg_from_isr now n d L gs).2 + 1 = free_slots L0 gs := by
  induction gs generalizing gi with
  | nil => simp [__new_msg_from_isr] at h
  | cons g gs ih =>
    unfold __new_msg_from_isr at h ⊢
    by_cases hb : g.box_size > to_i32 (L + 1)
    · have hb0 : g.box_size > L0 + 1 := by omega
      cases hc : (claim_slot now n d L g.mailbox_queue).1 with
      | some i =>
        have hc2 : claim_slot now n d L g.mailbox_queue
            = (some i, (claim_slot now n d L g.mailbox_queue).2) := by rw [← hc]
        have hcnt := claim_slot_count now n d L g.mailbox_queue i hc
        rw [if_pos hb, hc2]
        simp only [free_slots, if_pos hb0]
        omega
      | none =>
        have hc2 := claim_slot_fst_none now n d L g.mailbox_queue hc
        rw [if_pos hb, hc2] at h
        simp only [Option.map_eq_some'] at h
        obtain ⟨⟨g1, s1⟩, hi0, hx⟩ := h
        simp only [Prod.mk.injEq] at hx
        obtain ⟨_, rfl⟩ := hx
        have := ih g1 hi0
        rw [if_pos hb, hc2]
        simp only [free_slots, if_pos hb0]
        omega
    · rw [if_neg hb] at h
      simp only [Option.map_eq_some'] at h
      obtain ⟨⟨g1, s1⟩, hi0, hx⟩ := h
      simp only [Prod.mk.injEq] at hx
      obtain ⟨_, rfl⟩ := hx
      have := ih g1 hi0
      rw [if_neg hb]
      simp only [free_slots]
      omega

theorem new_msg_from_isr_slot_at (now : Int) (n : String) (d : List Nat) (L : Int)
    (gs : List kernel_mailbox_group_t) (gi si : Nat)
    (h : (__new_msg_from_isr now n d L gs).1 = some (gi, si)) :
    (∃ p, slot_at gi si (__new_msg_from_isr now n d L gs).2 = some p ∧ p.mail.occupied = true)
    ∧ ∀ gj sj, (gj, sj) ≠ (gi, si) →
        slot_at gj sj (__new_msg_from_isr now n d L gs).2 = slot_at gj sj gs := by
  induction gs generalizing gi with
  | nil => simp [__new_msg_from_isr] at h
  | cons g gs ih =>
    unfold __new_msg_from_isr at h ⊢
    by_cases hb : g.box_size > to_i32 (L + 1)
    · cases hc : (claim_slot now n d L g.mailbox_queue).1 with
      | some i =>
        have hc2 : claim_slot now n d L g.mailbox_queue
            = (some i, (claim_slot now n d L g.mailbox_queue).2) := by rw [← hc]
        rw [if_pos hb, hc2] at h
        simp only [Option.some.injEq, Prod.mk.injEq] at h
        obtain ⟨rfl, rfl⟩ := h
        obtain ⟨h1, h2⟩ := claim_slot_get now n d L g.mailbox_queue i hc
        rw [if_pos hb, hc2]
        refine ⟨by simpa [slot_at] using h1, ?_⟩
        intro gj sj hne
        cases gj with
        | zero =>
          have : sj ≠ i := fun e => hne (by rw [e])
          simpa [slot_at] using h2 sj this
        | succ gj => simp [slot_at]
      | none =>
        have hc2 := claim_slot_fst_none now n d L g.mailbox_queue hc
        rw [if_pos hb, hc2] at h
        simp only [Option.map_eq_some'] at h
        obtain ⟨⟨g1, s1⟩, hi0, hx⟩ := h
        simp only [Prod.mk.injEq] at hx
        obtain ⟨rfl, rfl⟩ := hx
        obtain ⟨h1, h2⟩ := ih g1 hi0
        rw [if_pos hb, hc2]
        refine ⟨by simpa [slot_at] using h1, ?_⟩
        intro gj sj hne
        cases gj with
        | zero => simp [slot_at]
        | succ gj =>
          have : (gj, sj) ≠ (g1, s1) := fun e => hne (by cases e; rfl)
          simpa [slot_at] using h2 gj sj this
    · rw [if_neg hb] at h
      simp only [Option.map_eq_some'] at h
      obtain ⟨⟨g1, s1⟩, hi0, hx⟩ := h
      simp only [Prod.mk.injEq] at hx
      obtain ⟨rfl, rfl⟩ := hx
      obtain ⟨h1, h2⟩ := ih g1 hi0
      rw [if_neg hb]
      refine ⟨by simpa [slot_at] using h1, ?_⟩
      intro gj sj hne
      cases gj with
      | zero => simp [slot_at]
      | succ gj =>
        have : (gj, sj) ≠ (g1, s1) := fun e => hne (by cases e; rfl)
        simpa [slot_at] using h2 gj sj this

theorem new_msg_from_isr_smallest (now : Int) (n : String) (d : List Nat) (L : Int)
    (gs : List kernel_mailbox_group_t) (gi si : Nat)
    (hs : gs.Pairwise (fun a b => a.box_size ≤ b.box_size))
    (h : (__new_msg_from_isr now n d L gs).1 = some (gi, si)) :
    ∀ g, gs.get? gi = some g → ∀ g1 ∈ gs, g1.box_size > to_i32 (L + 1) →
      (∃ p ∈ g1.mailbox_queue, slot_free p = true) → g.box_size ≤ g1.box_size := by
  induction gs generalizing gi with
  | nil => simp [__new_msg_from_isr] at h
  | cons g0 gs ih =>
    rw [List.pairwise_cons] at hs
    unfold __new_msg_from_isr at h
    intro g hg g1 hg1 hb1 hf1
    by_cases hb : g0.box_size > to_i32 (L + 1)
    · cases hc : (claim_slot now n d L g0.mailbox_queue).1 with
      | some i =>
        have hc2 : claim_slot now n d L g0.mailbox_queue
            = (some i, (claim_slot now n d L g0.mailbox_queue).2) := by rw [← hc]
        rw [if_pos hb, hc2] at h
        simp only [Option.some.injEq, Prod.mk.injEq] at h
        obtain ⟨rfl, rfl⟩ := h
        simp at hg
        subst hg
        rcases List.mem_cons.1 hg1 with rfl | hg1
        · exact le_refl _
        · exact hs.1 g1 hg1
      | none =>
        have hc2 := claim_slot_fst_none now n d L g0.mailbox_queue hc
        rw [if_pos hb, hc2] at h
        simp only [Option.map_eq_some'] at h
        obtain ⟨⟨g2, s2⟩, hi0, hx⟩ := h
        simp only [Prod.mk.injEq] at hx
        obtain ⟨rfl, rfl⟩ := hx
        rcases List.mem_cons.1 hg1 with rfl | hg1
        · have := claim_slot_isSome now n d L g1.mailbox_queue hf1
          rw [hc] at this
          cases this
        · exact ih g2 hs.2 hi0 g (by simpa using hg) g1 hg1 hb1 hf1
    · rw [if_neg hb] at h
      simp only [Option.map_eq_some'] at h
      obtain ⟨⟨g2, s2⟩, hi0, hx⟩ := h
      simp only [Prod.mk.injEq] at hx
      obtain ⟨rfl, rfl⟩ := hx
      rcases List.mem_cons.1 hg1 with rfl | hg1
      · exact absurd hb1 hb
      · exact ih g2 hs.2 hi0 g (by simpa using hg) g1 hg1 hb1 hf1

theorem isr_calls_bound (L0 : Int) (calls : List (Int × String × List Nat × Int))
    (gs : List kernel_mailbox_group_t) (hL : ∀ c ∈ calls, L0 + 1 ≤ to_i32 (c.2.2.2 + 1)) :
    (isr_calls calls gs).1 + free_slots L0 (isr_calls calls gs).2 ≤ free_slots L0 gs := by
  induction calls generalizing gs with
  | nil => simp [isr_calls]
  | cons c rest ih =>
    have hc := hL c (List.mem_cons_self _ _)
    have hrest := ih (__new_msg_from_isr c.1 c.2.1 c.2.2.1 c.2.2.2 gs).2
      (fun x hx => hL x (List.mem_cons_of_mem _ hx))
    unfold isr_calls
    dsimp only
    cases hr : (__new_msg_from_isr c.1 c.2.1 c.2.2.1 c.2.2.2 gs).1 with
    | none =>
      have := (new_msg_from_isr_fst_none c.1 c.2.1 c.2.2.1 c.2.2.2 gs hr).2
      rw [this] at hrest ⊢
      simpa using hrest
    | some x =>
      have := new_msg_from_isr_count c.1 c.2.1 c.2.2.1 c.2.2.2 L0 gs hc x.1 x.2 hr
      simp only [Option.isSome_some, if_true]
      omega

/-- C39: a slot is free when neither `occupied` nor `token` is set, and a
payload of length `length >= 0` is one that some group of the pool is able to
hold (capacity greater than `length + 1`, capacities being `int32_t`
values).  When `__new_msg_from_isr` returns a slot for such a payload, it is
the first free slot of the first
group in list order, among those of capacity greater than
`length + 1`, that has a free slot: a group of sufficient capacity that is full
is passed over for the next one, and with the groups in ascending capacity
the group taken is the smallest of sufficient capacity that has a free slot.
The call returns NULL exactly when every group of capacity greater than
`length + 1` is full.  A successful call turns the slot it returns, which was
free, into an occupied one and changes no other slot; so of successive calls
without a drain, with such payloads of lengths of at least `L0`, at most as
many succeed as there were free slots in the groups of capacity greater than
`L0 + 1`. -/
theorem new_msg_from_isr_next_group (now : Int) (n : String) (d : List Nat) (L : Int)
    (gs : List kernel_mailbox_group_t) (hbox : ∀ g ∈ gs, g.box_size < 2 ^ 31) (h0 : 0 ≤ L)
    (hfit : ∃ g ∈ gs, g.box_size > L + 1) :
    (∀ gi si, (__new_msg_from_isr now n d L gs).1 = some (gi, si) →
      ∃ g, gs.get? gi = some g ∧ g.box_size > L + 1
        ∧ (∃ p, g.mailbox_queue.get? si = some p ∧ slot_free p = true)
        ∧ (∀ j, j < si → ∀ p, g.mailbox_queue.get? j = some p → slot_free p = false)
        ∧ (∀ j, j < gi → ∀ g0, gs.get? j = some g0 → g0.box_size > L + 1 →
            ∀ p ∈ g0.mailbox_queue, slot_free p = false)
        ∧ (gs.Pairwise (fun a b => a.box_size ≤ b.box_size) →
            ∀ g1 ∈ gs, g1.box_size > L + 1 → (∃ p ∈ g1.mailbox_queue, slot_free p = true) →
              g.box_size ≤ g1.box_size)
        ∧ (∃ p, slot_at gi si (__new_msg_from_isr now n d L gs).2 = some p
            ∧ p.mail.occupied = true)
        ∧ (∀ gj sj, (gj, sj) ≠ (gi, si) →
            slot_at gj sj (__new_msg_from_isr now n d L gs).2 = slot_at gj sj gs))
    ∧ ((__new_msg_from_isr now n d L gs).1 = none ↔
        ∀ g ∈ gs, g.box_size > L + 1 → ∀ p ∈ g.mailbox_queue, slot_free p = false)
    ∧ (∀ (L0 : Int) (calls : List (Int × String × List Nat × Int)),
        (∀ c ∈ calls, 0 ≤ c.2.2.2 ∧ L0 ≤ c.2.2.2 ∧ ∃ g ∈ gs, g.box_size > c.2.2.2 + 1) →
        (isr_calls calls gs).1 ≤ free_slots L0 gs) := by
  have e : to_i32 (L + 1) = L + 1 := by
    obtain ⟨g, hg, hb⟩ := hfit
    have := hbox g hg
    exact to_i32_id _ (by omega) (by omega)
  have hsome := new_msg_from_isr_some now n d L gs
  have hsmall := new_msg_from_isr_smallest now n d L gs
  have hfst := new_msg_from_isr_fst_none now n d L gs
  have hnone := new_msg_from_isr_none now n d L gs
  rw [e] at hsome hsmall hfst hnone
  refine ⟨?_, ⟨?_, ?_⟩, ?_⟩
  · intro gi si h
    obtain ⟨g, e1, e2, e3, e4, e5⟩ := hsome gi si h
    obtain ⟨f1, f2⟩ := new_msg_from_isr_slot_at now n d L gs gi si h
    exact ⟨g, e1, e2, e3, e4, e5, fun hs => hsmall gi si hs h g e1, f1, f2⟩
  · intro h
    exact (hfst h).1
  · intro h
    rw [hnone h]
  · intro L0 calls hc
    have := isr_calls_bound L0 calls gs (by
      intro c hcm
      obtain ⟨c0, c1, g, hg, hb⟩ := hc c hcm
      have := hbox g hg
      rw [to_i32_id _ (by omega) (by omega)]
      omega)
    omega

/-- Witness of C39 on the spec's pool (four slots of capacity 8, two of
capacity 64): of seven 6-byte messages in a row the first four take the
8-byte group, the fifth the first slot of the 64-byte group, and six succeed
in all, as many as there were free slots. -/
theorem new_msg_from_isr_next_group_witness :
    (∀ g ∈ pool_8_64, g.box_size < 2 ^ 31)
    ∧ (∃ g ∈ pool_8_64, g.box_size > 6 + 1)
    ∧ (__new_msg_from_isr 0 "n" (List.replicate 6 0) 6
        (isr_calls (List.replicate 4 (0, "n", List.replicate 6 0, 6)) pool_8_64).2).1 = some (1, 0)
    ∧ free_slots 6 pool_8_64 = 6
    ∧ (isr_calls (List.replicate 7 (0, "n", List.replicate 6 0, 6)) pool_8_64).1 = 6
    ∧ (isr_calls (List.replicate 7 (0, "n", List.replicate 6 0, 6)) pool_8_64).1
        ≤ free_slots 6 pool_8_64 :=
  ⟨by decide, by decide, by decide, by decide, by decide,
   (new_msg_from_isr_next_group 0 "n" (List.replicate 6 0) 6 pool_8_64 (by decide) (by decide)
      (by decide)).2.2 6
     (List.replicate 7 (0, "n", List.replicate 6 0, 6)) (by decide)⟩

/-! ### Messages of equal age -/

theorem select_loop_first (tock : Int → Int) (q : List kernel_msg_t) (i : Nat) (mx : Int)
    (m : Nat) :
    (select_loop tock q i mx m = m ∧ ∀ p ∈ q, tock p.time_stamp ≤ mx) ∨
    (∃ j x, select_loop tock q i mx m = i + j ∧ q.get? j = some x ∧ mx < tock x.time_stamp ∧
      (∀ p ∈ q, tock p.time_stamp ≤ tock x.time_stamp) ∧
      ∀ k, k < j → ∀ y, q.get? k = some y → tock y.time_stamp < tock x.time_stamp) := by
  induction q generalizing i mx m with
  | nil => left; simp [select_loop]
  | cons p rest ih =>
    unfold select_loop
    by_cases hp : tock p.time_stamp > mx
    · rw [if_pos hp]
      rcases ih (i + 1) (tock p.time_stamp) i with ⟨h1, h2⟩ | ⟨j, x, h1, h2, h3, h4, h5⟩
      · right
        refine ⟨0, p, by simpa using h1, by simp, hp, ?_, fun k hk => absurd hk (by omega)⟩
        intro y hy
        rcases List.mem_cons.1 hy with rfl | hy
        · exact le_refl _
        · exact h2 y hy
      · right
        refine ⟨j + 1, x, by rw [h1]; omega, by simpa using h2, by omega, ?_, ?_⟩
        · intro y hy
          rcases List.mem_cons.1 hy with rfl | hy
          · omega
          · exact h4 y hy
        · intro k hk y hy
          cases k with
          | zero => simp at hy; subst hy; exact h3
          | succ k => exact h5 k (by omega) y (by simpa using hy)
    · rw [if_neg hp]
      rcases ih (i + 1) mx m with ⟨h1, h2⟩ | ⟨j, x, h1, h2, h3, h4, h5⟩
      · left
        refine ⟨h1, ?_⟩
        intro y hy
        rcases List.mem_cons.1 hy with rfl | hy
        · omega
        · exact h2 y hy
      · right
        refine ⟨j + 1, x, by rw [h1]; omega, by simpa using h2, h3, ?_, ?_⟩
        · intro y hy
          rcases List.mem_cons.1 hy with rfl | hy
          · omega
          · exact h4 y hy
        · intro k hk y hy
          cases k with
          | zero => simp at hy; subst hy; omega
          | succ k => exact h5 k (by omega) y (by simpa using hy)

theorem select_msg_first (tock : Int → Int) (q : List kernel_msg_t) (hq : q ≠ []) :
    ∃ m, q.get? (select_msg tock q) = some m ∧
      ((∃ p ∈ q, 0 < tock p.time_stamp) →
        (∀ p ∈ q, tock p.time_stamp ≤ tock m.time_stamp)
        ∧ ∀ k, k < select_msg tock q → ∀ y, q.get? k = some y →
            tock y.time_stamp < tock m.time_stamp) ∧
      ((∀ p ∈ q, tock p.time_stamp ≤ 0) → select_msg tock q = 0) := by
  unfold select_msg
  rcases select_loop_first tock q 0 0 0 with ⟨h1, h2⟩ | ⟨j, x, h1, h2, h3, h4, h5⟩
  · cases q with
    | nil => exact absurd rfl hq
    | cons a rest =>
      refine ⟨a, by rw [h1]; rfl, ?_, fun _ => h1⟩
      rintro ⟨p, hp, hpos⟩
      have := h2 p hp
      omega
  · refine ⟨x, by rw [h1]; simpa using h2, fun _ => ⟨h4, ?_⟩, ?_⟩
    · intro k hk y hy
      rw [h1] at hk
      exact h5 k (by omega) y hy
    · intro hall
      obtain hx := hall x (List.get?_mem h2)
      omega

theorem select_msg_not_later (tock : Int → Int) (q : List kernel_msg_t) (i j : Nat)
    (x y : kernel_msg_t) (hij : i < j) (hx : q.get? i = some x) (hy : q.get? j = some y)
    (he : tock x.time_stamp = tock y.time_stamp) : select_msg tock q ≠ j := by
  intro hs
  have hq : q ≠ [] := by
    intro e
    rw [e] at hx
    cases hx
  obtain ⟨m, h1, h2, h3⟩ := select_msg_first tock q hq
  rw [hs, hy] at h1
  cases h1
  by_cases hpos : ∃ p ∈ q, 0 < tock p.time_stamp
  · have := (h2 hpos).2 i (by rw [hs]; exact hij) x hx
    omega
  · have hall : ∀ p ∈ q, tock p.time_stamp ≤ 0 := by
      intro p hp
      by_contra hc
      exact hpos ⟨p, hp, by omega⟩
    have := h3 hall
    omega

theorem delivery_order_equal_stamps (tocks : List (Int → Int)) (q : List kernel_msg_t)
    (ts : Int) (hq : ∀ p ∈ q, p.time_stamp = ts) :
    delivery_order tocks q = q.take tocks.length := by
  induction tocks generalizing q with
  | nil => simp [delivery_order]
  | cons tock rest ih =>
    cases q with
    | nil => simp [delivery_order]
    | cons a l =>
      have hs : select_msg tock (a :: l) = 0 := by
        by_contra hne
        obtain ⟨m, h1, _, _⟩ := select_msg_first tock (a :: l) (by simp)
        have hm : m ∈ a :: l := List.get?_mem h1
        apply select_msg_not_later tock (a :: l) 0 (select_msg tock (a :: l)) a m
          (by omega) rfl h1 _ rfl
        rw [hq a (List.mem_cons_self _ _), hq m hm]
      unfold delivery_order
      rw [hs]
      simp only [List.get?_cons_zero, List.length_cons, List.take_succ_cons]
      rw [unmount_zero]
      simp only [List.tail_cons]
      rw [ih l (fun p hp => hq p (List.mem_cons_of_mem _ hp))]

/-- C40 (counterexample): the clock reads 1000 and the queue holds "a" stamped
1005 ahead of "b" and "c", both stamped 1001; "b" and "c" share the maximal
elapsed time, -1, and the scheduler delivers "a", whose elapsed time is -5. -/
theorem dispatch_delivers_head_before_tied_messages :
    (dispatch_task pwr_always_on (example_env 10) 10 7
        (example_task TASK_IDLE [plain_msg "a" 1005, plain_msg "b" 1001, plain_msg "c" 1001]
          TASK_IDLE 0) ()).2.2
      = [.callback 7 (plain_msg "a" 1005) TASK_IDLE, .delete_msg 7 (plain_msg "a" 1005)]
    ∧ (example_env 10).tock_us (plain_msg "b" 1001).time_stamp
        = (example_env 10).tock_us (plain_msg "c" 1001).time_stamp
    ∧ (∀ p ∈ [plain_msg "a" 1005, plain_msg "b" 1001, plain_msg "c" 1001],
        (example_env 10).tock_us p.time_stamp
          ≤ (example_env 10).tock_us (plain_msg "b" 1001).time_stamp)
    ∧ (example_env 10).tock_us (plain_msg "a" 1005).time_stamp
        < (example_env 10).tock_us (plain_msg "b" 1001).time_stamp := by
  refine ⟨rfl, ?_, ?_, ?_⟩ <;> decide

/-- C40 (amended): for a task that is eligible for delivery, the dispatch step
hands the callback the message at the position `select_msg` gives.  When some
message has a positive elapsed time, that message has the maximal elapsed time
and every message nearer the head has a strictly smaller one, so of several
messages that share the maximal elapsed time the one nearest the head is
delivered.  Whatever the elapsed times are, of two messages with the same
time stamp the one further from the head is never delivered while the other
is in the queue, and the queue after the step is the queue before it without
the delivered message, in the same order; so a queue of messages with one time
stamp is delivered, pass after pass, in the order of the queue. -/
theorem dispatch_breaks_ties_by_position {σ : Type} (P : pwr_mgr σ) (env : sched_env)
    (delta_ms : Int) (a : Nat) (t : kernel_task_t) (s : σ)
    (cb : CStr → msg_t → Nat → task_state) (hc : t.callback = some cb)
    (hck : ∀ s, (P.pwr_mgr_check s t.pm).1 ≠ .POWER_DIACTIVATING)
    (hp : t.task_paused = false) (hs : t.task_suspended = false) (hq : t.msg_queue ≠ [])
    (hpw : t.pm = none ∨ ((∀ s, (P.pwr_mgr_check_power_failure s t.pm).1 = false) ∧
      ∀ s, (P.pwr_mgr_activate s t.pm).1 = true)) :
    ∃ m, t.msg_queue.get? (select_msg env.tock_us t.msg_queue) = some m
      ∧ (dispatch_task P env delta_ms a t s).2.2.filter (is_callback_of a)
          = [.callback a m (cb t.task_name m.msg t.arg)]
      ∧ ((∃ p ∈ t.msg_queue, 0 < env.tock_us p.time_stamp) →
          (∀ p ∈ t.msg_queue, env.tock_us p.time_stamp ≤ env.tock_us m.time_stamp)
          ∧ ∀ k, k < select_msg env.tock_us t.msg_queue → ∀ y, t.msg_queue.get? k = some y →
              env.tock_us y.time_stamp < env.tock_us m.time_stamp)
      ∧ (∀ i j x y, i < j → t.msg_queue.get? i = some x → t.msg_queue.get? j = some y →
          x.time_stamp = y.time_stamp → select_msg env.tock_us t.msg_queue ≠ j)
      ∧ (∀ t1, (dispatch_task P env delta_ms a t s).1 = some t1 →
          t1.msg_queue = UNMOUNT t.msg_queue (select_msg env.tock_us t.msg_queue))
      ∧ (∀ (tocks : List (Int → Int)) (q : List kernel_msg_t) (ts : Int),
          (∀ p ∈ q, p.time_stamp = ts) → delivery_order tocks q = q.take tocks.length) := by
  obtain ⟨m, h1, h2, _⟩ := select_msg_first env.tock_us t.msg_queue hq
  obtain ⟨s1, hd⟩ := dispatch_eligible P env delta_ms a t s hck hp hs hq hpw
  refine ⟨m, h1, ?_, h2, ?_, ?_, ?_⟩
  · rw [hd]
    exact deliver_callbacks P env a t s1 m cb h1 hc
  · intro i j x y hij hx hy he
    exact select_msg_not_later env.tock_us t.msg_queue i j x y hij hx hy (by rw [he])
  · intro t1 ht1
    rw [hd, reap_fst] at ht1
    have hdq : (deliver P env a t s1).1.msg_queue
        = UNMOUNT t.msg_queue (select_msg env.tock_us t.msg_queue) := by
      rw [deliver_eq P env a t s1 m cb h1 hc]
      exact (after_drop_frame P a _ s1).1
    by_cases hdel : (deliver P env a t s1).1.task_deleted = true
    · rw [if_pos hdel] at ht1
      cases ht1
    · rw [if_neg hdel] at ht1
      cases ht1
      exact hdq
  · intro tocks q ts hq2
    exact delivery_order_equal_stamps tocks q ts hq2

/-- Witness of C40 (amended): "a", "b" and "c" all stamped 100 are delivered in
the order "a", "b", "c" over three passes, and the first pass delivers "a". -/
theorem dispatch_breaks_ties_by_position_witness :
    delivery_order [fun ts => 1000 - ts, fun ts => 2000 - ts, fun ts => 3000 - ts]
        [plain_msg "a" 100, plain_msg "b" 100, plain_msg "c" 100]
      = [plain_msg "a" 100, plain_msg "b" 100, plain_msg "c" 100]
    ∧ ∃ m, [plain_msg "a" 100, plain_msg "b" 100, plain_msg "c" 100].get?
          (select_msg (example_env 10).tock_us
            [plain_msg "a" 100, plain_msg "b" 100, plain_msg "c" 100]) = some m
        ∧ (dispatch_task pwr_always_on (example_env 10) 10 7
            (example_task TASK_IDLE [plain_msg "a" 100, plain_msg "b" 100, plain_msg "c" 100]
              TASK_IDLE 0) ()).2.2.filter (is_callback_of 7)
          = [.callback 7 m TASK_IDLE] := by
  obtain ⟨m, h1, h2, _, _, _, h6⟩ := dispatch_breaks_ties_by_position pwr_always_on
    (example_env 10) 10 7
    (example_task TASK_IDLE [plain_msg "a" 100, plain_msg "b" 100, plain_msg "c" 100]
      TASK_IDLE 0) () (fun _ _ _ => TASK_IDLE) rfl (fun _ h => by cases h) rfl rfl (by decide)
    (Or.inl rfl)
  exact ⟨h6 _ _ 100 (by decide), m, h1, h2⟩

/-! ### The synchronisation requests of the unsync timer -/

theorem is_mcu_exist_cons_eq (src : String) (mcu : MCUs_t) (rest : List MCUs_t)
    (h : mcu.core = src) : is_mcu_exist src (mcu :: rest) = some mcu := by
  simp [is_mcu_exist, List.find?_cons, h]

theorem is_mcu_exist_cons_ne (src : String) (mcu : MCUs_t) (rest : List MCUs_t)
    (h : ¬ mcu.core = src) : is_mcu_exist src (mcu :: rest) = is_mcu_exist src rest := by
  simp [is_mcu_exist, List.find?_cons, h]

theorem router_request (tunnels : Nat → comm_tunnel_t) (L : extra_layout)
    (strlen_js : mmap_sync_req → Nat) (h : x_heap) (src dst : String) (q : List MCUs_t)
    (m0 : MCUs_t) (t0 : Nat) (hm : is_mcu_exist src q = some m0) (ht : m0.tunnel.head? = some t0) :
    ∃ r, kernel_router_json tunnels L strlen_js h (some src) (some ⟨src, dst⟩) none 0 none q
        = some r ∧ r.2.1.length ≤ 1
      ∧ (no_alloc_failure h →
          r.2.1 = [.send (tunnels t0).send_proc t0 ⟨⟨src, dst⟩, none⟩ (strlen_js ⟨src, dst⟩ + 1)]
          ∧ no_alloc_failure r.2.2) := by
  have hraw : kernel_router_raw tunnels (some src) (some (⟨⟨src, dst⟩, none⟩ : wire mmap_sync_req))
      (strlen_js ⟨src, dst⟩ + 1) none q
      = some (true, [.send (tunnels t0).send_proc t0 ⟨⟨src, dst⟩, none⟩
          (strlen_js ⟨src, dst⟩ + 1)]) := by
    unfold kernel_router_raw
    dsimp only
    rw [if_neg (by omega), router_raw_loop_some tunnels src _ _ none q m0 hm, ht]
    simp
  unfold kernel_router_json
  dsimp only
  cases hc : cJSON_Create h with
  | mk b h1 =>
    cases b with
    | false =>
      refine ⟨_, rfl, by simp, ?_⟩
      intro hh
      obtain ⟨h2, e, _⟩ := cJSON_Create_ok h hh
      rw [hc] at e
      cases e
    | true =>
      dsimp only
      rw [hraw]
      refine ⟨_, rfl, by simp, ?_⟩
      intro hh
      obtain ⟨h2, e, e2⟩ := cJSON_Create_ok h hh
      rw [hc] at e
      cases e
      exact ⟨rfl, e2⟩

theorem mmap_request_loop_total (tunnels : Nat → comm_tunnel_t) (L : extra_layout)
    (strlen_js : mmap_sync_req → Nat) (src dst : String) (q q1 : List MCUs_t) (h : x_heap)
    (hinv : is_mcu_exist src q1 = is_mcu_exist src q
      ∨ ∃ m0 t0, is_mcu_exist src q = some m0 ∧ m0.tunnel.head? = some t0) :
    ∃ r, mmap_request_loop tunnels L strlen_js src dst none q q1 h = some r
      ∧ r.2.1.length ≤ 1 := by
  induction q1 generalizing h with
  | nil => exact ⟨_, rfl, by simp⟩
  | cons mcu rest ih =>
    unfold mmap_request_loop
    by_cases hc : mcu.core = src
    · rw [if_pos hc]
      cases ht : mcu.tunnel.head? with
      | none => exact ⟨_, by rw [if_pos rfl], by simp⟩
      | some t =>
        rw [if_neg (by simp)]
        dsimp only
        have hfirst : ∃ m0 t0, is_mcu_exist src q = some m0 ∧ m0.tunnel.head? = some t0 := by
          rcases hinv with e | e
          · rw [is_mcu_exist_cons_eq src mcu rest hc] at e
            exact ⟨mcu, t, e.symm, ht⟩
          · exact e
        by_cases hp : ((tunnels t).passive_tunnel && !(tunnels t).tunnel_enabled) = true
        · rw [if_pos hp]
          exact ⟨_, rfl, by simp⟩
        · rw [if_neg hp]
          cases hj : cJSON_Create h with
          | mk b h1 =>
            cases b with
            | false => exact ih h1 (Or.inr hfirst)
            | true =>
              dsimp only
              cases hj2 : cJSON_Create h1 with
              | mk b2 h2 =>
                cases b2 with
                | false => exact ⟨_, rfl, by simp⟩
                | true =>
                  dsimp only
                  obtain ⟨m0, t0, e1, e2⟩ := hfirst
                  obtain ⟨r, r1, r2, _⟩ := router_request tunnels L strlen_js h2 src dst q m0 t0
                    e1 e2
                  rw [hc]
                  exact ⟨r, r1, r2⟩
    · rw [if_neg hc]
      apply ih
      rcases hinv with e | e
      · left
        rw [← e, is_mcu_exist_cons_ne src mcu rest hc]
      · exact Or.inr e

theorem mmap_request_loop_ok (tunnels : Nat → comm_tunnel_t) (L : extra_layout)
    (strlen_js : mmap_sync_req → Nat) (src dst : String) (q q1 : List MCUs_t) (h : x_heap)
    (hinv : is_mcu_exist src q1 = is_mcu_exist src q) (hh : no_alloc_failure h) :
    ∃ r, mmap_request_loop tunnels L strlen_js src dst none q q1 h = some r
      ∧ r.2.1 = route_of tunnels strlen_js src dst (is_mcu_exist src q)
      ∧ no_alloc_failure r.2.2 := by
  induction q1 with
  | nil =>
    refine ⟨_, rfl, ?_, hh⟩
    rw [← hinv]
    rfl
  | cons mcu rest ih =>
    unfold mmap_request_loop
    by_cases hc : mcu.core = src
    · rw [if_pos hc]
      rw [is_mcu_exist_cons_eq src mcu rest hc] at hinv
      rw [← hinv]
      cases ht : mcu.tunnel.head? with
      | none =>
        refine ⟨_, by rw [if_pos rfl], ?_, hh⟩
        simp [route_of, ht]
      | some t =>
        rw [if_neg (by simp)]
        dsimp only
        by_cases hp : ((tunnels t).passive_tunnel && !(tunnels t).tunnel_enabled) = true
        · rw [if_pos hp]
          refine ⟨_, rfl, ?_, hh⟩
          simp only [route_of, ht]
          rw [if_pos hp]
        · rw [if_neg hp]
          obtain ⟨h1, e1, hh1⟩ := cJSON_Create_ok h hh
          obtain ⟨h2, e2, hh2⟩ := cJSON_Create_ok h1 hh1
          rw [e1]
          dsimp only
          rw [e2]
          dsimp only
          obtain ⟨r, r1, _, r3⟩ := router_request tunnels L strlen_js h2 src dst q mcu t
            hinv.symm ht
          rw [hc]
          refine ⟨r, r1, ?_, (r3 hh2).2⟩
          rw [(r3 hh2).1]
          simp only [route_of, ht]
          rw [if_neg hp]
    · rw [if_neg hc]
      apply ih
      rw [← hinv, is_mcu_exist_cons_ne src mcu rest hc]

theorem kernel_mmap_request_spec (tunnels : Nat → comm_tunnel_t) (L : extra_layout)
    (strlen_js : mmap_sync_req → Nat) (h : x_heap) (q : List MCUs_t) (src : String) :
    ∃ r, kernel_mmap_request tunnels L strlen_js h q (some src) (get_my_core_name q) none = some r
      ∧ r.2.1.length ≤ 1
      ∧ (no_alloc_failure h →
          r.2.1 = request_route tunnels strlen_js q src ∧ no_alloc_failure r.2.2) := by
  unfold kernel_mmap_request request_route
  cases hn : get_my_core_name q with
  | none => exact ⟨_, rfl, by simp, fun hh => ⟨rfl, hh⟩⟩
  | some dst =>
    dsimp only
    obtain ⟨r, r1, r2⟩ := mmap_request_loop_total tunnels L strlen_js src dst q q h (Or.inl rfl)
    refine ⟨r, r1, r2, ?_⟩
    intro hh
    obtain ⟨r0, s1, s2, s3⟩ := mmap_request_loop_ok tunnels L strlen_js src dst q q h rfl hh
    rw [r1] at s1
    cases s1
    exact ⟨s2, s3⟩

theorem request_route_update (tunnels : Nat → comm_tunnel_t) (strlen_js : mmap_sync_req → Nat)
    (q : List MCUs_t) (n x : String) :
    request_route tunnels strlen_js
        (update_mcu n (fun m => { m with mmap_req_sent := true }) q) x
      = request_route tunnels strlen_js q x := by
  unfold request_route
  rw [get_my_core_name_update n (fun m => { m with mmap_req_sent := true }) q
      (fun _ => rfl) (fun _ => rfl),
    is_mcu_exist_update n x (fun m => { m with mmap_req_sent := true }) q (fun _ => rfl)]
  by_cases hx : x = n
  · subst hx
    rw [if_pos rfl]
    cases is_mcu_exist x q <;> rfl
  · rw [if_neg hx]

theorem unsync_walk_spec (tunnels : Nat → comm_tunnel_t) (L : extra_layout)
    (strlen_js : mmap_sync_req → Nat) (regions : List kernel_mmap_t) (q : List MCUs_t)
    (h : x_heap) :
    ∃ r, unsync_walk tunnels L strlen_js regions q h = some r
      ∧ r.2.2.1 = (first_occurrences (request_due q) (unsynced_peers regions)).map
          (fun n => .mmap_request (some n) (get_my_core_name q))
      ∧ r.2.2.2.length ≤ r.2.2.1.length
      ∧ (no_alloc_failure h →
          r.2.2.2 = ((first_occurrences (request_due q) (unsynced_peers regions)).map
              (request_route tunnels strlen_js q)).flatten
          ∧ no_alloc_failure r.2.1) := by
  induction regions generalizing q h with
  | nil => exact ⟨_, rfl, rfl, by simp, fun hh => ⟨rfl, hh⟩⟩
  | cons p rest ih =>
    unfold unsync_walk
    by_cases hs : p.sync_already = true
    · have e : unsynced_peers (p :: rest) = unsynced_peers rest := by
        simp [unsynced_peers, hs]
      simp only [hs, Bool.not_true, Bool.false_eq_true, if_false]
      rw [e]
      exact ih q h
    · have hs2 : p.sync_already = false := by simpa using hs
      simp only [hs2, Bool.not_false, if_true]
      cases hc : p.core with
      | none =>
        have e : unsynced_peers (p :: rest) = unsynced_peers rest := by
          simp [unsynced_peers, hs2, hc]
        rw [e]
        exact ih q h
      | some n =>
        have e : unsynced_peers (p :: rest) = n :: unsynced_peers rest := by
          simp [unsynced_peers, hs2, hc]
        rw [e]
        dsimp only
        cases hm : is_mcu_exist n q with
        | none =>
          have hd : request_due q n = false := by simp [request_due, hm]
          simp only [first_occurrences, hd, Bool.false_eq_true, if_false]
          exact ih q h
        | some mcu =>
          dsimp only
          by_cases hf : mcu.mmap_req_sent = true
          · have hd : request_due q n = false := by simp [request_due, hm, hf]
            simp only [hf, Bool.not_true, Bool.false_eq_true, if_false, first_occurrences, hd]
            exact ih q h
          · have hf2 : mcu.mmap_req_sent = false := by simpa using hf
            have hd : request_due q n = true := by simp [request_due, hm, hf2]
            simp only [hf2, Bool.not_false, if_true, first_occurrences, hd, List.map_cons,
              List.flatten_cons]
            obtain ⟨o, o1, o2, o3⟩ := kernel_mmap_request_spec tunnels L strlen_js h q n
            rw [o1]
            dsimp only
            obtain ⟨r, r1, r2, r3, r4⟩ := ih
              (update_mcu n (fun m => { m with mmap_req_sent := true }) q) o.2.2
            rw [r1]
            dsimp only
            have hfo : first_occurrences
                (request_due (update_mcu n (fun m => { m with mmap_req_sent := true }) q))
                (unsynced_peers rest)
                = first_occurrences (fun m => request_due q m && m != n) (unsynced_peers rest) := by
              apply first_occurrences_congr
              intro x
              unfold request_due
              rw [is_mcu_exist_update n x (fun m => { m with mmap_req_sent := true }) q
                (fun _ => rfl)]
              by_cases hx : x = n
              · subst hx
                simp [hm]
              · simp [hx]
            rw [hfo, get_my_core_name_update n (fun m => { m with mmap_req_sent := true }) q
              (fun _ => rfl) (fun _ => rfl)] at r2
            rw [hfo] at r4
            refine ⟨_, rfl, ?_, ?_, ?_⟩
            · rw [r2]
            · simp only [List.length_append, List.length_cons]
              omega
            · intro hh
              obtain ⟨o4, o5⟩ := o3 hh
              obtain ⟨r5, r6⟩ := r4 o5
              refine ⟨?_, r6⟩
              rw [o4, r5]
              have hmap : List.map (request_route tunnels strlen_js
                    (update_mcu n (fun m => { m with mmap_req_sent := true }) q))
                  (first_occurrences (fun m => request_due q m && m != n) (unsynced_peers rest))
                  = List.map (request_route tunnels strlen_js q)
                    (first_occurrences (fun m => request_due q m && m != n)
                      (unsynced_peers rest)) := by
                apply List.map_congr_left
                intro x _
                exact request_route_update tunnels strlen_js q n x
              rw [hmap]

theorem request_route_cleared (tunnels : Nat → comm_tunnel_t) (strlen_js : mmap_sync_req → Nat)
    (q : List MCUs_t) (x : String) :
    request_route tunnels strlen_js (q.map (fun m => { m with mmap_req_sent := false })) x
      = request_route tunnels strlen_js q x := by
  have hn : get_my_core_name (q.map (fun m => { m with mmap_req_sent := false }))
      = get_my_core_name q := by
    unfold get_my_core_name
    rw [List.find?_map]
    have : ((fun p : MCUs_t => p.is_local) ∘ fun m : MCUs_t => { m with mmap_req_sent := false })
        = fun p : MCUs_t => p.is_local := rfl
    rw [this]
    cases List.find? (fun p : MCUs_t => p.is_local) q <;> rfl
  have hm : is_mcu_exist x (q.map (fun m => { m with mmap_req_sent := false }))
      = (is_mcu_exist x q).map (fun m => { m with mmap_req_sent := false }) := by
    unfold is_mcu_exist
    rw [List.find?_map]
    rfl
  unfold request_route
  rw [hn, hm]
  cases is_mcu_exist x q <;> rfl

theorem flatten_length_of_singletons {α β : Type} (f : α → List β) (l : List α)
    (h : ∀ x ∈ l, (f x).length = 1) : (l.map f).flatten.length = l.length := by
  induction l with
  | nil => rfl
  | cons a rest ih =>
    rw [List.map_cons, List.flatten_cons, List.length_append, List.length_cons,
      h a (List.mem_cons_self _ _), ih (fun x hx => h x (List.mem_cons_of_mem _ hx))]
    omega

/-- C28 (counterexample): the known core "peer" has two from-regions that are
not synchronised yet, its tunnel is passive and not enabled, and the timer
(300 ms) has elapsed.  `kernel_mmap_check_unsync_core(0)` calls `kernel_mmap_request`
once, for "peer", and this call returns at the test of the tunnel without
sending: no request is issued, while one known source peer has a region that
is not synchronised. -/
theorem check_unsync_sends_nothing_on_passive_tunnel :
    (kernel_mmap_check_unsync_core passive_tunnels example_layout (fun _ => 40) 0
        (fun _ => 301) 0 unsync_example ⟨[]⟩).map (fun r => (r.2.2.2.1, r.2.2.2.2))
      = some ([.mmap_request (some "peer") (some "me")], [])
    ∧ (((unsynced_peers unsync_example.kernel_mmap_from_queue).filter
          (known_core unsync_example.kernel_mcu_queue)).dedup).length = 1 := by
  constructor
  · rfl
  · decide

/-- C28 (amended): when `kernel_mmap_check_unsync_core(0)` fires (the timer is
armed and `tock(t0)` exceeds the timeout), the call returns and the calls of
`kernel_mmap_request` it makes are one per known core that is the source of a
from-region not synchronised yet, each such core once, in the order of their
first region, all with the local core as destination; their number is the
number of distinct such cores.  The requests issued are never more than these
calls; when no allocation fails each call issues the one frame `request_route`
gives: a request on the tunnel of the core, and none when the local core has
no name, the tunnel is NULL, or the tunnel is passive and not enabled; so the
number of requests issued is the number of distinct such cores when every one
of them has such a frame.  The timer is disarmed (-1) afterwards.  When the
timer is not armed, or the time has not passed, the call makes no request and
changes no state. -/
theorem check_unsync_requests_once_per_peer (tunnels : Nat → comm_tunnel_t)
    (L : extra_layout) (strlen_js : mmap_sync_req → Nat) (tick : Int) (tock : Int → Int)
    (c : sync_state) (h : x_heap) :
    (c.mmap_check_unsync_timeout ≠ -1 ∧ tock c.t0 > c.mmap_check_unsync_timeout →
      ∃ r, kernel_mmap_check_unsync_core tunnels L strlen_js tick tock 0 c h = some r
        ∧ r.2.2.2.1
          = (first_occurrences (known_core c.kernel_mcu_queue)
              (unsynced_peers c.kernel_mmap_from_queue)).map
              (fun n => .mmap_request (some n) (get_my_core_name c.kernel_mcu_queue))
        ∧ (first_occurrences (known_core c.kernel_mcu_queue)
              (unsynced_peers c.kernel_mmap_from_queue)).Nodup
        ∧ r.2.2.2.1.length
          = (((unsynced_peers c.kernel_mmap_from_queue).filter
              (known_core c.kernel_mcu_queue)).dedup).length
        ∧ r.2.2.2.2.length ≤ r.2.2.2.1.length
        ∧ (no_alloc_failure h →
            r.2.2.2.2
              = ((first_occurrences (known_core c.kernel_mcu_queue)
                  (unsynced_peers c.kernel_mmap_from_queue)).map
                  (request_route tunnels strlen_js c.kernel_mcu_queue)).flatten
            ∧ ((∀ n ∈ unsynced_peers c.kernel_mmap_from_queue,
                  known_core c.kernel_mcu_queue n = true →
                  (request_route tunnels strlen_js c.kernel_mcu_queue n).length = 1) →
                r.2.2.2.2.length
                  = (((unsynced_peers c.kernel_mmap_from_queue).filter
                      (known_core c.kernel_mcu_queue)).dedup).length))
        ∧ r.2.1.mmap_check_unsync_timeout = -1)
    ∧ (¬ (c.mmap_check_unsync_timeout ≠ -1 ∧ tock c.t0 > c.mmap_check_unsync_timeout) →
      kernel_mmap_check_unsync_core tunnels L strlen_js tick tock 0 c h
        = some (true, c, h, [], [])) := by
  have h0 : ¬ ((0 : Int) > 0) := by decide
  constructor
  · intro hf
    obtain ⟨w, w1, w2, w3, w4⟩ := unsync_walk_spec tunnels L strlen_js c.kernel_mmap_from_queue
      (c.kernel_mcu_queue.map (fun m => { m with mmap_req_sent := false })) h
    have hres : kernel_mmap_check_unsync_core tunnels L strlen_js tick tock 0 c h
        = some (true, { c with mmap_check_unsync_timeout := -1, kernel_mcu_queue := w.1 }, w.2.1,
            w.2.2.1, w.2.2.2) := by
      unfold kernel_mmap_check_unsync_core
      simp only [h0, if_false]
      rw [if_pos hf, w1]
    have hn : get_my_core_name (c.kernel_mcu_queue.map (fun m => { m with mmap_req_sent := false }))
        = get_my_core_name c.kernel_mcu_queue := by
      unfold get_my_core_name
      rw [List.find?_map]
      have : ((fun p : MCUs_t => p.is_local) ∘ fun m : MCUs_t => { m with mmap_req_sent := false })
          = fun p : MCUs_t => p.is_local := rfl
      rw [this]
      cases List.find? (fun p : MCUs_t => p.is_local) c.kernel_mcu_queue <;> rfl
    have hfo := first_occurrences_congr _ _ (unsynced_peers c.kernel_mmap_from_queue)
      (request_due_cleared c.kernel_mcu_queue)
    rw [hn, hfo] at w2
    rw [hfo] at w4
    have hlen : w.2.2.1.length
        = (((unsynced_peers c.kernel_mmap_from_queue).filter
            (known_core c.kernel_mcu_queue)).dedup).length := by
      rw [w2, List.length_map, first_occurrences_length]
    have hroute : List.map (request_route tunnels strlen_js
          (c.kernel_mcu_queue.map (fun m => { m with mmap_req_sent := false })))
        (first_occurrences (known_core c.kernel_mcu_queue)
          (unsynced_peers c.kernel_mmap_from_queue))
        = List.map (request_route tunnels strlen_js c.kernel_mcu_queue)
          (first_occurrences (known_core c.kernel_mcu_queue)
            (unsynced_peers c.kernel_mmap_from_queue)) := by
      apply List.map_congr_left
      intro x _
      exact request_route_cleared tunnels strlen_js c.kernel_mcu_queue x
    rw [hroute] at w4
    refine ⟨_, hres, w2, (first_occurrences_spec _ _).1, hlen, w3, ?_, rfl⟩
    intro hh
    refine ⟨(w4 hh).1, ?_⟩
    intro hall
    show w.2.2.2.length = _
    rw [(w4 hh).1, flatten_length_of_singletons, first_occurrences_length]
    intro x hx
    have := ((first_occurrences_spec _ _).2 x).1 hx
    exact hall x this.1 this.2
  · intro hf
    unfold kernel_mmap_check_unsync_core
    simp only [h0, if_false]
    rw [if_neg hf]

/-- Witness of C28: two unsynchronised regions of the known core "peer" and one
of an unknown core, 301 ms after the timer was armed at 300 ms, all tunnels
active: one call, one request on tunnel 1. -/
theorem check_unsync_requests_once_per_peer_witness :
    ∃ r, kernel_mmap_check_unsync_core active_tunnels example_layout (fun _ => 40) 0
          (fun _ => 301) 0 unsync_example ⟨[]⟩ = some r
      ∧ r.2.2.2.1 = [.mmap_request (some "peer") (some "me")]
      ∧ r.2.2.2.2 = [.send 5 1 ⟨⟨"peer", "me"⟩, none⟩ 41]
      ∧ r.2.2.2.2.length
          = (((unsynced_peers unsync_example.kernel_mmap_from_queue).filter
              (known_core unsync_example.kernel_mcu_queue)).dedup).length
      ∧ r.2.1.mmap_check_unsync_timeout = -1 :=
  have h := (check_unsync_requests_once_per_peer active_tunnels example_layout (fun _ => 40) 0
    (fun _ => 301) unsync_example ⟨[]⟩).1 (by decide)
  h.elim fun r hr =>
    ⟨r, hr.1, hr.2.1.trans (by decide),
      (hr.2.2.2.2.2.1 (by intro b hb; cases hb)).1.trans (by decide),
      (hr.2.2.2.2.2.1 (by intro b hb; cases hb)).2 (by decide), hr.2.2.2.2.2.2⟩

end Kernel
